import Mathlib

/-! # Tempo MCP server: request building, response normalisation, text rendering

A shallow embedding of `internal/handlers/tempo.go` (the Grafana Tempo MCP
server of the observability assistant) together with theorems about it.

Conventions of the embedding.

* A Go `string` or `[]byte` is a list of bytes (`Bytes`); the conversions
  `string(b)` and `[]byte(s)` are the identity.  String literals of the source
  are written `utf8 "..."`.
* Go `int` and `int64` values are integers (`Int`); the places where the width
  matters (`strconv.ParseInt`) carry their bounds explicitly.
* A Go `error` is identified with its message (`err.Error()`).
* Writes to the `logger` go to standard error and never influence a result;
  they are left out.
* What the Go standard library or the process environment decides (URL
  parsing and printing, JSON decoding, the HTTP round trip, the local time
  zone) is a parameter of the function that uses it.
-/

namespace Tempo

/-! ## Byte strings and the `strings` package -/

/-- A Go string or byte slice. -/
abbrev Bytes := List UInt8

/-- The bytes of a source-code string literal (its UTF-8 encoding). -/
def utf8 (s : String) : Bytes := s.data.flatMap String.utf8EncodeChar

/-- A Go error value, identified with its message. -/
abbrev GoError := Bytes

/-- Go `strings.HasPrefix`. -/
def stringsHasPrefix (s pre : Bytes) : Bool := pre.isPrefixOf s

/-- Go `strings.HasSuffix`. -/
def stringsHasSuffix (s suf : Bytes) : Bool := suf.isSuffixOf s

/-- Go `strings.Contains`: `sub` occurs in `s` as a contiguous block. -/
def stringsContains : Bytes → Bytes → Bool
  | [], sub => sub.isEmpty
  | c :: rest, sub => sub.isPrefixOf (c :: rest) || stringsContains rest sub

/-- Go `strings.TrimSuffix`. -/
def stringsTrimSuffix (s suf : Bytes) : Bytes :=
  if stringsHasSuffix s suf then s.take (s.length - suf.length) else s

/-- The scan of `strings.Replace(s, old, new, -1)` for a non-empty `old`:
matches are found left to right and do not overlap.  The counter is the number
of bytes of the current match that are still to be dropped. -/
def replaceScan (old new : Bytes) : Nat → Bytes → Bytes
  | _, [] => []
  | skip + 1, _ :: rest => replaceScan old new skip rest
  | 0, c :: rest =>
    if old.isPrefixOf (c :: rest) then new ++ replaceScan old new (old.length - 1) rest
    else c :: replaceScan old new 0 rest

/-- Go `strings.Replace(s, old, new, -1)`, for the non-empty `old` of this
program. -/
def stringsReplaceAll (s old new : Bytes) : Bytes :=
  if old = new then s else replaceScan old new 0 s

/-! ## The response repair pass -/

/-- Source: `cleanTempoResponse`. -/
def cleanTempoResponse (input : Bytes) : Bytes :=
  let responseStr := input
  if stringsHasSuffix responseStr (utf8 "\x7d]") then
    responseStr
  else if stringsHasSuffix responseStr (utf8 "]\x7d") then
    responseStr
  else if stringsContains responseStr (utf8 "\x7d],") && stringsHasSuffix responseStr (utf8 "\x7d") then
    responseStr
  else if stringsContains responseStr (utf8 "\x7d]\"") then
    stringsReplaceAll responseStr (utf8 "\x7d]\"") (utf8 "\x7d]")
  else if stringsContains responseStr (utf8 "\x7d]\x7d\"") then
    stringsReplaceAll responseStr (utf8 "\x7d]\x7d\"") (utf8 "\x7d]\x7d")
  else
    responseStr

/-! ## `fmt`, `strconv` and `time` -/

/-- The decimal digits of a natural number. -/
def natDigits (n : Nat) : Bytes := (Nat.toDigits 10 n).map (fun c => c.toNat.toUInt8)

/-- The verb `%d` of `fmt.Sprintf` on an `int` or `int64`. -/
def fmtInt : Int → Bytes
  | .ofNat n => natDigits n
  | .negSucc n => utf8 "-" ++ natDigits (n + 1)

/-- The digit loop of `strconv.ParseUint(s, 10, 64)`: every byte must be a
decimal digit.  The value is accumulated without a width; the callers check
the range. -/
def parseDigits : Nat → Bytes → Option Nat
  | acc, [] => some acc
  | acc, c :: rest =>
    if 48 ≤ c.toNat ∧ c.toNat ≤ 57 then parseDigits (acc * 10 + (c.toNat - 48)) rest else none

/-- Go `strconv.ParseInt(s, 10, 64)`; `none` stands for a non-nil error (syntax
or range).  An optional sign is followed by at least one decimal digit, and the
value must lie in `[-2^63, 2^63)`. -/
def strconvParseInt (s : Bytes) : Option Int :=
  match s with
  | [] => none
  | c :: rest =>
    let neg := c = 45
    let digits := if c = 43 ∨ c = 45 then rest else s
    if digits = [] then none
    else
      match parseDigits 0 digits with
      | none => none
      | some un =>
        if ¬ neg ∧ un ≥ 2 ^ 63 then none
        else if neg ∧ un > 2 ^ 63 then none
        else some (if neg then -(un : Int) else (un : Int))

/-- The helper `appendInt` of package `time`: a sign for negative numbers, then
the digits padded with zeros to the given width. -/
def appendInt (x : Int) (width : Nat) : Bytes :=
  let digits := natDigits x.natAbs
  (if x < 0 then utf8 "-" else []) ++ List.replicate (width - digits.length) 48 ++ digits

/-- The proleptic Gregorian date (year, month, day) of a day count relative to
1970-01-01. -/
def civilFromDays (days : Int) : Int × Int × Int :=
  let z := days + 719468
  let era := z / 146097
  let doe := z - era * 146097
  let yoe := (doe - doe / 1460 + doe / 36524 - doe / 146096) / 365
  let doy := doe - (365 * yoe + yoe / 4 - yoe / 100)
  let mp := (5 * doy + 2) / 153
  let d := doy - (153 * mp + 2) / 5 + 1
  let m := if mp < 10 then mp + 3 else mp - 9
  (yoe + era * 400 + (if m ≤ 2 then 1 else 0), m, d)

/-- The text of `time.Unix(0, nsec).Format(time.RFC3339)`.  `time.Unix` yields a
time in the local zone, so the text depends on the zone offset (seconds east of
UTC) that the process's zone database gives for the instant: `zoneOffset` maps
a Unix second to that offset. -/
def timeFormatRFC3339 (zoneOffset : Int → Int) (nsec : Int) : Bytes :=
  let sec := nsec / 1000000000
  let offset := zoneOffset sec
  let abs := sec + offset
  let (year, month, day) := civilFromDays (abs / 86400)
  let secOfDay := abs % 86400
  let zone := Int.tdiv offset 60
  appendInt year 4 ++ utf8 "-" ++ appendInt month 2 ++ utf8 "-" ++ appendInt day 2 ++ utf8 "T"
    ++ appendInt (secOfDay / 3600) 2 ++ utf8 ":" ++ appendInt (secOfDay % 3600 / 60) 2
    ++ utf8 ":" ++ appendInt (secOfDay % 60) 2
    ++ (if offset = 0 then utf8 "Z"
        else (if zone < 0 then utf8 "-" else utf8 "+")
          ++ appendInt (zone.natAbs / 60) 2 ++ utf8 ":" ++ appendInt (zone.natAbs % 60) 2)

/-! ## Data model -/

/-- A value decoded by `encoding/json` into an `interface{}`: `nil`, `bool`,
`float64` (a finite binary fraction, held as a rational), `string`,
`[]interface{}` or `map[string]interface{}` (keys distinct). -/
inductive JsonValue where
  | null
  | bool (b : Bool)
  | number (f : ℚ)
  | string (s : Bytes)
  | array (elems : List JsonValue)
  | object (fields : List (Bytes × JsonValue))

/-- Source: `TempoTrace`.  `Attributes` is a Go map: its entries have distinct
keys and are listed in the order in which a `range` over the map visits them in
the run at hand (Go leaves that order unspecified). -/
structure TempoTrace where
  TraceID : Bytes := []
  RootServiceName : Bytes := []
  RootTraceName : Bytes := []
  StartTimeUnixNano : Bytes := []
  DurationMs : Int := 0
  SpanSet : JsonValue := .null
  Attributes : List (Bytes × Bytes) := []

/-- Source: `TempoResult`. -/
structure TempoResult where
  Traces : List TempoTrace := []
  Metrics : JsonValue := .null
  ErrorStatus : Bytes := []

/-- Source: `TempoStatus`. -/
structure TempoStatus where
  Code : Bytes := []
  Message : Bytes := []

mutual
/-- Source: `TempoValue`; `IntValue` is an `interface{}` (a JSON string or
number, `nil` when absent). -/
inductive TempoValue where
  | mk (StringValue : Bytes) (IntValue : JsonValue) (ArrayValue : TempoArrayValue)
/-- Source: `TempoArrayValue`. -/
inductive TempoArrayValue where
  | mk (Values : List TempoValue)
end

/-- Field `StringValue` of a `TempoValue`. -/
def TempoValue.StringValue : TempoValue → Bytes
  | .mk s _ _ => s

/-- Field `IntValue` of a `TempoValue`. -/
def TempoValue.IntValue : TempoValue → JsonValue
  | .mk _ i _ => i

/-- Field `ArrayValue` of a `TempoValue`. -/
def TempoValue.ArrayValue : TempoValue → TempoArrayValue
  | .mk _ _ a => a

/-- Field `Values` of a `TempoArrayValue`. -/
def TempoArrayValue.Values : TempoArrayValue → List TempoValue
  | .mk vs => vs

/-- Source: `TempoAttribute`. -/
structure TempoAttribute where
  Key : Bytes := []
  Value : TempoValue := .mk [] .null (.mk [])

/-- Source: `TempoEvent`. -/
structure TempoEvent where
  TimeUnixNano : Bytes := []
  Name : Bytes := []
  Attributes : List TempoAttribute := []

/-- Source: `TempoSpan`. -/
structure TempoSpan where
  TraceID : Bytes := []
  SpanID : Bytes := []
  ParentSpanID : Bytes := []
  Name : Bytes := []
  Kind : Bytes := []
  StartTimeUnixNano : Bytes := []
  EndTimeUnixNano : Bytes := []
  Attributes : List TempoAttribute := []
  Events : List TempoEvent := []
  Status : TempoStatus := {}

/-- Source: `TempoScope`. -/
structure TempoScope where
  Name : Bytes := []
  Version : Bytes := []

/-- Source: `TempoScopeSpan`. -/
structure TempoScopeSpan where
  Scope : TempoScope := {}
  Spans : List TempoSpan := []

/-- Source: `TempoResource`. -/
structure TempoResource where
  Attributes : List TempoAttribute := []

/-- Source: `TempoBatch`. -/
structure TempoBatch where
  Resource : TempoResource := {}
  ScopeSpans : List TempoScopeSpan := []

/-- Source: `TempoTraceResponse`. -/
structure TempoTraceResponse where
  Batches : List TempoBatch := []

/-- Source: `TempoTagsResult`. -/
structure TempoTagsResult where
  TagNames : List Bytes := []
  Metrics : JsonValue := .null
  ErrorStatus : Bytes := []

/-- Source: `TempoTagValuesResult`. -/
structure TempoTagValuesResult where
  TagValues : List Bytes := []
  Metrics : JsonValue := .null
  ErrorStatus : Bytes := []

/-! ## Rendering a trace-search result -/

/-- Source: `formatTempoResults`.  The `strings.Builder` is the byte string
`output`; each `WriteString` appends to it. -/
def formatTempoResults (zoneOffset : Int → Int) (result : TempoResult) : Except GoError Bytes :=
  if result.Traces.length = 0 then
    .ok (utf8 "No traces found matching the search criteria")
  else
    let output : Bytes := []
    let output := output ++ (utf8 "Found " ++ fmtInt result.Traces.length ++ utf8 " traces:\n\n")
    let output := result.Traces.enum.foldl (fun output (it : Nat × TempoTrace) =>
      let i := it.1
      let trace := it.2
      let output := output ++ (utf8 "Trace " ++ fmtInt (i + 1) ++ utf8 ":\n")
      let output := output ++ (utf8 "  TraceID: " ++ trace.TraceID ++ utf8 "\n")
      let output := output ++ (utf8 "  Service: " ++ trace.RootServiceName ++ utf8 "\n")
      let output := output ++ (utf8 "  Name: " ++ trace.RootTraceName ++ utf8 "\n")
      let output :=
        if trace.StartTimeUnixNano ≠ [] then
          match strconvParseInt trace.StartTimeUnixNano with
          | some ts => output ++ (utf8 "  Start Time: " ++ timeFormatRFC3339 zoneOffset ts ++ utf8 "\n")
          | none => output
        else output
      let output := output ++ (utf8 "  Duration: " ++ fmtInt trace.DurationMs ++ utf8 " ms\n")
      let output :=
        if trace.Attributes.length > 0 then
          let output := output ++ utf8 "  Attributes:\n"
          trace.Attributes.foldl (fun output (kv : Bytes × Bytes) =>
            output ++ (utf8 "    " ++ kv.1 ++ utf8 ": " ++ kv.2 ++ utf8 "\n")) output
        else output
      output ++ utf8 "\n") output
    let formattedOutput := stringsTrimSuffix output (utf8 "\n")
    .ok formattedOutput

/-! ### The rendering as the specification words it -/

/-- The attributes block of a trace: nothing when the trace has no attributes,
otherwise the line `  Attributes:` and one line `    key: value` per entry. -/
def attributesBlock (attrs : List (Bytes × Bytes)) : Bytes :=
  match attrs with
  | [] => []
  | _ :: _ =>
    utf8 "  Attributes:\n"
      ++ (attrs.map (fun kv => utf8 "    " ++ kv.1 ++ utf8 ": " ++ kv.2 ++ utf8 "\n")).flatten

/-- The start-time line of a trace: present exactly when the stored start time
parses as a base-10 signed 64-bit integer. -/
def startTimeLine (zoneOffset : Int → Int) (startTimeUnixNano : Bytes) : Bytes :=
  match strconvParseInt startTimeUnixNano with
  | some ts => utf8 "  Start Time: " ++ timeFormatRFC3339 zoneOffset ts ++ utf8 "\n"
  | none => []

/-- The block of the trace with 1-based number `n`. -/
def traceBlock (zoneOffset : Int → Int) (n : Nat) (trace : TempoTrace) : Bytes :=
  utf8 "Trace " ++ fmtInt n ++ utf8 ":\n"
    ++ utf8 "  TraceID: " ++ trace.TraceID ++ utf8 "\n"
    ++ utf8 "  Service: " ++ trace.RootServiceName ++ utf8 "\n"
    ++ utf8 "  Name: " ++ trace.RootTraceName ++ utf8 "\n"
    ++ startTimeLine zoneOffset trace.StartTimeUnixNano
    ++ utf8 "  Duration: " ++ fmtInt trace.DurationMs ++ utf8 " ms\n"
    ++ attributesBlock trace.Attributes

/-- The text of a non-empty trace list: the header, a blank line, and the
blocks of the traces in input order, separated by blank lines. -/
def traceListText (zoneOffset : Int → Int) (traces : List TempoTrace) : Bytes :=
  utf8 "Found " ++ fmtInt traces.length ++ utf8 " traces:\n\n"
    ++ (utf8 "\n").intercalate (traces.enum.map (fun it => traceBlock zoneOffset (it.1 + 1) it.2))

/-- The record of the specification's end-to-end example. -/
def exampleResult : TempoResult :=
  { Traces := [{ TraceID := utf8 "abc123", RootServiceName := utf8 "svc",
                 RootTraceName := utf8 "op", StartTimeUnixNano := utf8 "1700000000000000000",
                 DurationMs := 42 }] }


/-! ## The standard library as seen by the program -/

/-- Go `url.Userinfo`. -/
structure Userinfo where
  username : Bytes := []
  password : Bytes := []
  passwordSet : Bool := false

/-- Go `url.URL`. -/
structure URL where
  Scheme : Bytes := []
  Opaque : Bytes := []
  User : Option Userinfo := none
  Host : Bytes := []
  Path : Bytes := []
  RawPath : Bytes := []
  OmitHost : Bool := false
  ForceQuery : Bool := false
  RawQuery : Bytes := []
  Fragment : Bytes := []
  RawFragment : Bytes := []

/-- The two functions of package `net/url` whose text format the program
relies on without inspecting it: `url.Parse` and `(*URL).String`. -/
structure URLLib where
  urlParse : Bytes → Except GoError URL
  urlString : URL → Bytes

/-- The calls of `json.Unmarshal` made by the program, one per target type:
into a `TempoResult`, into a `map[string]interface{}` (a JSON `null` leaves the
map empty), into a `TempoTraceResponse`, a `TempoTagsResult` and a
`TempoTagValuesResult`. -/
structure JSONLib where
  unmarshalTempoResult : Bytes → Except GoError TempoResult
  unmarshalObject : Bytes → Except GoError (List (Bytes × JsonValue))
  unmarshalTraceResponse : Bytes → Except GoError TempoTraceResponse
  unmarshalTagsResult : Bytes → Except GoError TempoTagsResult
  unmarshalTagValuesResult : Bytes → Except GoError TempoTagValuesResult

/-- Go `http.Header`: canonical header names with their values. -/
abbrev Header := List (Bytes × List Bytes)

/-- Go `Header.Add` for a key in canonical form. -/
def headerAdd : Header → Bytes → Bytes → Header
  | [], key, value => [(key, [value])]
  | (k, vs) :: rest, key, value =>
    if k = key then (k, vs ++ [value]) :: rest else (k, vs) :: headerAdd rest key value

/-- Go `Header.Set` for a key in canonical form. -/
def headerSet : Header → Bytes → Bytes → Header
  | [], key, value => [(key, [value])]
  | (k, vs) :: rest, key, value =>
    if k = key then (k, [value]) :: rest else (k, vs) :: headerSet rest key value

/-- Go `http.Request`, as far as the program fills it. -/
structure Request where
  Method : Bytes
  URL : URL
  Header : Header := []

/-- Go `http.Response`: the status code and what `io.ReadAll(resp.Body)`
yields. -/
structure Response where
  StatusCode : Int
  Body : Except GoError Bytes

/-- The network as the program meets it: what `client.Do` answers to a request
(a transport failure, a time-out and a cancelled context are errors), and the
requests handed to the client so far. -/
structure Net where
  roundTrip : Request → Except GoError Response
  sent : List Request := []

/-- Go `http.NewRequestWithContext(ctx, method, url, nil)` for a valid method:
it fails when the URL does not parse, and drops an empty port from the host. -/
def httpNewRequest (lib : URLLib) (method url : Bytes) : Except GoError Request :=
  match lib.urlParse url with
  | .error err => .error err
  | .ok u =>
    let host := stringsTrimSuffix u.Host (utf8 ":")
    .ok { Method := method, URL := { u with Host := host } }

/-- Go `client.Do(req)`. -/
def clientDo (net : Net) (req : Request) : Except GoError Response × Net :=
  (net.roundTrip req, { net with sent := net.sent ++ [req] })

/-- The alphabet of `base64.StdEncoding`. -/
def base64Alphabet : Bytes :=
  utf8 "ABCDEFGHIJKLMNOPQRSTUVWXYZabcdefghijklmnopqrstuvwxyz0123456789+/"

/-- The base64 digit of a 6-bit value. -/
def base64Digit (n : Nat) : UInt8 := base64Alphabet.getD (n % 64) 0

/-- Go `base64.StdEncoding.EncodeToString`. -/
def base64StdEncode : Bytes → Bytes
  | [] => []
  | [a] =>
    let v := a.toNat * 65536
    [base64Digit (v / 262144), base64Digit (v / 4096), 61, 61]
  | [a, b] =>
    let v := a.toNat * 65536 + b.toNat * 256
    [base64Digit (v / 262144), base64Digit (v / 4096), base64Digit (v / 64), 61]
  | a :: b :: c :: rest =>
    let v := a.toNat * 65536 + b.toNat * 256 + c.toNat
    [base64Digit (v / 262144), base64Digit (v / 4096), base64Digit (v / 64), base64Digit v]
      ++ base64StdEncode rest

/-- Go `(*Request).SetBasicAuth`. -/
def Request.SetBasicAuth (req : Request) (username password : Bytes) : Request :=
  let credentials := utf8 "Basic " ++ base64StdEncode (username ++ utf8 ":" ++ password)
  { req with Header := headerSet req.Header (utf8 "Authorization") credentials }

/-- The type assertion `v.(string)` on an `interface{}`. -/
def JsonValue.asString : JsonValue → Option Bytes
  | .string s => some s
  | _ => none

/-- The type assertion `v.(float64)` on an `interface{}`. -/
def JsonValue.asFloat64 : JsonValue → Option ℚ
  | .number f => some f
  | _ => none

/-- The type assertion `v.([]interface{})` on an `interface{}`. -/
def JsonValue.asArray : JsonValue → Option (List JsonValue)
  | .array a => some a
  | _ => none

/-- The type assertion `v.(map[string]interface{})` on an `interface{}`. -/
def JsonValue.asObject : JsonValue → Option (List (Bytes × JsonValue))
  | .object m => some m
  | _ => none

/-- A map index `m[key]` on a decoded JSON object: `nil` for a missing key. -/
def mapIndex (m : List (Bytes × JsonValue)) (key : Bytes) : JsonValue :=
  (m.lookup key).getD .null

/-- Go conversion `int64(f)` of a `float64`: the fraction is discarded.  For a
value outside the `int64` range Go leaves the result to the implementation; the
value produced on amd64 is used. -/
def float64ToInt64 (f : ℚ) : Int :=
  let t := Int.tdiv f.num f.den
  if -(2 ^ 63) ≤ t ∧ t < 2 ^ 63 then t else -(2 ^ 63)


/-! ## The backend client and the response normaliser -/

/-- Source: the body of the loop in the fallback block of
`executeTempoSearch` ("extract fields safely"): the trace built from one entry
of the `traces` array that is a JSON object. -/
def convertTraceMap (traceMap : List (Bytes × JsonValue)) : TempoTrace :=
  let trace : TempoTrace := {}
  let trace :=
    match (mapIndex traceMap (utf8 "traceID")).asString with
    | some id => { trace with TraceID := id }
    | none => trace
  let trace :=
    match (mapIndex traceMap (utf8 "rootServiceName")).asString with
    | some svc => { trace with RootServiceName := svc }
    | none => trace
  let trace :=
    match (mapIndex traceMap (utf8 "rootTraceName")).asString with
    | some name => { trace with RootTraceName := name }
    | none => trace
  let trace :=
    match (mapIndex traceMap (utf8 "startTimeUnixNano")).asString with
    | some start => { trace with StartTimeUnixNano := start }
    | none => trace
  let trace :=
    match (mapIndex traceMap (utf8 "durationMs")).asFloat64 with
    | some dur => { trace with DurationMs := float64ToInt64 dur }
    | none => trace
  trace

/-- Source: the fallback block of `executeTempoSearch`, which converts the
generic decoding `genericResult` of the body into a `TempoResult`. -/
def convertGenericResult (genericResult : List (Bytes × JsonValue)) : TempoResult :=
  let convertedResult : TempoResult := {}
  let convertedResult :=
    match genericResult.lookup (utf8 "traces") with
    | some tracesRaw =>
      match tracesRaw.asArray with
      | some tracesArr =>
        tracesArr.foldl (fun (convertedResult : TempoResult) traceRaw =>
          match traceRaw.asObject with
          | some traceMap =>
            let trace := convertTraceMap traceMap
            { convertedResult with Traces := convertedResult.Traces ++ [trace] }
          | none => convertedResult) convertedResult
      | none => convertedResult
    | none => convertedResult
  match (mapIndex genericResult (utf8 "error")).asString with
  | some errStatus => { convertedResult with ErrorStatus := errStatus }
  | none => convertedResult

/-- Source: `executeTempoSearch`.  The result comes with the state of the
network after the call. -/
def executeTempoSearch (lib : URLLib) (json : JSONLib) (net : Net)
    (searchURL username password token : Bytes) : Except GoError TempoResult × Net :=
  match httpNewRequest lib (utf8 "GET") searchURL with
  | .error err => (.error err, net)
  | .ok req =>
    let req :=
      if token ≠ [] then
        { req with Header := headerAdd req.Header (utf8 "Authorization") (utf8 "Bearer " ++ token) }
      else if username ≠ [] ∨ password ≠ [] then
        req.SetBasicAuth username password
      else req
    let (resp, net) := clientDo net req
    match resp with
    | .error err => (.error err, net)
    | .ok resp =>
      match resp.Body with
      | .error err => (.error err, net)
      | .ok body =>
        if resp.StatusCode ≠ 200 then
          (.error (utf8 "HTTP error: " ++ fmtInt resp.StatusCode ++ utf8 " - " ++ body), net)
        else
          let cleanedBody := cleanTempoResponse body
          let parsed : Except GoError TempoResult :=
            match json.unmarshalTempoResult cleanedBody with
            | .ok result => .ok result
            | .error err =>
              match json.unmarshalObject cleanedBody with
              | .error _ => .error err
              | .ok genericResult => .ok (convertGenericResult genericResult)
          match parsed with
          | .error err => (.error err, net)
          | .ok result =>
            if result.ErrorStatus ≠ [] then
              (.error (utf8 "Tempo error: " ++ result.ErrorStatus), net)
            else (.ok result, net)

/-- Source: `executeTempoTraceQuery`. -/
def executeTempoTraceQuery (lib : URLLib) (json : JSONLib) (net : Net)
    (traceURL username password token : Bytes) : Except GoError TempoTraceResponse × Net :=
  match httpNewRequest lib (utf8 "GET") traceURL with
  | .error err => (.error err, net)
  | .ok req =>
    let req :=
      if token ≠ [] then
        { req with Header := headerAdd req.Header (utf8 "Authorization") (utf8 "Bearer " ++ token) }
      else if username ≠ [] ∨ password ≠ [] then
        req.SetBasicAuth username password
      else req
    let (resp, net) := clientDo net req
    match resp with
    | .error err => (.error err, net)
    | .ok resp =>
      match resp.Body with
      | .error err => (.error err, net)
      | .ok body =>
        if resp.StatusCode ≠ 200 then
          (.error (utf8 "HTTP error: " ++ fmtInt resp.StatusCode ++ utf8 " - " ++ body), net)
        else
          match json.unmarshalTraceResponse body with
          | .error err => (.error err, net)
          | .ok result => (.ok result, net)

/-- Source: `executeTempoTagsQuery`. -/
def executeTempoTagsQuery (lib : URLLib) (json : JSONLib) (net : Net)
    (tagsURL username password token : Bytes) : Except GoError TempoTagsResult × Net :=
  match httpNewRequest lib (utf8 "GET") tagsURL with
  | .error err => (.error err, net)
  | .ok req =>
    let req :=
      if token ≠ [] then
        { req with Header := headerAdd req.Header (utf8 "Authorization") (utf8 "Bearer " ++ token) }
      else if username ≠ [] ∨ password ≠ [] then
        req.SetBasicAuth username password
      else req
    let (resp, net) := clientDo net req
    match resp with
    | .error err => (.error err, net)
    | .ok resp =>
      match resp.Body with
      | .error err => (.error err, net)
      | .ok body =>
        if resp.StatusCode ≠ 200 then
          (.error (utf8 "HTTP error: " ++ fmtInt resp.StatusCode ++ utf8 " - " ++ body), net)
        else
          match json.unmarshalTagsResult body with
          | .error err => (.error err, net)
          | .ok result =>
            if result.ErrorStatus ≠ [] then
              (.error (utf8 "Tempo error: " ++ result.ErrorStatus), net)
            else (.ok result, net)

/-- Source: `executeTempoTagValuesQuery`. -/
def executeTempoTagValuesQuery (lib : URLLib) (json : JSONLib) (net : Net)
    (tagValuesURL username password token : Bytes) : Except GoError TempoTagValuesResult × Net :=
  match httpNewRequest lib (utf8 "GET") tagValuesURL with
  | .error err => (.error err, net)
  | .ok req =>
    let req :=
      if token ≠ [] then
        { req with Header := headerAdd req.Header (utf8 "Authorization") (utf8 "Bearer " ++ token) }
      else if username ≠ [] ∨ password ≠ [] then
        req.SetBasicAuth username password
      else req
    let (resp, net) := clientDo net req
    match resp with
    | .error err => (.error err, net)
    | .ok resp =>
      match resp.Body with
      | .error err => (.error err, net)
      | .ok body =>
        if resp.StatusCode ≠ 200 then
          (.error (utf8 "HTTP error: " ++ fmtInt resp.StatusCode ++ utf8 " - " ++ body), net)
        else
          match json.unmarshalTagValuesResult body with
          | .error err => (.error err, net)
          | .ok result =>
            if result.ErrorStatus ≠ [] then
              (.error (utf8 "Tempo error: " ++ result.ErrorStatus), net)
            else (.ok result, net)

/-! ### The client and the normaliser as the specification words them -/

/-- The authentication the specification selects from (token, username,
password): a bearer token when there is one, else basic credentials when a user
name or a password is set, else nothing. -/
def selectedAuthorization (username password token : Bytes) : Header :=
  if token ≠ [] then
    [(utf8 "Authorization", [utf8 "Bearer " ++ token])]
  else if username ≠ [] ∨ password ≠ [] then
    [(utf8 "Authorization", [utf8 "Basic " ++ base64StdEncode (username ++ utf8 ":" ++ password)])]
  else []

/-- The request a backend call is expected to issue for a parsed URL. -/
def expectedRequest (u : URL) (username password token : Bytes) : Request :=
  let host := stringsTrimSuffix u.Host (utf8 ":")
  { Method := utf8 "GET", URL := { u with Host := host },
    Header := selectedAuthorization username password token }

/-- The projection of one entry of the `traces` array in the fallback path:
nothing for an entry that is not a JSON object, else a trace summary with the
string fields that are JSON strings and the duration when it is a JSON
number. -/
def projectTrace : JsonValue → Option TempoTrace
  | .object fields =>
    some
      { TraceID := match fields.lookup (utf8 "traceID") with
          | some (.string s) => s
          | _ => []
        RootServiceName := match fields.lookup (utf8 "rootServiceName") with
          | some (.string s) => s
          | _ => []
        RootTraceName := match fields.lookup (utf8 "rootTraceName") with
          | some (.string s) => s
          | _ => []
        StartTimeUnixNano := match fields.lookup (utf8 "startTimeUnixNano") with
          | some (.string s) => s
          | _ => []
        DurationMs := match fields.lookup (utf8 "durationMs") with
          | some (.number f) => float64ToInt64 f
          | _ => 0 }
  | _ => none

/-- The top-level error field of a generic result: its value when it is a JSON
string, empty otherwise. -/
def errorField (genericResult : List (Bytes × JsonValue)) : Bytes :=
  match genericResult.lookup (utf8 "error") with
  | some (.string s) => s
  | _ => []


/-! ## Query strings: `url.Values` -/

/-- The order of Go strings (`<`): bytewise lexicographic. -/
def bytesLt : Bytes → Bytes → Bool
  | [], [] => false
  | [], _ :: _ => true
  | _ :: _, [] => false
  | a :: as, b :: bs => decide (a.toNat < b.toNat) || (decide (a = b) && bytesLt as bs)

/-- Go `url.Values`, a map from keys to lists of values.  The map is held as
the list of its entries by increasing key, which is the order in which `Encode`
visits them. -/
abbrev Values := List (Bytes × List Bytes)

/-- The map update `v[key] = f(v[key])`, where `f` sees `none` for a key that is
not in the map. -/
def valuesUpdate (key : Bytes) (f : Option (List Bytes) → List Bytes) : Values → Values
  | [] => [(key, f none)]
  | (k, vs) :: rest =>
    if key = k then (k, f (some vs)) :: rest
    else if bytesLt key k then (key, f none) :: (k, vs) :: rest
    else (k, vs) :: valuesUpdate key f rest

/-- Go `Values.Set`. -/
def Values.Set (v : Values) (key value : Bytes) : Values :=
  valuesUpdate key (fun _ => [value]) v

/-- The statement `m[key] = append(m[key], value)` of `url.ParseQuery`. -/
def Values.Add (v : Values) (key value : Bytes) : Values :=
  valuesUpdate key (fun old => old.getD [] ++ [value]) v

/-- Go `Values.Has`: the map has an entry for the key. -/
def Values.Has (v : Values) (key : Bytes) : Bool :=
  v.any (fun kv => decide (kv.1 = key))

/-- Go `Values.Get`-style lookup of the value list of a key. -/
def Values.Lookup (v : Values) (key : Bytes) : Option (List Bytes) :=
  (v.find? (fun kv => decide (kv.1 = key))).map (fun kv => kv.2)

/-- The negation of `shouldEscape(c, encodeQueryComponent)` of `net/url`:
letters, digits and `-`, `_`, `.`, `~` are left as they are. -/
def queryUnreserved (c : UInt8) : Bool :=
  let n := c.toNat
  decide ((97 ≤ n ∧ n ≤ 122) ∨ (65 ≤ n ∧ n ≤ 90) ∨ (48 ≤ n ∧ n ≤ 57)
    ∨ n = 45 ∨ n = 95 ∨ n = 46 ∨ n = 126)

/-- The table `upperhex` of `net/url`. -/
def upperhex (n : Nat) : UInt8 :=
  if n < 10 then UInt8.ofNat (48 + n) else UInt8.ofNat (55 + n)

/-- Go `url.QueryEscape`. -/
def queryEscape : Bytes → Bytes
  | [] => []
  | c :: rest =>
    if c = 32 then 43 :: queryEscape rest
    else if queryUnreserved c then c :: queryEscape rest
    else 37 :: upperhex (c.toNat / 16) :: upperhex (c.toNat % 16) :: queryEscape rest

/-- The function `ishex` of `net/url`. -/
def ishex (c : UInt8) : Bool :=
  let n := c.toNat
  decide ((48 ≤ n ∧ n ≤ 57) ∨ (97 ≤ n ∧ n ≤ 102) ∨ (65 ≤ n ∧ n ≤ 70))

/-- The function `unhex` of `net/url`. -/
def unhex (c : UInt8) : Nat :=
  let n := c.toNat
  if 48 ≤ n ∧ n ≤ 57 then n - 48
  else if 97 ≤ n ∧ n ≤ 102 then n - 97 + 10
  else if 65 ≤ n ∧ n ≤ 70 then n - 65 + 10
  else 0

/-- Go `url.QueryUnescape`; `none` stands for an error (a `%` that is not
followed by two hexadecimal digits). -/
def queryUnescape : Bytes → Option Bytes
  | [] => some []
  | c :: rest =>
    if c = 37 then
      match rest with
      | a :: b :: rest' =>
        if ishex a && ishex b then
          (queryUnescape rest').map (fun t => UInt8.ofNat (unhex a * 16 + unhex b) :: t)
        else none
      | _ => none
    else if c = 43 then (queryUnescape rest).map (fun t => 32 :: t)
    else (queryUnescape rest).map (fun t => c :: t)

/-- Go `strings.Cut(s, sep)` for a one-byte separator: the text before and
after the first separator (all of `s` and nothing when there is none). -/
def stringsCut (sep : UInt8) : Bytes → Bytes × Bytes
  | [] => ([], [])
  | c :: rest =>
    if c = sep then ([], rest)
    else ((c :: (stringsCut sep rest).1), (stringsCut sep rest).2)

/-- One round of the loop of `url.ParseQuery` on the piece `key` cut off at
`&`: a piece with a semicolon, an empty piece, and a piece whose key or value
does not unescape are skipped. -/
def parseQueryPiece (m : Values) (key : Bytes) : Values :=
  if stringsContains key (utf8 ";") then m
  else if key = [] then m
  else
    let value := (stringsCut 61 key).2
    let key := (stringsCut 61 key).1
    match queryUnescape key with
    | none => m
    | some key =>
      match queryUnescape value with
      | none => m
      | some value => m.Add key value

/-- The map built by Go `url.ParseQuery` (its error is dropped by
`(*URL).Query`): the pieces between `&` are handled from left to right. -/
def parseQuery (query : Bytes) : Values :=
  (query.splitOn 38).foldl parseQueryPiece []

/-- Go `(*URL).Query`. -/
def URL.Query (u : URL) : Values := parseQuery u.RawQuery

/-- Go `Values.Encode`: `key=value` pairs, escaped, joined by `&`, keys in
increasing order. -/
def Values.Encode (v : Values) : Bytes :=
  (utf8 "&").intercalate
    (v.flatMap (fun kv => kv.2.map (fun value => queryEscape kv.1 ++ utf8 "=" ++ queryEscape value)))

/-- The key/value pairs of a map, in the order in which `Encode` writes
them. -/
def Values.pairs (v : Values) : List (Bytes × Bytes) :=
  v.flatMap (fun kv => kv.2.map (fun value => (kv.1, value)))

/-- The representation invariant of `Values`: keys strictly increasing, and no
key with an empty list of values (neither `ParseQuery` nor `Set` makes
one). -/
def Values.Canonical (v : Values) : Prop :=
  v.Pairwise (fun a b => bytesLt a.1 b.1 = true) ∧ ∀ kv ∈ v, kv.2 ≠ []

/-- The conditional `q.Set(key, value)` of the builders: the value of an
optional parameter is set when the parameter is present. -/
def setOptional (q : Values) (key : Bytes) (value : Option Bytes) : Values :=
  match value with
  | some x => q.Set key x
  | none => q

/-- A sequence of conditional `Set` calls, applied from left to right. -/
def applySets (q : Values) (ops : List (Bytes × Option Bytes)) : Values :=
  ops.foldl (fun q op => setOptional q op.1 op.2) q

/-- The `Set` calls of `buildTempoSearchURL`. -/
def searchSets (query : Bytes) (start end_ limit : Int) : List (Bytes × Option Bytes) :=
  [(utf8 "q", some query), (utf8 "start", some (fmtInt start)), (utf8 "end", some (fmtInt end_)),
   (utf8 "limit", some (fmtInt limit))]

/-- The `Set` calls of `buildTempoTagsURL`. -/
def tagsSets (scope : Bytes) (start end_ limit maxStaleValues : Option Int) :
    List (Bytes × Option Bytes) :=
  [(utf8 "scope", if scope ≠ [] then some scope else none), (utf8 "start", start.map fmtInt),
   (utf8 "end", end_.map fmtInt), (utf8 "limit", limit.map fmtInt),
   (utf8 "maxStaleValues", maxStaleValues.map fmtInt)]

/-! ## The URL builders -/

/-- Source: `buildTempoSearchURL`, between `url.Parse` and `u.String()`: the
changes made to the parsed base URL. -/
def tempoSearchURL (u : URL) (query : Bytes) (start end_ limit : Int) : URL :=
  let u :=
    if ¬ stringsContains u.Path (utf8 "/api/search") then
      if u.Path = [] ∨ u.Path = utf8 "/" then { u with Path := utf8 "/api/search" }
      else { u with Path := u.Path ++ utf8 "/api/search" }
    else u
  let q := u.Query
  let q := q.Set (utf8 "q") query
  let q := q.Set (utf8 "start") (fmtInt start)
  let q := q.Set (utf8 "end") (fmtInt end_)
  let q := q.Set (utf8 "limit") (fmtInt limit)
  { u with RawQuery := q.Encode }

/-- Source: `buildTempoSearchURL`. -/
def buildTempoSearchURL (lib : URLLib) (baseURL query : Bytes) (start end_ limit : Int) :
    Except GoError Bytes :=
  match lib.urlParse baseURL with
  | .error err => .error err
  | .ok u => .ok (lib.urlString (tempoSearchURL u query start end_ limit))

/-- Source: `buildTempoTraceURL`, between `url.Parse` and `u.String()`. -/
def tempoTraceURL (u : URL) (traceID : Bytes) (start end_ : Option Int) : URL :=
  let u := { u with Path := utf8 "/api/traces/" ++ traceID }
  let q := u.Query
  let q := match start with
    | some start => q.Set (utf8 "start") (fmtInt start)
    | none => q
  let q := match end_ with
    | some end_ => q.Set (utf8 "end") (fmtInt end_)
    | none => q
  { u with RawQuery := q.Encode }

/-- Source: `buildTempoTraceURL`. -/
def buildTempoTraceURL (lib : URLLib) (baseURL traceID : Bytes) (start end_ : Option Int) :
    Except GoError Bytes :=
  match lib.urlParse baseURL with
  | .error err => .error err
  | .ok u => .ok (lib.urlString (tempoTraceURL u traceID start end_))

/-- Source: `buildTempoTagsURL`, between `url.Parse` and `u.String()`. -/
def tempoTagsURL (u : URL) (scope : Bytes) (start end_ limit maxStaleValues : Option Int) : URL :=
  let u :=
    if ¬ stringsContains u.Path (utf8 "/api/search/tags") then
      if u.Path = [] ∨ u.Path = utf8 "/" then { u with Path := utf8 "/api/search/tags" }
      else { u with Path := u.Path ++ utf8 "/api/search/tags" }
    else u
  let q := u.Query
  let q := if scope ≠ [] then q.Set (utf8 "scope") scope else q
  let q := match start with
    | some start => q.Set (utf8 "start") (fmtInt start)
    | none => q
  let q := match end_ with
    | some end_ => q.Set (utf8 "end") (fmtInt end_)
    | none => q
  let q := match limit with
    | some limit => q.Set (utf8 "limit") (fmtInt limit)
    | none => q
  let q := match maxStaleValues with
    | some maxStaleValues => q.Set (utf8 "maxStaleValues") (fmtInt maxStaleValues)
    | none => q
  { u with RawQuery := q.Encode }

/-- Source: `buildTempoTagsURL`. -/
def buildTempoTagsURL (lib : URLLib) (baseURL scope : Bytes)
    (start end_ limit maxStaleValues : Option Int) : Except GoError Bytes :=
  match lib.urlParse baseURL with
  | .error err => .error err
  | .ok u => .ok (lib.urlString (tempoTagsURL u scope start end_ limit maxStaleValues))

/-- Source: `buildTempoTagValuesURL`, between `url.Parse` and `u.String()`. -/
def tempoTagValuesURL (u : URL) (tagName : Bytes) (start end_ limit maxStaleValues : Option Int) :
    URL :=
  let u := { u with Path := utf8 "/api/search/tag/" ++ tagName ++ utf8 "/values" }
  let q := u.Query
  let q := match start with
    | some start => q.Set (utf8 "start") (fmtInt start)
    | none => q
  let q := match end_ with
    | some end_ => q.Set (utf8 "end") (fmtInt end_)
    | none => q
  let q := match limit with
    | some limit => q.Set (utf8 "limit") (fmtInt limit)
    | none => q
  let q := match maxStaleValues with
    | some maxStaleValues => q.Set (utf8 "maxStaleValues") (fmtInt maxStaleValues)
    | none => q
  { u with RawQuery := q.Encode }

/-- Source: `buildTempoTagValuesURL`. -/
def buildTempoTagValuesURL (lib : URLLib) (baseURL tagName : Bytes)
    (start end_ limit maxStaleValues : Option Int) : Except GoError Bytes :=
  match lib.urlParse baseURL with
  | .error err => .error err
  | .ok u => .ok (lib.urlString (tempoTagValuesURL u tagName start end_ limit maxStaleValues))


/-! ## Instances for the examples -/

/-- Letters, digits, `.` and `-`: the bytes of a plain host name. -/
def plainHostByte (c : UInt8) : Bool :=
  let n := c.toNat
  decide ((97 ≤ n ∧ n ≤ 122) ∨ (65 ≤ n ∧ n ≤ 90) ∨ (48 ≤ n ∧ n ≤ 57) ∨ n = 45 ∨ n = 46)

/-- A decimal digit. -/
def digitByte (c : UInt8) : Bool := decide (48 ≤ c.toNat ∧ c.toNat ≤ 57)

/-- A lower-case letter. -/
def lowerByte (c : UInt8) : Bool := decide (97 ≤ c.toNat ∧ c.toNat ≤ 122)

/-- A printable ASCII byte other than space, `#` and `?`. -/
def plainQueryByte (c : UInt8) : Bool :=
  decide (33 ≤ c.toNat ∧ c.toNat ≤ 126 ∧ c.toNat ≠ 35)

/-- Go `url.Parse` restricted to plain absolute URLs
`scheme://host[:port][/path][?query]`: a lower-case scheme, a host name of
letters, digits, `.` and `-`, an optional decimal port, a path of unreserved
bytes and `/`, and a non-empty query of printable bytes without `#`.  On these
`net/url` fills `Scheme`, `Host`, `Path` and `RawQuery` as below and leaves the
other fields empty; every other input is reported as unsupported. -/
def plainURLParse (raw : Bytes) : Except GoError URL :=
  let scheme := (stringsCut 58 raw).1
  let rest := (stringsCut 58 raw).2
  let beforeQuery := (stringsCut 63 (rest.drop 2)).1
  let query := (stringsCut 63 (rest.drop 2)).2
  let authority := (stringsCut 47 beforeQuery).1
  let path := beforeQuery.drop authority.length
  let host := (stringsCut 58 authority).1
  let port := (stringsCut 58 authority).2
  if scheme ≠ [] ∧ scheme.all lowerByte ∧ stringsHasPrefix rest (utf8 "//")
      ∧ host ≠ [] ∧ host.all plainHostByte ∧ port.all digitByte
      ∧ (authority = host ∨ port ≠ [])
      ∧ path.all (fun c => queryUnreserved c || decide (c = 47))
      ∧ query.all plainQueryByte ∧ (stringsContains rest (utf8 "?") → query ≠ []) then
    .ok { Scheme := scheme, Host := authority, Path := path, RawQuery := query }
  else .error (utf8 "unsupported URL form")

/-- Go `(*URL).String` on URL values of the form produced by `plainURLParse`. -/
def plainURLString (u : URL) : Bytes :=
  u.Scheme ++ utf8 "://" ++ u.Host ++ u.Path ++ (if u.RawQuery = [] then [] else utf8 "?" ++ u.RawQuery)

/-- The URL library on plain absolute URLs, for the examples. -/
def plainURLLib : URLLib := { urlParse := plainURLParse, urlString := plainURLString }

/-- The URL value of `http://localhost:3200/tempo?org=1`. -/
def prefixedBase : URL :=
  { Scheme := utf8 "http", Host := utf8 "localhost:3200", Path := utf8 "/tempo",
    RawQuery := utf8 "org=1" }

/-- The URL value of `http://localhost:3200?limit=5`. -/
def limitBase : URL :=
  { Scheme := utf8 "http", Host := utf8 "localhost:3200", RawQuery := utf8 "limit=5" }

/-- The URL value of `http://localhost:3200/api/search`. -/
def searchEndpoint : URL :=
  { Scheme := utf8 "http", Host := utf8 "localhost:3200", Path := utf8 "/api/search" }

/-- The URL value of `http://localhost:3200/tempo/api/search/tags`. -/
def tagsEndpoint : URL :=
  { Scheme := utf8 "http", Host := utf8 "localhost:3200", Path := utf8 "/tempo/api/search/tags" }

/-- The URL value of `http://localhost:3200/api/search?q=x`. -/
def searchRequestURL : URL :=
  { Scheme := utf8 "http", Host := utf8 "localhost:3200", Path := utf8 "/api/search",
    RawQuery := utf8 "q=x" }

/-- A trace-search body whose first entry has `durationMs` as a string. -/
def mistypedBody : Bytes :=
  utf8 "\x7b\"traces\":[\x7b\"traceID\":\"t1\",\"durationMs\":\"12\"\x7d,\x7b\"traceID\":\"t2\",\"durationMs\":42\x7d]\x7d"

/-- The generic decoding of `mistypedBody`. -/
def mistypedGeneric : List (Bytes × JsonValue) :=
  [(utf8 "traces", .array
    [.object [(utf8 "traceID", .string (utf8 "t1")), (utf8 "durationMs", .string (utf8 "12"))],
     .object [(utf8 "traceID", .string (utf8 "t2")), (utf8 "durationMs", .number 42)]])]

/-- The error of the strict decoding of `mistypedBody`. -/
def mistypedError : GoError :=
  utf8 "json: cannot unmarshal string into Go struct field TempoTrace.traces.durationMs of type int64"

/-- A network that answers every request with the given response. -/
def constantNet (resp : Response) : Net := { roundTrip := fun _ => .ok resp }

/-- JSON decoders for an example body on which the strict parse into a
`TempoResult` fails with `err` and the generic parse yields `generic`; the
other decoders are not used with it. -/
def fallbackDecoders (err : GoError) (generic : List (Bytes × JsonValue)) : JSONLib :=
  { unmarshalTempoResult := fun _ => .error err
    unmarshalObject := fun _ => .ok generic
    unmarshalTraceResponse := fun _ => .error err
    unmarshalTagsResult := fun _ => .error err
    unmarshalTagValuesResult := fun _ => .error err }

/-- JSON decoders for an example body that decodes strictly into the given
records. -/
def strictDecoders (result : TempoResult) (tags : TempoTagsResult)
    (tagValues : TempoTagValuesResult) : JSONLib :=
  { unmarshalTempoResult := fun _ => .ok result
    unmarshalObject := fun _ => .ok []
    unmarshalTraceResponse := fun _ => .ok {}
    unmarshalTagsResult := fun _ => .ok tags
    unmarshalTagValuesResult := fun _ => .ok tagValues }


/-- The URL value of `http://localhost:3200/tempo`. -/
def tempoBase : URL :=
  { Scheme := utf8 "http", Host := utf8 "localhost:3200", Path := utf8 "/tempo" }


/-! ## The clock and package `time` -/

/-- The wall clock of the process.  A `time.Time` is held as its instant, in
nanoseconds since the Unix epoch; `readings k` is what the `k`-th call of
`time.Now()` in this run returns and `taken` counts the calls made so far. -/
structure Clock where
  readings : Nat → Int
  taken : Nat := 0

/-- Go `time.Now()`: the next reading of the clock. -/
def timeNow (clock : Clock) : Int × Clock :=
  (clock.readings clock.taken, { clock with taken := clock.taken + 1 })

/-- Go `Time.Unix`: the whole seconds since the epoch of an instant. -/
def timeUnix (t : Int) : Int := t / 1000000000

/-- The conversion of an integer to `int64`, which wraps around. -/
def wrapInt64 (x : Int) : Int := (x + 2 ^ 63) % 2 ^ 64 - 2 ^ 63

/-- The helper `leadingInt` of package `time`: the value of the leading run of
decimal digits and the rest of the text; `none` stands for its overflow error,
raised when the value passes `1<<63`.  The loop is entered with `x = 0`. -/
def leadingInt : Nat → Bytes → Option (Nat × Bytes)
  | x, [] => some (x, [])
  | x, c :: rest =>
    if c.toNat < 48 ∨ c.toNat > 57 then some (x, c :: rest)
    else if x > 2 ^ 63 / 10 then none
    else if x * 10 + (c.toNat - 48) > 2 ^ 63 then none
    else leadingInt (x * 10 + (c.toNat - 48)) rest

/-- The helper `leadingFraction` of package `time`: the leading run of decimal
digits is consumed, and digits are accumulated into `x` until one would pass
`1<<63`.  The result is the value, the number `k` of accumulated digits (the
source returns `scale = 10^k`) and the rest of the text.  The loop is entered
with `x = 0`, `k = 0` and `overflow = false`. -/
def leadingFraction : Nat → Nat → Bool → Bytes → Nat × Nat × Bytes
  | x, k, _, [] => (x, k, [])
  | x, k, overflow, c :: rest =>
    if c.toNat < 48 ∨ c.toNat > 57 then (x, k, c :: rest)
    else if overflow then leadingFraction x k true rest
    else if x > (2 ^ 63 - 1) / 10 then leadingFraction x k true rest
    else if x * 10 + (c.toNat - 48) > 2 ^ 63 then leadingFraction x k true rest
    else leadingFraction (x * 10 + (c.toNat - 48)) (k + 1) false rest

/-- The table `unitMap` of package `time`, in nanoseconds (the unit spelled
with the micro sign U+00B5 or the Greek letter mu U+03BC is a microsecond). -/
def unitMap (u : Bytes) : Option Nat :=
  if u = utf8 "ns" then some 1
  else if u = utf8 "us" then some 1000
  else if u = utf8 "µs" then some 1000
  else if u = utf8 "μs" then some 1000
  else if u = utf8 "ms" then some 1000000
  else if u = utf8 "s" then some 1000000000
  else if u = utf8 "m" then some 60000000000
  else if u = utf8 "h" then some 3600000000000
  else none

/-- The main loop of `time.ParseDuration`, one number with its unit per round;
`d` is the sum so far in nanoseconds and `none` stands for any of its errors.
`frac f k unit` is the nanosecond value the source adds for a fraction with
digits `f` at scale `10^k`, the float computation
`uint64(float64(f) * (float64(unit) / scale))`.  Every round consumes at least
one byte, so a fuel of the length of the text is never used up. -/
def parseDurationLoop (frac : Nat → Nat → Nat → Nat) : Nat → Nat → Bytes → Option Nat
  | _, d, [] => some d
  | 0, _, _ :: _ => none
  | fuel + 1, d, c :: rest =>
    let s := c :: rest
    if ¬ (c = 46 ∨ (48 ≤ c.toNat ∧ c.toNat ≤ 57)) then none
    else
      match leadingInt 0 s with
      | none => none
      | some (v, s₁) =>
        let pre := decide (s.length ≠ s₁.length)
        let hasDot := decide (s₁.head? = some 46)
        let afterDot := s₁.drop 1
        let fr := leadingFraction 0 0 false afterDot
        let f := if hasDot then fr.1 else 0
        let k := if hasDot then fr.2.1 else 0
        let s₂ := if hasDot then fr.2.2 else s₁
        let post := hasDot && decide (afterDot.length ≠ s₂.length)
        if ¬ pre ∧ ¬ post then none
        else
          let u := s₂.takeWhile (fun b => ¬ (b = 46 ∨ (48 ≤ b.toNat ∧ b.toNat ≤ 57)))
          let s₃ := s₂.drop u.length
          if u = [] then none
          else
            match unitMap u with
            | none => none
            | some unit =>
              if v > 2 ^ 63 / unit then none
              else
                let v₁ := v * unit
                let v₂ := if f > 0 then (v₁ + frac f k unit) % 2 ^ 64 else v₁
                if f > 0 ∧ v₂ > 2 ^ 63 then none
                else if (d + v₂) % 2 ^ 64 > 2 ^ 63 then none
                else parseDurationLoop frac fuel ((d + v₂) % 2 ^ 64) s₃

/-- Go `time.ParseDuration`: an optional sign, then the numbers with their
units; the result is a count of nanoseconds.  `none` stands for a non-nil
error. -/
def timeParseDuration (frac : Nat → Nat → Nat → Nat) (orig : Bytes) : Option Int :=
  let neg := decide (orig.head? = some 45)
  let s := if orig.head? = some 45 ∨ orig.head? = some 43 then orig.drop 1 else orig
  if s = utf8 "0" then some 0
  else if s = [] then none
  else
    match parseDurationLoop frac s.length 0 s with
    | none => none
    | some d =>
      if neg then some (wrapInt64 (-(d : Int)))
      else if d > 2 ^ 63 - 1 then none
      else some (d : Int)

/-- The layout fields (`std` codes of package `time`) that occur in the
layouts of this program. -/
inductive Std where
  | stdLongYear
  | stdZeroMonth
  | stdZeroDay
  | stdHour
  | stdZeroMinute
  | stdZeroSecond
  | stdISO8601ColonTZ
  deriving DecidableEq

/-- The fields that `time.Parse` collects, with their initial values. -/
structure ParsedTime where
  year : Int := 0
  month : Int := -1
  day : Int := -1
  hour : Int := 0
  min : Int := 0
  sec : Int := 0
  nsec : Int := 0
  zoneUTC : Bool := false
  zoneOffset : Int := -1

/-- The value of a digit byte. -/
def digitValue (c : UInt8) : Int := (c.toNat : Int) - 48

/-- The helper `isDigit` of package `time`: the byte at index `i` exists and is
a decimal digit. -/
def isDigit (s : Bytes) (i : Nat) : Bool :=
  match s.get? i with
  | some c => digitByte c
  | none => false

/-- The helper `getnum` of package `time`: one or two digits, exactly two when
`fixed`. -/
def getnum (s : Bytes) (fixed : Bool) : Option (Int × Bytes) :=
  match s with
  | [] => none
  | a :: rest =>
    if ¬ digitByte a then none
    else
      match rest with
      | [] => if fixed then none else some (digitValue a, [])
      | b :: rest₂ =>
        if digitByte b then some (digitValue a * 10 + digitValue b, rest₂)
        else if fixed then none
        else some (digitValue a, b :: rest₂)

/-- The helper `atoi` of package `time`: an optional sign and a run of digits
that fills the whole text. -/
def atoi (s : Bytes) : Option Int :=
  let neg := decide (s.head? = some 45)
  let digits := if s.head? = some 45 ∨ s.head? = some 43 then s.drop 1 else s
  match leadingInt 0 digits with
  | some (q, []) => some (if neg then wrapInt64 (-(wrapInt64 q)) else wrapInt64 q)
  | _ => none

/-- The helper `skip` of package `time`: removes a literal of the layout from
the front of the value, a space of the literal standing for any run of spaces.
The fuel bounds the rounds by the length of the literal. -/
def skipLiteral : Nat → Bytes → Bytes → Option Bytes
  | _, value, [] => some value
  | 0, _, _ :: _ => none
  | fuel + 1, value, p :: lit =>
    if p = 32 then
      if value ≠ [] ∧ value.head? ≠ some 32 then none
      else skipLiteral fuel (value.dropWhile (fun b => b = 32))
        ((p :: lit).dropWhile (fun b => b = 32))
    else if value.head? ≠ some p then none
    else skipLiteral fuel (value.drop 1) lit

/-- The helper `parseNanoseconds` of package `time` on a value that starts
with the fraction: `nbytes` counts the separator and the digits, of which at
most nine are read. -/
def parseNanoseconds (value : Bytes) (nbytes : Nat) : Option Int :=
  if ¬ (value.head? = some 46 ∨ value.head? = some 44) then none
  else
    match atoi ((value.take (min nbytes 10)).drop 1) with
    | none => none
    | some ns => if ns < 0 then none else some (ns * 10 ^ (10 - min nbytes 10))

/-- Go `daysIn` of package `time`. -/
def daysIn (month year : Int) : Int :=
  if month = 2 then
    if year % 4 = 0 ∧ (year % 100 ≠ 0 ∨ year % 400 = 0) then 29 else 28
  else if month = 4 ∨ month = 6 ∨ month = 9 ∨ month = 11 then 30
  else 31

/-- The day count relative to 1970-01-01 of a proleptic Gregorian date. -/
def daysFromCivil (year month day : Int) : Int :=
  let y := if month ≤ 2 then year - 1 else year
  let era := y / 400
  let yoe := y - era * 400
  let mp := if month > 2 then month - 3 else month + 9
  let doy := (153 * mp + 2) / 5 + day - 1
  let doe := yoe * 365 + yoe / 4 - yoe / 100 + doy
  era * 146097 + doe - 719468

/-- One round of the loop of `time.Parse` for the layout field `std`: the field
is read from the front of the value.  `none` stands for a format or range
error.  None of the layouts of this program has a fractional-second field, so
a fraction that follows the seconds in the value is read as nanoseconds. -/
def parseField (std : Std) (st : ParsedTime) (value : Bytes) : Option (ParsedTime × Bytes) :=
  match std with
  | .stdLongYear =>
    if value.length < 4 ∨ ¬ isDigit value 0 then none
    else
      match atoi (value.take 4) with
      | none => none
      | some year => some ({ st with year := year }, value.drop 4)
  | .stdZeroMonth =>
    match getnum value true with
    | none => none
    | some (month, rest) =>
      if month ≤ 0 ∨ 12 < month then none else some ({ st with month := month }, rest)
  | .stdZeroDay =>
    match getnum value true with
    | none => none
    | some (day, rest) => some ({ st with day := day }, rest)
  | .stdHour =>
    match getnum value false with
    | none => none
    | some (hour, rest) =>
      if hour < 0 ∨ 24 ≤ hour then none else some ({ st with hour := hour }, rest)
  | .stdZeroMinute =>
    match getnum value true with
    | none => none
    | some (min, rest) =>
      if min < 0 ∨ 60 ≤ min then none else some ({ st with min := min }, rest)
  | .stdZeroSecond =>
    match getnum value true with
    | none => none
    | some (sec, rest) =>
      if sec < 0 ∨ 60 ≤ sec then none
      else if rest.length ≥ 2 ∧ (rest.head? = some 46 ∨ rest.head? = some 44)
          ∧ isDigit rest 1 then
        let n := 2 + ((rest.drop 2).takeWhile digitByte).length
        match parseNanoseconds rest n with
        | none => none
        | some nsec => some ({ st with sec := sec, nsec := nsec }, rest.drop n)
      else some ({ st with sec := sec }, rest)
  | .stdISO8601ColonTZ =>
    if value.head? = some 90 then some ({ st with zoneUTC := true }, value.drop 1)
    else if value.length < 6 then none
    else if value.get? 3 ≠ some 58 then none
    else
      match getnum ((value.take 3).drop 1) true, getnum ((value.take 6).drop 4) true with
      | some (hr, _), some (mm, _) =>
        if hr > 24 ∨ mm > 60 then none
        else if value.head? = some 43 then
          some ({ st with zoneOffset := (hr * 60 + mm) * 60 }, value.drop 6)
        else if value.head? = some 45 then
          some ({ st with zoneOffset := -((hr * 60 + mm) * 60) }, value.drop 6)
        else none
      | _, _ => none

/-- The loop of `time.Parse` over a layout given as its chunks: each chunk is a
literal followed by a field.  After the last field the layouts of this program
end, so the value must end too (`extra text` otherwise). -/
def timeParseLoop : List (Bytes × Std) → ParsedTime → Bytes → Option ParsedTime
  | [], st, value => if value = [] then some st else none
  | (lit, std) :: layout, st, value =>
    match skipLiteral lit.length value lit with
    | none => none
    | some value₁ =>
      match parseField std st value₁ with
      | none => none
      | some (st₁, value₂) => timeParseLoop layout st₁ value₂

/-- Go `time.Parse` for a layout without a zone name, given as its chunks.  The
result is the instant in nanoseconds since the Unix epoch; `none` stands for a
non-nil error.  A value without a zone is read in UTC, the default location of
`time.Parse`; a value with the zone `Z` or a numeric offset is read at that
offset.  (For the layout `time.RFC3339` the source first tries a fast path,
which accepts a subset of the values with the same result.) -/
def timeParse (layout : List (Bytes × Std)) (value : Bytes) : Option Int :=
  match timeParseLoop layout {} value with
  | none => none
  | some st =>
    let month := if st.month < 0 then 1 else st.month
    let day := if st.day < 0 then 1 else st.day
    if day < 1 ∨ day > daysIn month st.year then none
    else
      let sec := daysFromCivil st.year month day * 86400 + st.hour * 3600 + st.min * 60 + st.sec
      if st.zoneUTC then some (sec * 1000000000 + st.nsec)
      else if st.zoneOffset ≠ -1 then some ((sec - st.zoneOffset) * 1000000000 + st.nsec)
      else some (sec * 1000000000 + st.nsec)

/-- The chunks of the layout `time.RFC3339`, `2006-01-02T15:04:05Z07:00`. -/
def layoutRFC3339 : List (Bytes × Std) :=
  [([], .stdLongYear), (utf8 "-", .stdZeroMonth), (utf8 "-", .stdZeroDay), (utf8 "T", .stdHour),
   (utf8 ":", .stdZeroMinute), (utf8 ":", .stdZeroSecond), ([], .stdISO8601ColonTZ)]

/-- The chunks of the layout `2006-01-02T15:04:05`. -/
def layoutDateTimeT : List (Bytes × Std) :=
  [([], .stdLongYear), (utf8 "-", .stdZeroMonth), (utf8 "-", .stdZeroDay), (utf8 "T", .stdHour),
   (utf8 ":", .stdZeroMinute), (utf8 ":", .stdZeroSecond)]

/-- The chunks of the layout `2006-01-02 15:04:05`. -/
def layoutDateTimeSpace : List (Bytes × Std) :=
  [([], .stdLongYear), (utf8 "-", .stdZeroMonth), (utf8 "-", .stdZeroDay), (utf8 " ", .stdHour),
   (utf8 ":", .stdZeroMinute), (utf8 ":", .stdZeroSecond)]

/-- The chunks of the layout `2006-01-02`. -/
def layoutDate : List (Bytes × Std) :=
  [([], .stdLongYear), (utf8 "-", .stdZeroMonth), (utf8 "-", .stdZeroDay)]

/-- Source: `parseTime`.  The clock is read only for `now` and for a relative
expression that `time.ParseDuration` accepts. -/
def parseTime (frac : Nat → Nat → Nat → Nat) (clock : Clock) (timeStr : Bytes) :
    Except GoError Int × Clock :=
  if timeStr = utf8 "now" then ((.ok (timeNow clock).1), (timeNow clock).2)
  else
    let relative :=
      if timeStr.length > 0 ∧ timeStr.head? = some 45 then timeParseDuration frac timeStr
      else none
    match relative with
    | some duration => (.ok ((timeNow clock).1 + duration), (timeNow clock).2)
    | none =>
      match timeParse layoutRFC3339 timeStr with
      | some t => (.ok t, clock)
      | none =>
        match [layoutDateTimeT, layoutDateTimeSpace, layoutDate].findSome?
            (fun format => timeParse format timeStr) with
        | some t => (.ok t, clock)
        | none => (.error (utf8 "unsupported time format: " ++ timeStr), clock)


/-- A clock that shows the same instant at every reading, for the examples. -/
def fixedClock (t : Int) : Clock := { readings := fun _ => t }

/-- The fraction of a duration computed without rounding, for the examples
(none of which has a fraction). -/
def exactFraction (f k unit : Nat) : Nat := f * unit / 10 ^ k


/-- Spec side: a number below 100 written with two decimal digits. -/
def twoDigits (n : Nat) : Bytes := [UInt8.ofNat (48 + n / 10), UInt8.ofNat (48 + n % 10)]

/-- Spec side: a number below 10000 written with four decimal digits. -/
def fourDigits (n : Nat) : Bytes :=
  [UInt8.ofNat (48 + n / 1000), UInt8.ofNat (48 + n / 100 % 10), UInt8.ofNat (48 + n / 10 % 10),
    UInt8.ofNat (48 + n % 10)]

/-- Spec side: a date written as `YYYY-MM-DD`. -/
def dateText (year month day : Nat) : Bytes :=
  fourDigits year ++ utf8 "-" ++ twoDigits month ++ utf8 "-" ++ twoDigits day

/-- Spec side: a time of day written as `HH:MM:SS`. -/
def clockText (hour min sec : Nat) : Bytes :=
  twoDigits hour ++ utf8 ":" ++ twoDigits min ++ utf8 ":" ++ twoDigits sec

/-- Spec side: the instant, in nanoseconds since the Unix epoch, at which a
zone that is `offset` seconds east of UTC shows the given wall-clock date and
time. -/
def wallClockInstant (offset : Int) (year month day hour min sec : Nat) : Int :=
  (daysFromCivil year month day * 86400 + hour * 3600 + min * 60 + sec - offset) * 1000000000


/-! ## Rendering a trace -/

/-- The fraction that `Time.Format` writes for the layout field `.999999999`:
nothing for zero nanoseconds, else a dot and the nine digits without their
trailing zeros. -/
def appendNano (nanosec : Nat) : Bytes :=
  if nanosec = 0 then []
  else
    let digits := List.replicate (9 - (natDigits nanosec).length) 48 ++ natDigits nanosec
    utf8 "." ++ (digits.reverse.dropWhile (fun b => b = 48)).reverse

/-- The text of `time.Unix(0, nsec).Format(time.RFC3339Nano)`, in the local
zone given by `zoneOffset` (seconds east of UTC for a Unix second). -/
def timeFormatRFC3339Nano (zoneOffset : Int → Int) (nsec : Int) : Bytes :=
  let sec := nsec / 1000000000
  let offset := zoneOffset sec
  let abs := sec + offset
  let (year, month, day) := civilFromDays (abs / 86400)
  let secOfDay := abs % 86400
  let zone := Int.tdiv offset 60
  appendInt year 4 ++ utf8 "-" ++ appendInt month 2 ++ utf8 "-" ++ appendInt day 2 ++ utf8 "T"
    ++ appendInt (secOfDay / 3600) 2 ++ utf8 ":" ++ appendInt (secOfDay % 3600 / 60) 2
    ++ utf8 ":" ++ appendInt (secOfDay % 60) 2
    ++ appendNano (nsec % 1000000000).toNat
    ++ (if offset = 0 then utf8 "Z"
        else (if zone < 0 then utf8 "-" else utf8 "+")
          ++ appendInt (zone.natAbs / 60) 2 ++ utf8 ":" ++ appendInt (zone.natAbs % 60) 2)

/-- The helper `fmtFrac` of package `time`: the last `prec` digits of `v`
without their trailing zeros, behind a dot when any is left, written in front
of `acc`; and `v / 10^prec`.  The loop is entered with `print = false`. -/
def fmtFrac : Nat → Nat → Bool → Bytes → Bytes × Nat
  | 0, v, print, acc => (if print then 46 :: acc else acc, v)
  | prec + 1, v, print, acc =>
    let print₁ := print || decide (v % 10 ≠ 0)
    fmtFrac prec (v / 10) print₁ (if print₁ then UInt8.ofNat (48 + v % 10) :: acc else acc)

/-- Go `Duration.String` on a count of nanoseconds: `0s`, a count below one
second in `ns`, `µs` or `ms`, else hours, minutes and seconds. -/
def durationString (d : Int) : Bytes :=
  let u := d.natAbs
  let sign : Bytes := if d < 0 then utf8 "-" else []
  if u < 1000000000 then
    if u = 0 then utf8 "0s"
    else if u < 1000 then sign ++ natDigits u ++ utf8 "ns"
    else if u < 1000000 then
      sign ++ natDigits (fmtFrac 3 u false []).2 ++ (fmtFrac 3 u false []).1 ++ utf8 "µs"
    else sign ++ natDigits (fmtFrac 6 u false []).2 ++ (fmtFrac 6 u false []).1 ++ utf8 "ms"
  else
    let frac := (fmtFrac 9 u false []).1
    let secs := (fmtFrac 9 u false []).2
    let mins := secs / 60
    let hours := mins / 60
    sign
      ++ (if mins > 0 then
            (if hours > 0 then natDigits hours ++ utf8 "h" else [])
              ++ natDigits (mins % 60) ++ utf8 "m"
          else [])
      ++ natDigits (secs % 60) ++ frac ++ utf8 "s"

/-- The comparison `v == nil` on an `interface{}`. -/
def JsonValue.isNil : JsonValue → Bool
  | .null => true
  | _ => false

/-- Source: the attribute loops of `formatStructuredSpan`, one round: the
string value when it is not empty, else the integer value when it is not
`nil`, behind the key and the given indentation.  `fmtValue` is the verb `%v`
of `fmt` on an `interface{}`. -/
def writeAttribute (fmtValue : JsonValue → Bytes) (indent : Bytes) (output : Bytes)
    (attr : TempoAttribute) : Bytes :=
  if attr.Value.StringValue ≠ [] then
    output ++ (indent ++ attr.Key ++ utf8 ": " ++ attr.Value.StringValue ++ utf8 "\n")
  else if ¬ attr.Value.IntValue.isNil then
    output ++ (indent ++ attr.Key ++ utf8 ": " ++ fmtValue attr.Value.IntValue ++ utf8 "\n")
  else output

/-- Source: the events loop of `formatStructuredSpan`, one round. -/
def writeEvent (zoneOffset : Int → Int) (fmtValue : JsonValue → Bytes) (output : Bytes)
    (event : TempoEvent) : Bytes :=
  let output :=
    if event.Name ≠ [] then output ++ (utf8 "    Event: " ++ event.Name ++ utf8 "\n") else output
  let output :=
    if event.TimeUnixNano ≠ [] then
      match strconvParseInt event.TimeUnixNano with
      | some eventNano =>
        output ++ (utf8 "      Time: " ++ timeFormatRFC3339Nano zoneOffset eventNano ++ utf8 "\n")
      | none => output
    else output
  event.Attributes.foldl (writeAttribute fmtValue (utf8 "      ")) output

/-- Source: `formatStructuredSpan`.  The `strings.Builder` is the byte string
`output`; the result is its content after the call. -/
def formatStructuredSpan (zoneOffset : Int → Int) (fmtValue : JsonValue → Bytes)
    (output : Bytes) (span : TempoSpan) (index : Int) : Bytes :=
  let output := output ++ (utf8 "Span " ++ fmtInt index ++ utf8 ":\n")
  let output :=
    if span.SpanID ≠ [] then output ++ (utf8 "  Span ID: " ++ span.SpanID ++ utf8 "\n")
    else output
  let output :=
    if span.ParentSpanID ≠ [] then
      output ++ (utf8 "  Parent Span ID: " ++ span.ParentSpanID ++ utf8 "\n")
    else output
  let output :=
    if span.Name ≠ [] then output ++ (utf8 "  Name: " ++ span.Name ++ utf8 "\n") else output
  let output :=
    if span.Kind ≠ [] then output ++ (utf8 "  Kind: " ++ span.Kind ++ utf8 "\n") else output
  let output :=
    if span.StartTimeUnixNano ≠ [] then
      match strconvParseInt span.StartTimeUnixNano with
      | some startNano =>
        output ++ (utf8 "  Start Time: " ++ timeFormatRFC3339Nano zoneOffset startNano ++ utf8 "\n")
      | none => output
    else output
  let output :=
    if span.EndTimeUnixNano ≠ [] then
      match strconvParseInt span.EndTimeUnixNano with
      | some endNano =>
        output ++ (utf8 "  End Time: " ++ timeFormatRFC3339Nano zoneOffset endNano ++ utf8 "\n")
      | none => output
    else output
  let output :=
    if span.StartTimeUnixNano ≠ [] ∧ span.EndTimeUnixNano ≠ [] then
      match strconvParseInt span.StartTimeUnixNano, strconvParseInt span.EndTimeUnixNano with
      | some startNano, some endNano =>
        output ++ (utf8 "  Duration: " ++ durationString (wrapInt64 (endNano - startNano))
          ++ utf8 "\n")
      | _, _ => output
    else output
  let output :=
    if span.Attributes.length > 0 then
      span.Attributes.foldl (writeAttribute fmtValue (utf8 "    "))
        (output ++ utf8 "  Attributes:\n")
    else output
  let output :=
    if span.Events.length > 0 then
      span.Events.foldl (writeEvent zoneOffset fmtValue) (output ++ utf8 "  Events:\n")
    else output
  output ++ utf8 "\n"

/-- The variables of the loop over the batches in `formatStructuredTrace`. -/
structure TraceWalk where
  output : Bytes
  allSpans : List TempoSpan := []
  traceID : Bytes := []
  serviceName : Bytes := []

/-- Source: the body of the loop over the batches in `formatStructuredTrace`,
for the batch at index `batchIdx` of `total` batches. -/
def walkBatch (total : Nat) (w : TraceWalk) (batchIdx : Nat) (batch : TempoBatch) : TraceWalk :=
  let serviceName := batch.Resource.Attributes.foldl (fun (serviceName : Bytes) attr =>
    if attr.Key = utf8 "service.name" ∧ attr.Value.StringValue ≠ [] then attr.Value.StringValue
    else serviceName) w.serviceName
  let seen := batch.ScopeSpans.foldl (fun (seen : Bytes × List TempoSpan) scopeSpan =>
    scopeSpan.Spans.foldl (fun (seen : Bytes × List TempoSpan) span =>
      (if seen.1 = [] ∧ span.TraceID ≠ [] then span.TraceID else seen.1, seen.2 ++ [span]))
      seen) (w.traceID, w.allSpans)
  let output :=
    if batchIdx = 0 then
      w.output ++ (utf8 "Service: " ++ serviceName ++ utf8 "\n")
        ++ (utf8 "Trace ID: " ++ seen.1 ++ utf8 "\n")
        ++ (utf8 "Total Batches: " ++ fmtInt total ++ utf8 "\n\n")
    else w.output
  { output := output, allSpans := seen.2, traceID := seen.1, serviceName := serviceName }

/-- Source: `formatStructuredTrace`, what it writes.  The `strings.Builder` is
the byte string `output`; the result is its content after the call.  The error
that the source returns is `formatStructuredTraceError`. -/
def formatStructuredTrace (zoneOffset : Int → Int) (fmtValue : JsonValue → Bytes)
    (output : Bytes) (result : TempoTraceResponse) : Bytes :=
  let w := result.Batches.enum.foldl (fun w (it : Nat × TempoBatch) =>
    walkBatch result.Batches.length w it.1 it.2) { output := output }
  if w.allSpans.length > 0 then
    w.allSpans.enum.foldl (fun output (it : Nat × TempoSpan) =>
      formatStructuredSpan zoneOffset fmtValue output it.2 (it.1 + 1))
      (w.output ++ (utf8 "Spans (" ++ fmtInt w.allSpans.length ++ utf8 " total):\n\n"))
  else w.output

/-- Source: `formatStructuredTrace`, the error it returns (`none` is `nil`).
The function has one `return` statement, `return nil`, behind its loops. -/
def formatStructuredTraceError (_result : TempoTraceResponse) : Option GoError := none

/-- Source: `formatTraceResult`.  `marshalTrace` is
`json.MarshalIndent(result, "", "  ")` on the whole record, which the source
calls when `formatStructuredTrace` returns an error. -/
def formatTraceResult (zoneOffset : Int → Int) (fmtValue : JsonValue → Bytes)
    (marshalTrace : TempoTraceResponse → Except GoError Bytes)
    (result : TempoTraceResponse) : Except GoError Bytes :=
  if result.Batches.length = 0 then .ok (utf8 "No trace found")
  else
    let output := formatStructuredTrace zoneOffset fmtValue (utf8 "Trace Details:\n\n") result
    match formatStructuredTraceError result with
    | some _ =>
      match marshalTrace result with
      | .error jsonErr => .error (utf8 "failed to marshal trace data: " ++ jsonErr)
      | .ok traceJSON => .ok (stringsTrimSuffix (output ++ traceJSON) (utf8 "\n"))
    | none => .ok (stringsTrimSuffix output (utf8 "\n"))

/-- Source: the tail shared by `formatTagsResult` and `formatTagValuesResult`:
the numbered entries, the metrics when present, and the trimming of one final
newline.  `marshalIndent` is `json.MarshalIndent(v, "", "  ")`. -/
def formatNumbered (marshalIndent : JsonValue → Except GoError Bytes) (output : Bytes)
    (entries : List Bytes) (metrics : JsonValue) : Bytes :=
  let output := entries.enum.foldl (fun output (it : Nat × Bytes) =>
    output ++ (fmtInt (it.1 + 1) ++ utf8 ". " ++ it.2 ++ utf8 "\n")) output
  let output :=
    if ¬ metrics.isNil then
      let output := output ++ utf8 "\nMetrics:\n"
      match marshalIndent metrics with
      | .ok metricsJSON => output ++ metricsJSON
      | .error _ => output
    else output
  stringsTrimSuffix output (utf8 "\n")

/-- Source: `formatTagsResult`. -/
def formatTagsResult (marshalIndent : JsonValue → Except GoError Bytes)
    (result : TempoTagsResult) : Except GoError Bytes :=
  if result.TagNames.length = 0 then .ok (utf8 "No tag names found")
  else
    .ok (formatNumbered marshalIndent
      (utf8 "Found " ++ fmtInt result.TagNames.length ++ utf8 " tag names:\n\n")
      result.TagNames result.Metrics)

/-- Source: `formatTagValuesResult`. -/
def formatTagValuesResult (marshalIndent : JsonValue → Except GoError Bytes)
    (result : TempoTagValuesResult) (tagName : Bytes) : Except GoError Bytes :=
  if result.TagValues.length = 0 then
    .ok (utf8 "No values found for tag '" ++ tagName ++ utf8 "'")
  else
    .ok (formatNumbered marshalIndent
      (utf8 "Found " ++ fmtInt result.TagValues.length ++ utf8 " values for tag '" ++ tagName
        ++ utf8 "':\n\n")
      result.TagValues result.Metrics)

/-! ## The tool handlers -/

/-- The process environment and the library behaviour that the handlers rely
on: `os.Getenv`, packages `net/url` and `encoding/json`, the local time zone
(seconds east of UTC for a Unix second), the float computation of
`time.ParseDuration` for a fraction, the verb `%v` of `fmt` on an
`interface{}`, and `json.MarshalIndent(v, "", "  ")` on a metrics payload and
on a whole trace record. -/
structure Env where
  getenv : Bytes → Bytes
  url : URLLib
  json : JSONLib
  zoneOffset : Int → Int
  durationFraction : Nat → Nat → Nat → Nat
  fmtValue : JsonValue → Bytes
  marshalIndent : JsonValue → Except GoError Bytes
  marshalTrace : TempoTraceResponse → Except GoError Bytes

/-- Source: `mcp.CallToolRequest`, of which the handlers read
`request.Params.Arguments`. -/
structure CallToolRequest where
  Arguments : JsonValue

/-- Source: `mcp.TextContent`; the field `Type_` is the field `Type` of the
source. -/
structure TextContent where
  Type_ : Bytes
  Text : Bytes

/-- Source: `mcp.CallToolResult`, of which the handlers fill `Content`. -/
structure CallToolResult where
  Content : List TextContent

/-- Source: the constant `DefaultTempoURL`. -/
def DefaultTempoURL : Bytes := utf8 "http://localhost:3200"

/-- Source: the constant `EnvTempoURL`. -/
def EnvTempoURL : Bytes := utf8 "TEMPO_URL"

/-- Source: the constant `EnvTempoUsername`. -/
def EnvTempoUsername : Bytes := utf8 "TEMPO_USERNAME"

/-- Source: the constant `EnvTempoPassword`. -/
def EnvTempoPassword : Bytes := utf8 "TEMPO_PASSWORD"

/-- Source: the constant `EnvTempoToken`. -/
def EnvTempoToken : Bytes := utf8 "TEMPO_TOKEN"

/-- Source: the block `Get Tempo URL from request arguments, if not present
check environment`, which each handler repeats. -/
def resolveTempoURL (env : Env) (args : List (Bytes × JsonValue)) : Bytes :=
  let fallback :=
    let tempoURL := env.getenv EnvTempoURL
    if tempoURL = [] then DefaultTempoURL else tempoURL
  match (mapIndex args (utf8 "url")).asString with
  | some urlArg => if urlArg ≠ [] then urlArg else fallback
  | none => fallback

/-- Source: the block that reads the time argument `key` (`start` or `end`),
which each handler repeats: an argument that is a non-empty string is resolved
by `parseTime` and yields its Unix second, or the error
`invalid <key> time: <cause>`; any other argument yields nothing. -/
def optionalTime (env : Env) (clock : Clock) (args : List (Bytes × JsonValue)) (key : Bytes) :
    Except GoError (Option Int) × Clock :=
  match (mapIndex args key).asString with
  | some timeStr =>
    if timeStr ≠ [] then
      match parseTime env.durationFraction clock timeStr with
      | (.ok t, clock) => (.ok (some (timeUnix t)), clock)
      | (.error err, clock) => (.error (utf8 "invalid " ++ key ++ utf8 " time: " ++ err), clock)
    else (.ok none, clock)
  | none => (.ok none, clock)

/-- Source: the block that reads the number argument `key` (`limit` or
`maxStaleValues`): a `float64` is converted to `int`. -/
def optionalInt (args : List (Bytes × JsonValue)) (key : Bytes) : Option Int :=
  match (mapIndex args key).asFloat64 with
  | some f => some (float64ToInt64 f)
  | none => none

/-- Source: the tool result that each handler builds from the formatted
text. -/
def textResult (text : Bytes) : CallToolResult :=
  { Content := [{ Type_ := utf8 "text", Text := text }] }

/-- The arguments with which `HandleSearchTraces` calls
`buildTempoSearchURL`. -/
structure SearchCall where
  tempoURL : Bytes
  queryString : Bytes
  start : Int
  end_ : Int
  limit : Int

/-- Source: `HandleSearchTraces`, from the reading of `query` up to the call
of `buildTempoSearchURL`.  The defaults of `start` and `end` take one reading
of the clock each, before the arguments are looked at. -/
def searchTracesCall (env : Env) (clock : Clock) (args : List (Bytes × JsonValue)) :
    Except GoError SearchCall × Clock :=
  match (mapIndex args (utf8 "query")).asString with
  | none => (.error (utf8 "query parameter is required and must be a string"), clock)
  | some queryString =>
    let tempoURL := resolveTempoURL env args
    let start := timeUnix ((timeNow clock).1 + (-1) * 3600000000000)
    let clock := (timeNow clock).2
    let end_ := timeUnix (timeNow clock).1
    let clock := (timeNow clock).2
    match optionalTime env clock args (utf8 "start") with
    | (.error err, clock) => (.error err, clock)
    | (.ok startArg, clock) =>
      match optionalTime env clock args (utf8 "end") with
      | (.error err, clock) => (.error err, clock)
      | (.ok endArg, clock) =>
        (.ok { tempoURL := tempoURL, queryString := queryString, start := startArg.getD start,
               end_ := endArg.getD end_,
               limit := (optionalInt args (utf8 "limit")).getD 20 }, clock)

/-- Source: `HandleSearchTraces`.  The result comes with the state of the clock
and of the network after the call. -/
def HandleSearchTraces (env : Env) (clock : Clock) (net : Net) (request : CallToolRequest) :
    Except GoError CallToolResult × Clock × Net :=
  match request.Arguments.asObject with
  | none => (.error (utf8 "invalid arguments type"), clock, net)
  | some args =>
    match searchTracesCall env clock args with
    | (.error err, clock) => (.error err, clock, net)
    | (.ok call, clock) =>
      match buildTempoSearchURL env.url call.tempoURL call.queryString call.start call.end_
          call.limit with
      | .error err => (.error (utf8 "failed to build search URL: " ++ err), clock, net)
      | .ok searchURL =>
        match executeTempoSearch env.url env.json net searchURL (env.getenv EnvTempoUsername)
            (env.getenv EnvTempoPassword) (env.getenv EnvTempoToken) with
        | (.error err, net) => (.error (utf8 "trace search failed: " ++ err), clock, net)
        | (.ok result, net) =>
          match formatTempoResults env.zoneOffset result with
          | .error err => (.error (utf8 "failed to format results: " ++ err), clock, net)
          | .ok formattedTextResult => (.ok (textResult formattedTextResult), clock, net)

/-- The arguments with which `HandleGetTraceByID` calls `buildTempoTraceURL`. -/
structure TraceCall where
  tempoURL : Bytes
  traceID : Bytes
  start : Option Int
  end_ : Option Int

/-- Source: `HandleGetTraceByID`, from the reading of `traceID` up to the call
of `buildTempoTraceURL`. -/
def getTraceByIDCall (env : Env) (clock : Clock) (args : List (Bytes × JsonValue)) :
    Except GoError TraceCall × Clock :=
  let required := utf8 "traceID parameter is required and must be a string"
  match (mapIndex args (utf8 "traceID")).asString with
  | none => (.error required, clock)
  | some traceID =>
    if traceID = [] then (.error required, clock)
    else
      let tempoURL := resolveTempoURL env args
      match optionalTime env clock args (utf8 "start") with
      | (.error err, clock) => (.error err, clock)
      | (.ok start, clock) =>
        match optionalTime env clock args (utf8 "end") with
        | (.error err, clock) => (.error err, clock)
        | (.ok end_, clock) =>
          (.ok { tempoURL := tempoURL, traceID := traceID, start := start, end_ := end_ }, clock)

/-- Source: `HandleGetTraceByID`. -/
def HandleGetTraceByID (env : Env) (clock : Clock) (net : Net) (request : CallToolRequest) :
    Except GoError CallToolResult × Clock × Net :=
  match request.Arguments.asObject with
  | none => (.error (utf8 "invalid arguments type"), clock, net)
  | some args =>
    match getTraceByIDCall env clock args with
    | (.error err, clock) => (.error err, clock, net)
    | (.ok call, clock) =>
      match buildTempoTraceURL env.url call.tempoURL call.traceID call.start call.end_ with
      | .error err => (.error (utf8 "failed to build trace URL: " ++ err), clock, net)
      | .ok traceURL =>
        match executeTempoTraceQuery env.url env.json net traceURL (env.getenv EnvTempoUsername)
            (env.getenv EnvTempoPassword) (env.getenv EnvTempoToken) with
        | (.error err, net) => (.error (utf8 "trace retrieval failed: " ++ err), clock, net)
        | (.ok result, net) =>
          match formatTraceResult env.zoneOffset env.fmtValue env.marshalTrace result with
          | .error err => (.error (utf8 "failed to format trace result: " ++ err), clock, net)
          | .ok formattedTextResult => (.ok (textResult formattedTextResult), clock, net)

/-- The arguments with which `HandleSearchTags` calls `buildTempoTagsURL`, and
`HandleSearchTagValues` calls `buildTempoTagValuesURL` (`name` is the scope,
resp. the tag name). -/
structure TagsCall where
  tempoURL : Bytes
  name : Bytes
  start : Option Int
  end_ : Option Int
  limit : Option Int
  maxStaleValues : Option Int

/-- Source: `HandleSearchTags`, from the resolution of the URL up to the call
of `buildTempoTagsURL`. -/
def searchTagsCall (env : Env) (clock : Clock) (args : List (Bytes × JsonValue)) :
    Except GoError TagsCall × Clock :=
  let tempoURL := resolveTempoURL env args
  let scope := ((mapIndex args (utf8 "scope")).asString).getD []
  match optionalTime env clock args (utf8 "start") with
  | (.error err, clock) => (.error err, clock)
  | (.ok start, clock) =>
    match optionalTime env clock args (utf8 "end") with
    | (.error err, clock) => (.error err, clock)
    | (.ok end_, clock) =>
      (.ok { tempoURL := tempoURL, name := scope, start := start, end_ := end_,
             limit := optionalInt args (utf8 "limit"),
             maxStaleValues := optionalInt args (utf8 "maxStaleValues") }, clock)

/-- Source: `HandleSearchTags`. -/
def HandleSearchTags (env : Env) (clock : Clock) (net : Net) (request : CallToolRequest) :
    Except GoError CallToolResult × Clock × Net :=
  match request.Arguments.asObject with
  | none => (.error (utf8 "invalid arguments type"), clock, net)
  | some args =>
    match searchTagsCall env clock args with
    | (.error err, clock) => (.error err, clock, net)
    | (.ok call, clock) =>
      match buildTempoTagsURL env.url call.tempoURL call.name call.start call.end_ call.limit
          call.maxStaleValues with
      | .error err => (.error (utf8 "failed to build tags URL: " ++ err), clock, net)
      | .ok tagsURL =>
        match executeTempoTagsQuery env.url env.json net tagsURL (env.getenv EnvTempoUsername)
            (env.getenv EnvTempoPassword) (env.getenv EnvTempoToken) with
        | (.error err, net) => (.error (utf8 "tags search failed: " ++ err), clock, net)
        | (.ok result, net) =>
          match formatTagsResult env.marshalIndent result with
          | .error err => (.error (utf8 "failed to format tags result: " ++ err), clock, net)
          | .ok formattedTextResult => (.ok (textResult formattedTextResult), clock, net)

/-- Source: `HandleSearchTagValues`, from the reading of `tagName` up to the
call of `buildTempoTagValuesURL`. -/
def searchTagValuesCall (env : Env) (clock : Clock) (args : List (Bytes × JsonValue)) :
    Except GoError TagsCall × Clock :=
  let required := utf8 "tagName parameter is required and must be a string"
  match (mapIndex args (utf8 "tagName")).asString with
  | none => (.error required, clock)
  | some tagName =>
    if tagName = [] then (.error required, clock)
    else
      let tempoURL := resolveTempoURL env args
      match optionalTime env clock args (utf8 "start") with
      | (.error err, clock) => (.error err, clock)
      | (.ok start, clock) =>
        match optionalTime env clock args (utf8 "end") with
        | (.error err, clock) => (.error err, clock)
        | (.ok end_, clock) =>
          (.ok { tempoURL := tempoURL, name := tagName, start := start, end_ := end_,
                 limit := optionalInt args (utf8 "limit"),
                 maxStaleValues := optionalInt args (utf8 "maxStaleValues") }, clock)

/-- Source: `HandleSearchTagValues`. -/
def HandleSearchTagValues (env : Env) (clock : Clock) (net : Net) (request : CallToolRequest) :
    Except GoError CallToolResult × Clock × Net :=
  match request.Arguments.asObject with
  | none => (.error (utf8 "invalid arguments type"), clock, net)
  | some args =>
    match searchTagValuesCall env clock args with
    | (.error err, clock) => (.error err, clock, net)
    | (.ok call, clock) =>
      match buildTempoTagValuesURL env.url call.tempoURL call.name call.start call.end_
          call.limit call.maxStaleValues with
      | .error err => (.error (utf8 "failed to build tag values URL: " ++ err), clock, net)
      | .ok tagValuesURL =>
        match executeTempoTagValuesQuery env.url env.json net tagValuesURL
            (env.getenv EnvTempoUsername) (env.getenv EnvTempoPassword)
            (env.getenv EnvTempoToken) with
        | (.error err, net) => (.error (utf8 "tag values search failed: " ++ err), clock, net)
        | (.ok result, net) =>
          match formatTagValuesResult env.marshalIndent result call.name with
          | .error err =>
            (.error (utf8 "failed to format tag values result: " ++ err), clock, net)
          | .ok formattedTextResult => (.ok (textResult formattedTextResult), clock, net)


/-! ## The handlers as the specification words them, and example instances -/

/-- Spec side: the backend URL as a function of the `url` argument and of the
value of `TEMPO_URL`: the argument when it is a non-empty string, else the
value when it is not empty, else `http://localhost:3200`. -/
def resolveBackendURL (urlArg : JsonValue) (envValue : Bytes) : Bytes :=
  match urlArg with
  | .string s =>
    if s ≠ [] then s else if envValue ≠ [] then envValue else utf8 "http://localhost:3200"
  | _ => if envValue ≠ [] then envValue else utf8 "http://localhost:3200"

/-- The verb `%v` on the values of the examples: a string is written as it is,
a whole number of at most six digits in decimal, a boolean as `true` or
`false`.  Other values do not occur in the examples. -/
def exampleFmtValue : JsonValue → Bytes
  | .string s => s
  | .number f => if f.den = 1 ∧ f.num.natAbs < 1000000 then fmtInt f.num else []
  | .bool b => if b then utf8 "true" else utf8 "false"
  | _ => []

/-- An environment for the examples: plain URLs, the zone UTC, and the given
environment variables and JSON decoders. -/
def exampleEnv (getenv : Bytes → Bytes) (json : JSONLib) : Env :=
  { getenv := getenv, url := plainURLLib, json := json, zoneOffset := fun _ => 0,
    durationFraction := exactFraction, fmtValue := exampleFmtValue,
    marshalIndent := fun _ => .error (utf8 "unsupported value"),
    marshalTrace := fun _ => .error (utf8 "unsupported value") }

/-- A process environment in which only `TEMPO_URL` is set. -/
def tempoURLOnly (value : Bytes) : Bytes → Bytes :=
  fun name => if name = utf8 "TEMPO_URL" then value else []

/-- The URL value of `http://tempo:3200/api/traces/abc`. -/
def traceEndpoint : URL :=
  { Scheme := utf8 "http", Host := utf8 "tempo:3200", Path := utf8 "/api/traces/abc" }

/-- The arguments of a call of `get_trace_by_id` for the trace `abc`, without
further arguments. -/
def traceArgs : List (Bytes × JsonValue) := [(utf8 "traceID", .string (utf8 "abc"))]

/-- A network that fails every request, for the examples that stop before the
answer is read. -/
def offlineNet : Net := { roundTrip := fun _ => .error (utf8 "connection refused") }


/-- The URL value of `http://localhost:3200/api/traces/abc?start=5`. -/
def startKeptEndpoint : URL :=
  { Scheme := utf8 "http", Host := utf8 "localhost:3200", Path := utf8 "/api/traces/abc",
    RawQuery := utf8 "start=5" }

/-- The arguments of a call of `get_trace_by_id` for the trace `abc` with the
backend URL `http://localhost:3200?start=5` and no `start` or `end`. -/
def startKeptArgs : List (Bytes × JsonValue) :=
  [(utf8 "traceID", .string (utf8 "abc")), (utf8 "url", .string (utf8 "http://localhost:3200?start=5"))]

/-- The arguments of a call of `search_traces` with the query `x` and the
limit 5. -/
def limitedQueryArgs : List (Bytes × JsonValue) :=
  [(utf8 "query", .string (utf8 "x")), (utf8 "limit", .number 5)]

/-- The arguments of a call of `search_traces` with the query `x` only. -/
def queryOnlyArgs : List (Bytes × JsonValue) := [(utf8 "query", .string (utf8 "x"))]

/-- A clock whose `k`-th reading is `k` seconds and a half after the second
1700000000. -/
def tickingClock : Clock := { readings := fun k => 1700000000500000000 + 1000000000 * k }


/-- The arguments of a call of `search_tags` whose `start` is the day after
its `end`. -/
def reversedWindowArgs : List (Bytes × JsonValue) :=
  [(utf8 "start", .string (utf8 "2024-01-02")), (utf8 "end", .string (utf8 "2024-01-01"))]

/-- The arguments of a call of `search_tags` for the first day of 2024. -/
def dayWindowArgs : List (Bytes × JsonValue) :=
  [(utf8 "start", .string (utf8 "2024-01-01")), (utf8 "end", .string (utf8 "2024-01-02"))]

/-- The URL value of
`http://localhost:3200/api/search/tags?end=1704067200&start=1704153600`. -/
def reversedWindowEndpoint : URL :=
  { Scheme := utf8 "http", Host := utf8 "localhost:3200", Path := utf8 "/api/search/tags",
    RawQuery := utf8 "end=1704067200&start=1704153600" }


/-- The arguments of a call of `get_trace_by_id` for the trace `abc` whose
`start` is the decimal epoch second 1700000000. -/
def epochStartArgs : List (Bytes × JsonValue) :=
  [(utf8 "traceID", .string (utf8 "abc")), (utf8 "start", .string (utf8 "1700000000"))]


/-- The arguments of a call of `search_traces` with the query `x` and the
backend URL `http://backend:3200`. -/
def backendQueryArgs : List (Bytes × JsonValue) :=
  [(utf8 "query", .string (utf8 "x")), (utf8 "url", .string (utf8 "http://backend:3200"))]

/-- The URL value of
`http://backend:3200/api/search?end=0&limit=20&q=x&start=-3600`. -/
def backendSearchEndpoint : URL :=
  { Scheme := utf8 "http", Host := utf8 "backend:3200", Path := utf8 "/api/search",
    RawQuery := utf8 "end=0&limit=20&q=x&start=-3600" }

/-- The arguments of a call of `search_tags` with the scope `span` only. -/
def scopeArgs : List (Bytes × JsonValue) := [(utf8 "scope", .string (utf8 "span"))]

/-- The URL value of `http://localhost:3200/api/search/tags?scope=span`. -/
def scopedTagsEndpoint : URL :=
  { Scheme := utf8 "http", Host := utf8 "localhost:3200", Path := utf8 "/api/search/tags",
    RawQuery := utf8 "scope=span" }

/-- The arguments of a call of `search_tag_values` for the tag `service.name`
whose `url` argument is the empty string. -/
def emptyURLTagArgs : List (Bytes × JsonValue) :=
  [(utf8 "tagName", .string (utf8 "service.name")), (utf8 "url", .string [])]

/-- The URL value of `http://tempo:3200/api/search/tag/service.name/values`. -/
def tagValuesEndpoint : URL :=
  { Scheme := utf8 "http", Host := utf8 "tempo:3200",
    Path := utf8 "/api/search/tag/service.name/values" }

/-! ### The rendering of a trace as the specification words it -/

/-- Spec side: the line of an attribute behind the given indentation: the
string value when it is not empty, otherwise the integer value when one is
present, otherwise no line. -/
def attributeLine (fmtValue : JsonValue → Bytes) (indent : Bytes) (attr : TempoAttribute) :
    Bytes :=
  if attr.Value.StringValue ≠ [] then
    indent ++ attr.Key ++ utf8 ": " ++ attr.Value.StringValue ++ utf8 "\n"
  else if attr.Value.IntValue.isNil then []
  else indent ++ attr.Key ++ utf8 ": " ++ fmtValue attr.Value.IntValue ++ utf8 "\n"

/-- Spec side: a line `<label><value>` that is written for a non-empty value
only. -/
def optionalLine (label value : Bytes) : Bytes :=
  if value ≠ [] then label ++ value ++ utf8 "\n" else []

/-- Spec side: a line `<label><time>` that is written when the stored count of
nanoseconds parses as a signed 64-bit integer. -/
def timeLine (zoneOffset : Int → Int) (label nano : Bytes) : Bytes :=
  match strconvParseInt nano with
  | some n => label ++ timeFormatRFC3339Nano zoneOffset n ++ utf8 "\n"
  | none => []

/-- Spec side: the duration line of a span, written when both of its times
parse. -/
def durationLine (startNano endNano : Bytes) : Bytes :=
  match strconvParseInt startNano, strconvParseInt endNano with
  | some s, some e => utf8 "  Duration: " ++ durationString (wrapInt64 (e - s)) ++ utf8 "\n"
  | _, _ => []

/-- Spec side: the lines of a span in front of its attributes. -/
def spanHead (zoneOffset : Int → Int) (span : TempoSpan) (index : Int) : Bytes :=
  utf8 "Span " ++ fmtInt index ++ utf8 ":\n"
    ++ optionalLine (utf8 "  Span ID: ") span.SpanID
    ++ optionalLine (utf8 "  Parent Span ID: ") span.ParentSpanID
    ++ optionalLine (utf8 "  Name: ") span.Name
    ++ optionalLine (utf8 "  Kind: ") span.Kind
    ++ timeLine zoneOffset (utf8 "  Start Time: ") span.StartTimeUnixNano
    ++ timeLine zoneOffset (utf8 "  End Time: ") span.EndTimeUnixNano
    ++ durationLine span.StartTimeUnixNano span.EndTimeUnixNano

/-- Spec side: the lines of an event: its name, its time, and its attributes
in input order. -/
def eventBlock (zoneOffset : Int → Int) (fmtValue : JsonValue → Bytes) (event : TempoEvent) :
    Bytes :=
  optionalLine (utf8 "    Event: ") event.Name
    ++ timeLine zoneOffset (utf8 "      Time: ") event.TimeUnixNano
    ++ (event.Attributes.map (attributeLine fmtValue (utf8 "      "))).flatten

/-- Spec side: the attributes section of a span: nothing for a span without
attributes, else the heading and the lines of the attributes in input order. -/
def spanAttributes (fmtValue : JsonValue → Bytes) (attrs : List TempoAttribute) : Bytes :=
  if attrs.length > 0 then
    utf8 "  Attributes:\n" ++ (attrs.map (attributeLine fmtValue (utf8 "    "))).flatten
  else []

/-- Spec side: the events section of a span. -/
def spanEvents (zoneOffset : Int → Int) (fmtValue : JsonValue → Bytes)
    (events : List TempoEvent) : Bytes :=
  if events.length > 0 then
    utf8 "  Events:\n" ++ (events.map (eventBlock zoneOffset fmtValue)).flatten
  else []

/-- Spec side: the spans of a batch, in scope order, then span order. -/
def batchSpans (batch : TempoBatch) : List TempoSpan :=
  batch.ScopeSpans.flatMap (fun scopeSpan => scopeSpan.Spans)

/-- Spec side: the spans of a trace, in batch order, then scope order, then
span order. -/
def flattenedSpans (result : TempoTraceResponse) : List TempoSpan :=
  result.Batches.flatMap batchSpans

/-- Spec side: the trace id of the first span of the list that has a non-empty
one, the empty string when there is none. -/
def firstTraceID (spans : List TempoSpan) : Bytes :=
  match spans.find? (fun span => decide (span.TraceID ≠ [])) with
  | some span => span.TraceID
  | none => []

/-- Spec side: the string value of the `service.name` resource attribute of a
batch: of the last one with a non-empty string value when there are several,
the empty string when there is none. -/
def serviceNameOf (batch : TempoBatch) : Bytes :=
  match batch.Resource.Attributes.reverse.find? (fun attr =>
      decide (attr.Key = utf8 "service.name" ∧ attr.Value.StringValue ≠ [])) with
  | some attr => attr.Value.StringValue
  | none => []

/-- Spec side: the header lines of a trace, taken from its first batch. -/
def traceHeader (result : TempoTraceResponse) : Bytes :=
  match result.Batches with
  | [] => []
  | first :: _ =>
    utf8 "Service: " ++ serviceNameOf first ++ utf8 "\n"
      ++ utf8 "Trace ID: " ++ firstTraceID (batchSpans first) ++ utf8 "\n"
      ++ utf8 "Total Batches: " ++ fmtInt result.Batches.length ++ utf8 "\n\n"

/-- An attribute with a string value, for the examples. -/
def stringAttr (key value : Bytes) : TempoAttribute :=
  { Key := key, Value := .mk value .null (.mk []) }

/-- An attribute with an integer value only, for the examples. -/
def intAttr (key : Bytes) (value : JsonValue) : TempoAttribute :=
  { Key := key, Value := .mk [] value (.mk []) }

/-- An attribute with an array value only, for the examples. -/
def arrayAttr (key : Bytes) : TempoAttribute :=
  { Key := key, Value := .mk [] .null (.mk [.mk (utf8 "x") .null (.mk [])]) }

/-- The attributes of the example span: a string value, an integer value sent
as a JSON string, an array value, and an integer value sent as a number. -/
def exampleAttributes : List TempoAttribute :=
  [stringAttr (utf8 "http.method") (utf8 "GET"),
   intAttr (utf8 "http.status_code") (.string (utf8 "200")),
   arrayAttr (utf8 "tags"),
   intAttr (utf8 "retries") (.number 2)]

/-- An event with a name and two attributes, for the examples. -/
def exampleEvent : TempoEvent :=
  { Name := utf8 "retry",
    Attributes := [arrayAttr (utf8 "tags"), intAttr (utf8 "attempt") (.number 2)] }

/-- A span with attributes and an event, for the examples. -/
def exampleSpan : TempoSpan :=
  { TraceID := utf8 "abc", SpanID := utf8 "s2", Name := utf8 "GET /",
    Attributes := exampleAttributes, Events := [exampleEvent] }

/-- The first batch of the example trace: the service `front`, a scope with a
span without a trace id and the example span, and a scope with one more
span. -/
def exampleBatch : TempoBatch :=
  { Resource := { Attributes := [stringAttr (utf8 "service.name") (utf8 "front")] },
    ScopeSpans := [{ Spans := [{ SpanID := utf8 "s1" }, exampleSpan] },
                   { Spans := [{ SpanID := utf8 "s3" }] }] }

/-- A batch with one span of the trace `zzz`, for the examples. -/
def laterBatch : TempoBatch :=
  { ScopeSpans := [{ Spans := [{ TraceID := utf8 "zzz", SpanID := utf8 "s4" }] }] }

/-- A trace of two batches with four spans, for the examples. -/
def exampleTrace : TempoTraceResponse := { Batches := [exampleBatch, laterBatch] }

/-- A trace whose first batch has no span and whose second batch has a span of
the trace `zzz`. -/
def lateTraceIDTrace : TempoTraceResponse :=
  { Batches := [{ Resource := { Attributes := [stringAttr (utf8 "service.name") (utf8 "front")] } },
                laterBatch] }


/-- A span that starts 1.5 s after the second 1700000000 and ends a quarter of
a second before its start, for the examples. -/
def backwardSpan : TempoSpan :=
  { SpanID := utf8 "s1", StartTimeUnixNano := utf8 "1700000001500000000",
    EndTimeUnixNano := utf8 "1700000001250000000" }

/-- A span whose start is the largest and whose end is the smallest 64-bit
count of nanoseconds. -/
def wrappedSpan : TempoSpan :=
  { StartTimeUnixNano := utf8 "9223372036854775807",
    EndTimeUnixNano := utf8 "-9223372036854775808" }

/-- A metrics payload, for the examples. -/
def exampleMetrics : JsonValue := .object [(utf8 "inspectedTraces", .number 3)]

/-- Spec side: the numbered lines `i. <entry i>` of a list of entries, from 1,
in input order, without their line ends. -/
def numberedLines (entries : List Bytes) : List Bytes :=
  entries.enum.map (fun it => fmtInt (it.1 + 1) ++ utf8 ". " ++ it.2)

/-- A tag-name record with two names and no metrics, for the examples. -/
def exampleTags : TempoTagsResult := { TagNames := [utf8 "service.name", utf8 "http.method"] }

/-- A tag-value record with two values and a metrics payload, for the
examples. -/
def exampleTagValues : TempoTagValuesResult :=
  { TagValues := [utf8 "front", utf8 "cart"], Metrics := exampleMetrics }

/-- The indented JSON text of the metrics payload of the examples. -/
def exampleMetricsJSON : Bytes := utf8 "\x7b\n  \"inspectedTraces\": 3\n\x7d"

/-! ### Two runs on one record -/

/-- Spec side: two views of one value of type `interface{}` in two runs.  A run
meets the entries of a Go map in an order of its own, so the two views are the
same value except for the order in which the entries of its maps (whose keys are
distinct) are listed, at any depth. -/
inductive sameValue : JsonValue → JsonValue → Prop
  | same (v : JsonValue) : sameValue v v
  | chain {a b c : JsonValue} : sameValue a b → sameValue b c → sameValue a c
  | reorder {xs ys : List (Bytes × JsonValue)} :
      xs.Perm ys → (xs.map Prod.fst).Nodup → sameValue (.object xs) (.object ys)
  | element {x y : JsonValue} {xs ys : List JsonValue} :
      sameValue x y → sameValue (.array xs) (.array ys) →
        sameValue (.array (x :: xs)) (.array (y :: ys))
  | field {k : Bytes} {x y : JsonValue} {xs ys : List (Bytes × JsonValue)} :
      sameValue x y → sameValue (.object xs) (.object ys) →
        sameValue (.object ((k, x) :: xs)) (.object ((k, y) :: ys))

/-- Spec side: two views of one trace summary in two runs.  The attributes are
a Go map, which every run iterates in an order of its own: the two views agree
in every field, and their attribute lists hold the same entries in some order
each. -/
def sameTrace (a b : TempoTrace) : Prop :=
  a.TraceID = b.TraceID ∧ a.RootServiceName = b.RootServiceName
    ∧ a.RootTraceName = b.RootTraceName ∧ a.StartTimeUnixNano = b.StartTimeUnixNano
    ∧ a.DurationMs = b.DurationMs ∧ sameValue a.SpanSet b.SpanSet
    ∧ a.Attributes.Perm b.Attributes

/-- Spec side: two views of one trace-search record in two runs. -/
def sameResult (a b : TempoResult) : Prop :=
  List.Forall₂ sameTrace a.Traces b.Traces ∧ sameValue a.Metrics b.Metrics
    ∧ a.ErrorStatus = b.ErrorStatus

/-- Spec side: two views of one attribute of a trace in two runs: they differ
at most in the order of the entries of a map held as the integer value. -/
def sameAttribute (a b : TempoAttribute) : Prop :=
  a.Key = b.Key ∧ a.Value.StringValue = b.Value.StringValue
    ∧ sameValue a.Value.IntValue b.Value.IntValue ∧ a.Value.ArrayValue = b.Value.ArrayValue

/-- Spec side: two views of one event in two runs. -/
def sameEvent (a b : TempoEvent) : Prop :=
  a.TimeUnixNano = b.TimeUnixNano ∧ a.Name = b.Name
    ∧ List.Forall₂ sameAttribute a.Attributes b.Attributes

/-- Spec side: two views of one span in two runs. -/
def sameSpan (a b : TempoSpan) : Prop :=
  a.TraceID = b.TraceID ∧ a.SpanID = b.SpanID ∧ a.ParentSpanID = b.ParentSpanID
    ∧ a.Name = b.Name ∧ a.Kind = b.Kind ∧ a.StartTimeUnixNano = b.StartTimeUnixNano
    ∧ a.EndTimeUnixNano = b.EndTimeUnixNano
    ∧ List.Forall₂ sameAttribute a.Attributes b.Attributes
    ∧ List.Forall₂ sameEvent a.Events b.Events ∧ a.Status = b.Status

/-- Spec side: two views of one scope with its spans in two runs. -/
def sameScopeSpan (a b : TempoScopeSpan) : Prop :=
  a.Scope = b.Scope ∧ List.Forall₂ sameSpan a.Spans b.Spans

/-- Spec side: two views of one batch in two runs. -/
def sameBatch (a b : TempoBatch) : Prop :=
  List.Forall₂ sameAttribute a.Resource.Attributes b.Resource.Attributes
    ∧ List.Forall₂ sameScopeSpan a.ScopeSpans b.ScopeSpans

/-- Spec side: two views of one trace in two runs. -/
def sameTraceDetail (a b : TempoTraceResponse) : Prop :=
  List.Forall₂ sameBatch a.Batches b.Batches

/-- Spec side: two views of one list of tag names in two runs. -/
def sameTags (a b : TempoTagsResult) : Prop :=
  a.TagNames = b.TagNames ∧ sameValue a.Metrics b.Metrics ∧ a.ErrorStatus = b.ErrorStatus

/-- Spec side: two views of one list of tag values in two runs. -/
def sameTagValues (a b : TempoTagValuesResult) : Prop :=
  a.TagValues = b.TagValues ∧ sameValue a.Metrics b.Metrics ∧ a.ErrorStatus = b.ErrorStatus

/-- The text of a number in the examples of two runs: a whole number of at
most six digits in decimal; no other value has one. -/
def numberText : JsonValue → Option Bytes
  | .number f => if f.den = 1 ∧ f.num.natAbs < 1000000 then some (fmtInt f.num) else none
  | _ => none

/-- The verb `%v` in the examples of two runs: as `exampleFmtValue`, and a map
that holds two entries, small whole numbers under the keys `a` and `b`, is
written `map[a:… b:…]`, its keys in ascending order as `fmt` writes them. -/
def sortedFmtValue : JsonValue → Bytes
  | .object fields =>
    match numberText (mapIndex fields (utf8 "a")), numberText (mapIndex fields (utf8 "b")) with
    | some a, some b =>
      if fields.length = 2 then utf8 "map[a:" ++ a ++ utf8 " b:" ++ b ++ utf8 "]" else []
    | _, _ => []
  | v => exampleFmtValue v

/-- The function `json.MarshalIndent(v, "", "  ")` in the examples of two
runs: a map that holds two entries, small whole numbers under the keys
`inspectedBytes` and `inspectedTraces`, is written with its keys in ascending
order, as `encoding/json` writes them.  Other values do not occur in these
examples. -/
def sortedMarshalIndent : JsonValue → Except GoError Bytes
  | .object fields =>
    match numberText (mapIndex fields (utf8 "inspectedBytes")),
        numberText (mapIndex fields (utf8 "inspectedTraces")) with
    | some bytes, some traces =>
      if fields.length = 2 then
        .ok (utf8 "\x7b\n  \"inspectedBytes\": " ++ bytes ++ utf8 ",\n  \"inspectedTraces\": "
          ++ traces ++ utf8 "\n\x7d")
      else .error (utf8 "unsupported value")
    | _, _ => .error (utf8 "unsupported value")
  | _ => .error (utf8 "unsupported value")

/-- A metrics payload as a run sees it that meets `inspectedTraces` first. -/
def metricsFirstRun : JsonValue :=
  .object [(utf8 "inspectedTraces", .number 3), (utf8 "inspectedBytes", .number 4096)]

/-- The same metrics payload as a run sees it that meets `inspectedBytes`
first. -/
def metricsSecondRun : JsonValue :=
  .object [(utf8 "inspectedBytes", .number 4096), (utf8 "inspectedTraces", .number 3)]

/-- A trace-search record with one trace that has the attributes `a` and `b`,
as a run sees it that meets `a` first. -/
def twoKeysFirstRun : TempoResult :=
  { Traces := [{ TraceID := utf8 "t1", Attributes := [(utf8 "a", utf8 "1"), (utf8 "b", utf8 "2")] }] }

/-- The same record as a run sees it that meets `b` first. -/
def twoKeysSecondRun : TempoResult :=
  { Traces := [{ TraceID := utf8 "t1", Attributes := [(utf8 "b", utf8 "2"), (utf8 "a", utf8 "1")] }] }

/-- A trace-search record with one trace that has the one attribute `a`, and
with a metrics payload, as a first run sees it. -/
def oneKeyFirstRun : TempoResult :=
  { Traces := [{ TraceID := utf8 "t1", Attributes := [(utf8 "a", utf8 "1")] }],
    Metrics := metricsFirstRun }

/-- The same record as a second run sees it. -/
def oneKeySecondRun : TempoResult :=
  { Traces := [{ TraceID := utf8 "t1", Attributes := [(utf8 "a", utf8 "1")] }],
    Metrics := metricsSecondRun }

/-- A list of two tag names with a metrics payload, as a first run sees
it. -/
def tagsFirstRun : TempoTagsResult :=
  { TagNames := [utf8 "service.name", utf8 "http.method"], Metrics := metricsFirstRun }

/-- The same list as a second run sees it. -/
def tagsSecondRun : TempoTagsResult :=
  { TagNames := [utf8 "service.name", utf8 "http.method"], Metrics := metricsSecondRun }

/-- A list of two tag values with a metrics payload, as a first run sees
it. -/
def tagValuesFirstRun : TempoTagValuesResult :=
  { TagValues := [utf8 "front", utf8 "cart"], Metrics := metricsFirstRun }

/-- The same list as a second run sees it. -/
def tagValuesSecondRun : TempoTagValuesResult :=
  { TagValues := [utf8 "front", utf8 "cart"], Metrics := metricsSecondRun }

/-- A trace of one span whose attribute `counts` holds the given value as its
integer value. -/
def countsTrace (counts : JsonValue) : TempoTraceResponse :=
  { Batches := [{ Resource := { Attributes := [stringAttr (utf8 "service.name") (utf8 "shop")] },
                  ScopeSpans := [{ Spans := [{ TraceID := utf8 "t1", SpanID := utf8 "s1",
                                               Attributes := [intAttr (utf8 "counts") counts] }] }] }] }

/-- The value of the attribute `counts`, a map, as a run sees it that meets
the key `b` first. -/
def countsFirstRun : JsonValue := .object [(utf8 "b", .number 2), (utf8 "a", .number 1)]

/-- The same map as a run sees it that meets the key `a` first. -/
def countsSecondRun : JsonValue := .object [(utf8 "a", .number 1), (utf8 "b", .number 2)]


/-! # Theorems -/

/-! ## Lemmas on byte strings -/

theorem hasSuffix_iff (s suf : Bytes) : stringsHasSuffix s suf = true ↔ suf <:+ s := by
  simp [stringsHasSuffix]

theorem hasPrefix_iff (s pre : Bytes) : stringsHasPrefix s pre = true ↔ pre <+: s := by
  simp [stringsHasPrefix]

theorem contains_iff (s sub : Bytes) : stringsContains s sub = true ↔ sub <:+: s := by
  induction s with
  | nil => cases sub <;> simp [stringsContains]
  | cons c rest ih =>
    simp only [stringsContains, Bool.or_eq_true, ih, List.isPrefixOf_iff_prefix]
    rw [List.infix_cons_iff]

theorem contains_of_hasSuffix {s suf : Bytes} (h : stringsHasSuffix s suf = true) :
    stringsContains s suf = true :=
  (contains_iff s suf).2 ((hasSuffix_iff s suf).1 h).isInfix

theorem replaceScan_skip (old new : Bytes) :
    ∀ (k : Nat) (s : Bytes), replaceScan old new k s = replaceScan old new 0 (s.drop k)
  | 0, s => by simp
  | k + 1, [] => by simp [replaceScan]
  | k + 1, _ :: rest => by
    simp only [replaceScan, List.drop_succ_cons]
    exact replaceScan_skip old new k rest

theorem utf8_close3 : utf8 "\x7d]\"" = [125, 93, 34] := by decide

theorem utf8_close2 : utf8 "\x7d]" = [125, 93] := by decide

theorem utf8_close4 : utf8 "\x7d]\x7d\"" = [125, 93, 125, 34] := by decide

/-- A string whose last byte is `last` has a given non-empty suffix only if that
suffix ends in `last` too. -/
theorem not_hasSuffix_of_last (p suf : Bytes) (last x : UInt8) (hx : x ≠ last) :
    stringsHasSuffix (p ++ [last]) (suf ++ [x]) = false := by
  rw [Bool.eq_false_iff]
  intro h
  rw [hasSuffix_iff] at h
  obtain ⟨t, ht⟩ := h
  have := congrArg List.getLast? ht
  simp [← List.append_assoc] at this
  exact hx this

/-! ## The response repair pass -/

/-- A string without an occurrence of the pattern is left as it is by the
scan. -/
theorem replaceScan_of_not_contains (old new : Bytes) :
    ∀ s : Bytes, stringsContains s old = false → replaceScan old new 0 s = s
  | [], _ => by simp [replaceScan]
  | c :: rest, h => by
    simp only [stringsContains, Bool.or_eq_false_iff] at h
    simp only [replaceScan, h.1, Bool.false_eq_true, if_false]
    rw [replaceScan_of_not_contains old new rest h.2]

/-- A three-byte pattern whose first byte does not recur in it starts at the
head of `q ++ pattern` only where it starts at the head of `q`. -/
theorem isPrefixOf_append_three (a b c : UInt8) (hab : a ≠ b) (hac : a ≠ c) (q : Bytes)
    (hq : q ≠ []) :
    [a, b, c].isPrefixOf (q ++ [a, b, c]) = [a, b, c].isPrefixOf q := by
  match q, hq with
  | [x], _ =>
    have : ¬ (a = x ∧ b = a ∧ c = b) := fun h => hab h.2.1.symm
    simpa [List.isPrefixOf] using this
  | [x, y], _ =>
    have : ¬ (a = x ∧ b = y ∧ c = a) := fun h => hac h.2.2.symm
    simpa [List.isPrefixOf] using this
  | x :: y :: z :: q', _ => simp [List.isPrefixOf]

/-- The scan for a three-byte pattern whose first byte does not recur in it,
on a string that ends with the pattern: the final occurrence is replaced, and
the part in front of it is treated as it is on its own (no occurrence reaches
from that part into the final one). -/
theorem replaceScan_append_three (a b c : UInt8) (new : Bytes) (hab : a ≠ b) (hac : a ≠ c) :
    ∀ (n : Nat) (p : Bytes), p.length = n →
      replaceScan [a, b, c] new 0 (p ++ [a, b, c]) = replaceScan [a, b, c] new 0 p ++ new := by
  intro n
  induction n using Nat.strong_induction_on with
  | _ n ih =>
    intro p hp
    match p, hp with
    | [], _ => simp [replaceScan]
    | x :: p', hp =>
      have hlen : p'.length < n := by simp at hp; omega
      have hpre := isPrefixOf_append_three a b c hab hac (x :: p') (by simp)
      rw [List.cons_append] at hpre ⊢
      simp only [replaceScan, hpre]
      by_cases hm : [a, b, c].isPrefixOf (x :: p') = true
      · rw [if_pos hm, if_pos hm, replaceScan_skip, replaceScan_skip _ _ _ p']
        match p', hlen, hm with
        | y :: z :: p'', hlen, _ =>
          have h3 := ih p''.length (by simp at hlen; omega) p'' rfl
          simp only [List.length_cons, List.length_nil, Nat.add_sub_cancel, List.cons_append,
            List.drop_succ_cons, List.drop_zero]
          rw [h3, List.append_assoc]
        | [], _, hm => simp [List.isPrefixOf] at hm
        | [y], _, hm => simp [List.isPrefixOf] at hm
      · rw [if_neg hm, if_neg hm, ih _ hlen p' rfl, List.cons_append]

/-- C3: every body that ends in the three bytes `}]"` is returned by
`cleanTempoResponse` without its trailing quote: the result is the part of the
body in front of the final `}]"`, in which every further `}]"` has lost its
quote as well, followed by `}]`.  So the result ends in `}]`, and when the
final `}]"` is the only one in the body the result is the body without its
last byte. -/
theorem cleanTempoResponse_array_quote (body : Bytes)
    (h : stringsHasSuffix body (utf8 "\x7d]\"") = true) :
    cleanTempoResponse body
        = stringsReplaceAll (body.take (body.length - 3)) (utf8 "\x7d]\"") (utf8 "\x7d]")
          ++ utf8 "\x7d]"
    ∧ stringsHasSuffix (cleanTempoResponse body) (utf8 "\x7d]") = true
    ∧ (stringsContains (body.take (body.length - 3)) (utf8 "\x7d]\"") = false →
        cleanTempoResponse body = body.take (body.length - 1)) := by
  obtain ⟨p, rfl⟩ := (hasSuffix_iff _ _).1 h
  have h1 : stringsHasSuffix (p ++ utf8 "\x7d]\"") (utf8 "\x7d]") = false := by
    rw [utf8_close3, utf8_close2]
    exact (List.append_assoc p [125, 93] [34]) ▸
      not_hasSuffix_of_last (p ++ [125, 93]) [125] 34 93 (by decide)
  have h2 : stringsHasSuffix (p ++ utf8 "\x7d]\"") (utf8 "]\x7d") = false := by
    rw [utf8_close3, show utf8 "]\x7d" = [93] ++ [125] from by decide]
    exact (List.append_assoc p [125, 93] [34]) ▸
      not_hasSuffix_of_last (p ++ [125, 93]) [93] 34 125 (by decide)
  have h3 : stringsHasSuffix (p ++ utf8 "\x7d]\"") (utf8 "\x7d") = false := by
    rw [utf8_close3, show utf8 "\x7d" = [] ++ [125] from by decide]
    exact (List.append_assoc p [125, 93] [34]) ▸
      not_hasSuffix_of_last (p ++ [125, 93]) [] 34 125 (by decide)
  have h4 : stringsContains (p ++ utf8 "\x7d]\"") (utf8 "\x7d]\"") = true :=
    contains_of_hasSuffix h
  have htake : (p ++ utf8 "\x7d]\"").take ((p ++ utf8 "\x7d]\"").length - 3) = p := by
    rw [utf8_close3]
    simp
  have hne : ¬ ([125, 93, 34] : Bytes) = [125, 93] := by decide
  have hclean : cleanTempoResponse (p ++ utf8 "\x7d]\"")
      = stringsReplaceAll p (utf8 "\x7d]\"") (utf8 "\x7d]") ++ utf8 "\x7d]" := by
    simp only [cleanTempoResponse, h1, h2, h3, h4, Bool.and_false, Bool.false_eq_true, if_true,
      if_false]
    rw [stringsReplaceAll, stringsReplaceAll, utf8_close3, utf8_close2, if_neg hne, if_neg hne]
    exact replaceScan_append_three 125 93 34 [125, 93] (by decide) (by decide) _ p rfl
  rw [htake, hclean]
  refine ⟨rfl, (hasSuffix_iff _ _).2 (List.suffix_append _ _), ?_⟩
  intro hnone
  rw [stringsReplaceAll, utf8_close3, utf8_close2, if_neg hne,
    replaceScan_of_not_contains _ _ p (utf8_close3 ▸ hnone)]
  have hsplit : p ++ ([125, 93, 34] : Bytes) = (p ++ [125, 93]) ++ [34] := by simp
  rw [hsplit, List.length_append, List.length_singleton, Nat.add_sub_cancel,
    List.take_left]

/-- Witness of C3: a trace-search body with the spurious trailing quote comes
back without it; a body that holds a second `}]"`, inside a name, comes back
with both quotes removed. -/
theorem cleanTempoResponse_array_quote_witness :
    stringsHasSuffix (utf8 "[\x7b\"traceID\":\"a\"\x7d]\"") (utf8 "\x7d]\"") = true
    ∧ cleanTempoResponse (utf8 "[\x7b\"traceID\":\"a\"\x7d]\"") = utf8 "[\x7b\"traceID\":\"a\"\x7d]"
    ∧ stringsHasSuffix (utf8 "[\x7b\"name\":\"a[\x7b\x7d]\"\x7d]\"") (utf8 "\x7d]\"") = true
    ∧ cleanTempoResponse (utf8 "[\x7b\"name\":\"a[\x7b\x7d]\"\x7d]\"")
        = utf8 "[\x7b\"name\":\"a[\x7b\x7d]\x7d]" :=
  ⟨by decide,
    ((cleanTempoResponse_array_quote _ (by decide)).2.2 (by decide)).trans (by decide),
    by decide,
    ((cleanTempoResponse_array_quote (utf8 "[\x7b\"name\":\"a[\x7b\x7d]\"\x7d]\"")
      (by decide)).1).trans (by decide)⟩

/-- C4: a body that ends in `}]}"` and also holds `}]"` earlier (here inside the
root trace name) takes the branch for `}]"`, so the trailing quote stays: the
result still ends in `}]}"` and does not end in `}]}`. -/
theorem cleanTempoResponse_object_quote_kept :
    stringsHasSuffix (utf8 "\x7b\"traces\":[\x7b\"rootTraceName\":\"q[\x7b\x7d]\"\x7d]\x7d\"") (utf8 "\x7d]\x7d\"") = true ∧
    cleanTempoResponse (utf8 "\x7b\"traces\":[\x7b\"rootTraceName\":\"q[\x7b\x7d]\"\x7d]\x7d\"")
      = utf8 "\x7b\"traces\":[\x7b\"rootTraceName\":\"q[\x7b\x7d]\x7d]\x7d\"" ∧
    stringsHasSuffix (cleanTempoResponse (utf8 "\x7b\"traces\":[\x7b\"rootTraceName\":\"q[\x7b\x7d]\"\x7d]\x7d\""))
      (utf8 "\x7d]\x7d") = false := by
  decide

/-- C5: a body that is valid JSON, ends neither in `}]"` nor in `}]}"`, and
holds `}]"` inside a string value is altered: the closing quote of that value
is removed. -/
theorem cleanTempoResponse_alters_valid_body :
    stringsHasSuffix (utf8 "\x7b\"traces\":[],\"error\":\"bad [\x7bx\x7d]\"\x7d") (utf8 "\x7d]\"") = false ∧
    stringsHasSuffix (utf8 "\x7b\"traces\":[],\"error\":\"bad [\x7bx\x7d]\"\x7d") (utf8 "\x7d]\x7d\"") = false ∧
    cleanTempoResponse (utf8 "\x7b\"traces\":[],\"error\":\"bad [\x7bx\x7d]\"\x7d")
      = utf8 "\x7b\"traces\":[],\"error\":\"bad [\x7bx\x7d]\x7d" ∧
    cleanTempoResponse (utf8 "\x7b\"traces\":[],\"error\":\"bad [\x7bx\x7d]\"\x7d")
      ≠ utf8 "\x7b\"traces\":[],\"error\":\"bad [\x7bx\x7d]\"\x7d" := by
  decide

/-! ## Rendering a trace-search result -/

theorem foldl_append_eq {α : Type} (g : α → Bytes) (l : List α) (init : Bytes) :
    l.foldl (fun o x => o ++ g x) init = init ++ (l.map g).flatten := by
  induction l generalizing init with
  | nil => simp
  | cons x xs ih => simp [ih, List.append_assoc]

theorem flatten_map_append_sep (sep : Bytes) (l : List Bytes) (h : l ≠ []) :
    (l.map (fun b => b ++ sep)).flatten = sep.intercalate l ++ sep := by
  induction l with
  | nil => exact absurd rfl h
  | cons a t ih =>
    cases t with
    | nil => simp [List.intercalate]
    | cons b t' =>
      have := ih (by simp)
      simp only [List.map_cons, List.flatten_cons] at this ⊢
      rw [this]
      simp [List.intercalate, List.intersperse, List.append_assoc]

theorem trimSuffix_append (x suf : Bytes) : stringsTrimSuffix (x ++ suf) suf = x := by
  have h : stringsHasSuffix (x ++ suf) suf = true := (hasSuffix_iff _ _).2 (List.suffix_append _ _)
  simp [stringsTrimSuffix, h]

theorem strconvParseInt_nil : strconvParseInt [] = none := rfl

/-- One round of the loop of `formatTempoResults` appends the block of the
trace and a blank line. -/
theorem formatTempoResults_step (zoneOffset : Int → Int) (output : Bytes) (i : Nat)
    (trace : TempoTrace) :
    (let output := output ++ (utf8 "Trace " ++ fmtInt ((i : Int) + 1) ++ utf8 ":\n")
     let output := output ++ (utf8 "  TraceID: " ++ trace.TraceID ++ utf8 "\n")
     let output := output ++ (utf8 "  Service: " ++ trace.RootServiceName ++ utf8 "\n")
     let output := output ++ (utf8 "  Name: " ++ trace.RootTraceName ++ utf8 "\n")
     let output :=
       if trace.StartTimeUnixNano ≠ [] then
         match strconvParseInt trace.StartTimeUnixNano with
         | some ts => output ++ (utf8 "  Start Time: " ++ timeFormatRFC3339 zoneOffset ts ++ utf8 "\n")
         | none => output
       else output
     let output := output ++ (utf8 "  Duration: " ++ fmtInt trace.DurationMs ++ utf8 " ms\n")
     let output :=
       if trace.Attributes.length > 0 then
         let output := output ++ utf8 "  Attributes:\n"
         trace.Attributes.foldl (fun output (kv : Bytes × Bytes) =>
           output ++ (utf8 "    " ++ kv.1 ++ utf8 ": " ++ kv.2 ++ utf8 "\n")) output
       else output
     output ++ utf8 "\n")
    = output ++ (traceBlock zoneOffset (i + 1) trace ++ utf8 "\n") := by
  have hstart : ∀ o : Bytes,
      (if trace.StartTimeUnixNano ≠ [] then
         match strconvParseInt trace.StartTimeUnixNano with
         | some ts => o ++ (utf8 "  Start Time: " ++ timeFormatRFC3339 zoneOffset ts ++ utf8 "\n")
         | none => o
       else o) = o ++ startTimeLine zoneOffset trace.StartTimeUnixNano := by
    intro o
    by_cases hs : trace.StartTimeUnixNano = []
    · simp [hs, startTimeLine, strconvParseInt_nil]
    · simp only [ne_eq, hs, not_false_eq_true, if_true, startTimeLine]
      cases strconvParseInt trace.StartTimeUnixNano <;> simp
  have hattr : ∀ o : Bytes,
      (if trace.Attributes.length > 0 then
         let output := o ++ utf8 "  Attributes:\n"
         trace.Attributes.foldl (fun output (kv : Bytes × Bytes) =>
           output ++ (utf8 "    " ++ kv.1 ++ utf8 ": " ++ kv.2 ++ utf8 "\n")) output
       else o) = o ++ attributesBlock trace.Attributes := by
    intro o
    cases hA : trace.Attributes with
    | nil => simp [attributesBlock]
    | cons kv rest =>
      simp only [List.length_cons, gt_iff_lt, Nat.zero_lt_succ, if_true, attributesBlock]
      rw [foldl_append_eq (fun kv : Bytes × Bytes => utf8 "    " ++ kv.1 ++ utf8 ": " ++ kv.2 ++ utf8 "\n")]
      simp [List.append_assoc]
  simp only [hstart, hattr]
  simp only [traceBlock, List.append_assoc, Nat.cast_add, Nat.cast_one]


theorem formatTempoResults_eq (zoneOffset : Int → Int) (result : TempoResult)
    (h : result.Traces ≠ []) :
    formatTempoResults zoneOffset result = .ok (traceListText zoneOffset result.Traces) := by
  have hlen : ¬ result.Traces.length = 0 := by
    intro h0; exact h (List.length_eq_zero.1 h0)
  have hbody : (fun (output : Bytes) (it : Nat × TempoTrace) =>
      let i := it.1
      let trace := it.2
      let output := output ++ (utf8 "Trace " ++ fmtInt ((i : Int) + 1) ++ utf8 ":\n")
      let output := output ++ (utf8 "  TraceID: " ++ trace.TraceID ++ utf8 "\n")
      let output := output ++ (utf8 "  Service: " ++ trace.RootServiceName ++ utf8 "\n")
      let output := output ++ (utf8 "  Name: " ++ trace.RootTraceName ++ utf8 "\n")
      let output :=
        if trace.StartTimeUnixNano ≠ [] then
          match strconvParseInt trace.StartTimeUnixNano with
          | some ts => output ++ (utf8 "  Start Time: " ++ timeFormatRFC3339 zoneOffset ts ++ utf8 "\n")
          | none => output
        else output
      let output := output ++ (utf8 "  Duration: " ++ fmtInt trace.DurationMs ++ utf8 " ms\n")
      let output :=
        if trace.Attributes.length > 0 then
          let output := output ++ utf8 "  Attributes:\n"
          trace.Attributes.foldl (fun output (kv : Bytes × Bytes) =>
            output ++ (utf8 "    " ++ kv.1 ++ utf8 ": " ++ kv.2 ++ utf8 "\n")) output
        else output
      output ++ utf8 "\n")
      = fun output it => output ++ (traceBlock zoneOffset (it.1 + 1) it.2 ++ utf8 "\n") := by
    funext output it
    exact formatTempoResults_step zoneOffset output it.1 it.2
  have hne : result.Traces.enum.map (fun it => traceBlock zoneOffset (it.1 + 1) it.2) ≠ [] := by
    intro h0
    apply h
    have := congrArg List.length h0
    simpa using this
  unfold formatTempoResults
  rw [if_neg hlen]
  simp only [hbody]
  rw [foldl_append_eq (fun it : Nat × TempoTrace => traceBlock zoneOffset (it.1 + 1) it.2 ++ utf8 "\n")]
  have hmap : result.Traces.enum.map
        (fun it : Nat × TempoTrace => traceBlock zoneOffset (it.1 + 1) it.2 ++ utf8 "\n")
      = (result.Traces.enum.map (fun it => traceBlock zoneOffset (it.1 + 1) it.2)).map
          (fun b => b ++ utf8 "\n") := by
    simp [List.map_map, Function.comp]
  rw [hmap, flatten_map_append_sep _ _ hne, List.nil_append, ← List.append_assoc,
    trimSuffix_append]
  rfl

/-- The text of the specification's example record, up to the time stamp. -/
theorem traceListText_example (zoneOffset : Int → Int) :
    traceListText zoneOffset exampleResult.Traces
      = utf8 "Found 1 traces:\n\nTrace 1:\n  TraceID: abc123\n  Service: svc\n  Name: op\n  Start Time: "
          ++ timeFormatRFC3339 zoneOffset 1700000000000000000
          ++ utf8 "\n  Duration: 42 ms\n" := by
  have hp : strconvParseInt (utf8 "1700000000000000000") = some 1700000000000000000 := by decide
  simp only [traceListText, exampleResult, List.enum, List.enumFrom, List.map, List.intercalate,
    List.intersperse, List.flatten, traceBlock, startTimeLine, hp, attributesBlock, List.length,
    List.append_nil, List.append_assoc]
  rfl

theorem timeFormatRFC3339_example_utc :
    timeFormatRFC3339 (fun _ => 0) 1700000000000000000 = utf8 "2023-11-14T22:13:20Z" := by
  decide


theorem contains_append_left {a x : Bytes} (b : Bytes) (h : stringsContains a x = true) :
    stringsContains (a ++ b) x = true := by
  rw [contains_iff] at h ⊢
  exact h.trans (List.infix_append' [] a b)

theorem contains_append_right {b x : Bytes} (a : Bytes) (h : stringsContains b x = true) :
    stringsContains (a ++ b) x = true := by
  rw [contains_iff] at h ⊢
  exact h.trans (List.suffix_append a b).isInfix

/-- C1: for every trace-search result with at least one trace,
`formatTempoResults` returns the header `Found N traces:` and a blank line,
followed by one block per trace in input order (blocks separated by a blank
line); the block of the i-th trace is `Trace i:`, the trace id, service and
name lines, a `Start Time:` line exactly when the stored start time parses as a
base-10 signed 64-bit integer (an empty one does not), the duration line, and
an attributes block only when the trace has attributes.  For the example
record of the specification the text holds `TraceID: abc123`, `Service: svc`,
`Duration: 42 ms` and a `Start Time:` line with the RFC 3339 time stamp. -/
theorem formatTempoResults_trace_list (zoneOffset : Int → Int) (result : TempoResult)
    (h : 1 ≤ result.Traces.length) :
    formatTempoResults zoneOffset result = .ok (traceListText zoneOffset result.Traces)
    ∧ (∀ n trace, traceBlock zoneOffset n trace
        = utf8 "Trace " ++ fmtInt n ++ utf8 ":\n"
          ++ utf8 "  TraceID: " ++ trace.TraceID ++ utf8 "\n"
          ++ utf8 "  Service: " ++ trace.RootServiceName ++ utf8 "\n"
          ++ utf8 "  Name: " ++ trace.RootTraceName ++ utf8 "\n"
          ++ (if trace.StartTimeUnixNano ≠ [] ∧ (strconvParseInt trace.StartTimeUnixNano).isSome
              then utf8 "  Start Time: "
                ++ timeFormatRFC3339 zoneOffset ((strconvParseInt trace.StartTimeUnixNano).getD 0)
                ++ utf8 "\n"
              else [])
          ++ utf8 "  Duration: " ++ fmtInt trace.DurationMs ++ utf8 " ms\n"
          ++ (if trace.Attributes = [] then [] else
                utf8 "  Attributes:\n" ++ (trace.Attributes.map (fun kv =>
                  utf8 "    " ++ kv.1 ++ utf8 ": " ++ kv.2 ++ utf8 "\n")).flatten))
    ∧ (∃ text, formatTempoResults zoneOffset exampleResult = .ok text
        ∧ stringsContains text (utf8 "TraceID: abc123") = true
        ∧ stringsContains text (utf8 "Service: svc") = true
        ∧ stringsContains text (utf8 "Duration: 42 ms") = true
        ∧ stringsContains text (utf8 "  Start Time: "
            ++ timeFormatRFC3339 zoneOffset 1700000000000000000 ++ utf8 "\n") = true) := by
  refine ⟨formatTempoResults_eq zoneOffset result ?_, ?_, ?_⟩
  · intro h0; rw [h0] at h; simp at h
  · intro n trace
    have hs : startTimeLine zoneOffset trace.StartTimeUnixNano
        = (if trace.StartTimeUnixNano ≠ [] ∧ (strconvParseInt trace.StartTimeUnixNano).isSome
            then utf8 "  Start Time: "
              ++ timeFormatRFC3339 zoneOffset ((strconvParseInt trace.StartTimeUnixNano).getD 0)
              ++ utf8 "\n"
            else []) := by
      by_cases hs : trace.StartTimeUnixNano = []
      · simp [hs, startTimeLine, strconvParseInt_nil]
      · cases hp : strconvParseInt trace.StartTimeUnixNano <;> simp [startTimeLine, hp, hs]
    have ha : attributesBlock trace.Attributes
        = (if trace.Attributes = [] then [] else
            utf8 "  Attributes:\n" ++ (trace.Attributes.map (fun kv =>
              utf8 "    " ++ kv.1 ++ utf8 ": " ++ kv.2 ++ utf8 "\n")).flatten) := by
      cases trace.Attributes <;> simp [attributesBlock]
    rw [traceBlock, hs, ha]
  · refine ⟨_, formatTempoResults_eq zoneOffset exampleResult (by simp [exampleResult]), ?_⟩
    rw [traceListText_example]
    refine ⟨?_, ?_, ?_, ?_⟩
    · exact contains_append_left _ (contains_append_left _ (by decide))
    · exact contains_append_left _ (contains_append_left _ (by decide))
    · exact contains_append_right _ (by decide)
    · rw [contains_iff]
      refine ⟨utf8 "Found 1 traces:\n\nTrace 1:\n  TraceID: abc123\n  Service: svc\n  Name: op\n",
        utf8 "  Duration: 42 ms\n", ?_⟩
      simp only [List.append_assoc]
      rfl

/-- Witness of C1: the example record of the specification, rendered in UTC. -/
theorem formatTempoResults_trace_list_witness :
    1 ≤ exampleResult.Traces.length
    ∧ formatTempoResults (fun _ => 0) exampleResult
        = .ok (traceListText (fun _ => 0) exampleResult.Traces)
    ∧ traceListText (fun _ => 0) exampleResult.Traces
        = utf8 "Found 1 traces:\n\nTrace 1:\n  TraceID: abc123\n  Service: svc\n  Name: op\n  Start Time: 2023-11-14T22:13:20Z\n  Duration: 42 ms\n" :=
  ⟨by decide, (formatTempoResults_trace_list (fun _ => 0) exampleResult (by decide)).1, by decide⟩


/-! ## The backend client -/

/-- The request built by each backend call before `client.Do`: the new request
with the authentication branch applied is the expected request. -/
theorem selected_request (u : URL) (username password token : Bytes) :
    (if token ≠ [] then
        { Method := utf8 "GET", URL := { u with Host := stringsTrimSuffix u.Host (utf8 ":") },
          Header := headerAdd [] (utf8 "Authorization") (utf8 "Bearer " ++ token) }
      else if username ≠ [] ∨ password ≠ [] then
        Request.SetBasicAuth
          { Method := utf8 "GET", URL := { u with Host := stringsTrimSuffix u.Host (utf8 ":") } }
          username password
      else
        { Method := utf8 "GET", URL := { u with Host := stringsTrimSuffix u.Host (utf8 ":") } })
      = expectedRequest u username password token := by
  unfold expectedRequest selectedAuthorization
  by_cases ht : token = []
  · by_cases hu : username ≠ [] ∨ password ≠ []
    · simp [ht, hu, Request.SetBasicAuth, headerSet]
    · simp [ht, hu]
  · simp [ht, headerAdd]

theorem executeTempoSearch_sent (lib : URLLib) (json : JSONLib) (net : Net)
    (url username password token : Bytes) (u : URL) (hparse : lib.urlParse url = .ok u) :
    (executeTempoSearch lib json net url username password token).2.sent
      = net.sent ++ [expectedRequest u username password token] := by
  simp only [executeTempoSearch, httpNewRequest, hparse, clientDo]
  rw [selected_request]
  repeat' split
  all_goals rfl


theorem executeTempoTraceQuery_sent (lib : URLLib) (json : JSONLib) (net : Net)
    (url username password token : Bytes) (u : URL) (hparse : lib.urlParse url = .ok u) :
    (executeTempoTraceQuery lib json net url username password token).2.sent
      = net.sent ++ [expectedRequest u username password token] := by
  simp only [executeTempoTraceQuery, httpNewRequest, hparse, clientDo]
  rw [selected_request]
  repeat' split
  all_goals rfl

theorem executeTempoTagsQuery_sent (lib : URLLib) (json : JSONLib) (net : Net)
    (url username password token : Bytes) (u : URL) (hparse : lib.urlParse url = .ok u) :
    (executeTempoTagsQuery lib json net url username password token).2.sent
      = net.sent ++ [expectedRequest u username password token] := by
  simp only [executeTempoTagsQuery, httpNewRequest, hparse, clientDo]
  rw [selected_request]
  repeat' split
  all_goals rfl

theorem executeTempoTagValuesQuery_sent (lib : URLLib) (json : JSONLib) (net : Net)
    (url username password token : Bytes) (u : URL) (hparse : lib.urlParse url = .ok u) :
    (executeTempoTagValuesQuery lib json net url username password token).2.sent
      = net.sent ++ [expectedRequest u username password token] := by
  simp only [executeTempoTagValuesQuery, httpNewRequest, hparse, clientDo]
  rw [selected_request]
  repeat' split
  all_goals rfl

/-- The result of `executeTempoSearch` once the response has arrived with
status 200 and a readable body. -/
theorem executeTempoSearch_ok_status (lib : URLLib) (json : JSONLib) (net : Net)
    (url username password token : Bytes) (u : URL) (resp : Response) (body : Bytes)
    (hparse : lib.urlParse url = .ok u)
    (hrt : net.roundTrip (expectedRequest u username password token) = .ok resp)
    (hbody : resp.Body = .ok body) (hstatus : resp.StatusCode = 200) :
    (executeTempoSearch lib json net url username password token).1
      = match (match json.unmarshalTempoResult (cleanTempoResponse body) with
          | .ok result => (Except.ok result : Except GoError TempoResult)
          | .error err =>
            match json.unmarshalObject (cleanTempoResponse body) with
            | .error _ => .error err
            | .ok genericResult => .ok (convertGenericResult genericResult)) with
        | .error err => .error err
        | .ok result =>
          if result.ErrorStatus ≠ [] then .error (utf8 "Tempo error: " ++ result.ErrorStatus)
          else .ok result := by
  simp only [executeTempoSearch, httpNewRequest, hparse, clientDo]
  rw [selected_request]
  simp only [hrt, hbody, hstatus, ne_eq, not_true_eq_false, if_false]
  repeat' split
  all_goals simp_all

theorem executeTempoTagsQuery_ok_status (lib : URLLib) (json : JSONLib) (net : Net)
    (url username password token : Bytes) (u : URL) (resp : Response) (body : Bytes)
    (hparse : lib.urlParse url = .ok u)
    (hrt : net.roundTrip (expectedRequest u username password token) = .ok resp)
    (hbody : resp.Body = .ok body) (hstatus : resp.StatusCode = 200) :
    (executeTempoTagsQuery lib json net url username password token).1
      = match json.unmarshalTagsResult body with
        | .error err => .error err
        | .ok result =>
          if result.ErrorStatus ≠ [] then .error (utf8 "Tempo error: " ++ result.ErrorStatus)
          else .ok result := by
  simp only [executeTempoTagsQuery, httpNewRequest, hparse, clientDo]
  rw [selected_request]
  simp only [hrt, hbody, hstatus, ne_eq, not_true_eq_false, if_false]
  repeat' split
  all_goals simp_all

theorem executeTempoTagValuesQuery_ok_status (lib : URLLib) (json : JSONLib) (net : Net)
    (url username password token : Bytes) (u : URL) (resp : Response) (body : Bytes)
    (hparse : lib.urlParse url = .ok u)
    (hrt : net.roundTrip (expectedRequest u username password token) = .ok resp)
    (hbody : resp.Body = .ok body) (hstatus : resp.StatusCode = 200) :
    (executeTempoTagValuesQuery lib json net url username password token).1
      = match json.unmarshalTagValuesResult body with
        | .error err => .error err
        | .ok result =>
          if result.ErrorStatus ≠ [] then .error (utf8 "Tempo error: " ++ result.ErrorStatus)
          else .ok result := by
  simp only [executeTempoTagValuesQuery, httpNewRequest, hparse, clientDo]
  rw [selected_request]
  simp only [hrt, hbody, hstatus, ne_eq, not_true_eq_false, if_false]
  repeat' split
  all_goals simp_all

/-- The error check that ends the three normalisers: the call fails with
`Tempo error: <message>` exactly when the error field is not empty, and
returns the record otherwise. -/
theorem error_check_iff {ρ : Type} (r : ρ) (errorStatus : Bytes) (out : Except GoError ρ)
    (h : out = if errorStatus ≠ [] then .error (utf8 "Tempo error: " ++ errorStatus) else .ok r) :
    (out = .error (utf8 "Tempo error: " ++ errorStatus) ↔ errorStatus ≠ [])
    ∧ (errorStatus = [] → out = .ok r) := by
  subst h
  by_cases he : errorStatus = []
  · simp [he]
  · simp [he]


/-- A string field read from a decoded object, as the type assertion on a map
index and as a match on the lookup. -/
theorem mapIndex_string (traceMap : List (Bytes × JsonValue)) (key : Bytes) :
    (match traceMap.lookup key with
      | some (.string s) => s
      | _ => ([] : Bytes)) = ((mapIndex traceMap key).asString).getD [] := by
  unfold mapIndex
  cases List.lookup key traceMap with
  | none => rfl
  | some v => cases v <;> rfl

theorem mapIndex_number (traceMap : List (Bytes × JsonValue)) (key : Bytes) :
    (match traceMap.lookup key with
      | some (.number f) => float64ToInt64 f
      | _ => (0 : Int)) = (((mapIndex traceMap key).asFloat64).map float64ToInt64).getD 0 := by
  unfold mapIndex
  cases List.lookup key traceMap with
  | none => rfl
  | some v => cases v <;> rfl

theorem convertTraceMap_eq (traceMap : List (Bytes × JsonValue)) :
    projectTrace (.object traceMap) = some (convertTraceMap traceMap) := by
  simp only [projectTrace, convertTraceMap, mapIndex_string, mapIndex_number]
  cases (mapIndex traceMap (utf8 "traceID")).asString <;>
  cases (mapIndex traceMap (utf8 "rootServiceName")).asString <;>
  cases (mapIndex traceMap (utf8 "rootTraceName")).asString <;>
  cases (mapIndex traceMap (utf8 "startTimeUnixNano")).asString <;>
  cases (mapIndex traceMap (utf8 "durationMs")).asFloat64 <;> rfl

/-- The loop of the fallback block appends the projections of the entries
that are JSON objects, in order, and touches nothing else. -/
theorem convert_loop_eq (tracesArr : List JsonValue) (init : TempoResult) :
    tracesArr.foldl (fun (convertedResult : TempoResult) traceRaw =>
        match traceRaw.asObject with
        | some traceMap =>
          let trace := convertTraceMap traceMap
          { convertedResult with Traces := convertedResult.Traces ++ [trace] }
        | none => convertedResult) init
      = { init with Traces := init.Traces ++ tracesArr.filterMap projectTrace } := by
  induction tracesArr generalizing init with
  | nil => simp
  | cons v rest ih =>
    rw [List.foldl_cons, ih]
    cases v with
    | object traceMap =>
      simp only [List.filterMap_cons, convertTraceMap_eq, List.append_assoc,
        List.singleton_append, JsonValue.asObject]
    | _ => simp [projectTrace, JsonValue.asObject]

/-- The record of the fallback block: its traces are the projections of the
entries of a `traces` array (none when `traces` is missing or not an array),
its error field is the top-level `error` string. -/
theorem convertGenericResult_eq (g : List (Bytes × JsonValue)) :
    (convertGenericResult g).Traces
        = (match g.lookup (utf8 "traces") with
          | some (.array arr) => arr.filterMap projectTrace
          | _ => [])
    ∧ (convertGenericResult g).ErrorStatus = errorField g
    ∧ (convertGenericResult g).Metrics = .null := by
  have herr : ∀ r : TempoResult, r.ErrorStatus = [] → r.Metrics = .null →
      ((match (mapIndex g (utf8 "error")).asString with
        | some errStatus => { r with ErrorStatus := errStatus }
        | none => r).Traces = r.Traces)
      ∧ (match (mapIndex g (utf8 "error")).asString with
        | some errStatus => { r with ErrorStatus := errStatus }
        | none => r).ErrorStatus = errorField g
      ∧ (match (mapIndex g (utf8 "error")).asString with
        | some errStatus => { r with ErrorStatus := errStatus }
        | none => r).Metrics = .null := by
    intro r hr hm
    unfold mapIndex errorField
    cases List.lookup (utf8 "error") g with
    | none => exact ⟨rfl, hr, hm⟩
    | some v => cases v <;> first | exact ⟨rfl, hr, hm⟩ | exact ⟨rfl, rfl, hm⟩
  unfold convertGenericResult
  cases ht : List.lookup (utf8 "traces") g with
  | none => exact herr {} rfl rfl
  | some v =>
    cases v with
    | array arr =>
      simp only [convert_loop_eq, JsonValue.asArray]
      exact herr { Traces := ([] : List TempoTrace) ++ arr.filterMap projectTrace } rfl rfl
    | _ => exact herr {} rfl rfl

/-- C2: when the strict parse of a trace-search body fails and the body
decodes as a generic JSON object whose `traces` field is an array, the fallback
record holds one trace summary per array element that is a JSON object, in
input order; a summary has the trace id, root service name, root trace name and
start time of the entry where these are JSON strings, the (truncated) duration
where it is a JSON number, and the empty string or zero otherwise.  The call
returns that record unless the top-level error field is a non-empty string.  An
entry whose `durationMs` is a string is kept, with its trace id and duration
0, next to the well-typed entries; an element that is no object is dropped. -/
theorem fallback_projection (lib : URLLib) (json : JSONLib) (net : Net)
    (url username password token : Bytes) (u : URL) (resp : Response) (body : Bytes)
    (e : GoError) (g : List (Bytes × JsonValue)) (arr : List JsonValue)
    (hparse : lib.urlParse url = .ok u)
    (hrt : net.roundTrip (expectedRequest u username password token) = .ok resp)
    (hbody : resp.Body = .ok body) (hstatus : resp.StatusCode = 200)
    (hstrict : json.unmarshalTempoResult (cleanTempoResponse body) = .error e)
    (hgeneric : json.unmarshalObject (cleanTempoResponse body) = .ok g)
    (harr : g.lookup (utf8 "traces") = some (.array arr)) :
    (convertGenericResult g).Traces = arr.filterMap projectTrace
    ∧ (errorField g = [] →
        (executeTempoSearch lib json net url username password token).1
          = .ok { Traces := arr.filterMap projectTrace, Metrics := .null, ErrorStatus := [] })
    ∧ [JsonValue.object [(utf8 "traceID", .string (utf8 "t1")),
                         (utf8 "durationMs", .string (utf8 "12"))],
       JsonValue.string (utf8 "junk"),
       JsonValue.object [(utf8 "traceID", .string (utf8 "t2")),
                         (utf8 "rootServiceName", .string (utf8 "svc")),
                         (utf8 "durationMs", .number 42)]].filterMap projectTrace
        = [{ TraceID := utf8 "t1", DurationMs := 0 },
           { TraceID := utf8 "t2", RootServiceName := utf8 "svc", DurationMs := 42 }] := by
  have htr : (convertGenericResult g).Traces = arr.filterMap projectTrace := by
    rw [(convertGenericResult_eq g).1, harr]
  refine ⟨htr, ?_, ?_⟩
  · intro herr
    rw [executeTempoSearch_ok_status lib json net url username password token u resp body
      hparse hrt hbody hstatus, hstrict, hgeneric]
    have hE := (convertGenericResult_eq g).2.1
    have hM := (convertGenericResult_eq g).2.2
    rw [herr] at hE
    simp only [hE, ne_eq, not_true_eq_false, if_false]
    congr 1
    rw [← htr, ← hE, ← hM]
  · rfl

/-- C6: on a response with status 200, `executeTempoSearch` fails with
`Tempo error: <message>` and returns no record exactly when the error field of
the normalised record is not empty, and returns the record otherwise; this
holds for the record of the strict parse and for the record of the fallback
projection (whose error field is the top-level `error` of the generic result
when that is a string).  `executeTempoTagsQuery` and
`executeTempoTagValuesQuery` do the same on their records. -/
theorem tempo_error_iff_error_field (lib : URLLib) (json : JSONLib) (net : Net)
    (url username password token : Bytes) (u : URL) (resp : Response) (body : Bytes)
    (hparse : lib.urlParse url = .ok u)
    (hrt : net.roundTrip (expectedRequest u username password token) = .ok resp)
    (hbody : resp.Body = .ok body) (hstatus : resp.StatusCode = 200) :
    (∀ r, json.unmarshalTempoResult (cleanTempoResponse body) = .ok r →
      ((executeTempoSearch lib json net url username password token).1
          = .error (utf8 "Tempo error: " ++ r.ErrorStatus) ↔ r.ErrorStatus ≠ [])
      ∧ (r.ErrorStatus = [] →
          (executeTempoSearch lib json net url username password token).1 = .ok r))
    ∧ (∀ e g, json.unmarshalTempoResult (cleanTempoResponse body) = .error e →
        json.unmarshalObject (cleanTempoResponse body) = .ok g →
        (convertGenericResult g).ErrorStatus = errorField g
        ∧ ((executeTempoSearch lib json net url username password token).1
            = .error (utf8 "Tempo error: " ++ errorField g) ↔ errorField g ≠ [])
        ∧ (errorField g = [] →
            (executeTempoSearch lib json net url username password token).1
              = .ok (convertGenericResult g)))
    ∧ (∀ r, json.unmarshalTagsResult body = .ok r →
        ((executeTempoTagsQuery lib json net url username password token).1
            = .error (utf8 "Tempo error: " ++ r.ErrorStatus) ↔ r.ErrorStatus ≠ [])
        ∧ (r.ErrorStatus = [] →
            (executeTempoTagsQuery lib json net url username password token).1 = .ok r))
    ∧ (∀ r, json.unmarshalTagValuesResult body = .ok r →
        ((executeTempoTagValuesQuery lib json net url username password token).1
            = .error (utf8 "Tempo error: " ++ r.ErrorStatus) ↔ r.ErrorStatus ≠ [])
        ∧ (r.ErrorStatus = [] →
            (executeTempoTagValuesQuery lib json net url username password token).1 = .ok r)) := by
  refine ⟨?_, ?_, ?_, ?_⟩
  · intro r hr
    apply error_check_iff
    rw [executeTempoSearch_ok_status lib json net url username password token u resp body
      hparse hrt hbody hstatus, hr]
  · intro e g he hg
    have hfield : (convertGenericResult g).ErrorStatus = errorField g :=
      (convertGenericResult_eq g).2.1
    refine ⟨hfield, ?_⟩
    rw [← hfield]
    apply error_check_iff
    rw [executeTempoSearch_ok_status lib json net url username password token u resp body
      hparse hrt hbody hstatus, he, hg]
  · intro r hr
    apply error_check_iff
    rw [executeTempoTagsQuery_ok_status lib json net url username password token u resp body
      hparse hrt hbody hstatus, hr]
  · intro r hr
    apply error_check_iff
    rw [executeTempoTagValuesQuery_ok_status lib json net url username password token u resp
      body hparse hrt hbody hstatus, hr]

/-- C7: on a response whose status is not 200, whatever the body and whatever
the JSON decoders would make of it, each of the four backend calls returns no
record and fails with `HTTP error: <status> - <raw body>`. -/
theorem http_error_on_non_200 (lib : URLLib) (json : JSONLib) (net : Net)
    (url username password token : Bytes) (u : URL) (resp : Response) (body : Bytes)
    (hparse : lib.urlParse url = .ok u)
    (hrt : net.roundTrip (expectedRequest u username password token) = .ok resp)
    (hbody : resp.Body = .ok body) (hstatus : resp.StatusCode ≠ 200) :
    (executeTempoSearch lib json net url username password token).1
        = .error (utf8 "HTTP error: " ++ fmtInt resp.StatusCode ++ utf8 " - " ++ body)
    ∧ (executeTempoTraceQuery lib json net url username password token).1
        = .error (utf8 "HTTP error: " ++ fmtInt resp.StatusCode ++ utf8 " - " ++ body)
    ∧ (executeTempoTagsQuery lib json net url username password token).1
        = .error (utf8 "HTTP error: " ++ fmtInt resp.StatusCode ++ utf8 " - " ++ body)
    ∧ (executeTempoTagValuesQuery lib json net url username password token).1
        = .error (utf8 "HTTP error: " ++ fmtInt resp.StatusCode ++ utf8 " - " ++ body) := by
  refine ⟨?_, ?_, ?_, ?_⟩
  · simp only [executeTempoSearch, httpNewRequest, hparse, clientDo]
    rw [selected_request]
    simp only [hrt, hbody, hstatus, ne_eq, not_false_eq_true, if_true]
  · simp only [executeTempoTraceQuery, httpNewRequest, hparse, clientDo]
    rw [selected_request]
    simp only [hrt, hbody, hstatus, ne_eq, not_false_eq_true, if_true]
  · simp only [executeTempoTagsQuery, httpNewRequest, hparse, clientDo]
    rw [selected_request]
    simp only [hrt, hbody, hstatus, ne_eq, not_false_eq_true, if_true]
  · simp only [executeTempoTagValuesQuery, httpNewRequest, hparse, clientDo]
    rw [selected_request]
    simp only [hrt, hbody, hstatus, ne_eq, not_false_eq_true, if_true]

/-- C8: each of the four backend calls hands exactly one request to the
client, a GET whose headers are selected from (token, username, password): with
a non-empty token the only header is `Authorization: Bearer <token>`, also when
a user name and password are set; with an empty token and a user name or
password set the only header is the basic-auth `Authorization` header; with all
three empty there is no header at all. -/
theorem authentication_selection (lib : URLLib) (json : JSONLib) (net : Net)
    (url username password token : Bytes) (u : URL) (hparse : lib.urlParse url = .ok u) :
    ((executeTempoSearch lib json net url username password token).2.sent
        = net.sent ++ [expectedRequest u username password token]
      ∧ (executeTempoTraceQuery lib json net url username password token).2.sent
        = net.sent ++ [expectedRequest u username password token]
      ∧ (executeTempoTagsQuery lib json net url username password token).2.sent
        = net.sent ++ [expectedRequest u username password token]
      ∧ (executeTempoTagValuesQuery lib json net url username password token).2.sent
        = net.sent ++ [expectedRequest u username password token])
    ∧ (expectedRequest u username password token).Method = utf8 "GET"
    ∧ (token ≠ [] → (expectedRequest u username password token).Header
        = [(utf8 "Authorization", [utf8 "Bearer " ++ token])])
    ∧ (token = [] → username ≠ [] ∨ password ≠ [] →
        (expectedRequest u username password token).Header
          = [(utf8 "Authorization",
              [utf8 "Basic " ++ base64StdEncode (username ++ utf8 ":" ++ password)])])
    ∧ (token = [] → username = [] → password = [] →
        (expectedRequest u username password token).Header = []) := by
  refine ⟨⟨executeTempoSearch_sent lib json net url username password token u hparse,
    executeTempoTraceQuery_sent lib json net url username password token u hparse,
    executeTempoTagsQuery_sent lib json net url username password token u hparse,
    executeTempoTagValuesQuery_sent lib json net url username password token u hparse⟩,
    rfl, ?_, ?_, ?_⟩
  · intro ht
    simp [expectedRequest, selectedAuthorization, ht]
  · intro ht hu
    simp [expectedRequest, selectedAuthorization, ht, hu]
  · intro ht hu hp
    simp [expectedRequest, selectedAuthorization, ht, hu, hp]


/-! ## Query strings: escaping -/

theorem uint8_ofNat_toNat (c : UInt8) : UInt8.ofNat c.toNat = c :=
  UInt8.ext_iff.mpr (UInt8.toNat_ofNat_of_lt (UInt8.toNat_lt_size c))

theorem upperhex_spec : ∀ n, n < 16 →
    ishex (upperhex n) = true ∧ unhex (upperhex n) = n
    ∧ upperhex n ≠ 38 ∧ upperhex n ≠ 61 ∧ upperhex n ≠ 59 := by
  decide

theorem queryUnreserved_ne {c : UInt8} (h : queryUnreserved c = true) :
    c ≠ 38 ∧ c ≠ 61 ∧ c ≠ 59 ∧ c ≠ 37 ∧ c ≠ 43 := by
  refine ⟨?_, ?_, ?_, ?_, ?_⟩ <;> (rintro rfl; revert h; decide)

/-- An escaped query component holds none of `&`, `=` and `;`. -/
theorem queryEscape_no_special (s : Bytes) :
    ∀ b ∈ queryEscape s, b ≠ 38 ∧ b ≠ 61 ∧ b ≠ 59 := by
  induction s with
  | nil => simp [queryEscape]
  | cons c rest ih =>
    intro b hb
    unfold queryEscape at hb
    split at hb
    · rcases List.mem_cons.1 hb with rfl | hb
      · decide
      · exact ih b hb
    · split at hb
      · rename_i hu
        rcases List.mem_cons.1 hb with rfl | hb
        · exact ⟨(queryUnreserved_ne hu).1, (queryUnreserved_ne hu).2.1,
            (queryUnreserved_ne hu).2.2.1⟩
        · exact ih b hb
      · have h1 := upperhex_spec (c.toNat / 16)
          (by have := UInt8.toNat_lt_size c; simp [UInt8.size] at this; omega)
        have h2 := upperhex_spec (c.toNat % 16) (Nat.mod_lt _ (by decide))
        rcases List.mem_cons.1 hb with rfl | hb
        · decide
        · rcases List.mem_cons.1 hb with rfl | hb
          · exact h1.2.2
          · rcases List.mem_cons.1 hb with rfl | hb
            · exact h2.2.2
            · exact ih b hb

theorem queryUnescape_plus (rest : Bytes) :
    queryUnescape (43 :: rest) = (queryUnescape rest).map (fun t => 32 :: t) := by
  cases rest with
  | nil => simp [queryUnescape]
  | cons a r => cases r <;> simp [queryUnescape]

theorem queryUnescape_plain (c : UInt8) (rest : Bytes) (h1 : c ≠ 37) (h2 : c ≠ 43) :
    queryUnescape (c :: rest) = (queryUnescape rest).map (fun t => c :: t) := by
  cases rest with
  | nil => simp [queryUnescape, h1, h2]
  | cons a r => cases r <;> simp [queryUnescape, h1, h2]

theorem queryUnescape_percent (a b : UInt8) (rest : Bytes) (ha : ishex a = true)
    (hb : ishex b = true) :
    queryUnescape (37 :: a :: b :: rest)
      = (queryUnescape rest).map (fun t => UInt8.ofNat (unhex a * 16 + unhex b) :: t) := by
  simp [queryUnescape, ha, hb]

/-- Unescaping inverts escaping: `url.QueryUnescape` after `url.QueryEscape`. -/
theorem queryUnescape_queryEscape (s : Bytes) : queryUnescape (queryEscape s) = some s := by
  induction s with
  | nil => rfl
  | cons c rest ih =>
    unfold queryEscape
    split
    · rename_i hc
      subst hc
      rw [queryUnescape_plus, ih]
      rfl
    · split
      · rename_i hu
        rw [queryUnescape_plain _ _ (queryUnreserved_ne hu).2.2.2.1
          (queryUnreserved_ne hu).2.2.2.2, ih]
        rfl
      · have h1 := upperhex_spec (c.toNat / 16)
          (by have := UInt8.toNat_lt_size c; simp [UInt8.size] at this; omega)
        have h2 := upperhex_spec (c.toNat % 16) (Nat.mod_lt _ (by decide))
        rw [queryUnescape_percent _ _ _ h1.1 h2.1, ih, h1.2.1, h2.2.1,
          Nat.div_add_mod' c.toNat 16, uint8_ofNat_toNat]
        rfl

theorem stringsCut_append (sep : UInt8) (a b : Bytes) (h : sep ∉ a) :
    stringsCut sep (a ++ sep :: b) = (a, b) := by
  induction a with
  | nil => simp [stringsCut]
  | cons c rest ih =>
    have hc : c ≠ sep := fun e => h (e ▸ List.mem_cons_self _ _)
    have hr : sep ∉ rest := fun e => h (List.mem_cons_of_mem _ e)
    simp [stringsCut, hc, ih hr]

theorem not_contains_byte (s : Bytes) (b : UInt8) (h : b ∉ s) : stringsContains s [b] = false := by
  rw [Bool.eq_false_iff]
  intro hc
  rw [contains_iff] at hc
  exact h (hc.subset (List.mem_singleton_self b))


/-! ## Query strings: parsing what `Encode` wrote -/

theorem encode_eq (v : Values) :
    v.Encode = [38].intercalate
      (v.pairs.map (fun p => queryEscape p.1 ++ 61 :: queryEscape p.2)) := by
  have h38 : utf8 "&" = [38] := by decide
  have h61 : utf8 "=" = [61] := by decide
  simp only [Values.Encode, Values.pairs, h38, h61, List.map_flatMap, List.map_map]
  congr 1
  congr 1
  funext kv
  congr 1
  funext value
  simp

theorem parseQueryPiece_encoded (m : Values) (k x : Bytes) :
    parseQueryPiece m (queryEscape k ++ 61 :: queryEscape x) = m.Add k x := by
  have hsemi : stringsContains (queryEscape k ++ 61 :: queryEscape x) (utf8 ";") = false := by
    rw [show utf8 ";" = [59] from by decide]
    apply not_contains_byte
    intro hmem
    rcases List.mem_append.1 hmem with h | h
    · exact (queryEscape_no_special k _ h).2.2 rfl
    · rcases List.mem_cons.1 h with h | h
      · exact absurd h (by decide)
      · exact (queryEscape_no_special x _ h).2.2 rfl
  have hne : queryEscape k ++ 61 :: queryEscape x ≠ [] := by simp
  have hcut : stringsCut 61 (queryEscape k ++ 61 :: queryEscape x)
      = (queryEscape k, queryEscape x) :=
    stringsCut_append 61 _ _ (fun h => (queryEscape_no_special k _ h).2.1 rfl)
  simp only [parseQueryPiece, hsemi, Bool.false_eq_true, if_false, hne, hcut,
    queryUnescape_queryEscape]

theorem parseQuery_encode (v : Values) :
    parseQuery v.Encode = v.pairs.foldl (fun (m : Values) p => m.Add p.1 p.2) [] := by
  rw [encode_eq, parseQuery]
  cases hp : v.pairs with
  | nil => rfl
  | cons p ps =>
    rw [List.splitOn_intercalate _ 38 ?_ (by simp), List.foldl_map]
    · congr 1
      funext m q
      exact parseQueryPiece_encoded m q.1 q.2
    · intro l hl
      obtain ⟨q, _, rfl⟩ := List.mem_map.1 hl
      intro hmem
      rcases List.mem_append.1 hmem with h | h
      · exact (queryEscape_no_special q.1 _ h).1 rfl
      · rcases List.mem_cons.1 h with h | h
        · exact absurd h (by decide)
        · exact (queryEscape_no_special q.2 _ h).1 rfl

theorem has_update (key k : Bytes) (f : Option (List Bytes) → List Bytes) (v : Values) :
    (valuesUpdate k f v).Has key = (decide (k = key) || v.Has key) := by
  induction v with
  | nil => simp [valuesUpdate, Values.Has]
  | cons kv rest ih =>
    obtain ⟨k', vs⟩ := kv
    unfold valuesUpdate
    split
    · rename_i h
      subst h
      simp [Values.Has]
    · split
      · simp [Values.Has]
      · have ih' : (List.any (valuesUpdate k f rest) fun kv => decide (kv.1 = key))
            = (decide (k = key) || List.any rest fun kv => decide (kv.1 = key)) := ih
        simp only [Values.Has, List.any_cons, ih']
        cases decide (k' = key) <;> cases decide (k = key) <;> simp

theorem has_set (v : Values) (k x key : Bytes) :
    (v.Set k x).Has key = (decide (k = key) || v.Has key) :=
  has_update key k _ v

theorem has_foldl_add (pairs : List (Bytes × Bytes)) (m : Values) (key : Bytes)
    (h : (pairs.foldl (fun (m : Values) p => m.Add p.1 p.2) m).Has key = true) :
    m.Has key = true ∨ key ∈ pairs.map (fun p => p.1) := by
  induction pairs generalizing m with
  | nil => exact Or.inl h
  | cons p ps ih =>
    rcases ih _ h with h' | h'
    · unfold Values.Add at h'
      rw [has_update] at h'
      rcases Bool.or_eq_true _ _ ▸ h' with hk | hm
      · exact Or.inr (by simp [of_decide_eq_true hk])
      · exact Or.inl hm
    · exact Or.inr (List.mem_cons_of_mem _ h')

theorem has_of_mem_pairs (v : Values) (key : Bytes)
    (h : key ∈ v.pairs.map (fun p => p.1)) : v.Has key = true := by
  simp only [Values.pairs, List.mem_map, List.mem_flatMap] at h
  obtain ⟨p, ⟨kv, hkv, hp⟩, rfl⟩ := h
  obtain ⟨value, _, rfl⟩ := hp
  simp only [Values.Has, List.any_eq_true, decide_eq_true_eq]
  exact ⟨kv, hkv, rfl⟩

/-- Parsing an encoded map gives no key that the map does not have. -/
theorem has_parse_encode (v : Values) (key : Bytes)
    (h : (parseQuery v.Encode).Has key = true) : v.Has key = true := by
  rw [parseQuery_encode] at h
  rcases has_foldl_add _ _ _ h with h' | h'
  · simp [Values.Has] at h'
  · exact has_of_mem_pairs v key h'


/-! ## The URL builders: query keys -/

/-- The path rule of the search and tag-name builders leaves the query of the
base URL alone. -/
theorem rawQuery_path_rule (c₁ c₂ : Prop) [Decidable c₁] [Decidable c₂] (u : URL)
    (p₁ p₂ : Bytes) :
    (if c₁ then (if c₂ then { u with Path := p₁ } else { u with Path := p₂ }) else u).RawQuery
      = u.RawQuery := by
  split
  · split <;> rfl
  · rfl

theorem has_setOption (q : Values) (k key : Bytes) (o : Option Int)
    (h : (match o with
          | some x => q.Set k (fmtInt x)
          | none => q).Has key = true) :
    q.Has key = true ∨ (key = k ∧ o ≠ none) := by
  cases o with
  | none => exact Or.inl h
  | some x =>
    rw [has_set] at h
    rcases Bool.or_eq_true _ _ ▸ h with hk | hq
    · exact Or.inr ⟨(of_decide_eq_true hk).symm, by simp⟩
    · exact Or.inl hq

/-- A key of the query built by `buildTempoTraceURL` is a key of the base
URL's query or the key of a parameter that is present. -/
theorem tempoTraceURL_has (u : URL) (traceID : Bytes) (start end_ : Option Int) (key : Bytes)
    (h : (tempoTraceURL u traceID start end_).Query.Has key = true) :
    u.Query.Has key = true ∨ (key = utf8 "start" ∧ start ≠ none)
      ∨ (key = utf8 "end" ∧ end_ ≠ none) := by
  simp only [tempoTraceURL, URL.Query] at h
  have hEnd := has_setOption _ _ _ _ (has_parse_encode _ _ h)
  have hStart := fun hq => has_setOption (parseQuery u.RawQuery) (utf8 "start") key start hq
  tauto

/-- A key of the query built by `buildTempoTagsURL` is a key of the base URL's
query or the key of a parameter that is present. -/
theorem tempoTagsURL_has (u : URL) (scope : Bytes) (start end_ limit maxStaleValues : Option Int)
    (key : Bytes)
    (h : (tempoTagsURL u scope start end_ limit maxStaleValues).Query.Has key = true) :
    u.Query.Has key = true ∨ (key = utf8 "scope" ∧ scope ≠ [])
      ∨ (key = utf8 "start" ∧ start ≠ none) ∨ (key = utf8 "end" ∧ end_ ≠ none)
      ∨ (key = utf8 "limit" ∧ limit ≠ none)
      ∨ (key = utf8 "maxStaleValues" ∧ maxStaleValues ≠ none) := by
  simp only [tempoTagsURL, URL.Query, rawQuery_path_rule] at h
  have hScope : (if scope ≠ [] then (parseQuery u.RawQuery).Set (utf8 "scope") scope
        else parseQuery u.RawQuery).Has key = true →
      (parseQuery u.RawQuery).Has key = true ∨ (key = utf8 "scope" ∧ scope ≠ []) := by
    intro hq
    by_cases hs : scope = []
    · rw [if_neg (by simpa using hs)] at hq
      exact Or.inl hq
    · rw [if_pos hs, has_set] at hq
      rcases Bool.or_eq_true _ _ ▸ hq with hk | hq
      · exact Or.inr ⟨(of_decide_eq_true hk).symm, hs⟩
      · exact Or.inl hq
  have h5 := has_setOption _ _ _ _ (has_parse_encode _ _ h)
  rcases h5 with h4 | h5
  · rcases has_setOption _ _ _ _ h4 with h3 | h4
    · rcases has_setOption _ _ _ _ h3 with h2 | h3
      · rcases has_setOption _ _ _ _ h2 with h1 | h2
        · have := hScope h1
          tauto
        · tauto
      · tauto
    · tauto
  · tauto

/-- A key of the query built by `buildTempoTagValuesURL` is a key of the base
URL's query or the key of a parameter that is present. -/
theorem tempoTagValuesURL_has (u : URL) (tagName : Bytes)
    (start end_ limit maxStaleValues : Option Int) (key : Bytes)
    (h : (tempoTagValuesURL u tagName start end_ limit maxStaleValues).Query.Has key = true) :
    u.Query.Has key = true
      ∨ (key = utf8 "start" ∧ start ≠ none) ∨ (key = utf8 "end" ∧ end_ ≠ none)
      ∨ (key = utf8 "limit" ∧ limit ≠ none)
      ∨ (key = utf8 "maxStaleValues" ∧ maxStaleValues ≠ none) := by
  simp only [tempoTagValuesURL, URL.Query] at h
  have h4 := has_setOption _ _ _ _ (has_parse_encode _ _ h)
  rcases h4 with h3 | h4
  · rcases has_setOption _ _ _ _ h3 with h2 | h3
    · rcases has_setOption _ _ _ _ h2 with h1 | h2
      · have := has_setOption _ _ _ _ h1
        tauto
      · tauto
    · tauto
  · tauto

/-- C9 (as amended): for every base URL that parses, each builder with
optional parameters returns the printed form of a URL value whose query, once
parsed, has no key for an absent optional parameter (an empty scope, a nil
start, end, limit or maxStaleValues), provided the query of the base URL itself
has no such key. -/
theorem absent_parameters_omitted (lib : URLLib) (baseURL : Bytes) (u : URL)
    (traceID tagName scope : Bytes) (start end_ limit maxStaleValues : Option Int)
    (hparse : lib.urlParse baseURL = .ok u) :
    (buildTempoTraceURL lib baseURL traceID start end_
        = .ok (lib.urlString (tempoTraceURL u traceID start end_))
      ∧ (start = none → u.Query.Has (utf8 "start") = false →
          (tempoTraceURL u traceID start end_).Query.Has (utf8 "start") = false)
      ∧ (end_ = none → u.Query.Has (utf8 "end") = false →
          (tempoTraceURL u traceID start end_).Query.Has (utf8 "end") = false))
    ∧ (buildTempoTagsURL lib baseURL scope start end_ limit maxStaleValues
        = .ok (lib.urlString (tempoTagsURL u scope start end_ limit maxStaleValues))
      ∧ (scope = [] → u.Query.Has (utf8 "scope") = false →
          (tempoTagsURL u scope start end_ limit maxStaleValues).Query.Has (utf8 "scope") = false)
      ∧ (start = none → u.Query.Has (utf8 "start") = false →
          (tempoTagsURL u scope start end_ limit maxStaleValues).Query.Has (utf8 "start") = false)
      ∧ (end_ = none → u.Query.Has (utf8 "end") = false →
          (tempoTagsURL u scope start end_ limit maxStaleValues).Query.Has (utf8 "end") = false)
      ∧ (limit = none → u.Query.Has (utf8 "limit") = false →
          (tempoTagsURL u scope start end_ limit maxStaleValues).Query.Has (utf8 "limit") = false)
      ∧ (maxStaleValues = none → u.Query.Has (utf8 "maxStaleValues") = false →
          (tempoTagsURL u scope start end_ limit maxStaleValues).Query.Has
            (utf8 "maxStaleValues") = false))
    ∧ (buildTempoTagValuesURL lib baseURL tagName start end_ limit maxStaleValues
        = .ok (lib.urlString (tempoTagValuesURL u tagName start end_ limit maxStaleValues))
      ∧ (start = none → u.Query.Has (utf8 "start") = false →
          (tempoTagValuesURL u tagName start end_ limit maxStaleValues).Query.Has
            (utf8 "start") = false)
      ∧ (end_ = none → u.Query.Has (utf8 "end") = false →
          (tempoTagValuesURL u tagName start end_ limit maxStaleValues).Query.Has
            (utf8 "end") = false)
      ∧ (limit = none → u.Query.Has (utf8 "limit") = false →
          (tempoTagValuesURL u tagName start end_ limit maxStaleValues).Query.Has
            (utf8 "limit") = false)
      ∧ (maxStaleValues = none → u.Query.Has (utf8 "maxStaleValues") = false →
          (tempoTagValuesURL u tagName start end_ limit maxStaleValues).Query.Has
            (utf8 "maxStaleValues") = false)) := by
  refine ⟨⟨?_, ?_, ?_⟩, ⟨?_, ?_, ?_, ?_, ?_, ?_⟩, ⟨?_, ?_, ?_, ?_, ?_⟩⟩
  · simp only [buildTempoTraceURL, hparse]
  · intro ha hb
    rw [Bool.eq_false_iff]
    intro h
    rcases tempoTraceURL_has _ _ _ _ _ h with h0 | ⟨hk, hs⟩ | ⟨hk, hs⟩
    all_goals first
      | exact hs ha
      | (revert hk; decide)
      | exact Bool.false_ne_true (hb.symm.trans h0)
  · intro ha hb
    rw [Bool.eq_false_iff]
    intro h
    rcases tempoTraceURL_has _ _ _ _ _ h with h0 | ⟨hk, hs⟩ | ⟨hk, hs⟩
    all_goals first
      | exact hs ha
      | (revert hk; decide)
      | exact Bool.false_ne_true (hb.symm.trans h0)
  · simp only [buildTempoTagsURL, hparse]
  · intro ha hb
    rw [Bool.eq_false_iff]
    intro h
    rcases tempoTagsURL_has _ _ _ _ _ _ _ h with
      h0 | ⟨hk, hs⟩ | ⟨hk, hs⟩ | ⟨hk, hs⟩ | ⟨hk, hs⟩ | ⟨hk, hs⟩
    all_goals first
      | exact hs ha
      | (revert hk; decide)
      | exact Bool.false_ne_true (hb.symm.trans h0)
  · intro ha hb
    rw [Bool.eq_false_iff]
    intro h
    rcases tempoTagsURL_has _ _ _ _ _ _ _ h with
      h0 | ⟨hk, hs⟩ | ⟨hk, hs⟩ | ⟨hk, hs⟩ | ⟨hk, hs⟩ | ⟨hk, hs⟩
    all_goals first
      | exact hs ha
      | (revert hk; decide)
      | exact Bool.false_ne_true (hb.symm.trans h0)
  · intro ha hb
    rw [Bool.eq_false_iff]
    intro h
    rcases tempoTagsURL_has _ _ _ _ _ _ _ h with
      h0 | ⟨hk, hs⟩ | ⟨hk, hs⟩ | ⟨hk, hs⟩ | ⟨hk, hs⟩ | ⟨hk, hs⟩
    all_goals first
      | exact hs ha
      | (revert hk; decide)
      | exact Bool.false_ne_true (hb.symm.trans h0)
  · intro ha hb
    rw [Bool.eq_false_iff]
    intro h
    rcases tempoTagsURL_has _ _ _ _ _ _ _ h with
      h0 | ⟨hk, hs⟩ | ⟨hk, hs⟩ | ⟨hk, hs⟩ | ⟨hk, hs⟩ | ⟨hk, hs⟩
    all_goals first
      | exact hs ha
      | (revert hk; decide)
      | exact Bool.false_ne_true (hb.symm.trans h0)
  · intro ha hb
    rw [Bool.eq_false_iff]
    intro h
    rcases tempoTagsURL_has _ _ _ _ _ _ _ h with
      h0 | ⟨hk, hs⟩ | ⟨hk, hs⟩ | ⟨hk, hs⟩ | ⟨hk, hs⟩ | ⟨hk, hs⟩
    all_goals first
      | exact hs ha
      | (revert hk; decide)
      | exact Bool.false_ne_true (hb.symm.trans h0)
  · simp only [buildTempoTagValuesURL, hparse]
  · intro ha hb
    rw [Bool.eq_false_iff]
    intro h
    rcases tempoTagValuesURL_has _ _ _ _ _ _ _ h with
      h0 | ⟨hk, hs⟩ | ⟨hk, hs⟩ | ⟨hk, hs⟩ | ⟨hk, hs⟩
    all_goals first
      | exact hs ha
      | (revert hk; decide)
      | exact Bool.false_ne_true (hb.symm.trans h0)
  · intro ha hb
    rw [Bool.eq_false_iff]
    intro h
    rcases tempoTagValuesURL_has _ _ _ _ _ _ _ h with
      h0 | ⟨hk, hs⟩ | ⟨hk, hs⟩ | ⟨hk, hs⟩ | ⟨hk, hs⟩
    all_goals first
      | exact hs ha
      | (revert hk; decide)
      | exact Bool.false_ne_true (hb.symm.trans h0)
  · intro ha hb
    rw [Bool.eq_false_iff]
    intro h
    rcases tempoTagValuesURL_has _ _ _ _ _ _ _ h with
      h0 | ⟨hk, hs⟩ | ⟨hk, hs⟩ | ⟨hk, hs⟩ | ⟨hk, hs⟩
    all_goals first
      | exact hs ha
      | (revert hk; decide)
      | exact Bool.false_ne_true (hb.symm.trans h0)
  · intro ha hb
    rw [Bool.eq_false_iff]
    intro h
    rcases tempoTagValuesURL_has _ _ _ _ _ _ _ h with
      h0 | ⟨hk, hs⟩ | ⟨hk, hs⟩ | ⟨hk, hs⟩ | ⟨hk, hs⟩
    all_goals first
      | exact hs ha
      | (revert hk; decide)
      | exact Bool.false_ne_true (hb.symm.trans h0)

/-- Witness of C9: a base URL with a path and a foreign query key, all
optional parameters absent. -/
theorem absent_parameters_omitted_witness :
    plainURLLib.urlParse (utf8 "http://localhost:3200/tempo?org=1") = .ok prefixedBase
    ∧ buildTempoTagsURL plainURLLib (utf8 "http://localhost:3200/tempo?org=1") [] none none
          none none
        = .ok (utf8 "http://localhost:3200/tempo/api/search/tags?org=1")
    ∧ (tempoTagsURL prefixedBase [] none none none none).Query.Has (utf8 "limit") = false
    ∧ (tempoTraceURL prefixedBase (utf8 "abc") none none).Query.Has (utf8 "start") = false :=
  ⟨rfl, rfl,
    (absent_parameters_omitted plainURLLib (utf8 "http://localhost:3200/tempo?org=1")
      prefixedBase (utf8 "abc") (utf8 "service.name") [] none none none none
      rfl).2.1.2.2.2.2.1 rfl (by decide),
    (absent_parameters_omitted plainURLLib (utf8 "http://localhost:3200/tempo?org=1")
      prefixedBase (utf8 "abc") (utf8 "service.name") [] none none none none
      rfl).1.2.1 rfl (by decide)⟩

/-- Counterexample to C9 as stated: the base URL `http://localhost:3200?limit=5`
parses, `limit` is absent, and the URL built by `buildTempoTagsURL` still
carries the key `limit`, taken over from the base URL's query. -/
theorem absent_parameter_kept_from_base :
    plainURLLib.urlParse (utf8 "http://localhost:3200?limit=5") = .ok limitBase
    ∧ buildTempoTagsURL plainURLLib (utf8 "http://localhost:3200?limit=5") [] none none none none
        = .ok (utf8 "http://localhost:3200/api/search/tags?limit=5")
    ∧ (tempoTagsURL limitBase [] none none none none).Query.Has (utf8 "limit") = true :=
  ⟨rfl, rfl, by decide⟩

/-! ## Query strings: the order of keys -/

theorem bytesLt_irrefl (a : Bytes) : bytesLt a a = false := by
  induction a with
  | nil => rfl
  | cons c rest ih => simp [bytesLt, ih]

theorem bytesLt_trans : ∀ (a b c : Bytes), bytesLt a b = true → bytesLt b c = true →
    bytesLt a c = true
  | [], [], _, h, _ => by simp [bytesLt] at h
  | [], _ :: _, [], _, h => by simp [bytesLt] at h
  | [], _ :: _, _ :: _, _, _ => rfl
  | _ :: _, [], _, h, _ => by simp [bytesLt] at h
  | _ :: _, _ :: _, [], _, h => by simp [bytesLt] at h
  | x :: xs, y :: ys, z :: zs, h₁, h₂ => by
    simp only [bytesLt, Bool.or_eq_true, decide_eq_true_eq, Bool.and_eq_true] at h₁ h₂ ⊢
    rcases h₁ with h₁ | ⟨e₁, t₁⟩
    · rcases h₂ with h₂ | ⟨e₂, _⟩
      · exact Or.inl (Nat.lt_trans h₁ h₂)
      · subst e₂; exact Or.inl h₁
    · subst e₁
      rcases h₂ with h₂ | ⟨e₂, t₂⟩
      · exact Or.inl h₂
      · exact Or.inr ⟨e₂, bytesLt_trans xs ys zs t₁ t₂⟩

theorem bytesLt_asymm (a b : Bytes) (h : bytesLt a b = true) : bytesLt b a = false := by
  rw [Bool.eq_false_iff]
  intro h'
  have := bytesLt_trans a b a h h'
  rw [bytesLt_irrefl] at this
  exact Bool.false_ne_true this

theorem bytesLt_total : ∀ (a b : Bytes), a ≠ b → bytesLt a b = true ∨ bytesLt b a = true
  | [], [], h => absurd rfl h
  | [], _ :: _, _ => Or.inl rfl
  | _ :: _, [], _ => Or.inr rfl
  | x :: xs, y :: ys, h => by
    simp only [bytesLt, Bool.or_eq_true, decide_eq_true_eq, Bool.and_eq_true]
    rcases Nat.lt_trichotomy x.toNat y.toNat with hlt | heq | hgt
    · exact Or.inl (Or.inl hlt)
    · have exy : x = y := UInt8.ext_iff.mpr heq
      subst exy
      have hne : xs ≠ ys := fun e => h (by rw [e])
      rcases bytesLt_total xs ys hne with t | t
      · exact Or.inl (Or.inr ⟨rfl, t⟩)
      · exact Or.inr (Or.inr ⟨rfl, t⟩)
    · exact Or.inr (Or.inl hgt)

theorem bytesLt_ne {a b : Bytes} (h : bytesLt a b = true) : a ≠ b := by
  rintro rfl
  rw [bytesLt_irrefl] at h
  exact Bool.false_ne_true h

theorem mem_valuesUpdate (k : Bytes) (f : Option (List Bytes) → List Bytes) (v : Values)
    (kv : Bytes × List Bytes) (h : kv ∈ valuesUpdate k f v) : kv.1 = k ∨ kv ∈ v := by
  induction v with
  | nil =>
    simp only [valuesUpdate, List.mem_singleton] at h
    exact Or.inl (by rw [h])
  | cons e rest ih =>
    obtain ⟨k', vs⟩ := e
    unfold valuesUpdate at h
    split at h
    · rename_i hk
      rcases List.mem_cons.1 h with h | h
      · exact Or.inl (by rw [h, hk])
      · exact Or.inr (List.mem_cons_of_mem _ h)
    · split at h
      · rcases List.mem_cons.1 h with h | h
        · exact Or.inl (by rw [h])
        · exact Or.inr h
      · rcases List.mem_cons.1 h with h | h
        · exact Or.inr (h ▸ List.mem_cons_self _ _)
        · rcases ih h with h | h
          · exact Or.inl h
          · exact Or.inr (List.mem_cons_of_mem _ h)

theorem mem_valuesUpdate_values (k : Bytes) (f : Option (List Bytes) → List Bytes)
    (hf : ∀ o, f o ≠ []) (v : Values) (hv : ∀ kv ∈ v, kv.2 ≠ [])
    (kv : Bytes × List Bytes) (h : kv ∈ valuesUpdate k f v) : kv.2 ≠ [] := by
  induction v with
  | nil =>
    simp only [valuesUpdate, List.mem_singleton] at h
    rw [h]; exact hf _
  | cons e rest ih =>
    obtain ⟨k', vs⟩ := e
    have hrest : ∀ kv ∈ rest, kv.2 ≠ [] := fun kv hkv => hv kv (List.mem_cons_of_mem _ hkv)
    unfold valuesUpdate at h
    split at h
    · rcases List.mem_cons.1 h with h | h
      · rw [h]; exact hf _
      · exact hrest kv h
    · split at h
      · rcases List.mem_cons.1 h with h | h
        · rw [h]; exact hf _
        · exact hv kv h
      · rcases List.mem_cons.1 h with h | h
        · exact hv kv (h ▸ List.mem_cons_self _ _)
        · exact ih hrest h

/-- A map update keeps the representation invariant. -/
theorem canonical_valuesUpdate (k : Bytes) (f : Option (List Bytes) → List Bytes)
    (hf : ∀ o, f o ≠ []) (v : Values) (hv : v.Canonical) : (valuesUpdate k f v).Canonical := by
  refine ⟨?_, fun kv h => mem_valuesUpdate_values k f hf v hv.2 kv h⟩
  have hp := hv.1
  clear hv
  induction v with
  | nil => simp [valuesUpdate]
  | cons e rest ih =>
    obtain ⟨k', vs⟩ := e
    rw [List.pairwise_cons] at hp
    unfold valuesUpdate
    split
    · exact List.pairwise_cons.2 ⟨hp.1, hp.2⟩
    · rename_i hne
      split
      · rename_i hlt
        refine List.pairwise_cons.2 ⟨?_, List.pairwise_cons.2 hp⟩
        intro b hb
        rcases List.mem_cons.1 hb with hb | hb
        · rw [hb]; exact hlt
        · exact bytesLt_trans _ _ _ hlt (hp.1 b hb)
      · rename_i hnlt
        refine List.pairwise_cons.2 ⟨?_, ih hp.2⟩
        intro b hb
        rcases mem_valuesUpdate k f rest b hb with hb | hb
        · rw [hb]
          rcases bytesLt_total k k' hne with t | t
          · exact absurd t hnlt
          · exact t
        · exact hp.1 b hb

theorem canonical_set (v : Values) (k x : Bytes) (hv : v.Canonical) : (v.Set k x).Canonical :=
  canonical_valuesUpdate k _ (fun _ => by simp) v hv

theorem canonical_add (v : Values) (k x : Bytes) (hv : v.Canonical) : (v.Add k x).Canonical :=
  canonical_valuesUpdate k _ (fun _ => by simp) v hv

theorem canonical_parseQueryPiece (m : Values) (piece : Bytes) (hm : m.Canonical) :
    (parseQueryPiece m piece).Canonical := by
  unfold parseQueryPiece
  split
  · exact hm
  · split
    · exact hm
    · simp only
      split
      · exact hm
      · split
        · exact hm
        · exact canonical_add _ _ _ hm

theorem canonical_parseQuery (query : Bytes) : (parseQuery query).Canonical := by
  unfold parseQuery
  have : ∀ (pieces : List Bytes) (m : Values), m.Canonical →
      (pieces.foldl parseQueryPiece m).Canonical := by
    intro pieces
    induction pieces with
    | nil => intro m hm; exact hm
    | cons p ps ih => intro m hm; exact ih _ (canonical_parseQueryPiece m p hm)
  exact this _ [] ⟨List.Pairwise.nil, by simp⟩


/-! ## Query strings: `ParseQuery` inverts `Encode` -/

/-- Updating a key above all keys of the map adds an entry at the end. -/
theorem valuesUpdate_above (k : Bytes) (f : Option (List Bytes) → List Bytes) (acc : Values)
    (h : ∀ kv ∈ acc, bytesLt kv.1 k = true) :
    valuesUpdate k f acc = acc ++ [(k, f none)] := by
  induction acc with
  | nil => rfl
  | cons e rest ih =>
    obtain ⟨k', vs⟩ := e
    have hk' : bytesLt k' k = true := h (k', vs) (List.mem_cons_self _ _)
    have hne : ¬ k = k' := fun e => bytesLt_ne hk' e.symm
    have hnlt : ¬ bytesLt k k' = true := by
      rw [bytesLt_asymm _ _ hk']; exact Bool.false_ne_true
    unfold valuesUpdate
    rw [if_neg hne, if_neg hnlt, ih (fun kv hkv => h kv (List.mem_cons_of_mem _ hkv))]
    rfl

/-- Updating the key of the entry that follows entries with smaller keys
changes that entry. -/
theorem valuesUpdate_at (k : Bytes) (f : Option (List Bytes) → List Bytes) (acc : Values)
    (ws : List Bytes) (rest : Values) (h : ∀ kv ∈ acc, bytesLt kv.1 k = true) :
    valuesUpdate k f (acc ++ (k, ws) :: rest) = acc ++ (k, f (some ws)) :: rest := by
  induction acc with
  | nil => simp [valuesUpdate]
  | cons e acc' ih =>
    obtain ⟨k', vs⟩ := e
    have hk' : bytesLt k' k = true := h (k', vs) (List.mem_cons_self _ _)
    have hne : ¬ k = k' := fun e => bytesLt_ne hk' e.symm
    have hnlt : ¬ bytesLt k k' = true := by
      rw [bytesLt_asymm _ _ hk']; exact Bool.false_ne_true
    rw [List.cons_append]
    unfold valuesUpdate
    rw [if_neg hne, if_neg hnlt, ih (fun kv hkv => h kv (List.mem_cons_of_mem _ hkv))]
    rfl

theorem foldl_add_same_key (k : Bytes) (xs ws : List Bytes) (acc : Values)
    (h : ∀ kv ∈ acc, bytesLt kv.1 k = true) :
    (xs.map (fun value => (k, value))).foldl (fun (m : Values) p => m.Add p.1 p.2)
        (acc ++ [(k, ws)])
      = acc ++ [(k, ws ++ xs)] := by
  induction xs generalizing ws with
  | nil => simp
  | cons x xs ih =>
    simp only [List.map_cons, List.foldl_cons, Values.Add]
    rw [valuesUpdate_at k _ acc ws [] h]
    simp only [Option.getD_some]
    have := ih (ws ++ [x])
    simp only [Values.Add] at this
    rw [this, List.append_assoc, List.singleton_append]

/-- Adding the pairs of a canonical map, in order, rebuilds the map. -/
theorem foldl_add_pairs (q acc : Values) (h : Values.Canonical (acc ++ q)) :
    q.pairs.foldl (fun (m : Values) p => m.Add p.1 p.2) acc = acc ++ q := by
  induction q generalizing acc with
  | nil => simp [Values.pairs]
  | cons e rest ih =>
    obtain ⟨k, vs⟩ := e
    have hacc : ∀ kv ∈ acc, bytesLt kv.1 k = true := by
      intro kv hkv
      exact (List.pairwise_append.1 h.1).2.2 kv hkv (k, vs) (List.mem_cons_self _ _)
    have hvs : vs ≠ [] := h.2 (k, vs) (by simp)
    have hpairs : Values.pairs ((k, vs) :: rest)
        = vs.map (fun value => (k, value)) ++ Values.pairs rest := by
      simp [Values.pairs]
    rw [hpairs, List.foldl_append]
    cases vs with
    | nil => exact absurd rfl hvs
    | cons x xs =>
      have hfirst : (List.map (fun value => (k, value)) (x :: xs)).foldl
            (fun (m : Values) p => m.Add p.1 p.2) acc
          = acc ++ [(k, x :: xs)] := by
        rw [List.map_cons, List.foldl_cons]
        have h1 : Values.Add acc k x = acc ++ [(k, [x])] := by
          unfold Values.Add
          rw [valuesUpdate_above k _ acc hacc]
          rfl
        simp only [h1]
        exact foldl_add_same_key k xs [x] acc hacc
      rw [hfirst, ih (acc ++ [(k, x :: xs)]) (by simpa [List.append_assoc] using h)]
      simp [List.append_assoc]

/-- Parsing inverts encoding: `url.ParseQuery` after `Values.Encode`. -/
theorem parseQuery_encode_canonical (q : Values) (h : q.Canonical) :
    parseQuery q.Encode = q := by
  rw [parseQuery_encode, foldl_add_pairs q [] (by simpa using h)]
  rfl

/-! ## Query strings: setting a value twice -/

theorem lookup_set_self (v : Values) (k x : Bytes) : (v.Set k x).Lookup k = some [x] := by
  induction v with
  | nil => simp [Values.Set, valuesUpdate, Values.Lookup]
  | cons e rest ih =>
    obtain ⟨k', vs⟩ := e
    simp only [Values.Set, valuesUpdate]
    split
    · rename_i hk
      simp [Values.Lookup, hk]
    · rename_i hne
      split
      · simp [Values.Lookup]
      · have hne' : ¬ k' = k := fun e => hne e.symm
        simp only [Values.Lookup, List.find?_cons, hne', decide_False]
        exact ih

theorem lookup_set_other (v : Values) (k k' x : Bytes) (h : k ≠ k') :
    (v.Set k' x).Lookup k = v.Lookup k := by
  induction v with
  | nil => simp [Values.Set, valuesUpdate, Values.Lookup, Ne.symm h]
  | cons e rest ih =>
    obtain ⟨k₀, vs⟩ := e
    simp only [Values.Set, valuesUpdate]
    split
    · rename_i hk
      subst hk
      simp [Values.Lookup, Ne.symm h]
    · split
      · simp [Values.Lookup, Ne.symm h]
      · by_cases h0 : k₀ = k
        · simp [Values.Lookup, h0]
        · simp only [Values.Lookup, List.find?_cons, h0, decide_False]
          exact ih

/-- Setting a key to the one value it already has changes nothing. -/
theorem set_of_lookup (v : Values) (k x : Bytes) (hv : v.Canonical)
    (h : v.Lookup k = some [x]) : v.Set k x = v := by
  induction v with
  | nil => simp [Values.Lookup] at h
  | cons e rest ih =>
    obtain ⟨k', vs⟩ := e
    by_cases hk : k' = k
    · subst hk
      simp only [Values.Lookup, List.find?_cons, decide_True, Option.map_some',
        Option.some.injEq] at h
      simp [Values.Set, valuesUpdate, h]
    · simp only [Values.Lookup, List.find?_cons, hk, decide_False] at h
      have hrest : Values.Canonical rest :=
        ⟨(List.pairwise_cons.1 hv.1).2, fun kv hkv => hv.2 kv (List.mem_cons_of_mem _ hkv)⟩
      have hmem : ∃ kv ∈ rest, kv.1 = k := by
        cases hf : rest.find? (fun kv => decide (kv.1 = k)) with
        | none => rw [hf] at h; simp at h
        | some kv =>
          exact ⟨kv, List.mem_of_find?_eq_some hf, by simpa using List.find?_some hf⟩
      obtain ⟨kv, hkv, hkv1⟩ := hmem
      have hlt : bytesLt k' k = true := hkv1 ▸ (List.pairwise_cons.1 hv.1).1 kv hkv
      have hnlt : ¬ bytesLt k k' = true := by
        rw [bytesLt_asymm _ _ hlt]; exact Bool.false_ne_true
      have hne : ¬ k = k' := fun e => hk e.symm
      have ih' := ih hrest h
      simp only [Values.Set] at ih' ⊢
      unfold valuesUpdate
      rw [if_neg hne, if_neg hnlt, ih']

theorem canonical_setOptional (q : Values) (k : Bytes) (o : Option Bytes) (h : q.Canonical) :
    (setOptional q k o).Canonical := by
  cases o with
  | none => exact h
  | some x => exact canonical_set q k x h

theorem lookup_setOptional_other (q : Values) (k k' : Bytes) (o : Option Bytes) (h : k ≠ k') :
    (setOptional q k' o).Lookup k = q.Lookup k := by
  cases o with
  | none => rfl
  | some x => exact lookup_set_other q k k' x h

theorem setOptional_fixed (q : Values) (k : Bytes) (o : Option Bytes) (hq : q.Canonical)
    (h : ∀ x, o = some x → q.Lookup k = some [x]) : setOptional q k o = q := by
  cases o with
  | none => rfl
  | some x => exact set_of_lookup q k x hq (h x rfl)


/-! ## The URL builders: building twice -/

theorem canonical_applySets (ops : List (Bytes × Option Bytes)) (q : Values)
    (h : q.Canonical) : (applySets q ops).Canonical := by
  induction ops generalizing q with
  | nil => exact h
  | cons op rest ih => exact ih _ (canonical_setOptional q op.1 op.2 h)

theorem lookup_applySets_other (ops : List (Bytes × Option Bytes)) (q : Values) (k : Bytes)
    (h : k ∉ ops.map (fun op => op.1)) : (applySets q ops).Lookup k = q.Lookup k := by
  induction ops generalizing q with
  | nil => rfl
  | cons op rest ih =>
    simp only [List.map_cons, List.mem_cons, not_or] at h
    have := ih (setOptional q op.1 op.2) h.2
    simp only [applySets, List.foldl_cons] at this ⊢
    rw [this, lookup_setOptional_other q k op.1 op.2 h.1]

theorem lookup_applySets_mem (ops : List (Bytes × Option Bytes)) (q : Values) (k x : Bytes)
    (hnodup : (ops.map (fun op => op.1)).Nodup) (h : (k, some x) ∈ ops) :
    (applySets q ops).Lookup k = some [x] := by
  induction ops generalizing q with
  | nil => simp at h
  | cons op rest ih =>
    simp only [List.map_cons, List.nodup_cons] at hnodup
    rcases List.mem_cons.1 h with h | h
    · subst h
      have := lookup_applySets_other rest (setOptional q k (some x)) k hnodup.1
      simp only [applySets, List.foldl_cons] at this ⊢
      rw [this]
      exact lookup_set_self q k x
    · exact ih _ hnodup.2 h

theorem applySets_fixed (ops : List (Bytes × Option Bytes)) (q : Values) (hq : q.Canonical)
    (h : ∀ op ∈ ops, ∀ x, op.2 = some x → q.Lookup op.1 = some [x]) : applySets q ops = q := by
  induction ops with
  | nil => rfl
  | cons op rest ih =>
    simp only [applySets, List.foldl_cons]
    rw [setOptional_fixed q op.1 op.2 hq (h op (List.mem_cons_self _ _))]
    exact ih (fun op' hop' => h op' (List.mem_cons_of_mem _ hop'))

/-- Applying the same `Set` calls to the parsed encoding of their result gives
that result again. -/
theorem applySets_parse_encode (ops : List (Bytes × Option Bytes)) (q : Values)
    (hq : q.Canonical) (hnodup : (ops.map (fun op => op.1)).Nodup) :
    applySets (parseQuery (applySets q ops).Encode) ops = applySets q ops := by
  rw [parseQuery_encode_canonical _ (canonical_applySets ops q hq)]
  apply applySets_fixed _ _ (canonical_applySets ops q hq)
  intro op hop x hx
  apply lookup_applySets_mem ops q op.1 x hnodup
  rw [← hx]
  exact hop

theorem tempoSearchURL_eq (u : URL) (query : Bytes) (start end_ limit : Int) :
    tempoSearchURL u query start end_ limit
      = { (if ¬ stringsContains u.Path (utf8 "/api/search") then
            if u.Path = [] ∨ u.Path = utf8 "/" then { u with Path := utf8 "/api/search" }
            else { u with Path := u.Path ++ utf8 "/api/search" }
          else u) with
          RawQuery := (applySets (parseQuery u.RawQuery)
            (searchSets query start end_ limit)).Encode } := by
  simp only [tempoSearchURL, URL.Query, rawQuery_path_rule]
  rfl

theorem tempoTagsURL_eq (u : URL) (scope : Bytes) (start end_ limit maxStaleValues : Option Int) :
    tempoTagsURL u scope start end_ limit maxStaleValues
      = { (if ¬ stringsContains u.Path (utf8 "/api/search/tags") then
            if u.Path = [] ∨ u.Path = utf8 "/" then { u with Path := utf8 "/api/search/tags" }
            else { u with Path := u.Path ++ utf8 "/api/search/tags" }
          else u) with
          RawQuery := (applySets (parseQuery u.RawQuery)
            (tagsSets scope start end_ limit maxStaleValues)).Encode } := by
  simp only [tempoTagsURL, URL.Query, rawQuery_path_rule]
  cases start <;> cases end_ <;> cases limit <;> cases maxStaleValues <;>
    by_cases hs : scope = [] <;> simp [hs, tagsSets, applySets, setOptional]

/-- The path rule of a builder yields a path that contains the fixed
segment. -/
theorem path_rule_contains (u : URL) (seg : Bytes) :
    stringsContains
      (if ¬ stringsContains u.Path seg then
        if u.Path = [] ∨ u.Path = utf8 "/" then { u with Path := seg }
        else { u with Path := u.Path ++ seg }
      else u).Path seg = true := by
  by_cases h : stringsContains u.Path seg = true
  · simp [h]
  · simp only [h, not_false_eq_true, if_true]
    by_cases hp : u.Path = [] ∨ u.Path = utf8 "/"
    · rw [if_pos hp]
      exact (contains_iff _ _).2 List.infix_rfl
    · rw [if_neg hp]
      exact (contains_iff _ _).2 (List.suffix_append _ _).isInfix

/-- The search builder changes nothing in a URL value whose path contains
`/api/search` and whose query is one it wrote for the same parameters. -/
theorem tempoSearchURL_fixed (v : URL) (q : Values) (hq : q.Canonical) (query : Bytes)
    (start end_ limit : Int) (hpath : stringsContains v.Path (utf8 "/api/search") = true)
    (hquery : v.RawQuery = (applySets q (searchSets query start end_ limit)).Encode) :
    tempoSearchURL v query start end_ limit = v := by
  rw [tempoSearchURL_eq, if_neg (by simp [hpath]), hquery,
    applySets_parse_encode _ q hq (by simp only [searchSets, List.map]; decide), ← hquery]

/-- The tag-name builder changes nothing in a URL value whose path contains
`/api/search/tags` and whose query is one it wrote for the same parameters. -/
theorem tempoTagsURL_fixed (v : URL) (q : Values) (hq : q.Canonical) (scope : Bytes)
    (start end_ limit maxStaleValues : Option Int)
    (hpath : stringsContains v.Path (utf8 "/api/search/tags") = true)
    (hquery : v.RawQuery
      = (applySets q (tagsSets scope start end_ limit maxStaleValues)).Encode) :
    tempoTagsURL v scope start end_ limit maxStaleValues = v := by
  rw [tempoTagsURL_eq, if_neg (by simp [hpath]), hquery,
    applySets_parse_encode _ q hq (by simp only [tagsSets, List.map]; decide), ← hquery]


/-- C10: `buildTempoSearchURL` and `buildTempoTagsURL` never double-append.  For
a base URL whose path ends with the fixed segment (`/api/search`, resp.
`/api/search/tags`) the path of the built URL is the path of the base URL.
Building is idempotent: applied to a URL value it produced, with the same
parameters, a builder returns that value again; and passing the built URL back
in as the base URL returns the same URL, whenever `url.Parse` reads the built
URL back with the path and query it was printed from and `String` prints what
was read as the same text. -/
theorem builders_never_double_append (lib : URLLib) (searchBase tagsBase : Bytes) (u v : URL)
    (query : Bytes) (start end_ limit : Int) (scope : Bytes)
    (tagStart tagEnd tagLimit maxStaleValues : Option Int)
    (hu : lib.urlParse searchBase = .ok u) (hv : lib.urlParse tagsBase = .ok v)
    (hupath : stringsHasSuffix u.Path (utf8 "/api/search") = true)
    (hvpath : stringsHasSuffix v.Path (utf8 "/api/search/tags") = true) :
    (buildTempoSearchURL lib searchBase query start end_ limit
        = .ok (lib.urlString (tempoSearchURL u query start end_ limit))
      ∧ (tempoSearchURL u query start end_ limit).Path = u.Path
      ∧ tempoSearchURL (tempoSearchURL u query start end_ limit) query start end_ limit
          = tempoSearchURL u query start end_ limit
      ∧ (∀ u', lib.urlParse (lib.urlString (tempoSearchURL u query start end_ limit)) = .ok u' →
          u'.Path = (tempoSearchURL u query start end_ limit).Path →
          u'.RawQuery = (tempoSearchURL u query start end_ limit).RawQuery →
          lib.urlString u' = lib.urlString (tempoSearchURL u query start end_ limit) →
          buildTempoSearchURL lib (lib.urlString (tempoSearchURL u query start end_ limit))
              query start end_ limit
            = .ok (lib.urlString (tempoSearchURL u query start end_ limit))))
    ∧ (buildTempoTagsURL lib tagsBase scope tagStart tagEnd tagLimit maxStaleValues
        = .ok (lib.urlString (tempoTagsURL v scope tagStart tagEnd tagLimit maxStaleValues))
      ∧ (tempoTagsURL v scope tagStart tagEnd tagLimit maxStaleValues).Path = v.Path
      ∧ tempoTagsURL (tempoTagsURL v scope tagStart tagEnd tagLimit maxStaleValues)
            scope tagStart tagEnd tagLimit maxStaleValues
          = tempoTagsURL v scope tagStart tagEnd tagLimit maxStaleValues
      ∧ (∀ v', lib.urlParse
            (lib.urlString (tempoTagsURL v scope tagStart tagEnd tagLimit maxStaleValues))
            = .ok v' →
          v'.Path = (tempoTagsURL v scope tagStart tagEnd tagLimit maxStaleValues).Path →
          v'.RawQuery = (tempoTagsURL v scope tagStart tagEnd tagLimit maxStaleValues).RawQuery →
          lib.urlString v'
            = lib.urlString (tempoTagsURL v scope tagStart tagEnd tagLimit maxStaleValues) →
          buildTempoTagsURL lib
              (lib.urlString (tempoTagsURL v scope tagStart tagEnd tagLimit maxStaleValues))
              scope tagStart tagEnd tagLimit maxStaleValues
            = .ok (lib.urlString
                (tempoTagsURL v scope tagStart tagEnd tagLimit maxStaleValues)))) := by
  have hsp : stringsContains (tempoSearchURL u query start end_ limit).Path
      (utf8 "/api/search") = true := by
    rw [tempoSearchURL_eq]
    exact path_rule_contains u (utf8 "/api/search")
  have hsq : (tempoSearchURL u query start end_ limit).RawQuery
      = (applySets (parseQuery u.RawQuery) (searchSets query start end_ limit)).Encode := by
    rw [tempoSearchURL_eq]
  have htp : stringsContains (tempoTagsURL v scope tagStart tagEnd tagLimit maxStaleValues).Path
      (utf8 "/api/search/tags") = true := by
    rw [tempoTagsURL_eq]
    exact path_rule_contains v (utf8 "/api/search/tags")
  have htq : (tempoTagsURL v scope tagStart tagEnd tagLimit maxStaleValues).RawQuery
      = (applySets (parseQuery v.RawQuery)
          (tagsSets scope tagStart tagEnd tagLimit maxStaleValues)).Encode := by
    rw [tempoTagsURL_eq]
  refine ⟨⟨?_, ?_, ?_, ?_⟩, ⟨?_, ?_, ?_, ?_⟩⟩
  · simp only [buildTempoSearchURL, hu]
  · rw [tempoSearchURL_eq]
    simp [contains_of_hasSuffix hupath]
  · exact tempoSearchURL_fixed _ _ (canonical_parseQuery u.RawQuery) _ _ _ _ hsp hsq
  · intro u' hparse hpath hquery hprint
    simp only [buildTempoSearchURL, hparse]
    rw [tempoSearchURL_fixed u' _ (canonical_parseQuery u.RawQuery) query start end_ limit
      (hpath ▸ hsp) (hquery.trans hsq), hprint]
  · simp only [buildTempoTagsURL, hv]
  · rw [tempoTagsURL_eq]
    simp [contains_of_hasSuffix hvpath]
  · exact tempoTagsURL_fixed _ _ (canonical_parseQuery v.RawQuery) _ _ _ _ _ htp htq
  · intro v' hparse hpath hquery hprint
    simp only [buildTempoTagsURL, hparse]
    rw [tempoTagsURL_fixed v' _ (canonical_parseQuery v.RawQuery) scope tagStart tagEnd tagLimit
      maxStaleValues (hpath ▸ htp) (hquery.trans htq), hprint]


/-! ## Witnesses on concrete inputs -/

set_option maxRecDepth 100000 in
/-- Witness of C10: the default backend with the search path, resp. a prefixed
tag-name path, already in the base URL. -/
theorem builders_never_double_append_witness :
    plainURLLib.urlParse (utf8 "http://localhost:3200/api/search") = .ok searchEndpoint
    ∧ plainURLLib.urlParse (utf8 "http://localhost:3200/tempo/api/search/tags") = .ok tagsEndpoint
    ∧ stringsHasSuffix searchEndpoint.Path (utf8 "/api/search") = true
    ∧ stringsHasSuffix tagsEndpoint.Path (utf8 "/api/search/tags") = true
    ∧ buildTempoSearchURL plainURLLib (utf8 "http://localhost:3200/api/search") (utf8 "\x7b\x7d") 1 2 20
        = .ok (utf8 "http://localhost:3200/api/search?end=2&limit=20&q=%7B%7D&start=1")
    ∧ buildTempoSearchURL plainURLLib
          (utf8 "http://localhost:3200/api/search?end=2&limit=20&q=%7B%7D&start=1")
          (utf8 "\x7b\x7d") 1 2 20
        = .ok (utf8 "http://localhost:3200/api/search?end=2&limit=20&q=%7B%7D&start=1")
    ∧ buildTempoTagsURL plainURLLib (utf8 "http://localhost:3200/tempo/api/search/tags")
          (utf8 "span") (some 1) none (some 5) none
        = .ok (utf8 "http://localhost:3200/tempo/api/search/tags?limit=5&scope=span&start=1")
    ∧ buildTempoTagsURL plainURLLib
          (utf8 "http://localhost:3200/tempo/api/search/tags?limit=5&scope=span&start=1")
          (utf8 "span") (some 1) none (some 5) none
        = .ok (utf8 "http://localhost:3200/tempo/api/search/tags?limit=5&scope=span&start=1") :=
  ⟨rfl, rfl, by decide, by decide,
    (builders_never_double_append plainURLLib (utf8 "http://localhost:3200/api/search")
      (utf8 "http://localhost:3200/tempo/api/search/tags") searchEndpoint tagsEndpoint (utf8 "\x7b\x7d")
      1 2 20 (utf8 "span") (some 1) none (some 5) none rfl rfl (by decide) (by decide)).1.1,
    (builders_never_double_append plainURLLib (utf8 "http://localhost:3200/api/search")
      (utf8 "http://localhost:3200/tempo/api/search/tags") searchEndpoint tagsEndpoint (utf8 "\x7b\x7d")
      1 2 20 (utf8 "span") (some 1) none (some 5) none rfl rfl (by decide)
      (by decide)).1.2.2.2 (tempoSearchURL searchEndpoint (utf8 "\x7b\x7d") 1 2 20) rfl rfl rfl rfl,
    (builders_never_double_append plainURLLib (utf8 "http://localhost:3200/api/search")
      (utf8 "http://localhost:3200/tempo/api/search/tags") searchEndpoint tagsEndpoint (utf8 "\x7b\x7d")
      1 2 20 (utf8 "span") (some 1) none (some 5) none rfl rfl (by decide) (by decide)).2.1,
    (builders_never_double_append plainURLLib (utf8 "http://localhost:3200/api/search")
      (utf8 "http://localhost:3200/tempo/api/search/tags") searchEndpoint tagsEndpoint (utf8 "\x7b\x7d")
      1 2 20 (utf8 "span") (some 1) none (some 5) none rfl rfl (by decide)
      (by decide)).2.2.2.2 (tempoTagsURL tagsEndpoint (utf8 "span") (some 1) none (some 5) none)
      rfl rfl rfl rfl⟩

/-- Witness of C2: a body whose first entry has `durationMs` as a string; the
strict parse fails, the fallback keeps both entries. -/
theorem fallback_projection_witness :
    plainURLLib.urlParse (utf8 "http://localhost:3200/api/search?q=x") = .ok searchRequestURL
    ∧ (fallbackDecoders mistypedError mistypedGeneric).unmarshalTempoResult
        (cleanTempoResponse mistypedBody) = .error mistypedError
    ∧ (fallbackDecoders mistypedError mistypedGeneric).unmarshalObject
        (cleanTempoResponse mistypedBody) = .ok mistypedGeneric
    ∧ errorField mistypedGeneric = []
    ∧ (executeTempoSearch plainURLLib (fallbackDecoders mistypedError mistypedGeneric)
          (constantNet ⟨200, .ok mistypedBody⟩) (utf8 "http://localhost:3200/api/search?q=x")
          [] [] []).1
        = .ok { Traces := [{ TraceID := utf8 "t1", DurationMs := 0 },
                           { TraceID := utf8 "t2", DurationMs := 42 }] } :=
  ⟨rfl, rfl, rfl, rfl,
    (fallback_projection plainURLLib (fallbackDecoders mistypedError mistypedGeneric)
      (constantNet ⟨200, .ok mistypedBody⟩) (utf8 "http://localhost:3200/api/search?q=x")
      [] [] [] searchRequestURL ⟨200, .ok mistypedBody⟩ mistypedBody mistypedError
      mistypedGeneric
      [.object [(utf8 "traceID", .string (utf8 "t1")), (utf8 "durationMs", .string (utf8 "12"))],
       .object [(utf8 "traceID", .string (utf8 "t2")), (utf8 "durationMs", .number 42)]]
      rfl rfl rfl rfl rfl rfl rfl).2.1 rfl⟩

/-- Witness of C6: a status-200 body whose record carries the error `boom`. -/
theorem tempo_error_iff_error_field_witness :
    plainURLLib.urlParse (utf8 "http://localhost:3200/api/search?q=x") = .ok searchRequestURL
    ∧ (executeTempoSearch plainURLLib
          (strictDecoders { ErrorStatus := utf8 "boom" } {} {})
          (constantNet ⟨200, .ok (utf8 "\x7b\"error\":\"boom\"\x7d")⟩)
          (utf8 "http://localhost:3200/api/search?q=x") [] [] []).1
        = .error (utf8 "Tempo error: boom") :=
  ⟨rfl,
    ((tempo_error_iff_error_field plainURLLib (strictDecoders { ErrorStatus := utf8 "boom" } {} {})
      (constantNet ⟨200, .ok (utf8 "\x7b\"error\":\"boom\"\x7d")⟩)
      (utf8 "http://localhost:3200/api/search?q=x") [] [] [] searchRequestURL
      ⟨200, .ok (utf8 "\x7b\"error\":\"boom\"\x7d")⟩ (utf8 "\x7b\"error\":\"boom\"\x7d")
      rfl rfl rfl rfl).1 { ErrorStatus := utf8 "boom" } rfl).1.2 (by decide)⟩

/-- Witness of C7: a 503 response whose body is valid JSON with an error
field. -/
theorem http_error_on_non_200_witness :
    plainURLLib.urlParse (utf8 "http://localhost:3200/api/search?q=x") = .ok searchRequestURL
    ∧ (executeTempoSearch plainURLLib (strictDecoders { ErrorStatus := utf8 "boom" } {} {})
          (constantNet ⟨503, .ok (utf8 "\x7b\"error\":\"boom\"\x7d")⟩)
          (utf8 "http://localhost:3200/api/search?q=x") [] [] []).1
        = .error (utf8 "HTTP error: 503 - \x7b\"error\":\"boom\"\x7d") :=
  ⟨rfl,
    (http_error_on_non_200 plainURLLib (strictDecoders { ErrorStatus := utf8 "boom" } {} {})
      (constantNet ⟨503, .ok (utf8 "\x7b\"error\":\"boom\"\x7d")⟩)
      (utf8 "http://localhost:3200/api/search?q=x") [] [] [] searchRequestURL
      ⟨503, .ok (utf8 "\x7b\"error\":\"boom\"\x7d")⟩ (utf8 "\x7b\"error\":\"boom\"\x7d")
      rfl rfl rfl (by decide)).1⟩

/-- Witness of C8: token, user name and password all set; the request carries
the bearer header only. -/
theorem authentication_selection_witness :
    plainURLLib.urlParse (utf8 "http://localhost:3200/api/search?q=x") = .ok searchRequestURL
    ∧ (executeTempoSearch plainURLLib (strictDecoders {} {} {})
          (constantNet ⟨200, .ok []⟩) (utf8 "http://localhost:3200/api/search?q=x")
          (utf8 "user") (utf8 "pass") (utf8 "tok")).2.sent
        = [{ Method := utf8 "GET", URL := searchRequestURL,
             Header := [(utf8 "Authorization", [utf8 "Bearer tok"])] }]
    ∧ (expectedRequest searchRequestURL (utf8 "user") (utf8 "pass") []).Header
        = [(utf8 "Authorization", [utf8 "Basic dXNlcjpwYXNz"])] :=
  ⟨rfl,
    (authentication_selection plainURLLib (strictDecoders {} {} {}) (constantNet ⟨200, .ok []⟩)
      (utf8 "http://localhost:3200/api/search?q=x") (utf8 "user") (utf8 "pass") (utf8 "tok")
      searchRequestURL rfl).1.1,
    (authentication_selection plainURLLib (strictDecoders {} {} {}) (constantNet ⟨200, .ok []⟩)
      (utf8 "http://localhost:3200/api/search?q=x") (utf8 "user") (utf8 "pass") []
      searchRequestURL rfl).2.2.2.1 rfl (Or.inl (by decide))⟩


/-- C11 (as amended): for every base URL that parses, the trace-search builder
and the tag-name builder give the built URL the path of the base URL with the
fixed API path (`/api/search`, resp. `/api/search/tags`) appended when the base
path does not contain it, and just the fixed path when the base path is empty
or `/`; the tag-value builder always sets the path to
`/api/search/tag/<tagName>/values`, whatever the base path is. -/
theorem base_path_rule (lib : URLLib) (baseURL : Bytes) (u : URL)
    (query scope tagName : Bytes) (start end_ limit : Int)
    (tagStart tagEnd tagLimit maxStaleValues : Option Int)
    (hparse : lib.urlParse baseURL = .ok u) :
    (buildTempoSearchURL lib baseURL query start end_ limit
        = .ok (lib.urlString (tempoSearchURL u query start end_ limit))
      ∧ (stringsContains u.Path (utf8 "/api/search") = false →
          (tempoSearchURL u query start end_ limit).Path
            = if u.Path = [] ∨ u.Path = utf8 "/" then utf8 "/api/search"
              else u.Path ++ utf8 "/api/search"))
    ∧ (buildTempoTagsURL lib baseURL scope tagStart tagEnd tagLimit maxStaleValues
        = .ok (lib.urlString (tempoTagsURL u scope tagStart tagEnd tagLimit maxStaleValues))
      ∧ (stringsContains u.Path (utf8 "/api/search/tags") = false →
          (tempoTagsURL u scope tagStart tagEnd tagLimit maxStaleValues).Path
            = if u.Path = [] ∨ u.Path = utf8 "/" then utf8 "/api/search/tags"
              else u.Path ++ utf8 "/api/search/tags"))
    ∧ (buildTempoTagValuesURL lib baseURL tagName tagStart tagEnd tagLimit maxStaleValues
        = .ok (lib.urlString
            (tempoTagValuesURL u tagName tagStart tagEnd tagLimit maxStaleValues))
      ∧ (tempoTagValuesURL u tagName tagStart tagEnd tagLimit maxStaleValues).Path
          = utf8 "/api/search/tag/" ++ tagName ++ utf8 "/values") := by
  refine ⟨⟨?_, ?_⟩, ⟨?_, ?_⟩, ?_, ?_⟩
  · simp only [buildTempoSearchURL, hparse]
  · intro h
    rw [tempoSearchURL_eq]
    by_cases hp : u.Path = [] ∨ u.Path = utf8 "/" <;> simp [h, hp]
  · simp only [buildTempoTagsURL, hparse]
  · intro h
    rw [tempoTagsURL_eq]
    by_cases hp : u.Path = [] ∨ u.Path = utf8 "/" <;> simp [h, hp]
  · simp only [buildTempoTagValuesURL, hparse]
  · rfl

set_option maxRecDepth 100000 in
/-- Witness of C11: with the base URL `http://localhost:3200/tempo` the search
builder requests `/tempo/api/search`, the tag-name builder
`/tempo/api/search/tags`, and the tag-value builder
`/api/search/tag/service.name/values`. -/
theorem base_path_rule_witness :
    plainURLLib.urlParse (utf8 "http://localhost:3200/tempo") = .ok tempoBase
    ∧ stringsContains tempoBase.Path (utf8 "/api/search") = false
    ∧ buildTempoSearchURL plainURLLib (utf8 "http://localhost:3200/tempo") (utf8 "x") 1 2 3
        = .ok (utf8 "http://localhost:3200/tempo/api/search?end=2&limit=3&q=x&start=1")
    ∧ (tempoTagsURL tempoBase [] none none none none).Path = utf8 "/tempo/api/search/tags"
    ∧ (tempoTagValuesURL tempoBase (utf8 "service.name") none none none none).Path
        = utf8 "/api/search/tag/service.name/values" :=
  have h := base_path_rule plainURLLib (utf8 "http://localhost:3200/tempo") tempoBase
    (utf8 "x") [] (utf8 "service.name") 1 2 3 none none none none rfl
  ⟨rfl, by decide, rfl, (h.2.1.2 (by decide)).trans (by decide), h.2.2.2⟩

set_option maxRecDepth 100000 in
/-- Counterexample to C11 as stated: the base URL `http://localhost:3200/tempo`
has a path that contains neither `/api/search/tag` nor the fixed path of the
tag-value builder for the tag `service.name`, yet the URL built for tag values
is `http://localhost:3200/api/search/tag/service.name/values`: its path is not
the base path with the fixed path appended, and the prefix `/tempo` is lost. -/
theorem tag_values_base_path_dropped :
    plainURLLib.urlParse (utf8 "http://localhost:3200/tempo") = .ok tempoBase
    ∧ stringsContains tempoBase.Path (utf8 "/api/search/tag") = false
    ∧ stringsContains tempoBase.Path (utf8 "/api/search/tag/service.name/values") = false
    ∧ buildTempoTagValuesURL plainURLLib (utf8 "http://localhost:3200/tempo")
          (utf8 "service.name") none none none none
        = .ok (utf8 "http://localhost:3200/api/search/tag/service.name/values")
    ∧ (tempoTagValuesURL tempoBase (utf8 "service.name") none none none none).Path
        ≠ tempoBase.Path ++ utf8 "/api/search/tag/service.name/values"
    ∧ stringsContains
        (tempoTagValuesURL tempoBase (utf8 "service.name") none none none none).Path
        (utf8 "/tempo") = false := by
  refine ⟨rfl, by decide, by decide, rfl, by decide, by decide⟩


/-! ## Decimal digits -/

/-- The byte of a decimal digit character. -/
theorem digitChar_byte (m : Nat) (h : m < 10) :
    ((Nat.digitChar m).toNat.toUInt8).toNat = 48 + m := by
  interval_cases m <;> rfl

/-- Reading a digit byte extends the accumulated value. -/
theorem parseDigits_digit (a m : Nat) (h : m < 10) (rest : Bytes) :
    parseDigits a ((Nat.digitChar m).toNat.toUInt8 :: rest) = parseDigits (a * 10 + m) rest := by
  have hb := digitChar_byte m h
  simp only [parseDigits, hb]
  rw [if_pos (by omega)]
  congr 1
  omega

/-- Reading back what the digit loop of `Nat.toDigits` wrote: the loop puts a
run of digits in front of its accumulator, and `parseDigits` reads that run as
the number. -/
theorem toDigitsCore_parse : ∀ (n fuel : Nat) (acc : List Char), n < fuel →
    ∃ ds : List Char, ds ≠ [] ∧ Nat.toDigitsCore 10 fuel n acc = ds ++ acc ∧
      ∀ (a : Nat) (rest : Bytes),
        parseDigits a (ds.map (fun c => c.toNat.toUInt8) ++ rest)
          = parseDigits (a * 10 ^ ds.length + n) rest := by
  intro n
  induction n using Nat.strong_induction_on with
  | _ n ih =>
    intro fuel acc hlt
    obtain ⟨k, rfl⟩ : ∃ k, fuel = k + 1 := ⟨fuel - 1, by omega⟩
    have hmod : n % 10 < 10 := Nat.mod_lt _ (by norm_num)
    by_cases hz : n / 10 = 0
    · refine ⟨[Nat.digitChar (n % 10)], by simp, by simp [Nat.toDigitsCore, hz], ?_⟩
      intro a rest
      have hsmall : n % 10 = n := Nat.mod_eq_of_lt (by omega)
      simp only [List.map_cons, List.map_nil, List.singleton_append, List.length_singleton,
        pow_one]
      rw [parseDigits_digit a (n % 10) hmod rest, hsmall]
    · obtain ⟨ds, _, hds, hval⟩ :=
        ih (n / 10) (by omega) k (Nat.digitChar (n % 10) :: acc) (by omega)
      refine ⟨ds ++ [Nat.digitChar (n % 10)], by simp, by simp [Nat.toDigitsCore, hz, hds], ?_⟩
      intro a rest
      simp only [List.map_append, List.map_cons, List.map_nil, List.append_assoc,
        List.singleton_append, List.length_append, List.length_singleton]
      rw [hval, parseDigits_digit _ (n % 10) hmod rest]
      congr 1
      rw [pow_succ]
      nlinarith [Nat.div_add_mod n 10]

/-- The decimal digits of a number are a non-empty run that `parseDigits`
reads back as the number, continuing with what follows. -/
theorem natDigits_parse (n : Nat) :
    natDigits n ≠ [] ∧ ∀ (a : Nat) (rest : Bytes),
      parseDigits a (natDigits n ++ rest) = parseDigits (a * 10 ^ (natDigits n).length + n) rest := by
  obtain ⟨ds, hne, hds, hval⟩ := toDigitsCore_parse n (n + 1) [] (by omega)
  have h : natDigits n = ds.map (fun c => c.toNat.toUInt8) := by
    simp [natDigits, Nat.toDigits, hds]
  rw [h]
  refine ⟨by simpa using hne, ?_⟩
  intro a rest
  rw [hval, List.length_map]

/-- The digits of a number read back as the number. -/
theorem parseDigits_natDigits (n : Nat) : parseDigits 0 (natDigits n) = some n := by
  have h := (natDigits_parse n).2 0 []
  simpa [parseDigits] using h

/-- The digit loop only grows its accumulator. -/
theorem parseDigits_le : ∀ (ds : Bytes) (a n : Nat), parseDigits a ds = some n → a ≤ n := by
  intro ds
  induction ds with
  | nil => intro a n h; simp [parseDigits] at h; omega
  | cons c ds ih =>
    intro a n h
    simp only [parseDigits] at h
    split at h
    · have := ih _ _ h
      omega
    · exact absurd h (by simp)

/-- A text that the digit loop accepts starts with a digit or is empty. -/
theorem parseDigits_head (c : UInt8) (ds : Bytes) (a n : Nat)
    (h : parseDigits a (c :: ds) = some n) : 48 ≤ c.toNat ∧ c.toNat ≤ 57 := by
  simp only [parseDigits] at h
  split at h
  · assumption
  · exact absurd h (by simp)

/-- On a run of digits followed by a byte that is no digit, `leadingInt` yields
the value of the run and stops there, unless the value passes `1<<63`. -/
theorem leadingInt_digits : ∀ (ds : Bytes) (x n : Nat) (rest : Bytes),
    parseDigits x ds = some n → x ≤ 2 ^ 63 →
    (∀ c ∈ rest.head?, c.toNat < 48 ∨ c.toNat > 57) →
    leadingInt x (ds ++ rest) = if n ≤ 2 ^ 63 then some (n, rest) else none := by
  intro ds
  induction ds with
  | nil =>
    intro x n rest h hx hrest
    simp only [parseDigits, Option.some.injEq] at h
    subst h
    rw [if_pos hx, List.nil_append]
    cases rest with
    | nil => rfl
    | cons c r =>
      have := hrest c (by simp)
      simp only [leadingInt, if_pos this]
  | cons c ds ih =>
    intro x n rest h hx hrest
    have hc := parseDigits_head c ds x n h
    simp only [parseDigits, if_pos hc] at h
    have hle := parseDigits_le _ _ _ h
    simp only [List.cons_append, leadingInt]
    rw [if_neg (by omega)]
    by_cases h1 : x > 2 ^ 63 / 10
    · rw [if_pos h1, if_neg]
      have : 2 ^ 63 / 10 = 922337203685477580 := by norm_num
      omega
    · rw [if_neg h1]
      by_cases h2 : x * 10 + (c.toNat - 48) > 2 ^ 63
      · rw [if_pos h2, if_neg]
        omega
      · rw [if_neg h2]
        exact ih _ _ _ h (by omega) hrest

/-! ## Relative time expressions -/

/-- One round of the loop of `time.ParseDuration` on a text made of a whole
number and a one-byte unit. -/
theorem parseDurationLoop_round (frac : Nat → Nat → Nat → Nat) (fuel d : Nat) (c : UInt8)
    (rest : Bytes) (v : Nat) (ub : UInt8) (unit : Nat)
    (hc : 48 ≤ c.toNat ∧ c.toNat ≤ 57) (hlead : leadingInt 0 (c :: rest) = some (v, [ub]))
    (hlen : rest ≠ []) (hub : ub.toNat > 57) (hunit : unitMap [ub] = some unit) :
    parseDurationLoop frac (fuel + 1) d (c :: rest)
      = if v > 2 ^ 63 / unit then none
        else if (d + v * unit) % 2 ^ 64 > 2 ^ 63 then none
        else some ((d + v * unit) % 2 ^ 64) := by
  have hdot : ub ≠ 46 := by
    intro h
    rw [h] at hub
    revert hub
    decide
  have hnodigit : ¬ (ub = 46 ∨ (48 ≤ ub.toNat ∧ ub.toNat ≤ 57)) := by
    rintro (h | h)
    · exact hdot h
    · omega
  have hlen2 : rest.length + 1 ≠ 1 := by
    cases rest with
    | nil => exact absurd rfl hlen
    | cons a r => simp
  have htw : List.takeWhile (fun b => decide ¬ (b = 46 ∨ (48 ≤ b.toNat ∧ b.toNat ≤ 57))) [ub]
      = [ub] := by
    simp [List.takeWhile, hnodigit]
  have hhead : ([ub] : Bytes).head? ≠ some 46 := by simp [hdot]
  rw [parseDurationLoop]
  simp only [hlead]
  rw [if_neg (by simp [hc])]
  simp only [hhead, decide_False, Bool.false_eq_true, if_false, Bool.false_and, htw,
    List.length_singleton, List.drop_succ_cons, List.drop_zero, hunit, Nat.lt_irrefl,
    false_and, List.length_cons, ne_eq, hlen2, not_false_eq_true, decide_True,
    not_true_eq_false, and_false, and_true]
  rw [if_neg (by simp [hlen]), if_neg (by simp)]
  simp only [List.length_nil, List.drop_zero, parseDurationLoop]

/-- `time.ParseDuration` on a minus sign, a run of digits with value `n` and a
one-byte unit: the result is `-n` units, unless `n` units pass `1<<63`
nanoseconds. -/
theorem timeParseDuration_digits_unit (frac : Nat → Nat → Nat → Nat) (ds : Bytes) (n : Nat)
    (ub : UInt8) (unit : Nat) (hne : ds ≠ []) (hval : parseDigits 0 ds = some n)
    (hub : ub.toNat > 57) (hunit : unitMap [ub] = some unit) :
    timeParseDuration frac (45 :: (ds ++ [ub]))
      = if n ≤ 2 ^ 63 / unit then some (-((n * unit : Nat) : Int)) else none := by
  obtain ⟨c, ds, rfl⟩ := List.exists_cons_of_ne_nil hne
  have hc := parseDigits_head c ds 0 n hval
  have hlead := leadingInt_digits (c :: ds) 0 n [ub] hval (by norm_num)
    (by intro b hb; simp at hb; subst hb; omega)
  have hs0 : (c :: (ds ++ [ub])) ≠ utf8 "0" := by
    intro h
    have := congrArg List.length h
    rw [show (utf8 "0").length = 1 from rfl] at this
    simp at this
  have hdiv : 2 ^ 63 / unit ≤ 2 ^ 63 := Nat.div_le_self _ _
  have hne2 : (c :: (ds ++ [ub])) ≠ [] := by simp
  simp only [timeParseDuration, List.head?_cons, true_or, if_true, List.drop_succ_cons,
    List.drop_zero, decide_True]
  simp only [List.cons_append] at hlead ⊢
  rw [if_neg hs0, if_neg hne2]
  by_cases hbig : n ≤ 2 ^ 63
  · rw [if_pos hbig] at hlead
    rw [List.length_cons, parseDurationLoop_round frac _ 0 c (ds ++ [ub]) n ub unit hc hlead
      (by simp) hub hunit]
    by_cases hfit : n ≤ 2 ^ 63 / unit
    · have hmul : n * unit ≤ 2 ^ 63 :=
        le_trans (Nat.mul_le_mul_right _ hfit) (Nat.div_mul_le_self _ _)
      have hmod : (0 + n * unit) % 2 ^ 64 = n * unit := by
        rw [Nat.zero_add]
        exact Nat.mod_eq_of_lt (by omega)
      rw [if_neg (by omega), hmod, if_neg (by omega), if_pos hfit]
      simp only [wrapInt64]
      congr 1
      omega
    · rw [if_pos (by omega), if_neg hfit]
  · rw [if_neg hbig] at hlead
    rw [if_neg (fun h => hbig (le_trans h hdiv))]
    simp only [List.length_cons, parseDurationLoop]
    rw [if_neg (by simp [hc])]
    simp only [hlead]

/-- No layout of `parseTime` accepts a value that does not start with a digit:
each starts with the four-digit year. -/
theorem timeParse_no_digit (value : Bytes) (h : isDigit value 0 = false) :
    timeParse layoutRFC3339 value = none ∧ timeParse layoutDateTimeT value = none
      ∧ timeParse layoutDateTimeSpace value = none ∧ timeParse layoutDate value = none := by
  refine ⟨?_, ?_, ?_, ?_⟩ <;>
    simp [timeParse, timeParseLoop, layoutRFC3339, layoutDateTimeT, layoutDateTimeSpace,
      layoutDate, skipLiteral, parseField, h]

/-- `parseTime` on a minus sign, the digits of `n` and a one-byte unit. -/
theorem parseTime_minus_unit (frac : Nat → Nat → Nat → Nat) (clock : Clock) (n : Nat)
    (ub : UInt8) (unit : Nat) (hub : ub.toNat > 57) (hunit : unitMap [ub] = some unit) :
    parseTime frac clock (utf8 "-" ++ natDigits n ++ [ub])
      = if n ≤ 2 ^ 63 / unit then
          (.ok (clock.readings clock.taken - (n : Int) * unit),
            { clock with taken := clock.taken + 1 })
        else (.error (utf8 "unsupported time format: " ++ (utf8 "-" ++ natDigits n ++ [ub])),
          clock) := by
  have hdur := timeParseDuration_digits_unit frac (natDigits n) n ub unit (natDigits_parse n).1
    (parseDigits_natDigits n) hub hunit
  have htext : utf8 "-" ++ natDigits n ++ [ub] = 45 :: (natDigits n ++ [ub]) := rfl
  have hnow : (45 :: (natDigits n ++ [ub]) : Bytes) ≠ utf8 "now" := by
    intro h
    have h2 : (45 :: (natDigits n ++ [ub]) : Bytes).head? = (utf8 "now").head? :=
      congrArg List.head? h
    rw [show (utf8 "now").head? = some 110 from rfl, List.head?_cons] at h2
    exact absurd h2 (by decide)
  have hnd : isDigit (45 :: (natDigits n ++ [ub])) 0 = false := rfl
  obtain ⟨h1, h2, h3, h4⟩ := timeParse_no_digit _ hnd
  rw [htext]
  unfold parseTime
  rw [if_neg hnow]
  simp only [List.length_cons, List.head?_cons, gt_iff_lt, Nat.zero_lt_succ, and_self, if_true,
    hdur]
  by_cases hfit : n ≤ 2 ^ 63 / unit
  · simp only [if_pos hfit, timeNow]
    congr 2
  · simp only [if_neg hfit, h1, h2, h3, h4, List.findSome?]

/-- C15 (as amended): for every natural number `N` up to 2562047,
`parseTime("-Nh")` succeeds with the instant now minus `N` hours, and for every
`N` up to 153722867, `parseTime("-Nm")` succeeds with now minus `N` minutes;
`parseTime("now")` succeeds with the current instant.  Here now is the one
reading of the clock taken during the call.  For a larger `N` the duration
passes the range of `time.Duration`, `time.ParseDuration` fails, and
`parseTime` returns the error `unsupported time format` without reading the
clock. -/
theorem parseTime_relative (frac : Nat → Nat → Nat → Nat) (clock : Clock) (N : Nat) :
    parseTime frac clock (utf8 "-" ++ natDigits N ++ utf8 "h")
        = (if N ≤ 2562047 then
            (.ok (clock.readings clock.taken - (N : Int) * 3600000000000),
              { clock with taken := clock.taken + 1 })
          else
            (.error (utf8 "unsupported time format: " ++ (utf8 "-" ++ natDigits N ++ utf8 "h")),
              clock))
    ∧ parseTime frac clock (utf8 "-" ++ natDigits N ++ utf8 "m")
        = (if N ≤ 153722867 then
            (.ok (clock.readings clock.taken - (N : Int) * 60000000000),
              { clock with taken := clock.taken + 1 })
          else
            (.error (utf8 "unsupported time format: " ++ (utf8 "-" ++ natDigits N ++ utf8 "m")),
              clock))
    ∧ parseTime frac clock (utf8 "now")
        = (.ok (clock.readings clock.taken), { clock with taken := clock.taken + 1 }) := by
  refine ⟨?_, ?_, ?_⟩
  · have h := parseTime_minus_unit frac clock N 104 3600000000000 (by decide) (by decide)
    rw [show (2 : Nat) ^ 63 / 3600000000000 = 2562047 from by norm_num] at h
    exact h
  · have h := parseTime_minus_unit frac clock N 109 60000000000 (by decide) (by decide)
    rw [show (2 : Nat) ^ 63 / 60000000000 = 153722867 from by norm_num] at h
    exact h
  · simp [parseTime, timeNow]

set_option maxRecDepth 100000 in
/-- Witness of C15: with the clock at 1700000000 s, `-24h` resolves to one day
earlier and `-30m` to half an hour earlier. -/
theorem parseTime_relative_witness :
    utf8 "-" ++ natDigits 24 ++ utf8 "h" = utf8 "-24h"
    ∧ utf8 "-" ++ natDigits 30 ++ utf8 "m" = utf8 "-30m"
    ∧ parseTime exactFraction (fixedClock 1700000000000000000) (utf8 "-" ++ natDigits 24 ++ utf8 "h")
        = (.ok (1700000000000000000 - 24 * 3600000000000),
            { fixedClock 1700000000000000000 with taken := 1 })
    ∧ parseTime exactFraction (fixedClock 1700000000000000000) (utf8 "-" ++ natDigits 30 ++ utf8 "m")
        = (.ok (1700000000000000000 - 30 * 60000000000),
            { fixedClock 1700000000000000000 with taken := 1 }) :=
  ⟨by decide, by decide,
    ((parseTime_relative exactFraction (fixedClock 1700000000000000000) 24).1).trans
      (if_pos (by decide)),
    ((parseTime_relative exactFraction (fixedClock 1700000000000000000) 30).2.1).trans
      (if_pos (by decide))⟩

/-- Counterexample to C15 as stated: for `N = 2562048` the expression
`-2562048h` is not accepted.  `parseTime` returns the error
`unsupported time format: -2562048h` and takes no reading of the clock, while
`-2562047h` yields the reading minus 2562047 hours. -/
theorem parseTime_relative_overflow :
    (parseTime exactFraction (fixedClock 1700000000000000000) (utf8 "-2562048h")).1
        = .error (utf8 "unsupported time format: -2562048h")
    ∧ (parseTime exactFraction (fixedClock 1700000000000000000) (utf8 "-2562048h")).2.taken = 0
    ∧ (parseTime exactFraction (fixedClock 1700000000000000000) (utf8 "-2562047h")).1
        = .ok (1700000000000000000 - 2562047 * 3600000000000) := by
  refine ⟨rfl, rfl, rfl⟩


/-! ## The layouts without a zone -/

/-- The byte of a decimal digit. -/
theorem digit_byte (m : Nat) (h : m < 10) :
    (UInt8.ofNat (48 + m)).toNat = 48 + m :=
  UInt8.toNat_ofNat_of_lt (by show 48 + m < 256; omega)

/-- The byte of a decimal digit is a digit with that value, and no space. -/
theorem digit_byte_spec (m : Nat) (h : m < 10) :
    digitByte (UInt8.ofNat (48 + m)) = true ∧ digitValue (UInt8.ofNat (48 + m)) = m
      ∧ UInt8.ofNat (48 + m) ≠ 32 ∧ UInt8.ofNat (48 + m) ≠ 45 ∧ UInt8.ofNat (48 + m) ≠ 43 := by
  have hb := digit_byte m h
  refine ⟨by simp [digitByte, hb]; omega, by simp [digitValue, hb], ?_, ?_, ?_⟩ <;>
  · intro he
    rw [he] at hb
    revert hb
    intro hb
    have : (32 : UInt8).toNat = 32 ∧ (45 : UInt8).toNat = 45 ∧ (43 : UInt8).toNat = 43 := by
      decide
    omega

/-- `getnum` reads two digits. -/
theorem getnum_twoDigits (n : Nat) (h : n < 100) (rest : Bytes) (fixed : Bool) :
    getnum (twoDigits n ++ rest) fixed = some ((n : Int), rest) := by
  obtain ⟨ha, hav, -⟩ := digit_byte_spec (n / 10) (by omega)
  obtain ⟨hb, hbv, -⟩ := digit_byte_spec (n % 10) (by omega)
  simp only [twoDigits, List.cons_append, List.nil_append, getnum, ha, hb, hav, hbv,
    not_true_eq_false, if_false, if_true, Bool.not_eq_true]
  congr 2
  omega

/-- The digit loop reads four digits. -/
theorem parseDigits_fourDigits (n : Nat) (h : n < 10000) :
    parseDigits 0 (fourDigits n) = some n := by
  have h1 := digit_byte (n / 1000) (by omega)
  have h2 := digit_byte (n / 100 % 10) (by omega)
  have h3 := digit_byte (n / 10 % 10) (by omega)
  have h4 := digit_byte (n % 10) (by omega)
  simp only [fourDigits, parseDigits, h1, h2, h3, h4]
  rw [if_pos (by omega), if_pos (by omega), if_pos (by omega), if_pos (by omega)]
  congr 1
  omega

/-- The conversion to `int64` keeps a value in range. -/
theorem wrapInt64_of_range (x : Int) (h1 : -9223372036854775808 ≤ x)
    (h2 : x < 9223372036854775808) : wrapInt64 x = x := by
  unfold wrapInt64
  norm_num
  omega

/-- The year field reads four digits and leaves the rest. -/
theorem parseField_year (st : ParsedTime) (n : Nat) (h : n < 10000) (rest : Bytes) :
    parseField .stdLongYear st (fourDigits n ++ rest)
      = some ({ st with year := (n : Int) }, rest) := by
  obtain ⟨hd, -, -, h45, h43⟩ := digit_byte_spec (n / 1000) (by omega)
  have hlead := leadingInt_digits (fourDigits n) 0 n [] (parseDigits_fourDigits n h)
    (by norm_num) (by simp)
  rw [if_pos (by omega), List.append_nil] at hlead
  have htake : (fourDigits n ++ rest).take 4 = fourDigits n := by simp [fourDigits]
  have hdrop : (fourDigits n ++ rest).drop 4 = rest := by simp [fourDigits]
  have hlen : ¬ (fourDigits n ++ rest).length < 4 := by simp [fourDigits]
  have hdig : isDigit (fourDigits n ++ rest) 0 = true := by simp [fourDigits, isDigit, hd]
  have hhead : (fourDigits n).head? = some (UInt8.ofNat (48 + n / 1000)) := rfl
  have hatoi : atoi (fourDigits n) = some (n : Int) := by
    unfold atoi
    simp only [hhead, Option.some.injEq, h45, h43, or_self, if_false, hlead, decide_False,
      Bool.false_eq_true]
    rw [wrapInt64_of_range _ (by omega) (by omega)]
  simp only [parseField, hlen, hdig, htake, hatoi, hdrop, not_true_eq_false, or_self, if_false]

/-- A one-byte literal other than a space is skipped when the value starts
with it. -/
theorem skipLiteral_byte (p : UInt8) (rest : Bytes) (hp : p ≠ 32) :
    skipLiteral 1 (p :: rest) [p] = some rest := by
  simp [skipLiteral, hp]

/-- A one-byte literal other than a space is not skipped when the value starts
with another byte or is empty. -/
theorem skipLiteral_other (p : UInt8) (value : Bytes) (hp : p ≠ 32)
    (hv : value.head? ≠ some p) : skipLiteral 1 value [p] = none := by
  simp [skipLiteral, hp, hv]

/-- A space of the layout is skipped together with the one space in front of
a digit. -/
theorem skipLiteral_space (m : Nat) (h : m < 10) (rest : Bytes) :
    skipLiteral 1 (32 :: UInt8.ofNat (48 + m) :: rest) [32] = some (UInt8.ofNat (48 + m) :: rest) := by
  obtain ⟨-, -, h32, -⟩ := digit_byte_spec m h
  simp [skipLiteral, List.dropWhile, h32]

/-- One round of the loop of `time.Parse` whose literal and field are read. -/
theorem timeParseLoop_cons (lit : Bytes) (std : Std) (layout : List (Bytes × Std))
    (st st₁ : ParsedTime) (value value₁ value₂ : Bytes)
    (hskip : skipLiteral lit.length value lit = some value₁)
    (hfield : parseField std st value₁ = some (st₁, value₂)) :
    timeParseLoop ((lit, std) :: layout) st value = timeParseLoop layout st₁ value₂ := by
  simp only [timeParseLoop, hskip, hfield]

/-- One round of the loop of `time.Parse` whose literal is not found. -/
theorem timeParseLoop_no_literal (lit : Bytes) (std : Std) (layout : List (Bytes × Std))
    (st : ParsedTime) (value : Bytes) (hskip : skipLiteral lit.length value lit = none) :
    timeParseLoop ((lit, std) :: layout) st value = none := by
  simp only [timeParseLoop, hskip]

/-- The month field reads two digits. -/
theorem parseField_month (st : ParsedTime) (m : Nat) (hm : 1 ≤ m ∧ m ≤ 12) (rest : Bytes) :
    parseField .stdZeroMonth st (twoDigits m ++ rest)
      = some ({ st with month := (m : Int) }, rest) := by
  simp only [parseField, getnum_twoDigits m (by omega)]
  rw [if_neg (by omega)]

/-- The day field reads two digits. -/
theorem parseField_day (st : ParsedTime) (d : Nat) (hd : d < 100) (rest : Bytes) :
    parseField .stdZeroDay st (twoDigits d ++ rest) = some ({ st with day := (d : Int) }, rest) := by
  simp only [parseField, getnum_twoDigits d hd]

/-- The hour field reads two digits. -/
theorem parseField_hour (st : ParsedTime) (h : Nat) (hh : h < 24) (rest : Bytes) :
    parseField .stdHour st (twoDigits h ++ rest) = some ({ st with hour := (h : Int) }, rest) := by
  simp only [parseField, getnum_twoDigits h (by omega)]
  rw [if_neg (by omega)]

/-- The minute field reads two digits. -/
theorem parseField_minute (st : ParsedTime) (mi : Nat) (hmi : mi < 60) (rest : Bytes) :
    parseField .stdZeroMinute st (twoDigits mi ++ rest)
      = some ({ st with min := (mi : Int) }, rest) := by
  simp only [parseField, getnum_twoDigits mi (by omega)]
  rw [if_neg (by omega)]

/-- The seconds field reads two digits at the end of the value. -/
theorem parseField_second (st : ParsedTime) (s : Nat) (hs : s < 60) :
    parseField .stdZeroSecond st (twoDigits s) = some ({ st with sec := (s : Int) }, []) := by
  have h := getnum_twoDigits s (by omega) [] true
  rw [List.append_nil] at h
  simp only [parseField, h]
  rw [if_neg (by omega), if_neg (by simp)]

/-- The rounds of `time.Parse` for the date fields `2006-01-02` on a date
written with four, two and two digits. -/
theorem timeParseLoop_date (layout : List (Bytes × Std)) (st : ParsedTime) (y m d : Nat)
    (hy : y < 10000) (hm : 1 ≤ m ∧ m ≤ 12) (hd : d < 100) (rest : Bytes) :
    timeParseLoop (([], .stdLongYear) :: (utf8 "-", .stdZeroMonth) :: (utf8 "-", .stdZeroDay)
        :: layout) st (dateText y m d ++ rest)
      = timeParseLoop layout { st with year := (y : Int), month := (m : Int), day := (d : Int) }
          rest := by
  have hdash : utf8 "-" = [45] := rfl
  have htext : dateText y m d ++ rest
      = fourDigits y ++ (45 :: (twoDigits m ++ (45 :: (twoDigits d ++ rest)))) := by
    simp [dateText, hdash]
  rw [htext, hdash,
    timeParseLoop_cons [] _ _ _ _ _ _ _ (by rfl) (parseField_year st y hy _),
    timeParseLoop_cons [45] _ _ _ _ _ _ _ (skipLiteral_byte 45 _ (by decide))
      (parseField_month _ m hm _),
    timeParseLoop_cons [45] _ _ _ _ _ _ _ (skipLiteral_byte 45 _ (by decide))
      (parseField_day _ d hd _)]

/-- The rounds of `time.Parse` for the fields `15:04:05` on a time of day
written with two digits each that ends the value, once the literal in front has
been skipped. -/
theorem timeParseLoop_clock (lit value : Bytes) (layout : List (Bytes × Std)) (st : ParsedTime)
    (h mi s : Nat) (hh : h < 24) (hmi : mi < 60) (hs : s < 60)
    (hskip : skipLiteral lit.length value lit = some (clockText h mi s)) :
    timeParseLoop ((lit, .stdHour) :: (utf8 ":", .stdZeroMinute) :: (utf8 ":", .stdZeroSecond)
        :: layout) st value
      = timeParseLoop layout { st with hour := (h : Int), min := (mi : Int), sec := (s : Int) }
          [] := by
  have hcolon : utf8 ":" = [58] := rfl
  have htext : clockText h mi s = twoDigits h ++ (58 :: (twoDigits mi ++ (58 :: twoDigits s)))
      := by
    simp [clockText, hcolon]
  rw [htext] at hskip
  rw [hcolon,
    timeParseLoop_cons _ _ _ _ _ _ _ _ hskip (parseField_hour _ h hh _),
    timeParseLoop_cons [58] _ _ _ _ _ _ _ (skipLiteral_byte 58 _ (by decide))
      (parseField_minute _ mi hmi _),
    timeParseLoop_cons [58] _ _ _ _ _ _ _ (skipLiteral_byte 58 _ (by decide))
      (parseField_second _ s hs)]

/-- The fields of a date and time without a zone, as `time.Parse` holds them
after its loop. -/
theorem timeParse_of_fields (layout : List (Bytes × Std)) (value : Bytes)
    (y m d h mi s : Nat) (hd : 1 ≤ d ∧ (d : Int) ≤ daysIn m y)
    (hloop : timeParseLoop layout {} value
      = some { year := (y : Int), month := (m : Int), day := (d : Int), hour := (h : Int),
               min := (mi : Int), sec := (s : Int) }) :
    timeParse layout value = some (wallClockInstant 0 y m d h mi s) := by
  have hm0 : ¬ ((m : Int) < 0) := by omega
  have hd0 : ¬ ((d : Int) < 0) := by omega
  have hrange : ¬ ((d : Int) < 1 ∨ (d : Int) > daysIn m y) := by omega
  simp only [timeParse, hloop, if_neg hm0, if_neg hd0, if_neg hrange]
  simp [wallClockInstant]

/-- The layouts on a text `YYYY-MM-DDTHH:MM:SS`: `time.RFC3339` misses the
zone, the first fallback layout reads the text in UTC. -/
theorem timeParse_dateTimeT (y m d h mi s : Nat) (hy : y < 10000) (hm : 1 ≤ m ∧ m ≤ 12)
    (hd : 1 ≤ d ∧ (d : Int) ≤ daysIn m y) (hh : h < 24) (hmi : mi < 60) (hs : s < 60) :
    timeParse layoutRFC3339 (dateText y m d ++ utf8 "T" ++ clockText h mi s) = none
    ∧ timeParse layoutDateTimeT (dateText y m d ++ utf8 "T" ++ clockText h mi s)
        = some (wallClockInstant 0 y m d h mi s) := by
  have hd100 : d < 100 := by
    have : daysIn m y ≤ 31 := by unfold daysIn; split_ifs <;> omega
    omega
  have htext : dateText y m d ++ utf8 "T" ++ clockText h mi s
      = dateText y m d ++ (84 :: clockText h mi s) := by
    rw [show utf8 "T" = [84] from rfl]; simp
  have hskip : skipLiteral (utf8 "T").length (84 :: clockText h mi s) (utf8 "T")
      = some (clockText h mi s) := skipLiteral_byte 84 _ (by decide)
  constructor
  · have hloop : timeParseLoop layoutRFC3339 {} (dateText y m d ++ (84 :: clockText h mi s))
        = none := by
      rw [layoutRFC3339, timeParseLoop_date _ _ y m d hy hm hd100,
        timeParseLoop_clock _ _ _ _ h mi s hh hmi hs hskip]
      rfl
    rw [htext]
    simp only [timeParse, hloop]
  · rw [htext]
    apply timeParse_of_fields _ _ y m d h mi s hd
    rw [layoutDateTimeT, timeParseLoop_date _ _ y m d hy hm hd100,
      timeParseLoop_clock _ _ _ _ h mi s hh hmi hs hskip]
    rfl

/-- The layouts on a text `YYYY-MM-DD HH:MM:SS`: `time.RFC3339` and the first
fallback layout miss the `T`, the second fallback layout reads the text in
UTC. -/
theorem timeParse_dateTimeSpace (y m d h mi s : Nat) (hy : y < 10000) (hm : 1 ≤ m ∧ m ≤ 12)
    (hd : 1 ≤ d ∧ (d : Int) ≤ daysIn m y) (hh : h < 24) (hmi : mi < 60) (hs : s < 60) :
    timeParse layoutRFC3339 (dateText y m d ++ utf8 " " ++ clockText h mi s) = none
    ∧ timeParse layoutDateTimeT (dateText y m d ++ utf8 " " ++ clockText h mi s) = none
    ∧ timeParse layoutDateTimeSpace (dateText y m d ++ utf8 " " ++ clockText h mi s)
        = some (wallClockInstant 0 y m d h mi s) := by
  have hd100 : d < 100 := by
    have : daysIn m y ≤ 31 := by unfold daysIn; split_ifs <;> omega
    omega
  have htext : dateText y m d ++ utf8 " " ++ clockText h mi s
      = dateText y m d ++ (32 :: clockText h mi s) := by
    rw [show utf8 " " = [32] from rfl]; simp
  have hskip : skipLiteral (utf8 " ").length (32 :: clockText h mi s) (utf8 " ")
      = some (clockText h mi s) := skipLiteral_space (h / 10) (by omega) _
  have hnoT : skipLiteral (utf8 "T").length (32 :: clockText h mi s) (utf8 "T") = none :=
    skipLiteral_other 84 _ (by decide) (by simp)
  refine ⟨?_, ?_, ?_⟩
  · have hloop : timeParseLoop layoutRFC3339 {} (dateText y m d ++ (32 :: clockText h mi s))
        = none := by
      rw [layoutRFC3339, timeParseLoop_date _ _ y m d hy hm hd100,
        timeParseLoop_no_literal _ _ _ _ _ hnoT]
    rw [htext]
    simp only [timeParse, hloop]
  · have hloop : timeParseLoop layoutDateTimeT {} (dateText y m d ++ (32 :: clockText h mi s))
        = none := by
      rw [layoutDateTimeT, timeParseLoop_date _ _ y m d hy hm hd100,
        timeParseLoop_no_literal _ _ _ _ _ hnoT]
    rw [htext]
    simp only [timeParse, hloop]
  · rw [htext]
    apply timeParse_of_fields _ _ y m d h mi s hd
    rw [layoutDateTimeSpace, timeParseLoop_date _ _ y m d hy hm hd100,
      timeParseLoop_clock _ _ _ _ h mi s hh hmi hs hskip]
    rfl

/-- The layouts on a text `YYYY-MM-DD`: the layouts with a time of day find
none, the last fallback layout reads the date at midnight in UTC. -/
theorem timeParse_date (y m d : Nat) (hy : y < 10000) (hm : 1 ≤ m ∧ m ≤ 12)
    (hd : 1 ≤ d ∧ (d : Int) ≤ daysIn m y) :
    timeParse layoutRFC3339 (dateText y m d) = none
    ∧ timeParse layoutDateTimeT (dateText y m d) = none
    ∧ timeParse layoutDateTimeSpace (dateText y m d) = none
    ∧ timeParse layoutDate (dateText y m d) = some (wallClockInstant 0 y m d 0 0 0) := by
  have hd100 : d < 100 := by
    have : daysIn m y ≤ 31 := by unfold daysIn; split_ifs <;> omega
    omega
  have htext : dateText y m d = dateText y m d ++ [] := (List.append_nil _).symm
  have hnoT : skipLiteral (utf8 "T").length [] (utf8 "T") = none :=
    skipLiteral_other 84 _ (by decide) (by simp)
  refine ⟨?_, ?_, ?_, ?_⟩
  · have hloop : timeParseLoop layoutRFC3339 {} (dateText y m d ++ []) = none := by
      rw [layoutRFC3339, timeParseLoop_date _ _ y m d hy hm hd100,
        timeParseLoop_no_literal _ _ _ _ _ hnoT]
    rw [htext]
    simp only [timeParse, hloop]
  · have hloop : timeParseLoop layoutDateTimeT {} (dateText y m d ++ []) = none := by
      rw [layoutDateTimeT, timeParseLoop_date _ _ y m d hy hm hd100,
        timeParseLoop_no_literal _ _ _ _ _ hnoT]
    rw [htext]
    simp only [timeParse, hloop]
  · have hloop : timeParseLoop layoutDateTimeSpace {} (dateText y m d ++ []) = none := by
      rw [layoutDateTimeSpace, timeParseLoop_date _ _ y m d hy hm hd100]
      rfl
    rw [htext]
    simp only [timeParse, hloop]
  · rw [htext]
    apply timeParse_of_fields _ _ y m d 0 0 0 hd
    rw [layoutDate, timeParseLoop_date _ _ y m d hy hm hd100]
    rfl

/-- On a text that starts with a digit `parseTime` reads no clock and tries
the four layouts in turn. -/
theorem parseTime_digit (frac : Nat → Nat → Nat → Nat) (clock : Clock) (timeStr : Bytes)
    (h : isDigit timeStr 0 = true) :
    parseTime frac clock timeStr
      = (match timeParse layoutRFC3339 timeStr with
          | some t => .ok t
          | none =>
            match timeParse layoutDateTimeT timeStr with
            | some t => .ok t
            | none =>
              match timeParse layoutDateTimeSpace timeStr with
              | some t => .ok t
              | none =>
                match timeParse layoutDate timeStr with
                | some t => .ok t
                | none => .error (utf8 "unsupported time format: " ++ timeStr), clock) := by
  cases timeStr with
  | nil => simp [isDigit] at h
  | cons c rest =>
    have hc : 48 ≤ c.toNat ∧ c.toNat ≤ 57 := by simpa [isDigit, digitByte] using h
    have hnow : (c :: rest) ≠ utf8 "now" := by
      intro he
      have h2 : (c :: rest).head? = (utf8 "now").head? := congrArg List.head? he
      rw [show (utf8 "now").head? = some 110 from rfl, List.head?_cons] at h2
      have h3 : c = 110 := by simpa using h2
      rw [h3] at hc
      revert hc
      decide
    have hminus : (c :: rest).head? ≠ some 45 := by
      intro he
      have h3 : c = 45 := by simpa using he
      rw [h3] at hc
      revert hc
      decide
    unfold parseTime
    rw [if_neg hnow]
    simp only [hminus, and_false, if_false, List.findSome?]
    cases timeParse layoutRFC3339 (c :: rest) <;> cases timeParse layoutDateTimeT (c :: rest) <;>
      cases timeParse layoutDateTimeSpace (c :: rest) <;> cases timeParse layoutDate (c :: rest) <;>
      rfl

/-- C17 (as amended): for every input in one of the three fallback layouts
without a zone (`YYYY-MM-DDTHH:MM:SS`, `YYYY-MM-DD HH:MM:SS`, `YYYY-MM-DD`, the
fields being a valid date and time of day), `parseTime` returns the instant
obtained by reading that wall-clock date and time in UTC, at midnight for a
date alone, and reads no clock.  The process-local time zone takes no part:
`time.Parse` reads a value without a zone in UTC. -/
theorem fallback_layouts_read_in_utc (frac : Nat → Nat → Nat → Nat) (clock : Clock)
    (y m d h mi s : Nat) (hy : y < 10000) (hm : 1 ≤ m ∧ m ≤ 12)
    (hd : 1 ≤ d ∧ (d : Int) ≤ daysIn m y) (hh : h < 24) (hmi : mi < 60) (hs : s < 60) :
    parseTime frac clock (dateText y m d ++ utf8 "T" ++ clockText h mi s)
        = (.ok (wallClockInstant 0 y m d h mi s), clock)
    ∧ parseTime frac clock (dateText y m d ++ utf8 " " ++ clockText h mi s)
        = (.ok (wallClockInstant 0 y m d h mi s), clock)
    ∧ parseTime frac clock (dateText y m d) = (.ok (wallClockInstant 0 y m d 0 0 0), clock) := by
  obtain ⟨hdig, -⟩ := digit_byte_spec (y / 1000) (by omega)
  have h1 : isDigit (dateText y m d ++ utf8 "T" ++ clockText h mi s) 0 = true := by
    simp [dateText, fourDigits, isDigit, hdig]
  have h2 : isDigit (dateText y m d ++ utf8 " " ++ clockText h mi s) 0 = true := by
    simp [dateText, fourDigits, isDigit, hdig]
  have h3 : isDigit (dateText y m d) 0 = true := by
    simp [dateText, fourDigits, isDigit, hdig]
  obtain ⟨a1, a2⟩ := timeParse_dateTimeT y m d h mi s hy hm hd hh hmi hs
  obtain ⟨b1, b2, b3⟩ := timeParse_dateTimeSpace y m d h mi s hy hm hd hh hmi hs
  obtain ⟨c1, c2, c3, c4⟩ := timeParse_date y m d hy hm hd
  refine ⟨?_, ?_, ?_⟩
  · rw [parseTime_digit frac clock _ h1, a1, a2]
  · rw [parseTime_digit frac clock _ h2, b1, b2, b3]
  · rw [parseTime_digit frac clock _ h3, c1, c2, c3, c4]

/-- Witness of C17: `2024-02-29T23:59:58`, the same with a space, and
`2024-02-29` are read as 1709251198 s, resp. 1709164800 s, after the epoch. -/
theorem fallback_layouts_read_in_utc_witness :
    dateText 2024 2 29 ++ utf8 "T" ++ clockText 23 59 58 = utf8 "2024-02-29T23:59:58"
    ∧ wallClockInstant 0 2024 2 29 23 59 58 = 1709251198000000000
    ∧ wallClockInstant 0 2024 2 29 0 0 0 = 1709164800000000000
    ∧ parseTime exactFraction (fixedClock 0) (dateText 2024 2 29 ++ utf8 "T" ++ clockText 23 59 58)
        = (.ok (wallClockInstant 0 2024 2 29 23 59 58), fixedClock 0)
    ∧ parseTime exactFraction (fixedClock 0) (dateText 2024 2 29 ++ utf8 " " ++ clockText 23 59 58)
        = (.ok (wallClockInstant 0 2024 2 29 23 59 58), fixedClock 0)
    ∧ parseTime exactFraction (fixedClock 0) (dateText 2024 2 29)
        = (.ok (wallClockInstant 0 2024 2 29 0 0 0), fixedClock 0) :=
  ⟨by decide, by decide, by decide,
    fallback_layouts_read_in_utc exactFraction (fixedClock 0) 2024 2 29 23 59 58 (by decide)
      (by decide) (by decide) (by decide) (by decide) (by decide)⟩

/-- Counterexample to C17 as stated: in a process whose local zone is one hour
east of UTC, the wall-clock reading `2024-01-01 00:00:00` is the instant
1704063600 s after the epoch, but `parseTime` returns 1704067200 s, the
reading of that text in UTC; the same holds for the other two layouts. -/
theorem fallback_layouts_not_local :
    wallClockInstant 3600 2024 1 1 0 0 0 = 1704063600000000000
    ∧ (parseTime exactFraction (fixedClock 0) (utf8 "2024-01-01 00:00:00")).1
        = .ok 1704067200000000000
    ∧ (parseTime exactFraction (fixedClock 0) (utf8 "2024-01-01T00:00:00")).1
        = .ok 1704067200000000000
    ∧ (parseTime exactFraction (fixedClock 0) (utf8 "2024-01-01")).1
        = .ok 1704067200000000000
    ∧ timeUnix 1704067200000000000 ≠ timeUnix (wallClockInstant 3600 2024 1 1 0 0 0) := by
  refine ⟨by decide, rfl, rfl, rfl, by decide⟩

/-! ## Decimal epochs -/

/-- The year field, when it reads, consumes four bytes. -/
theorem parseField_year_rest (st st₁ : ParsedTime) (value rest : Bytes)
    (h : parseField .stdLongYear st value = some (st₁, rest)) : rest = value.drop 4 := by
  simp only [parseField] at h
  split at h
  · exact absurd h (by simp)
  · split at h
    · exact absurd h (by simp)
    · simp only [Option.some.injEq, Prod.mk.injEq] at h
      exact h.2.symm

/-- A layout that starts with the year and a dash rejects a text made of
digits only. -/
theorem timeParseLoop_digits (std : Std) (layout : List (Bytes × Std)) (st : ParsedTime)
    (ds : Bytes) (hall : ∀ c ∈ ds, digitByte c = true) :
    timeParseLoop (([], .stdLongYear) :: (utf8 "-", std) :: layout) st ds = none := by
  rw [timeParseLoop]
  simp only [List.length_nil, skipLiteral]
  cases hf : parseField .stdLongYear st ds with
  | none => rfl
  | some p =>
    obtain ⟨st₁, rest⟩ := p
    have hrest := parseField_year_rest st st₁ ds rest hf
    subst hrest
    simp only []
    apply timeParseLoop_no_literal
    apply skipLiteral_other 45 _ (by decide)
    intro hh
    have hmem : (45 : UInt8) ∈ ds.drop 4 := List.mem_of_mem_head? hh
    have := hall 45 (List.mem_of_mem_drop hmem)
    revert this
    decide

/-- `parseTime` rejects every non-empty text made of decimal digits only. -/
theorem parseTime_digits (frac : Nat → Nat → Nat → Nat) (clock : Clock) (ds : Bytes)
    (hne : ds ≠ []) (hall : ∀ c ∈ ds, digitByte c = true) :
    parseTime frac clock ds = (.error (utf8 "unsupported time format: " ++ ds), clock) := by
  have hdig : isDigit ds 0 = true := by
    obtain ⟨c, rest, rfl⟩ := List.exists_cons_of_ne_nil hne
    simpa [isDigit] using hall c (by simp)
  have h1 : timeParse layoutRFC3339 ds = none := by
    simp only [timeParse, layoutRFC3339, timeParseLoop_digits _ _ _ ds hall]
  have h2 : timeParse layoutDateTimeT ds = none := by
    simp only [timeParse, layoutDateTimeT, timeParseLoop_digits _ _ _ ds hall]
  have h3 : timeParse layoutDateTimeSpace ds = none := by
    simp only [timeParse, layoutDateTimeSpace, timeParseLoop_digits _ _ _ ds hall]
  have h4 : timeParse layoutDate ds = none := by
    simp only [timeParse, layoutDate, timeParseLoop_digits _ _ _ ds hall]
  rw [parseTime_digit frac clock ds hdig, h1, h2, h3, h4]

/-- A text that the digit loop accepts is made of digits only. -/
theorem parseDigits_all : ∀ (ds : Bytes) (a n : Nat), parseDigits a ds = some n →
    ∀ c ∈ ds, digitByte c = true := by
  intro ds
  induction ds with
  | nil => intro a n _ c hc; simp at hc
  | cons b ds ih =>
    intro a n h c hc
    have hb := parseDigits_head b ds a n h
    simp only [parseDigits, if_pos hb] at h
    rcases List.mem_cons.1 hc with rfl | hmem
    · simp [digitByte, hb]
    · exact ih _ _ h c hmem


/-! ## The handlers -/

/-- The URL block of the handlers computes the resolution of the
specification. -/
theorem resolveTempoURL_eq (env : Env) (args : List (Bytes × JsonValue)) :
    resolveTempoURL env args
      = resolveBackendURL (mapIndex args (utf8 "url")) (env.getenv (utf8 "TEMPO_URL")) := by
  unfold resolveTempoURL resolveBackendURL
  cases h : mapIndex args (utf8 "url") <;>
    simp only [JsonValue.asString, EnvTempoURL, DefaultTempoURL] <;>
    by_cases he : env.getenv (utf8 "TEMPO_URL") = [] <;> simp [he]

/-- The base URL that `HandleSearchTraces` hands to its builder. -/
theorem searchTracesCall_tempoURL (env : Env) (clock clock₁ : Clock)
    (args : List (Bytes × JsonValue)) (call : SearchCall)
    (h : searchTracesCall env clock args = (.ok call, clock₁)) :
    call.tempoURL = resolveTempoURL env args := by
  unfold searchTracesCall at h
  split at h
  · simp at h
  · simp only [] at h
    split at h
    · simp at h
    · split at h
      · simp at h
      · simp only [Prod.mk.injEq, Except.ok.injEq] at h
        rw [← h.1]

/-- The base URL that `HandleGetTraceByID` hands to its builder. -/
theorem getTraceByIDCall_tempoURL (env : Env) (clock clock₁ : Clock)
    (args : List (Bytes × JsonValue)) (call : TraceCall)
    (h : getTraceByIDCall env clock args = (.ok call, clock₁)) :
    call.tempoURL = resolveTempoURL env args := by
  unfold getTraceByIDCall at h
  split at h
  · simp at h
  · simp only [] at h
    split at h
    · simp at h
    · split at h
      · simp at h
      · split at h
        · simp at h
        · simp only [Prod.mk.injEq, Except.ok.injEq] at h
          rw [← h.1]

/-- The base URL that `HandleSearchTags` hands to its builder. -/
theorem searchTagsCall_tempoURL (env : Env) (clock clock₁ : Clock)
    (args : List (Bytes × JsonValue)) (call : TagsCall)
    (h : searchTagsCall env clock args = (.ok call, clock₁)) :
    call.tempoURL = resolveTempoURL env args := by
  unfold searchTagsCall at h
  simp only [] at h
  split at h
  · simp at h
  · split at h
    · simp at h
    · simp only [Prod.mk.injEq, Except.ok.injEq] at h
      rw [← h.1]

/-- The base URL that `HandleSearchTagValues` hands to its builder. -/
theorem searchTagValuesCall_tempoURL (env : Env) (clock clock₁ : Clock)
    (args : List (Bytes × JsonValue)) (call : TagsCall)
    (h : searchTagValuesCall env clock args = (.ok call, clock₁)) :
    call.tempoURL = resolveTempoURL env args := by
  unfold searchTagValuesCall at h
  split at h
  · simp at h
  · simp only [] at h
    split at h
    · simp at h
    · split at h
      · simp at h
      · split at h
        · simp at h
        · simp only [Prod.mk.injEq, Except.ok.injEq] at h
          rw [← h.1]

/-- The request of `HandleSearchTraces`: once the arguments are read and the
URL is built, exactly one request goes out, to the built URL. -/
theorem HandleSearchTraces_sent (env : Env) (clock clock₁ : Clock) (net : Net)
    (args : List (Bytes × JsonValue)) (call : SearchCall) (searchURL : Bytes) (u : URL)
    (hcall : searchTracesCall env clock args = (.ok call, clock₁))
    (hbuild : buildTempoSearchURL env.url call.tempoURL call.queryString call.start call.end_
      call.limit = .ok searchURL)
    (hparse : env.url.urlParse searchURL = .ok u) :
    (HandleSearchTraces env clock net ⟨.object args⟩).2.2.sent
      = net.sent ++ [expectedRequest u (env.getenv EnvTempoUsername)
          (env.getenv EnvTempoPassword) (env.getenv EnvTempoToken)] := by
  have hs := executeTempoSearch_sent env.url env.json net searchURL
    (env.getenv EnvTempoUsername) (env.getenv EnvTempoPassword) (env.getenv EnvTempoToken) u
    hparse
  simp only [HandleSearchTraces, JsonValue.asObject, hcall, hbuild]
  generalize executeTempoSearch env.url env.json net searchURL (env.getenv EnvTempoUsername)
    (env.getenv EnvTempoPassword) (env.getenv EnvTempoToken) = r at hs ⊢
  obtain ⟨res, net₁⟩ := r
  cases res with
  | error e => exact hs
  | ok result =>
    simp only []
    cases formatTempoResults env.zoneOffset result <;> exact hs

/-- The request of `HandleGetTraceByID`. -/
theorem HandleGetTraceByID_sent (env : Env) (clock clock₁ : Clock) (net : Net)
    (args : List (Bytes × JsonValue)) (call : TraceCall) (traceURL : Bytes) (u : URL)
    (hcall : getTraceByIDCall env clock args = (.ok call, clock₁))
    (hbuild : buildTempoTraceURL env.url call.tempoURL call.traceID call.start call.end_
      = .ok traceURL)
    (hparse : env.url.urlParse traceURL = .ok u) :
    (HandleGetTraceByID env clock net ⟨.object args⟩).2.2.sent
      = net.sent ++ [expectedRequest u (env.getenv EnvTempoUsername)
          (env.getenv EnvTempoPassword) (env.getenv EnvTempoToken)] := by
  have hs := executeTempoTraceQuery_sent env.url env.json net traceURL
    (env.getenv EnvTempoUsername) (env.getenv EnvTempoPassword) (env.getenv EnvTempoToken) u
    hparse
  simp only [HandleGetTraceByID, JsonValue.asObject, hcall, hbuild]
  generalize executeTempoTraceQuery env.url env.json net traceURL (env.getenv EnvTempoUsername)
    (env.getenv EnvTempoPassword) (env.getenv EnvTempoToken) = r at hs ⊢
  obtain ⟨res, net₁⟩ := r
  cases res with
  | error e => exact hs
  | ok result =>
    simp only []
    cases formatTraceResult env.zoneOffset env.fmtValue env.marshalTrace result <;> exact hs

/-- The request of `HandleSearchTags`. -/
theorem HandleSearchTags_sent (env : Env) (clock clock₁ : Clock) (net : Net)
    (args : List (Bytes × JsonValue)) (call : TagsCall) (tagsURL : Bytes) (u : URL)
    (hcall : searchTagsCall env clock args = (.ok call, clock₁))
    (hbuild : buildTempoTagsURL env.url call.tempoURL call.name call.start call.end_ call.limit
      call.maxStaleValues = .ok tagsURL)
    (hparse : env.url.urlParse tagsURL = .ok u) :
    (HandleSearchTags env clock net ⟨.object args⟩).2.2.sent
      = net.sent ++ [expectedRequest u (env.getenv EnvTempoUsername)
          (env.getenv EnvTempoPassword) (env.getenv EnvTempoToken)] := by
  have hs := executeTempoTagsQuery_sent env.url env.json net tagsURL
    (env.getenv EnvTempoUsername) (env.getenv EnvTempoPassword) (env.getenv EnvTempoToken) u
    hparse
  simp only [HandleSearchTags, JsonValue.asObject, hcall, hbuild]
  generalize executeTempoTagsQuery env.url env.json net tagsURL (env.getenv EnvTempoUsername)
    (env.getenv EnvTempoPassword) (env.getenv EnvTempoToken) = r at hs ⊢
  obtain ⟨res, net₁⟩ := r
  cases res with
  | error e => exact hs
  | ok result =>
    simp only []
    cases formatTagsResult env.marshalIndent result <;> exact hs

/-- The request of `HandleSearchTagValues`. -/
theorem HandleSearchTagValues_sent (env : Env) (clock clock₁ : Clock) (net : Net)
    (args : List (Bytes × JsonValue)) (call : TagsCall) (tagValuesURL : Bytes) (u : URL)
    (hcall : searchTagValuesCall env clock args = (.ok call, clock₁))
    (hbuild : buildTempoTagValuesURL env.url call.tempoURL call.name call.start call.end_
      call.limit call.maxStaleValues = .ok tagValuesURL)
    (hparse : env.url.urlParse tagValuesURL = .ok u) :
    (HandleSearchTagValues env clock net ⟨.object args⟩).2.2.sent
      = net.sent ++ [expectedRequest u (env.getenv EnvTempoUsername)
          (env.getenv EnvTempoPassword) (env.getenv EnvTempoToken)] := by
  have hs := executeTempoTagValuesQuery_sent env.url env.json net tagValuesURL
    (env.getenv EnvTempoUsername) (env.getenv EnvTempoPassword) (env.getenv EnvTempoToken) u
    hparse
  simp only [HandleSearchTagValues, JsonValue.asObject, hcall, hbuild]
  generalize executeTempoTagValuesQuery env.url env.json net tagValuesURL
    (env.getenv EnvTempoUsername) (env.getenv EnvTempoPassword) (env.getenv EnvTempoToken)
    = r at hs ⊢
  obtain ⟨res, net₁⟩ := r
  cases res with
  | error e => exact hs
  | ok result =>
    simp only []
    cases formatTagValuesResult env.marshalIndent result call.name <;> exact hs


/-- An absent time argument yields nothing and reads no clock. -/
theorem optionalTime_absent (env : Env) (clock : Clock) (args : List (Bytes × JsonValue))
    (key : Bytes) (h : mapIndex args key = .null) :
    optionalTime env clock args key = (.ok none, clock) := by
  simp only [optionalTime, h, JsonValue.asString]

/-- C12: backend URL resolution as a function of the `url` argument and the
value of `TEMPO_URL`.  In each of the four handlers the base URL handed to the
URL builder is the `url` argument when that is a non-empty string, otherwise
the value of `TEMPO_URL` when that is non-empty, otherwise
`http://localhost:3200`; and the one request that the handler sends goes to
the URL built from that base URL.  Each handler comes to its builder call: on
a call without `start` and `end`, `search_tags` always does, and the other
three do when their required argument is there (`query` a string, `traceID`
resp. `tagName` a non-empty string). -/
theorem backend_url_resolution (env : Env) (clock : Clock) (net : Net)
    (args : List (Bytes × JsonValue)) :
    (∀ (call : SearchCall) (clock₁ : Clock) (built : Bytes) (u : URL),
      searchTracesCall env clock args = (.ok call, clock₁) →
      buildTempoSearchURL env.url
        (resolveBackendURL (mapIndex args (utf8 "url")) (env.getenv (utf8 "TEMPO_URL")))
        call.queryString call.start call.end_ call.limit = .ok built →
      env.url.urlParse built = .ok u →
      call.tempoURL
          = resolveBackendURL (mapIndex args (utf8 "url")) (env.getenv (utf8 "TEMPO_URL"))
        ∧ (HandleSearchTraces env clock net ⟨.object args⟩).2.2.sent
          = net.sent ++ [expectedRequest u (env.getenv EnvTempoUsername)
              (env.getenv EnvTempoPassword) (env.getenv EnvTempoToken)])
    ∧ (∀ (call : TraceCall) (clock₁ : Clock) (built : Bytes) (u : URL),
      getTraceByIDCall env clock args = (.ok call, clock₁) →
      buildTempoTraceURL env.url
        (resolveBackendURL (mapIndex args (utf8 "url")) (env.getenv (utf8 "TEMPO_URL")))
        call.traceID call.start call.end_ = .ok built →
      env.url.urlParse built = .ok u →
      call.tempoURL
          = resolveBackendURL (mapIndex args (utf8 "url")) (env.getenv (utf8 "TEMPO_URL"))
        ∧ (HandleGetTraceByID env clock net ⟨.object args⟩).2.2.sent
          = net.sent ++ [expectedRequest u (env.getenv EnvTempoUsername)
              (env.getenv EnvTempoPassword) (env.getenv EnvTempoToken)])
    ∧ (∀ (call : TagsCall) (clock₁ : Clock) (built : Bytes) (u : URL),
      searchTagsCall env clock args = (.ok call, clock₁) →
      buildTempoTagsURL env.url
        (resolveBackendURL (mapIndex args (utf8 "url")) (env.getenv (utf8 "TEMPO_URL")))
        call.name call.start call.end_ call.limit call.maxStaleValues = .ok built →
      env.url.urlParse built = .ok u →
      call.tempoURL
          = resolveBackendURL (mapIndex args (utf8 "url")) (env.getenv (utf8 "TEMPO_URL"))
        ∧ (HandleSearchTags env clock net ⟨.object args⟩).2.2.sent
          = net.sent ++ [expectedRequest u (env.getenv EnvTempoUsername)
              (env.getenv EnvTempoPassword) (env.getenv EnvTempoToken)])
    ∧ (∀ (call : TagsCall) (clock₁ : Clock) (built : Bytes) (u : URL),
      searchTagValuesCall env clock args = (.ok call, clock₁) →
      buildTempoTagValuesURL env.url
        (resolveBackendURL (mapIndex args (utf8 "url")) (env.getenv (utf8 "TEMPO_URL")))
        call.name call.start call.end_ call.limit call.maxStaleValues = .ok built →
      env.url.urlParse built = .ok u →
      call.tempoURL
          = resolveBackendURL (mapIndex args (utf8 "url")) (env.getenv (utf8 "TEMPO_URL"))
        ∧ (HandleSearchTagValues env clock net ⟨.object args⟩).2.2.sent
          = net.sent ++ [expectedRequest u (env.getenv EnvTempoUsername)
              (env.getenv EnvTempoPassword) (env.getenv EnvTempoToken)])
    ∧ (mapIndex args (utf8 "start") = .null → mapIndex args (utf8 "end") = .null →
      (∀ query : Bytes, (mapIndex args (utf8 "query")).asString = some query →
        ∃ (call : SearchCall) (clock₁ : Clock),
          searchTracesCall env clock args = (.ok call, clock₁))
      ∧ (∀ traceID : Bytes, (mapIndex args (utf8 "traceID")).asString = some traceID →
        traceID ≠ [] →
        ∃ (call : TraceCall) (clock₁ : Clock),
          getTraceByIDCall env clock args = (.ok call, clock₁))
      ∧ (∃ (call : TagsCall) (clock₁ : Clock),
          searchTagsCall env clock args = (.ok call, clock₁))
      ∧ (∀ tagName : Bytes, (mapIndex args (utf8 "tagName")).asString = some tagName →
        tagName ≠ [] →
        ∃ (call : TagsCall) (clock₁ : Clock),
          searchTagValuesCall env clock args = (.ok call, clock₁))) := by
  refine ⟨?_, ?_, ?_, ?_, ?_⟩
  · intro call clock₁ built u hcall hbuild hparse
    have hurl := (searchTracesCall_tempoURL env clock clock₁ args call hcall).trans
      (resolveTempoURL_eq env args)
    rw [← hurl] at hbuild
    exact ⟨hurl, HandleSearchTraces_sent env clock clock₁ net args call built u hcall hbuild
      hparse⟩
  · intro call clock₁ built u hcall hbuild hparse
    have hurl := (getTraceByIDCall_tempoURL env clock clock₁ args call hcall).trans
      (resolveTempoURL_eq env args)
    rw [← hurl] at hbuild
    exact ⟨hurl, HandleGetTraceByID_sent env clock clock₁ net args call built u hcall hbuild
      hparse⟩
  · intro call clock₁ built u hcall hbuild hparse
    have hurl := (searchTagsCall_tempoURL env clock clock₁ args call hcall).trans
      (resolveTempoURL_eq env args)
    rw [← hurl] at hbuild
    exact ⟨hurl, HandleSearchTags_sent env clock clock₁ net args call built u hcall hbuild
      hparse⟩
  · intro call clock₁ built u hcall hbuild hparse
    have hurl := (searchTagValuesCall_tempoURL env clock clock₁ args call hcall).trans
      (resolveTempoURL_eq env args)
    rw [← hurl] at hbuild
    exact ⟨hurl, HandleSearchTagValues_sent env clock clock₁ net args call built u hcall hbuild
      hparse⟩
  · intro hstart hend
    refine ⟨?_, ?_, ?_, ?_⟩
    · intro query hq
      simp only [searchTracesCall, hq, optionalTime_absent env _ args _ hstart,
        optionalTime_absent env _ args _ hend]
      exact ⟨_, _, rfl⟩
    · intro traceID hid hne
      simp only [getTraceByIDCall, hid, if_neg hne, optionalTime_absent env _ args _ hstart,
        optionalTime_absent env _ args _ hend]
      exact ⟨_, _, rfl⟩
    · simp only [searchTagsCall, optionalTime_absent env _ args _ hstart,
        optionalTime_absent env _ args _ hend]
      exact ⟨_, _, rfl⟩
    · intro tagName hn hne
      simp only [searchTagValuesCall, hn, if_neg hne, optionalTime_absent env _ args _ hstart,
        optionalTime_absent env _ args _ hend]
      exact ⟨_, _, rfl⟩

set_option maxRecDepth 100000 in
/-- Witness of C12, one call per handler, in a process where `TEMPO_URL` is
`http://tempo:3200` (for `search_tags`: is not set).  `search_traces` with the
`url` argument `http://backend:3200` sends its request to that backend;
`get_trace_by_id` without a `url` argument and `search_tag_values` with the
empty string as `url` argument send theirs to `http://tempo:3200`;
`search_tags` without a `url` argument and without `TEMPO_URL` sends its
request to `http://localhost:3200`.  In each of the four calls the handler
comes to its builder call. -/
theorem backend_url_resolution_witness :
    (resolveBackendURL (mapIndex backendQueryArgs (utf8 "url")) (utf8 "http://tempo:3200")
        = utf8 "http://backend:3200"
      ∧ (HandleSearchTraces (exampleEnv (tempoURLOnly (utf8 "http://tempo:3200"))
          (strictDecoders {} {} {})) (fixedClock 0) offlineNet ⟨.object backendQueryArgs⟩).2.2.sent
        = [expectedRequest backendSearchEndpoint [] [] []])
    ∧ (resolveBackendURL (mapIndex traceArgs (utf8 "url")) (utf8 "http://tempo:3200")
        = utf8 "http://tempo:3200"
      ∧ (HandleGetTraceByID (exampleEnv (tempoURLOnly (utf8 "http://tempo:3200"))
          (strictDecoders {} {} {})) (fixedClock 0) offlineNet ⟨.object traceArgs⟩).2.2.sent
        = [expectedRequest traceEndpoint [] [] []])
    ∧ (resolveBackendURL (mapIndex scopeArgs (utf8 "url")) [] = utf8 "http://localhost:3200"
      ∧ (HandleSearchTags (exampleEnv (fun _ => []) (strictDecoders {} {} {})) (fixedClock 0)
          offlineNet ⟨.object scopeArgs⟩).2.2.sent
        = [expectedRequest scopedTagsEndpoint [] [] []])
    ∧ (resolveBackendURL (mapIndex emptyURLTagArgs (utf8 "url")) (utf8 "http://tempo:3200")
        = utf8 "http://tempo:3200"
      ∧ (HandleSearchTagValues (exampleEnv (tempoURLOnly (utf8 "http://tempo:3200"))
          (strictDecoders {} {} {})) (fixedClock 0) offlineNet ⟨.object emptyURLTagArgs⟩).2.2.sent
        = [expectedRequest tagValuesEndpoint [] [] []])
    ∧ (∃ (call : SearchCall) (clock₁ : Clock),
        searchTracesCall (exampleEnv (tempoURLOnly (utf8 "http://tempo:3200"))
          (strictDecoders {} {} {})) (fixedClock 0) backendQueryArgs = (.ok call, clock₁))
    ∧ (∃ (call : TraceCall) (clock₁ : Clock),
        getTraceByIDCall (exampleEnv (tempoURLOnly (utf8 "http://tempo:3200"))
          (strictDecoders {} {} {})) (fixedClock 0) traceArgs = (.ok call, clock₁))
    ∧ (∃ (call : TagsCall) (clock₁ : Clock),
        searchTagsCall (exampleEnv (fun _ => []) (strictDecoders {} {} {})) (fixedClock 0)
          scopeArgs = (.ok call, clock₁))
    ∧ (∃ (call : TagsCall) (clock₁ : Clock),
        searchTagValuesCall (exampleEnv (tempoURLOnly (utf8 "http://tempo:3200"))
          (strictDecoders {} {} {})) (fixedClock 0) emptyURLTagArgs = (.ok call, clock₁)) :=
  ⟨⟨by decide,
      ((backend_url_resolution (exampleEnv (tempoURLOnly (utf8 "http://tempo:3200"))
        (strictDecoders {} {} {})) (fixedClock 0) offlineNet backendQueryArgs).1
        { tempoURL := utf8 "http://backend:3200", queryString := utf8 "x", start := -3600,
          end_ := 0, limit := 20 }
        { fixedClock 0 with taken := 2 }
        (utf8 "http://backend:3200/api/search?end=0&limit=20&q=x&start=-3600")
        backendSearchEndpoint rfl rfl rfl).2⟩,
    ⟨by decide,
      ((backend_url_resolution (exampleEnv (tempoURLOnly (utf8 "http://tempo:3200"))
        (strictDecoders {} {} {})) (fixedClock 0) offlineNet traceArgs).2.1
        { tempoURL := utf8 "http://tempo:3200", traceID := utf8 "abc", start := none,
          end_ := none }
        (fixedClock 0) (utf8 "http://tempo:3200/api/traces/abc") traceEndpoint rfl rfl rfl).2⟩,
    ⟨by decide,
      ((backend_url_resolution (exampleEnv (fun _ => []) (strictDecoders {} {} {}))
        (fixedClock 0) offlineNet scopeArgs).2.2.1
        { tempoURL := utf8 "http://localhost:3200", name := utf8 "span", start := none,
          end_ := none, limit := none, maxStaleValues := none }
        (fixedClock 0) (utf8 "http://localhost:3200/api/search/tags?scope=span")
        scopedTagsEndpoint rfl rfl rfl).2⟩,
    ⟨by decide,
      ((backend_url_resolution (exampleEnv (tempoURLOnly (utf8 "http://tempo:3200"))
        (strictDecoders {} {} {})) (fixedClock 0) offlineNet emptyURLTagArgs).2.2.2.1
        { tempoURL := utf8 "http://tempo:3200", name := utf8 "service.name", start := none,
          end_ := none, limit := none, maxStaleValues := none }
        (fixedClock 0) (utf8 "http://tempo:3200/api/search/tag/service.name/values")
        tagValuesEndpoint rfl rfl rfl).2⟩,
    ((backend_url_resolution (exampleEnv (tempoURLOnly (utf8 "http://tempo:3200"))
      (strictDecoders {} {} {})) (fixedClock 0) offlineNet backendQueryArgs).2.2.2.2 rfl rfl).1
      (utf8 "x") rfl,
    ((backend_url_resolution (exampleEnv (tempoURLOnly (utf8 "http://tempo:3200"))
      (strictDecoders {} {} {})) (fixedClock 0) offlineNet traceArgs).2.2.2.2 rfl rfl).2.1
      (utf8 "abc") rfl (by decide),
    ((backend_url_resolution (exampleEnv (fun _ => []) (strictDecoders {} {} {}))
      (fixedClock 0) offlineNet scopeArgs).2.2.2.2 rfl rfl).2.2.1,
    ((backend_url_resolution (exampleEnv (tempoURLOnly (utf8 "http://tempo:3200"))
      (strictDecoders {} {} {})) (fixedClock 0) offlineNet emptyURLTagArgs).2.2.2.2 rfl rfl).2.2.2
      (utf8 "service.name") rfl (by decide)⟩


/-! ## Time arguments of the handlers -/

/-- One hour before an instant is 3600 Unix seconds earlier. -/
theorem timeUnix_sub_hour (t : Int) :
    timeUnix (t + (-1) * 3600000000000) = timeUnix t - 3600 := by
  unfold timeUnix
  omega

/-- The query of the URL that the search builder writes holds the three
numbers it was given. -/
theorem tempoSearchURL_lookup (u : URL) (query : Bytes) (start end_ limit : Int) :
    (tempoSearchURL u query start end_ limit).Query.Lookup (utf8 "start") = some [fmtInt start]
    ∧ (tempoSearchURL u query start end_ limit).Query.Lookup (utf8 "end") = some [fmtInt end_]
    ∧ (tempoSearchURL u query start end_ limit).Query.Lookup (utf8 "limit")
        = some [fmtInt limit] := by
  have hq : (tempoSearchURL u query start end_ limit).Query
      = applySets (parseQuery u.RawQuery) (searchSets query start end_ limit) := by
    rw [tempoSearchURL_eq]
    simp only [URL.Query]
    exact parseQuery_encode_canonical _ (canonical_applySets _ _ (canonical_parseQuery _))
  have hnodup : ((searchSets query start end_ limit).map (fun op => op.1)).Nodup := by
    simp only [searchSets, List.map]
    decide
  rw [hq]
  refine ⟨?_, ?_, ?_⟩ <;>
    exact lookup_applySets_mem _ _ _ _ hnodup (by simp [searchSets])

/-- A builder that is given no start and no end writes neither key: the built
query has one only if the query of the base URL has it. -/
theorem no_time_keys (u : URL) (traceID scope tagName : Bytes)
    (limit maxStaleValues : Option Int) (key : Bytes)
    (hkey : key = utf8 "start" ∨ key = utf8 "end") (hbase : u.Query.Has key = false) :
    (tempoTraceURL u traceID none none).Query.Has key = false
    ∧ (tempoTagsURL u scope none none limit maxStaleValues).Query.Has key = false
    ∧ (tempoTagValuesURL u tagName none none limit maxStaleValues).Query.Has key = false := by
  have hbase' : ¬ u.Query.Has key = true := by simp [hbase]
  refine ⟨?_, ?_, ?_⟩
  · rw [Bool.eq_false_iff]
    intro h
    rcases tempoTraceURL_has _ _ _ _ _ h with h0 | ⟨_, hs⟩ | ⟨_, hs⟩
    · exact hbase' h0
    · exact hs rfl
    · exact hs rfl
  · rw [Bool.eq_false_iff]
    intro h
    rcases tempoTagsURL_has _ _ _ _ _ _ _ h with
      h0 | ⟨hk, _⟩ | ⟨_, hs⟩ | ⟨_, hs⟩ | ⟨hk, _⟩ | ⟨hk, _⟩
    · exact hbase' h0
    · rcases hkey with h1 | h1 <;> (rw [h1] at hk; revert hk; decide)
    · exact hs rfl
    · exact hs rfl
    · rcases hkey with h1 | h1 <;> (rw [h1] at hk; revert hk; decide)
    · rcases hkey with h1 | h1 <;> (rw [h1] at hk; revert hk; decide)
  · rw [Bool.eq_false_iff]
    intro h
    rcases tempoTagValuesURL_has _ _ _ _ _ _ _ h with
      h0 | ⟨_, hs⟩ | ⟨_, hs⟩ | ⟨hk, _⟩ | ⟨hk, _⟩
    · exact hbase' h0
    · exact hs rfl
    · exact hs rfl
    · rcases hkey with h1 | h1 <;> (rw [h1] at hk; revert hk; decide)
    · rcases hkey with h1 | h1 <;> (rw [h1] at hk; revert hk; decide)

/-- C13 (as amended): the default time window.  When `start` and `end` are
both absent, `search_traces` calls its builder with start = the Unix second of
a first reading of the clock minus 3600, end = the Unix second of a second
reading, and limit = 20 when `limit` is absent too, and the query of the built
URL holds these three numbers; `get_trace_by_id`, `search_tags` and
`search_tag_values` call their builder with no start and no end, so that the
built URL carries a `start` or `end` key only if the query of the base URL
already has that key. -/
theorem default_time_window (env : Env) (clock : Clock) (args : List (Bytes × JsonValue))
    (hstart : mapIndex args (utf8 "start") = .null)
    (hend : mapIndex args (utf8 "end") = .null) :
    (∀ query : Bytes, (mapIndex args (utf8 "query")).asString = some query →
      searchTracesCall env clock args
        = (.ok { tempoURL := resolveTempoURL env args, queryString := query,
                 start := timeUnix (clock.readings clock.taken) - 3600,
                 end_ := timeUnix (clock.readings (clock.taken + 1)),
                 limit := (optionalInt args (utf8 "limit")).getD 20 },
            { clock with taken := clock.taken + 2 })
      ∧ (mapIndex args (utf8 "limit") = .null →
          (optionalInt args (utf8 "limit")).getD 20 = 20))
    ∧ (∀ (u : URL) (query : Bytes) (start end_ limit : Int),
        (tempoSearchURL u query start end_ limit).Query.Lookup (utf8 "start")
            = some [fmtInt start]
        ∧ (tempoSearchURL u query start end_ limit).Query.Lookup (utf8 "end")
            = some [fmtInt end_]
        ∧ (tempoSearchURL u query start end_ limit).Query.Lookup (utf8 "limit")
            = some [fmtInt limit])
    ∧ (∀ traceID : Bytes, (mapIndex args (utf8 "traceID")).asString = some traceID →
        traceID ≠ [] →
        getTraceByIDCall env clock args
          = (.ok { tempoURL := resolveTempoURL env args, traceID := traceID, start := none,
                   end_ := none }, clock))
    ∧ searchTagsCall env clock args
        = (.ok { tempoURL := resolveTempoURL env args,
                 name := ((mapIndex args (utf8 "scope")).asString).getD [],
                 start := none, end_ := none, limit := optionalInt args (utf8 "limit"),
                 maxStaleValues := optionalInt args (utf8 "maxStaleValues") }, clock)
    ∧ (∀ tagName : Bytes, (mapIndex args (utf8 "tagName")).asString = some tagName →
        tagName ≠ [] →
        searchTagValuesCall env clock args
          = (.ok { tempoURL := resolveTempoURL env args, name := tagName, start := none,
                   end_ := none, limit := optionalInt args (utf8 "limit"),
                   maxStaleValues := optionalInt args (utf8 "maxStaleValues") }, clock))
    ∧ (∀ (u : URL) (traceID scope tagName : Bytes) (limit maxStaleValues : Option Int)
        (key : Bytes), key = utf8 "start" ∨ key = utf8 "end" → u.Query.Has key = false →
        (tempoTraceURL u traceID none none).Query.Has key = false
        ∧ (tempoTagsURL u scope none none limit maxStaleValues).Query.Has key = false
        ∧ (tempoTagValuesURL u tagName none none limit maxStaleValues).Query.Has key
            = false) := by
  refine ⟨?_, ?_, ?_, ?_, ?_, ?_⟩
  · intro query hq
    constructor
    · simp only [searchTracesCall, hq, optionalTime_absent env _ args _ hstart,
        optionalTime_absent env _ args _ hend, timeNow, timeUnix_sub_hour, Option.getD_none]
    · intro hl
      simp only [optionalInt, hl, JsonValue.asFloat64, Option.getD_none]
  · exact tempoSearchURL_lookup
  · intro traceID hid hne
    simp only [getTraceByIDCall, hid, if_neg hne, optionalTime_absent env _ args _ hstart,
      optionalTime_absent env _ args _ hend]
  · simp only [searchTagsCall, optionalTime_absent env _ args _ hstart,
      optionalTime_absent env _ args _ hend]
  · intro tagName hn hne
    simp only [searchTagValuesCall, hn, if_neg hne, optionalTime_absent env _ args _ hstart,
      optionalTime_absent env _ args _ hend]
  · exact no_time_keys

set_option maxRecDepth 100000 in
/-- Witness of C13: a call of `search_traces` with the query `x` only, on a
clock that advances one second per reading from 1700000000.5 s: the window is
1699996400 .. 1700000001, with limit 20. -/
theorem default_time_window_witness :
    mapIndex queryOnlyArgs (utf8 "start") = .null
    ∧ mapIndex queryOnlyArgs (utf8 "end") = .null
    ∧ searchTracesCall (exampleEnv (fun _ => []) (strictDecoders {} {} {})) tickingClock
          queryOnlyArgs
        = (.ok { tempoURL := utf8 "http://localhost:3200", queryString := utf8 "x",
                 start := 1699996400, end_ := 1700000001, limit := 20 },
            { tickingClock with taken := 2 }) :=
  ⟨rfl, rfl,
    ((default_time_window (exampleEnv (fun _ => []) (strictDecoders {} {} {})) tickingClock
      queryOnlyArgs rfl rfl).1 (utf8 "x") rfl).1⟩

set_option maxRecDepth 100000 in
/-- Counterexample to C13 as stated: a call of `get_trace_by_id` without `start`
and `end` whose `url` argument is `http://localhost:3200?start=5` sends its
request to `http://localhost:3200/api/traces/abc?start=5`, a URL that carries
a `start` key.  A call of `search_traces` without `start` and `end` and with
`limit` = 5 calls its builder with limit 5, not 20; and on a clock that
advances by one second between its two readings the window it builds is 3601
seconds long, so that its start is not its end minus 3600. -/
theorem default_window_start_kept :
    mapIndex startKeptArgs (utf8 "start") = .null
    ∧ mapIndex startKeptArgs (utf8 "end") = .null
    ∧ buildTempoTraceURL plainURLLib (utf8 "http://localhost:3200?start=5") (utf8 "abc") none none
        = .ok (utf8 "http://localhost:3200/api/traces/abc?start=5")
    ∧ (HandleGetTraceByID (exampleEnv (fun _ => []) (strictDecoders {} {} {})) (fixedClock 0)
          offlineNet ⟨.object startKeptArgs⟩).2.2.sent
        = [expectedRequest startKeptEndpoint [] [] []]
    ∧ startKeptEndpoint.Query.Has (utf8 "start") = true
    ∧ mapIndex limitedQueryArgs (utf8 "start") = .null
    ∧ mapIndex limitedQueryArgs (utf8 "end") = .null
    ∧ (searchTracesCall (exampleEnv (fun _ => []) (strictDecoders {} {} {})) tickingClock
          limitedQueryArgs).1
        = .ok { tempoURL := utf8 "http://localhost:3200", queryString := utf8 "x",
                start := 1699996400, end_ := 1700000001, limit := 5 }
    ∧ (1700000001 : Int) - 3600 ≠ 1699996400 := by
  refine ⟨rfl, rfl, rfl, rfl, by decide, rfl, rfl, rfl, by decide⟩


/-- A time argument that is a non-empty string which `parseTime` resolves
yields the Unix second of the instant. -/
theorem optionalTime_present (env : Env) (clock clock₁ : Clock)
    (args : List (Bytes × JsonValue)) (key timeStr : Bytes) (t : Int)
    (hs : (mapIndex args key).asString = some timeStr) (hne : timeStr ≠ [])
    (hp : parseTime env.durationFraction clock timeStr = (.ok t, clock₁)) :
    optionalTime env clock args key = (.ok (some (timeUnix t)), clock₁) := by
  simp only [optionalTime, hs, hne, ne_eq, not_false_eq_true, if_true, hp]

/-- The query that the trace builder writes, as a sequence of conditional
`Set` calls on the query of the base URL. -/
theorem tempoTraceURL_query (u : URL) (traceID : Bytes) (start end_ : Option Int) :
    (tempoTraceURL u traceID start end_).Query
      = applySets (parseQuery u.RawQuery)
          [(utf8 "start", start.map fmtInt), (utf8 "end", end_.map fmtInt)] := by
  have h : (tempoTraceURL u traceID start end_).RawQuery
      = (applySets (parseQuery u.RawQuery)
          [(utf8 "start", start.map fmtInt), (utf8 "end", end_.map fmtInt)]).Encode := by
    cases start <;> cases end_ <;> rfl
  simp only [URL.Query, h]
  exact parseQuery_encode_canonical _ (canonical_applySets _ _ (canonical_parseQuery _))

/-- The query that the tag-name builder writes. -/
theorem tempoTagsURL_query (u : URL) (scope : Bytes)
    (start end_ limit maxStaleValues : Option Int) :
    (tempoTagsURL u scope start end_ limit maxStaleValues).Query
      = applySets (parseQuery u.RawQuery) (tagsSets scope start end_ limit maxStaleValues) := by
  rw [tempoTagsURL_eq]
  simp only [URL.Query]
  exact parseQuery_encode_canonical _ (canonical_applySets _ _ (canonical_parseQuery _))

/-- The query that the tag-value builder writes. -/
theorem tempoTagValuesURL_query (u : URL) (tagName : Bytes)
    (start end_ limit maxStaleValues : Option Int) :
    (tempoTagValuesURL u tagName start end_ limit maxStaleValues).Query
      = applySets (parseQuery u.RawQuery)
          [(utf8 "start", start.map fmtInt), (utf8 "end", end_.map fmtInt),
           (utf8 "limit", limit.map fmtInt),
           (utf8 "maxStaleValues", maxStaleValues.map fmtInt)] := by
  have h : (tempoTagValuesURL u tagName start end_ limit maxStaleValues).RawQuery
      = (applySets (parseQuery u.RawQuery)
          [(utf8 "start", start.map fmtInt), (utf8 "end", end_.map fmtInt),
           (utf8 "limit", limit.map fmtInt),
           (utf8 "maxStaleValues", maxStaleValues.map fmtInt)]).Encode := by
    cases start <;> cases end_ <;> cases limit <;> cases maxStaleValues <;> rfl
  simp only [URL.Query, h]
  exact parseQuery_encode_canonical _ (canonical_applySets _ _ (canonical_parseQuery _))

/-- The query of the URL that a builder with optional parameters writes holds
the start and the end it was given. -/
theorem time_keys_lookup (u : URL) (traceID scope tagName : Bytes) (start end_ : Int)
    (limit maxStaleValues : Option Int) :
    ((tempoTraceURL u traceID (some start) (some end_)).Query.Lookup (utf8 "start")
        = some [fmtInt start]
      ∧ (tempoTraceURL u traceID (some start) (some end_)).Query.Lookup (utf8 "end")
        = some [fmtInt end_])
    ∧ ((tempoTagsURL u scope (some start) (some end_) limit maxStaleValues).Query.Lookup
          (utf8 "start") = some [fmtInt start]
      ∧ (tempoTagsURL u scope (some start) (some end_) limit maxStaleValues).Query.Lookup
          (utf8 "end") = some [fmtInt end_])
    ∧ ((tempoTagValuesURL u tagName (some start) (some end_) limit maxStaleValues).Query.Lookup
          (utf8 "start") = some [fmtInt start]
      ∧ (tempoTagValuesURL u tagName (some start) (some end_) limit maxStaleValues).Query.Lookup
          (utf8 "end") = some [fmtInt end_]) := by
  rw [tempoTraceURL_query, tempoTagsURL_query, tempoTagValuesURL_query]
  refine ⟨⟨?_, ?_⟩, ⟨?_, ?_⟩, ?_, ?_⟩
  · exact lookup_applySets_mem _ _ _ _ (by simp only [List.map]; decide) (by simp)
  · exact lookup_applySets_mem _ _ _ _ (by simp only [List.map]; decide) (by simp)
  · exact lookup_applySets_mem _ _ _ _ (by simp only [tagsSets, List.map]; decide)
      (by simp [tagsSets])
  · exact lookup_applySets_mem _ _ _ _ (by simp only [tagsSets, List.map]; decide)
      (by simp [tagsSets])
  · exact lookup_applySets_mem _ _ _ _ (by simp only [List.map]; decide) (by simp)
  · exact lookup_applySets_mem _ _ _ _ (by simp only [List.map]; decide) (by simp)

/-- C14 (as amended): for every tool call in which `start` and `end` are both
present and resolve to instants, the handler hands the Unix seconds of the two
instants to its builder as they are, and the query of the built URL holds
these two numbers: `start <= end` holds in the request exactly when it holds
for the two resolved seconds.  No handler compares the two or reorders them.
(`search_traces` reads the clock twice before it resolves the arguments.) -/
theorem time_window_passed_through (env : Env) (clock : Clock)
    (args : List (Bytes × JsonValue)) (startStr endStr : Bytes)
    (hs : (mapIndex args (utf8 "start")).asString = some startStr) (hsne : startStr ≠ [])
    (he : (mapIndex args (utf8 "end")).asString = some endStr) (hene : endStr ≠ []) :
    (∀ (ts te : Int) (clock₁ clock₂ : Clock) (query : Bytes),
      parseTime env.durationFraction { clock with taken := clock.taken + 2 } startStr
        = (.ok ts, clock₁) →
      parseTime env.durationFraction clock₁ endStr = (.ok te, clock₂) →
      (mapIndex args (utf8 "query")).asString = some query →
      searchTracesCall env clock args
        = (.ok { tempoURL := resolveTempoURL env args, queryString := query,
                 start := timeUnix ts, end_ := timeUnix te,
                 limit := (optionalInt args (utf8 "limit")).getD 20 }, clock₂))
    ∧ (∀ (ts te : Int) (clock₁ clock₂ : Clock),
      parseTime env.durationFraction clock startStr = (.ok ts, clock₁) →
      parseTime env.durationFraction clock₁ endStr = (.ok te, clock₂) →
      (∀ traceID : Bytes, (mapIndex args (utf8 "traceID")).asString = some traceID →
        traceID ≠ [] →
        getTraceByIDCall env clock args
          = (.ok { tempoURL := resolveTempoURL env args, traceID := traceID,
                   start := some (timeUnix ts), end_ := some (timeUnix te) }, clock₂))
      ∧ searchTagsCall env clock args
          = (.ok { tempoURL := resolveTempoURL env args,
                   name := ((mapIndex args (utf8 "scope")).asString).getD [],
                   start := some (timeUnix ts), end_ := some (timeUnix te),
                   limit := optionalInt args (utf8 "limit"),
                   maxStaleValues := optionalInt args (utf8 "maxStaleValues") }, clock₂)
      ∧ (∀ tagName : Bytes, (mapIndex args (utf8 "tagName")).asString = some tagName →
        tagName ≠ [] →
        searchTagValuesCall env clock args
          = (.ok { tempoURL := resolveTempoURL env args, name := tagName,
                   start := some (timeUnix ts), end_ := some (timeUnix te),
                   limit := optionalInt args (utf8 "limit"),
                   maxStaleValues := optionalInt args (utf8 "maxStaleValues") }, clock₂)))
    ∧ (∀ (u : URL) (query traceID scope tagName : Bytes) (start end_ limit : Int)
        (tagLimit maxStaleValues : Option Int),
        ((tempoSearchURL u query start end_ limit).Query.Lookup (utf8 "start")
            = some [fmtInt start]
          ∧ (tempoSearchURL u query start end_ limit).Query.Lookup (utf8 "end")
            = some [fmtInt end_])
        ∧ ((tempoTraceURL u traceID (some start) (some end_)).Query.Lookup (utf8 "start")
            = some [fmtInt start]
          ∧ (tempoTraceURL u traceID (some start) (some end_)).Query.Lookup (utf8 "end")
            = some [fmtInt end_])
        ∧ ((tempoTagsURL u scope (some start) (some end_) tagLimit maxStaleValues).Query.Lookup
              (utf8 "start") = some [fmtInt start]
          ∧ (tempoTagsURL u scope (some start) (some end_) tagLimit maxStaleValues).Query.Lookup
              (utf8 "end") = some [fmtInt end_])
        ∧ ((tempoTagValuesURL u tagName (some start) (some end_) tagLimit
              maxStaleValues).Query.Lookup (utf8 "start") = some [fmtInt start]
          ∧ (tempoTagValuesURL u tagName (some start) (some end_) tagLimit
              maxStaleValues).Query.Lookup (utf8 "end") = some [fmtInt end_])) := by
  refine ⟨?_, ?_, ?_⟩
  · intro ts te clock₁ clock₂ query hps hpe hq
    have h1 := optionalTime_present env _ clock₁ args (utf8 "start") startStr ts hs hsne hps
    have h2 := optionalTime_present env clock₁ clock₂ args (utf8 "end") endStr te he hene hpe
    simp only [searchTracesCall, hq, timeNow, h1, h2, Option.getD_some]
  · intro ts te clock₁ clock₂ hps hpe
    have h1 := optionalTime_present env clock clock₁ args (utf8 "start") startStr ts hs hsne hps
    have h2 := optionalTime_present env clock₁ clock₂ args (utf8 "end") endStr te he hene hpe
    refine ⟨?_, ?_, ?_⟩
    · intro traceID hid hne
      simp only [getTraceByIDCall, hid, if_neg hne, h1, h2]
    · simp only [searchTagsCall, h1, h2]
    · intro tagName hn hne
      simp only [searchTagValuesCall, hn, if_neg hne, h1, h2]
  · intro u query traceID scope tagName start end_ limit tagLimit maxStaleValues
    have hsearch := tempoSearchURL_lookup u query start end_ limit
    have hrest := time_keys_lookup u traceID scope tagName start end_ tagLimit maxStaleValues
    exact ⟨⟨hsearch.1, hsearch.2.1⟩, hrest⟩

set_option maxRecDepth 100000 in
/-- Witness of C14: a call of `search_tags` with `start` = `2024-01-01` and
`end` = `2024-01-02` hands the seconds 1704067200 and 1704153600 to its
builder. -/
theorem time_window_passed_through_witness :
    (mapIndex dayWindowArgs (utf8 "start")).asString = some (utf8 "2024-01-01")
    ∧ (mapIndex dayWindowArgs (utf8 "end")).asString = some (utf8 "2024-01-02")
    ∧ timeUnix 1704067200000000000 = 1704067200
    ∧ searchTagsCall (exampleEnv (fun _ => []) (strictDecoders {} {} {})) (fixedClock 0)
          dayWindowArgs
        = (.ok { tempoURL := resolveTempoURL (exampleEnv (fun _ => [])
                   (strictDecoders {} {} {})) dayWindowArgs,
                 name := ((mapIndex dayWindowArgs (utf8 "scope")).asString).getD [],
                 start := some (timeUnix 1704067200000000000),
                 end_ := some (timeUnix 1704153600000000000),
                 limit := optionalInt dayWindowArgs (utf8 "limit"),
                 maxStaleValues := optionalInt dayWindowArgs (utf8 "maxStaleValues") },
            fixedClock 0) :=
  ⟨rfl, rfl, by decide,
    ((time_window_passed_through (exampleEnv (fun _ => []) (strictDecoders {} {} {}))
      (fixedClock 0) dayWindowArgs (utf8 "2024-01-01") (utf8 "2024-01-02") rfl (by decide) rfl
      (by decide)).2.1 1704067200000000000 1704153600000000000 (fixedClock 0) (fixedClock 0)
      rfl rfl).2.1⟩

set_option maxRecDepth 100000 in
/-- Counterexample to C14 as stated: a call of `search_tags` with `start` =
`2024-01-02` and `end` = `2024-01-01`.  Both resolve to instants, and the
handler sends its request to
`http://localhost:3200/api/search/tags?end=1704067200&start=1704153600`, whose
start is greater than its end. -/
theorem reversed_window_sent :
    (parseTime exactFraction (fixedClock 0) (utf8 "2024-01-02")).1 = .ok 1704153600000000000
    ∧ (parseTime exactFraction (fixedClock 0) (utf8 "2024-01-01")).1 = .ok 1704067200000000000
    ∧ buildTempoTagsURL plainURLLib (utf8 "http://localhost:3200") [] (some 1704153600)
          (some 1704067200) none none
        = .ok (utf8 "http://localhost:3200/api/search/tags?end=1704067200&start=1704153600")
    ∧ (HandleSearchTags (exampleEnv (fun _ => []) (strictDecoders {} {} {})) (fixedClock 0)
          offlineNet ⟨.object reversedWindowArgs⟩).2.2.sent
        = [expectedRequest reversedWindowEndpoint [] [] []]
    ∧ reversedWindowEndpoint.Query.Lookup (utf8 "start") = some [utf8 "1704153600"]
    ∧ reversedWindowEndpoint.Query.Lookup (utf8 "end") = some [utf8 "1704067200"]
    ∧ (1704153600 : Int) > 1704067200 := by
  refine ⟨rfl, rfl, rfl, rfl, by decide, by decide, by decide⟩


/-- A time argument that is a decimal integer is refused. -/
theorem optionalTime_digits (env : Env) (clock : Clock) (args : List (Bytes × JsonValue))
    (key : Bytes) (n : Nat) (h : (mapIndex args key).asString = some (natDigits n)) :
    optionalTime env clock args key
      = (.error (utf8 "invalid " ++ key ++ utf8 " time: "
          ++ (utf8 "unsupported time format: " ++ natDigits n)), clock) := by
  have hne := (natDigits_parse n).1
  have hp := parseTime_digits env.durationFraction clock (natDigits n) hne
    (parseDigits_all _ _ _ (parseDigits_natDigits n))
  simp only [optionalTime, h, hne, ne_eq, not_false_eq_true, if_true, hp]

/-- C16, the behaviour of the code: a `start` argument that is a decimal
integer, such as the epoch second `1700000000` that the tool descriptions of
`get_trace_by_id`, `search_tags` and `search_tag_values` ask for, is accepted
by none of the three handlers.  Each returns the error
`invalid start time: unsupported time format: <digits>`, reads no clock and
sends no request. -/
theorem epoch_seconds_rejected (env : Env) (clock : Clock) (net : Net)
    (args : List (Bytes × JsonValue)) (n : Nat)
    (hstart : (mapIndex args (utf8 "start")).asString = some (natDigits n)) :
    (∀ traceID : Bytes, (mapIndex args (utf8 "traceID")).asString = some traceID →
      traceID ≠ [] →
      HandleGetTraceByID env clock net ⟨.object args⟩
        = (.error (utf8 "invalid start time: unsupported time format: " ++ natDigits n),
            clock, net))
    ∧ HandleSearchTags env clock net ⟨.object args⟩
        = (.error (utf8 "invalid start time: unsupported time format: " ++ natDigits n),
            clock, net)
    ∧ (∀ tagName : Bytes, (mapIndex args (utf8 "tagName")).asString = some tagName →
      tagName ≠ [] →
      HandleSearchTagValues env clock net ⟨.object args⟩
        = (.error (utf8 "invalid start time: unsupported time format: " ++ natDigits n),
            clock, net)) := by
  have h := optionalTime_digits env clock args (utf8 "start") n hstart
  have htext : utf8 "invalid " ++ utf8 "start" ++ utf8 " time: "
        ++ (utf8 "unsupported time format: " ++ natDigits n)
      = utf8 "invalid start time: unsupported time format: " ++ natDigits n := by
    simp only [← List.append_assoc]
    rfl
  rw [htext] at h
  refine ⟨?_, ?_, ?_⟩
  · intro traceID hid hne
    simp only [HandleGetTraceByID, JsonValue.asObject, getTraceByIDCall, hid, if_neg hne, h]
  · simp only [HandleSearchTags, JsonValue.asObject, searchTagsCall, h]
  · intro tagName hn hne
    simp only [HandleSearchTagValues, JsonValue.asObject, searchTagValuesCall, hn, if_neg hne, h]

set_option maxRecDepth 100000 in
/-- Witness of C16: `get_trace_by_id` for the trace `abc` with `start` =
`1700000000` fails with
`invalid start time: unsupported time format: 1700000000` and sends nothing. -/
theorem epoch_seconds_rejected_witness :
    (mapIndex epochStartArgs (utf8 "start")).asString = some (natDigits 1700000000)
    ∧ natDigits 1700000000 = utf8 "1700000000"
    ∧ (HandleGetTraceByID (exampleEnv (fun _ => []) (strictDecoders {} {} {})) (fixedClock 0)
          offlineNet ⟨.object epochStartArgs⟩).1
        = .error (utf8 "invalid start time: unsupported time format: 1700000000")
    ∧ (HandleGetTraceByID (exampleEnv (fun _ => []) (strictDecoders {} {} {})) (fixedClock 0)
          offlineNet ⟨.object epochStartArgs⟩).2.2.sent = [] :=
  have h := (epoch_seconds_rejected (exampleEnv (fun _ => []) (strictDecoders {} {} {}))
    (fixedClock 0) offlineNet epochStartArgs 1700000000 rfl).1 (utf8 "abc") rfl (by decide)
  ⟨rfl, by decide, (congrArg (fun r => r.1) h).trans rfl, (congrArg (fun r => r.2.2.sent) h).trans rfl⟩


/-! ## Rendering a trace -/

/-- One round of an attribute loop appends the line of the attribute. -/
theorem writeAttribute_eq (fmtValue : JsonValue → Bytes) (indent output : Bytes)
    (attr : TempoAttribute) :
    writeAttribute fmtValue indent output attr
      = output ++ attributeLine fmtValue indent attr := by
  unfold writeAttribute attributeLine
  by_cases hs : attr.Value.StringValue = []
  · by_cases hi : attr.Value.IntValue.isNil = true <;> simp [hs, hi]
  · simp [hs]

/-- An attribute loop appends the lines of the attributes in input order. -/
theorem writeAttributes_eq (fmtValue : JsonValue → Bytes) (indent output : Bytes)
    (attrs : List TempoAttribute) :
    attrs.foldl (writeAttribute fmtValue indent) output
      = output ++ (attrs.map (attributeLine fmtValue indent)).flatten := by
  have h : writeAttribute fmtValue indent
      = fun o x => o ++ attributeLine fmtValue indent x := by
    funext o x
    exact writeAttribute_eq fmtValue indent o x
  rw [h, foldl_append_eq]

/-- One round of the events loop appends the block of the event. -/
theorem writeEvent_eq (zoneOffset : Int → Int) (fmtValue : JsonValue → Bytes) (output : Bytes)
    (event : TempoEvent) :
    writeEvent zoneOffset fmtValue output event
      = output ++ eventBlock zoneOffset fmtValue event := by
  unfold writeEvent eventBlock timeLine optionalLine
  simp only [writeAttributes_eq]
  by_cases hn : event.Name = [] <;> by_cases ht : event.TimeUnixNano = [] <;>
    cases hp : strconvParseInt event.TimeUnixNano <;>
    simp_all [strconvParseInt_nil]

/-- An events loop appends the blocks of the events in input order. -/
theorem writeEvents_eq (zoneOffset : Int → Int) (fmtValue : JsonValue → Bytes) (output : Bytes)
    (events : List TempoEvent) :
    events.foldl (writeEvent zoneOffset fmtValue) output
      = output ++ (events.map (eventBlock zoneOffset fmtValue)).flatten := by
  have h : writeEvent zoneOffset fmtValue
      = fun o x => o ++ eventBlock zoneOffset fmtValue x := by
    funext o x
    exact writeEvent_eq zoneOffset fmtValue o x
  rw [h, foldl_append_eq]

/-- What `formatStructuredSpan` appends for a span: the head lines, the
attributes section, the events section and an empty line. -/
theorem formatStructuredSpan_eq (zoneOffset : Int → Int) (fmtValue : JsonValue → Bytes)
    (output : Bytes) (span : TempoSpan) (index : Int) :
    formatStructuredSpan zoneOffset fmtValue output span index
      = output ++ (spanHead zoneOffset span index ++ spanAttributes fmtValue span.Attributes
          ++ spanEvents zoneOffset fmtValue span.Events ++ utf8 "\n") := by
  have hopt : ∀ (o label value : Bytes),
      (if value ≠ [] then o ++ (label ++ value ++ utf8 "\n") else o)
        = o ++ optionalLine label value := by
    intro o label value
    unfold optionalLine
    by_cases h : value = [] <;> simp [h]
  have hattr : ∀ o : Bytes,
      (if span.Attributes.length > 0 then
        span.Attributes.foldl (writeAttribute fmtValue (utf8 "    ")) (o ++ utf8 "  Attributes:\n")
      else o) = o ++ spanAttributes fmtValue span.Attributes := by
    intro o
    unfold spanAttributes
    by_cases h : span.Attributes.length > 0
    · simp only [h, if_true, writeAttributes_eq, List.append_assoc]
    · simp only [h, if_false, List.append_nil]
  have hev : ∀ o : Bytes,
      (if span.Events.length > 0 then
        span.Events.foldl (writeEvent zoneOffset fmtValue) (o ++ utf8 "  Events:\n")
      else o) = o ++ spanEvents zoneOffset fmtValue span.Events := by
    intro o
    unfold spanEvents
    by_cases h : span.Events.length > 0
    · simp only [h, if_true, writeEvents_eq, List.append_assoc]
    · simp only [h, if_false, List.append_nil]
  unfold formatStructuredSpan spanHead timeLine durationLine
  simp only [hopt, hattr, hev]
  by_cases hs : span.StartTimeUnixNano = [] <;> by_cases he : span.EndTimeUnixNano = [] <;>
    cases hps : strconvParseInt span.StartTimeUnixNano <;>
    cases hpe : strconvParseInt span.EndTimeUnixNano <;>
    simp_all [strconvParseInt_nil]

/-- The first non-empty trace id of two lists of spans, one after the other. -/
theorem firstTraceID_append (a b : List TempoSpan) :
    firstTraceID (a ++ b) = if firstTraceID a = [] then firstTraceID b else firstTraceID a := by
  induction a with
  | nil => simp [firstTraceID]
  | cons s rest ih =>
    by_cases hs : s.TraceID = []
    · have h1 : firstTraceID (s :: (rest ++ b)) = firstTraceID (rest ++ b) := by
        simp [firstTraceID, List.find?, hs]
      have h2 : firstTraceID (s :: rest) = firstTraceID rest := by
        simp [firstTraceID, List.find?, hs]
      rw [List.cons_append, h1, h2, ih]
    · have h1 : firstTraceID (s :: (rest ++ b)) = s.TraceID := by
        simp [firstTraceID, List.find?, hs]
      have h2 : firstTraceID (s :: rest) = s.TraceID := by
        simp [firstTraceID, List.find?, hs]
      rw [List.cons_append, h1, h2, if_neg hs]

/-- The loop over the spans of one scope: the trace id is kept when it is set,
else taken from the first span that has one; the spans are collected. -/
theorem walk_spans (spans : List TempoSpan) (traceID : Bytes) (acc : List TempoSpan) :
    spans.foldl (fun (seen : Bytes × List TempoSpan) span =>
        (if seen.1 = [] ∧ span.TraceID ≠ [] then span.TraceID else seen.1, seen.2 ++ [span]))
      (traceID, acc)
      = (if traceID = [] then firstTraceID spans else traceID, acc ++ spans) := by
  induction spans generalizing traceID acc with
  | nil => by_cases ht : traceID = [] <;> simp [firstTraceID, ht]
  | cons s rest ih =>
    rw [List.foldl_cons, ih]
    by_cases ht : traceID = []
    · by_cases hs : s.TraceID = []
      · simp [ht, hs, firstTraceID, List.find?]
      · simp [ht, hs, firstTraceID, List.find?]
    · simp [ht]

/-- The loop over the scopes of one batch. -/
theorem walk_scopes (scopes : List TempoScopeSpan) (traceID : Bytes) (acc : List TempoSpan) :
    scopes.foldl (fun (seen : Bytes × List TempoSpan) scopeSpan =>
        scopeSpan.Spans.foldl (fun (seen : Bytes × List TempoSpan) span =>
          (if seen.1 = [] ∧ span.TraceID ≠ [] then span.TraceID else seen.1, seen.2 ++ [span]))
          seen) (traceID, acc)
      = (if traceID = [] then firstTraceID (scopes.flatMap (fun scopeSpan => scopeSpan.Spans))
          else traceID,
         acc ++ scopes.flatMap (fun scopeSpan => scopeSpan.Spans)) := by
  induction scopes generalizing traceID acc with
  | nil => by_cases ht : traceID = [] <;> simp [firstTraceID, ht]
  | cons sc rest ih =>
    rw [List.foldl_cons, walk_spans, ih]
    by_cases ht : traceID = []
    · simp only [ht, if_true, List.flatMap_cons, firstTraceID_append, List.append_assoc]
    · simp [ht]

/-- The loop over the resource attributes of a batch: the service name becomes
the string value of the last `service.name` attribute with a non-empty one. -/
theorem walk_service (attrs : List TempoAttribute) (serviceName : Bytes) :
    attrs.foldl (fun (serviceName : Bytes) attr =>
        if attr.Key = utf8 "service.name" ∧ attr.Value.StringValue ≠ [] then
          attr.Value.StringValue
        else serviceName) serviceName
      = match attrs.reverse.find? (fun attr =>
            decide (attr.Key = utf8 "service.name" ∧ attr.Value.StringValue ≠ [])) with
        | some attr => attr.Value.StringValue
        | none => serviceName := by
  induction attrs using List.reverseRecOn with
  | nil => rfl
  | append_singleton rest a ih =>
    rw [List.foldl_append, List.foldl_cons, List.foldl_nil, ih, List.reverse_append,
      List.reverse_singleton, List.singleton_append]
    by_cases ha : a.Key = utf8 "service.name" ∧ a.Value.StringValue ≠ []
    · simp [List.find?, ha]
    · simp [List.find?, ha]

/-- One round of the loop over the batches. -/
theorem walkBatch_eq (total : Nat) (w : TraceWalk) (batchIdx : Nat) (batch : TempoBatch) :
    walkBatch total w batchIdx batch
      = { output :=
            if batchIdx = 0 then
              w.output ++ (utf8 "Service: "
                  ++ (match batch.Resource.Attributes.reverse.find? (fun attr =>
                        decide (attr.Key = utf8 "service.name" ∧ attr.Value.StringValue ≠ []))
                      with
                      | some attr => attr.Value.StringValue
                      | none => w.serviceName) ++ utf8 "\n")
                ++ (utf8 "Trace ID: "
                  ++ (if w.traceID = [] then firstTraceID (batchSpans batch) else w.traceID)
                  ++ utf8 "\n")
                ++ (utf8 "Total Batches: " ++ fmtInt total ++ utf8 "\n\n")
            else w.output
          allSpans := w.allSpans ++ batchSpans batch
          traceID := if w.traceID = [] then firstTraceID (batchSpans batch) else w.traceID
          serviceName :=
            match batch.Resource.Attributes.reverse.find? (fun attr =>
                decide (attr.Key = utf8 "service.name" ∧ attr.Value.StringValue ≠ [])) with
            | some attr => attr.Value.StringValue
            | none => w.serviceName } := by
  simp only [walkBatch, walk_service, walk_scopes, batchSpans]

/-- The batches after the first add their spans and write nothing. -/
theorem walk_later_batches (total : Nat) (batches : List TempoBatch) (n : Nat) (w : TraceWalk) :
    ((batches.enumFrom (n + 1)).foldl (fun w (it : Nat × TempoBatch) =>
        walkBatch total w it.1 it.2) w).output = w.output
    ∧ ((batches.enumFrom (n + 1)).foldl (fun w (it : Nat × TempoBatch) =>
        walkBatch total w it.1 it.2) w).allSpans = w.allSpans ++ batches.flatMap batchSpans := by
  induction batches generalizing n w with
  | nil => simp
  | cons b rest ih =>
    simp only [List.enumFrom_cons, List.foldl_cons]
    obtain ⟨h1, h2⟩ := ih (n + 1) (walkBatch total w (n + 1) b)
    rw [h1, h2, walkBatch_eq]
    simp

/-- The text of `formatStructuredTrace`: the header lines taken from the first
batch, then the spans section over the spans of all batches. -/
theorem formatStructuredTrace_eq (zoneOffset : Int → Int) (fmtValue : JsonValue → Bytes)
    (output : Bytes) (result : TempoTraceResponse) :
    formatStructuredTrace zoneOffset fmtValue output result
      = output ++ traceHeader result
        ++ (if (flattenedSpans result).length > 0 then
              utf8 "Spans (" ++ fmtInt (flattenedSpans result).length ++ utf8 " total):\n\n"
                ++ ((flattenedSpans result).enum.map (fun it =>
                    formatStructuredSpan zoneOffset fmtValue [] it.2 (it.1 + 1))).flatten
            else []) := by
  have hspans : ∀ (spans : List TempoSpan) (init : Bytes),
      spans.enum.foldl (fun output (it : Nat × TempoSpan) =>
          formatStructuredSpan zoneOffset fmtValue output it.2 (it.1 + 1)) init
        = init ++ (spans.enum.map (fun it =>
            formatStructuredSpan zoneOffset fmtValue [] it.2 (it.1 + 1))).flatten := by
    intro spans init
    have hf : (fun output (it : Nat × TempoSpan) =>
          formatStructuredSpan zoneOffset fmtValue output it.2 (it.1 + 1))
        = fun o (it : Nat × TempoSpan) =>
          o ++ formatStructuredSpan zoneOffset fmtValue [] it.2 (it.1 + 1) := by
      funext o it
      rw [formatStructuredSpan_eq, formatStructuredSpan_eq zoneOffset fmtValue []]
      simp
    rw [hf, foldl_append_eq]
  have hwalk : (result.Batches.enum.foldl (fun w (it : Nat × TempoBatch) =>
        walkBatch result.Batches.length w it.1 it.2) { output := output }).output
          = output ++ traceHeader result
      ∧ (result.Batches.enum.foldl (fun w (it : Nat × TempoBatch) =>
        walkBatch result.Batches.length w it.1 it.2) { output := output }).allSpans
          = flattenedSpans result := by
    unfold traceHeader flattenedSpans
    cases hb : result.Batches with
    | nil => simp
    | cons first rest =>
      simp only [List.enum, List.enumFrom_cons, List.foldl_cons]
      obtain ⟨h1, h2⟩ := walk_later_batches (first :: rest).length rest 0
        (walkBatch (first :: rest).length { output := output } 0 first)
      rw [Nat.zero_add] at h1 h2
      rw [h1, h2, walkBatch_eq]
      simp [serviceNameOf, List.append_assoc]
  unfold formatStructuredTrace
  simp only [hwalk.1, hwalk.2, hspans]
  by_cases hn : (flattenedSpans result).length > 0
  · simp only [hn, if_true, List.append_assoc]
  · simp only [hn, if_false, List.append_nil]

/-- The first non-empty trace id of a list of spans: the one of the span in
front of which all trace ids are empty. -/
theorem firstTraceID_first (front back : List TempoSpan) (span : TempoSpan)
    (hfront : ∀ s ∈ front, s.TraceID = []) (hspan : span.TraceID ≠ []) :
    firstTraceID (front ++ span :: back) = span.TraceID := by
  induction front with
  | nil => simp [firstTraceID, List.find?, hspan]
  | cons s rest ih =>
    have hs : s.TraceID = [] := hfront s (List.mem_cons_self _ _)
    have h1 : firstTraceID (s :: (rest ++ span :: back)) = firstTraceID (rest ++ span :: back) := by
      simp [firstTraceID, List.find?, hs]
    rw [List.cons_append, h1]
    exact ih (fun x hx => hfront x (List.mem_cons_of_mem _ hx))

/-- Without a span that has a trace id, the first trace id is empty. -/
theorem firstTraceID_none (spans : List TempoSpan) (h : ∀ s ∈ spans, s.TraceID = []) :
    firstTraceID spans = [] := by
  induction spans with
  | nil => rfl
  | cons s rest ih =>
    have hs : s.TraceID = [] := h s (List.mem_cons_self _ _)
    have h1 : firstTraceID (s :: rest) = firstTraceID rest := by
      simp [firstTraceID, List.find?, hs]
    rw [h1]
    exact ih (fun x hx => h x (List.mem_cons_of_mem _ hx))

/-- C18: `formatStructuredTrace` lists every span of every batch exactly once,
in batch order, then scope order, then span order.  Behind the header lines the
text has, when the number `N` of spans over all batches and scopes is not
zero, the line `Spans (N total):`, an empty line, and for `k = 1 .. N` the
block that `formatStructuredSpan` writes for the `k`-th span of the flattened
sequence with the number `k`, which starts with the line `Span k:`; when `N`
is zero nothing follows the header lines. -/
theorem spans_listed_flattened (zoneOffset : Int → Int) (fmtValue : JsonValue → Bytes)
    (output : Bytes) (result : TempoTraceResponse) :
    flattenedSpans result
        = result.Batches.flatMap (fun batch =>
            batch.ScopeSpans.flatMap (fun scopeSpan => scopeSpan.Spans))
    ∧ formatStructuredTrace zoneOffset fmtValue output result
        = output ++ traceHeader result
          ++ (if (flattenedSpans result).length > 0 then
                utf8 "Spans (" ++ fmtInt (flattenedSpans result).length ++ utf8 " total):\n\n"
                  ++ ((flattenedSpans result).enum.map (fun it =>
                      formatStructuredSpan zoneOffset fmtValue [] it.2 (it.1 + 1))).flatten
              else [])
    ∧ ∀ (span : TempoSpan) (index : Int),
        formatStructuredSpan zoneOffset fmtValue [] span index
          = utf8 "Span " ++ fmtInt index ++ utf8 ":\n"
            ++ (optionalLine (utf8 "  Span ID: ") span.SpanID
              ++ optionalLine (utf8 "  Parent Span ID: ") span.ParentSpanID
              ++ optionalLine (utf8 "  Name: ") span.Name
              ++ optionalLine (utf8 "  Kind: ") span.Kind
              ++ timeLine zoneOffset (utf8 "  Start Time: ") span.StartTimeUnixNano
              ++ timeLine zoneOffset (utf8 "  End Time: ") span.EndTimeUnixNano
              ++ durationLine span.StartTimeUnixNano span.EndTimeUnixNano
              ++ spanAttributes fmtValue span.Attributes
              ++ spanEvents zoneOffset fmtValue span.Events ++ utf8 "\n") := by
  refine ⟨rfl, formatStructuredTrace_eq zoneOffset fmtValue output result, ?_⟩
  intro span index
  rw [formatStructuredSpan_eq]
  simp only [spanHead, List.nil_append, List.append_assoc]

set_option maxRecDepth 100000 in
/-- Witness of C18: a trace of two batches, the first with two scopes of two
spans and one span, the second with one span: four blocks, numbered 1 to 4, in
that order. -/
theorem spans_listed_flattened_witness :
    (flattenedSpans exampleTrace).map (fun span => span.SpanID)
        = [utf8 "s1", utf8 "s2", utf8 "s3", utf8 "s4"]
    ∧ formatStructuredTrace (fun _ => 0) exampleFmtValue [] exampleTrace
        = utf8 "Service: front\nTrace ID: abc\nTotal Batches: 2\n\nSpans (4 total):\n\nSpan 1:\n  Span ID: s1\n\nSpan 2:\n  Span ID: s2\n  Name: GET /\n  Attributes:\n    http.method: GET\n    http.status_code: 200\n    retries: 2\n  Events:\n    Event: retry\n      attempt: 2\n\nSpan 3:\n  Span ID: s3\n\nSpan 4:\n  Span ID: s4\n\n" :=
  ⟨by decide, ((spans_listed_flattened (fun _ => 0) exampleFmtValue [] exampleTrace).2.1).trans
    (by decide)⟩

/-- C19 (as amended): for every trace detail with at least one batch, the
header lines `Service:`, `Trace ID:` and `Total Batches: <number of batches>`
are written exactly once, in front of the spans section.  The `Service:` line
carries the string value of the `service.name` resource attribute of the first
batch (of the last such attribute with a non-empty string value, nothing when
there is none).  The `Trace ID:` line carries the trace id of the first span of
the first batch, in scope order, then span order, that has a non-empty trace
id, and nothing when the first batch has no such span; spans of later batches
are not looked at. -/
theorem header_from_first_batch (zoneOffset : Int → Int) (fmtValue : JsonValue → Bytes)
    (output : Bytes) (result : TempoTraceResponse) (first : TempoBatch) (rest : List TempoBatch)
    (hbatches : result.Batches = first :: rest) :
    formatStructuredTrace zoneOffset fmtValue output result
        = output
          ++ (utf8 "Service: " ++ serviceNameOf first ++ utf8 "\n"
            ++ utf8 "Trace ID: " ++ firstTraceID (batchSpans first) ++ utf8 "\n"
            ++ utf8 "Total Batches: " ++ fmtInt (rest.length + 1 : Nat) ++ utf8 "\n\n")
          ++ (if (flattenedSpans result).length > 0 then
                utf8 "Spans (" ++ fmtInt (flattenedSpans result).length ++ utf8 " total):\n\n"
                  ++ ((flattenedSpans result).enum.map (fun it =>
                      formatStructuredSpan zoneOffset fmtValue [] it.2 (it.1 + 1))).flatten
              else [])
    ∧ (∀ (front back : List TempoSpan) (span : TempoSpan),
        batchSpans first = front ++ span :: back → (∀ s ∈ front, s.TraceID = []) →
        span.TraceID ≠ [] → firstTraceID (batchSpans first) = span.TraceID)
    ∧ ((∀ s ∈ batchSpans first, s.TraceID = []) → firstTraceID (batchSpans first) = [])
    ∧ (∀ (front back : List TempoAttribute) (attr : TempoAttribute),
        first.Resource.Attributes = front ++ attr :: back →
        attr.Key = utf8 "service.name" → attr.Value.StringValue ≠ [] →
        (∀ a ∈ back, ¬ (a.Key = utf8 "service.name" ∧ a.Value.StringValue ≠ [])) →
        serviceNameOf first = attr.Value.StringValue)
    ∧ ((∀ a ∈ first.Resource.Attributes,
          ¬ (a.Key = utf8 "service.name" ∧ a.Value.StringValue ≠ [])) →
        serviceNameOf first = []) := by
  refine ⟨?_, ?_, ?_, ?_, ?_⟩
  · rw [formatStructuredTrace_eq]
    simp only [traceHeader, hbatches, List.length_cons]
  · intro front back span hsplit hfront hspan
    rw [hsplit]
    exact firstTraceID_first front back span hfront hspan
  · exact firstTraceID_none _
  · intro front back attr hsplit hkey hvalue hback
    unfold serviceNameOf
    rw [hsplit, List.reverse_append, List.reverse_cons, List.append_assoc,
      List.find?_append]
    have hnone : back.reverse.find? (fun a =>
        decide (a.Key = utf8 "service.name" ∧ a.Value.StringValue ≠ [])) = none := by
      rw [List.find?_eq_none]
      intro a ha
      simpa using hback a (List.mem_reverse.1 ha)
    rw [hnone]
    simp [List.find?, hkey, hvalue]
  · intro hnone
    unfold serviceNameOf
    have h : first.Resource.Attributes.reverse.find? (fun a =>
        decide (a.Key = utf8 "service.name" ∧ a.Value.StringValue ≠ [])) = none := by
      rw [List.find?_eq_none]
      intro a ha
      simpa using hnone a (List.mem_reverse.1 ha)
    rw [h]

set_option maxRecDepth 100000 in
/-- Witness of C19: in the example trace the service of the first batch is
`front`, its first span has no trace id and its second span has the trace id
`abc`. -/
theorem header_from_first_batch_witness :
    exampleTrace.Batches = exampleBatch :: [laterBatch]
    ∧ serviceNameOf exampleBatch = utf8 "front"
    ∧ firstTraceID (batchSpans exampleBatch) = utf8 "abc"
    ∧ stringsHasPrefix (formatStructuredTrace (fun _ => 0) exampleFmtValue [] exampleTrace)
        (utf8 "Service: front\nTrace ID: abc\nTotal Batches: 2\n\nSpans (4 total):\n\n") = true :=
  ⟨rfl, by decide, by decide,
    ((congrArg (fun t => stringsHasPrefix t
        (utf8 "Service: front\nTrace ID: abc\nTotal Batches: 2\n\nSpans (4 total):\n\n"))
      (header_from_first_batch (fun _ => 0) exampleFmtValue [] exampleTrace exampleBatch
        [laterBatch] rfl).1).trans (by decide))⟩

set_option maxRecDepth 100000 in
/-- Counterexample to C19 as stated: a trace whose first batch has no span and
whose second batch has a span with the trace id `zzz`.  The first span of the
whole record with a non-empty trace id has the id `zzz`, but the `Trace ID:`
line is empty. -/
theorem trace_id_not_from_later_batch :
    firstTraceID (flattenedSpans lateTraceIDTrace) = utf8 "zzz"
    ∧ formatStructuredTrace (fun _ => 0) exampleFmtValue [] lateTraceIDTrace
        = utf8 "Service: front\nTrace ID: \nTotal Batches: 2\n\nSpans (1 total):\n\nSpan 1:\n  Span ID: s4\n\n" := by
  refine ⟨by decide, by decide⟩

/-- C20: the attribute preference rule of `formatStructuredSpan`.  The loop
over the attributes of a span (indentation of four blanks) and the loop over
the attributes of an event (six blanks) write, for each attribute in input
order, the line `<key>: <string value>` when the string value is not empty,
otherwise the line `<key>: <integer value>` when the integer value is present,
and no line when neither is present, as for a value that is only an array.
The text of a span holds these lines in its attributes section and in the
blocks of its events. -/
theorem attribute_preference (zoneOffset : Int → Int) (fmtValue : JsonValue → Bytes) :
    (∀ (indent output : Bytes) (attrs : List TempoAttribute),
      attrs.foldl (writeAttribute fmtValue indent) output
        = output ++ (attrs.map (fun attr =>
            if attr.Value.StringValue ≠ [] then
              indent ++ attr.Key ++ utf8 ": " ++ attr.Value.StringValue ++ utf8 "\n"
            else if attr.Value.IntValue.isNil then []
            else indent ++ attr.Key ++ utf8 ": " ++ fmtValue attr.Value.IntValue
              ++ utf8 "\n")).flatten)
    ∧ (∀ (output : Bytes) (span : TempoSpan) (index : Int),
      formatStructuredSpan zoneOffset fmtValue output span index
        = output ++ spanHead zoneOffset span index
          ++ (if span.Attributes.length > 0 then
                utf8 "  Attributes:\n"
                  ++ (span.Attributes.map (attributeLine fmtValue (utf8 "    "))).flatten
              else [])
          ++ (if span.Events.length > 0 then
                utf8 "  Events:\n"
                  ++ (span.Events.map (eventBlock zoneOffset fmtValue)).flatten
              else [])
          ++ utf8 "\n")
    ∧ (∀ event : TempoEvent,
      eventBlock zoneOffset fmtValue event
        = optionalLine (utf8 "    Event: ") event.Name
          ++ timeLine zoneOffset (utf8 "      Time: ") event.TimeUnixNano
          ++ (event.Attributes.map (attributeLine fmtValue (utf8 "      "))).flatten)
    ∧ (∀ (indent : Bytes) (attr : TempoAttribute),
      attributeLine fmtValue indent attr
        = if attr.Value.StringValue ≠ [] then
            indent ++ attr.Key ++ utf8 ": " ++ attr.Value.StringValue ++ utf8 "\n"
          else if attr.Value.IntValue.isNil then []
          else indent ++ attr.Key ++ utf8 ": " ++ fmtValue attr.Value.IntValue ++ utf8 "\n") := by
  refine ⟨?_, ?_, fun _ => rfl, fun _ _ => rfl⟩
  · intro indent output attrs
    exact writeAttributes_eq fmtValue indent output attrs
  · intro output span index
    rw [formatStructuredSpan_eq]
    simp only [spanAttributes, spanEvents, List.append_assoc]

set_option maxRecDepth 100000 in
/-- Witness of C20: of the attributes `http.method` (string `GET`),
`http.status_code` (integer value `200`), `tags` (an array only) and `retries`
(integer value 2) three lines are written, in that order; the event of the
example span shows its one attribute with an integer value. -/
theorem attribute_preference_witness :
    exampleAttributes.foldl (writeAttribute exampleFmtValue (utf8 "    ")) []
        = utf8 "    http.method: GET\n    http.status_code: 200\n    retries: 2\n"
    ∧ formatStructuredSpan (fun _ => 0) exampleFmtValue [] exampleSpan 2
        = utf8 "Span 2:\n  Span ID: s2\n  Name: GET /\n  Attributes:\n    http.method: GET\n    http.status_code: 200\n    retries: 2\n  Events:\n    Event: retry\n      attempt: 2\n\n" :=
  ⟨((attribute_preference (fun _ => 0) exampleFmtValue).1 (utf8 "    ") []
      exampleAttributes).trans (by decide),
    ((attribute_preference (fun _ => 0) exampleFmtValue).2.1 [] exampleSpan 2).trans
      (by decide)⟩


/-! ## The time lines of a span -/

/-- What `strconv.ParseInt` accepts is not empty, and its value is a signed
64-bit integer. -/
theorem strconvParseInt_some (s : Bytes) (n : Int) (h : strconvParseInt s = some n) :
    s ≠ [] ∧ -(2 ^ 63) ≤ n ∧ n < 2 ^ 63 := by
  cases s with
  | nil => simp [strconvParseInt] at h
  | cons c rest =>
    refine ⟨by simp, ?_⟩
    simp only [strconvParseInt] at h
    generalize (if c = 43 ∨ c = 45 then rest else c :: rest) = digits at h
    by_cases hnil : digits = []
    · simp [hnil] at h
    · rw [if_neg hnil] at h
      cases hp : parseDigits 0 digits with
      | none => simp [hp] at h
      | some un =>
        by_cases hneg : c = 45 <;> simp [hp, hneg] at h <;> omega

/-- The text of a negative duration starts with a minus sign. -/
theorem durationString_neg (d : Int) (h : d < 0) : (durationString d).head? = some 45 := by
  have hu : d.natAbs ≠ 0 := by omega
  unfold durationString
  simp only [h, if_true, hu, if_false]
  split_ifs <;> rfl

/-- C21 (as amended): for every span, the text of `formatStructuredSpan` has,
behind the lines of the ids, name and kind, a `Start Time:` line exactly when
`startTimeUnixNano` parses as a base-10 signed 64-bit integer, an `End Time:`
line exactly when `endTimeUnixNano` does, and a `Duration:` line exactly when
both do; a field that parses is not empty.  The duration rendered is end minus
start in nanoseconds, computed in 64-bit two's-complement arithmetic: it is the
exact difference whenever that fits in 64 bits, in particular it is negative,
and rendered with a minus sign, when end < start and the difference is not
below the smallest 64-bit integer; otherwise it wraps around. -/
theorem duration_line (zoneOffset : Int → Int) (fmtValue : JsonValue → Bytes) (output : Bytes)
    (span : TempoSpan) (index : Int) :
    formatStructuredSpan zoneOffset fmtValue output span index
        = output ++ (utf8 "Span " ++ fmtInt index ++ utf8 ":\n"
          ++ optionalLine (utf8 "  Span ID: ") span.SpanID
          ++ optionalLine (utf8 "  Parent Span ID: ") span.ParentSpanID
          ++ optionalLine (utf8 "  Name: ") span.Name
          ++ optionalLine (utf8 "  Kind: ") span.Kind
          ++ timeLine zoneOffset (utf8 "  Start Time: ") span.StartTimeUnixNano
          ++ timeLine zoneOffset (utf8 "  End Time: ") span.EndTimeUnixNano
          ++ durationLine span.StartTimeUnixNano span.EndTimeUnixNano
          ++ spanAttributes fmtValue span.Attributes
          ++ spanEvents zoneOffset fmtValue span.Events ++ utf8 "\n")
    ∧ (∀ (label nano : Bytes),
        (∀ n : Int, strconvParseInt nano = some n →
          nano ≠ [] ∧ -(2 ^ 63) ≤ n ∧ n < 2 ^ 63
          ∧ timeLine zoneOffset label nano
              = label ++ timeFormatRFC3339Nano zoneOffset n ++ utf8 "\n")
        ∧ (strconvParseInt nano = none → timeLine zoneOffset label nano = []))
    ∧ (∀ (startNano endNano : Bytes),
        (∀ s e : Int, strconvParseInt startNano = some s → strconvParseInt endNano = some e →
          durationLine startNano endNano
              = utf8 "  Duration: " ++ durationString (wrapInt64 (e - s)) ++ utf8 "\n"
          ∧ (-(2 ^ 63) ≤ e - s → e - s < 2 ^ 63 → wrapInt64 (e - s) = e - s)
          ∧ (e < s → -(2 ^ 63) ≤ e - s →
              wrapInt64 (e - s) < 0 ∧ (durationString (wrapInt64 (e - s))).head? = some 45))
        ∧ (strconvParseInt startNano = none ∨ strconvParseInt endNano = none →
            durationLine startNano endNano = [])) := by
  refine ⟨?_, ?_, ?_⟩
  · rw [formatStructuredSpan_eq]
    simp only [spanHead, List.append_assoc]
  · intro label nano
    constructor
    · intro n hn
      obtain ⟨h1, h2, h3⟩ := strconvParseInt_some nano n hn
      exact ⟨h1, h2, h3, by simp only [timeLine, hn]⟩
    · intro hn
      simp only [timeLine, hn]
  · intro startNano endNano
    constructor
    · intro s e hs he
      refine ⟨by simp only [durationLine, hs, he], ?_, ?_⟩
      · intro h1 h2
        exact wrapInt64_of_range _ (by omega) (by omega)
      · intro hlt hfit
        have hw : wrapInt64 (e - s) = e - s := wrapInt64_of_range _ (by omega) (by omega)
        rw [hw]
        exact ⟨by omega, durationString_neg _ (by omega)⟩
    · intro h
      rcases h with h | h
      · simp only [durationLine, h]
      · cases hs : strconvParseInt startNano <;> simp only [durationLine, hs, h]

set_option maxRecDepth 100000 in
/-- Witness of C21: a span that ends a quarter of a second before it starts is
rendered with the duration `-250ms`. -/
theorem duration_line_witness :
    strconvParseInt backwardSpan.StartTimeUnixNano = some 1700000001500000000
    ∧ strconvParseInt backwardSpan.EndTimeUnixNano = some 1700000001250000000
    ∧ durationLine backwardSpan.StartTimeUnixNano backwardSpan.EndTimeUnixNano
        = utf8 "  Duration: " ++ durationString (wrapInt64 (1700000001250000000 - 1700000001500000000))
          ++ utf8 "\n"
    ∧ formatStructuredSpan (fun _ => 0) exampleFmtValue [] backwardSpan 1
        = utf8 "Span 1:\n  Span ID: s1\n  Start Time: 2023-11-14T22:13:21.5Z\n  End Time: 2023-11-14T22:13:21.25Z\n  Duration: -250ms\n\n" :=
  ⟨by decide, by decide,
    (((duration_line (fun _ => 0) exampleFmtValue [] backwardSpan 1).2.2
      backwardSpan.StartTimeUnixNano backwardSpan.EndTimeUnixNano).1 1700000001500000000
      1700000001250000000 (by decide) (by decide)).1,
    by decide⟩

set_option maxRecDepth 100000 in
/-- Counterexample to C21 as stated: a span whose start is 9223372036854775807
and whose end is -9223372036854775808.  Both parse as signed 64-bit integers
and the end is less than the start, yet the duration rendered is `1ns`, which
is not negative: the subtraction wraps around. -/
theorem duration_wraps_around :
    strconvParseInt wrappedSpan.StartTimeUnixNano = some 9223372036854775807
    ∧ strconvParseInt wrappedSpan.EndTimeUnixNano = some (-9223372036854775808)
    ∧ (-9223372036854775808 : Int) < 9223372036854775807
    ∧ wrapInt64 (-9223372036854775808 - 9223372036854775807) = 1
    ∧ durationLine wrappedSpan.StartTimeUnixNano wrappedSpan.EndTimeUnixNano
        = utf8 "  Duration: 1ns\n"
    ∧ formatStructuredSpan (fun _ => 0) exampleFmtValue [] wrappedSpan 1
        = utf8 "Span 1:\n  Start Time: 2262-04-11T23:47:16.854775807Z\n  End Time: 1677-09-21T00:12:43.145224192Z\n  Duration: 1ns\n\n" := by
  refine ⟨by decide, by decide, by decide, by decide, by decide, by decide⟩

/-! ## Empty records and the rendering of a trace -/

/-- C22: empty records render as fixed sentences.  For a record with zero
entries, whatever its metrics payload and its other fields, `formatTempoResults`
returns exactly `No traces found matching the search criteria`,
`formatTagsResult` returns exactly `No tag names found`, `formatTraceResult`
returns exactly `No trace found`, and `formatTagValuesResult` returns exactly
`No values found for tag '<tagName>'`. -/
theorem empty_records (zoneOffset : Int → Int) (fmtValue : JsonValue → Bytes)
    (marshalIndent : JsonValue → Except GoError Bytes)
    (marshalTrace : TempoTraceResponse → Except GoError Bytes)
    (result : TempoResult) (tags : TempoTagsResult) (trace : TempoTraceResponse)
    (tagValues : TempoTagValuesResult) (tagName : Bytes)
    (hresult : result.Traces = []) (htags : tags.TagNames = []) (htrace : trace.Batches = [])
    (hvalues : tagValues.TagValues = []) :
    formatTempoResults zoneOffset result
        = .ok (utf8 "No traces found matching the search criteria")
    ∧ formatTagsResult marshalIndent tags = .ok (utf8 "No tag names found")
    ∧ formatTraceResult zoneOffset fmtValue marshalTrace trace = .ok (utf8 "No trace found")
    ∧ formatTagValuesResult marshalIndent tagValues tagName
        = .ok (utf8 "No values found for tag '" ++ tagName ++ utf8 "'") := by
  refine ⟨?_, ?_, ?_, ?_⟩
  · simp only [formatTempoResults, hresult, List.length_nil, if_true]
  · simp only [formatTagsResult, htags, List.length_nil, if_true]
  · simp only [formatTraceResult, htrace, List.length_nil, if_true]
  · simp only [formatTagValuesResult, hvalues, List.length_nil, if_true]

set_option maxRecDepth 100000 in
/-- Witness of C22: records without entries that carry a metrics payload; and
a call of `get_trace_by_id` that the backend answers with a record without
batches returns the one text `No trace found`. -/
theorem empty_records_witness :
    (formatTempoResults (fun _ => 0) { Metrics := exampleMetrics }
        = .ok (utf8 "No traces found matching the search criteria")
      ∧ formatTagsResult (fun _ => .ok (utf8 "3")) { Metrics := exampleMetrics }
        = .ok (utf8 "No tag names found")
      ∧ formatTraceResult (fun _ => 0) exampleFmtValue (fun _ => .ok []) {}
        = .ok (utf8 "No trace found")
      ∧ formatTagValuesResult (fun _ => .ok (utf8 "3")) { Metrics := exampleMetrics }
          (utf8 "service.name")
        = .ok (utf8 "No values found for tag '" ++ utf8 "service.name" ++ utf8 "'"))
    ∧ utf8 "No values found for tag '" ++ utf8 "service.name" ++ utf8 "'"
        = utf8 "No values found for tag 'service.name'"
    ∧ (HandleGetTraceByID (exampleEnv (fun _ => []) (strictDecoders {} {} {})) (fixedClock 0)
          (constantNet ⟨200, .ok (utf8 "\x7b\"batches\":[]\x7d")⟩) ⟨.object traceArgs⟩).1
        = .ok { Content := [{ Type_ := utf8 "text", Text := utf8 "No trace found" }] } :=
  ⟨empty_records (fun _ => 0) exampleFmtValue (fun _ => .ok (utf8 "3")) (fun _ => .ok [])
      { Metrics := exampleMetrics } { Metrics := exampleMetrics } {}
      { Metrics := exampleMetrics } (utf8 "service.name") rfl rfl rfl rfl,
    by decide, rfl⟩

/-- C24: rendering a trace detail never fails the call.  For every trace
detail record, `formatTraceResult` returns a text and no error, whatever
`json.MarshalIndent` would do with the record: `No trace found` for a record
without batches, else the heading `Trace Details:`, an empty line and the text
of `formatStructuredTrace` without one final newline.  The function
`formatStructuredTrace` returns no error, so the branch that serialises the
record as JSON is not taken. -/
theorem trace_rendering_never_fails (zoneOffset : Int → Int) (fmtValue : JsonValue → Bytes)
    (marshalTrace : TempoTraceResponse → Except GoError Bytes) (result : TempoTraceResponse) :
    formatStructuredTraceError result = none
    ∧ formatTraceResult zoneOffset fmtValue marshalTrace result
        = .ok (if result.Batches.length = 0 then utf8 "No trace found"
            else stringsTrimSuffix
              (utf8 "Trace Details:\n\n" ++ traceHeader result
                ++ (if (flattenedSpans result).length > 0 then
                      utf8 "Spans (" ++ fmtInt (flattenedSpans result).length
                        ++ utf8 " total):\n\n"
                        ++ ((flattenedSpans result).enum.map (fun it =>
                            formatStructuredSpan zoneOffset fmtValue [] it.2
                              (it.1 + 1))).flatten
                    else [])) (utf8 "\n")) := by
  refine ⟨rfl, ?_⟩
  unfold formatTraceResult
  by_cases h : result.Batches.length = 0
  · simp only [h, if_true]
  · simp only [h, if_false, formatStructuredTraceError, formatStructuredTrace_eq]

set_option maxRecDepth 100000 in
/-- Witness of C24: the example trace is rendered although the serialisation
of the record is set to fail. -/
theorem trace_rendering_never_fails_witness :
    formatTraceResult (fun _ => 0) exampleFmtValue (fun _ => .error (utf8 "unsupported value"))
        lateTraceIDTrace
      = .ok (utf8 "Trace Details:\n\nService: front\nTrace ID: \nTotal Batches: 2\n\nSpans (1 total):\n\nSpan 1:\n  Span ID: s4\n") :=
  ((trace_rendering_never_fails (fun _ => 0) exampleFmtValue
    (fun _ => .error (utf8 "unsupported value")) lateTraceIDTrace).2).trans rfl

/-! ## Rendering tag names and tag values -/

/-- A text whose last byte is not a line feed is left as it is by the trimming
of one final newline. -/
theorem trimSuffix_of_last (p : Bytes) (last : UInt8) (h : last ≠ 10) :
    stringsTrimSuffix (p ++ [last]) (utf8 "\n") = p ++ [last] := by
  have hsuf : stringsHasSuffix (p ++ [last]) (utf8 "\n") = false :=
    not_hasSuffix_of_last p [] last 10 (Ne.symm h)
  simp [stringsTrimSuffix, hsuf]

/-- The numbered entries, the metrics and the trimming: the tail of the two
tag renderers on a non-empty list of entries.  Without metrics the text is the
heading and the numbered lines joined by line ends; with metrics whose indented
JSON is `body ++ [last]`, not ending in a line feed, the numbered lines are
followed by an empty line, `Metrics:` and the JSON. -/
theorem formatNumbered_eq (marshalIndent : JsonValue → Except GoError Bytes) (output : Bytes)
    (entries : List Bytes) (metrics : JsonValue) (hne : entries ≠ []) :
    (metrics.isNil = true →
      formatNumbered marshalIndent output entries metrics
        = output ++ (utf8 "\n").intercalate (numberedLines entries))
    ∧ (∀ (body : Bytes) (last : UInt8), metrics.isNil = false →
      marshalIndent metrics = .ok (body ++ [last]) → last ≠ 10 →
      formatNumbered marshalIndent output entries metrics
        = output ++ ((numberedLines entries).map (fun line => line ++ utf8 "\n")).flatten
          ++ utf8 "\nMetrics:\n" ++ (body ++ [last])) := by
  have hloop : entries.enum.foldl (fun output (it : Nat × Bytes) =>
        output ++ (fmtInt (it.1 + 1) ++ utf8 ". " ++ it.2 ++ utf8 "\n")) output
      = output ++ ((numberedLines entries).map (fun line => line ++ utf8 "\n")).flatten := by
    rw [foldl_append_eq (fun it : Nat × Bytes => fmtInt (it.1 + 1) ++ utf8 ". " ++ it.2
      ++ utf8 "\n")]
    simp only [numberedLines, List.map_map]
    rfl
  have hlines : numberedLines entries ≠ [] := by
    simpa [numberedLines, List.enum] using hne
  constructor
  · intro hnil
    simp only [formatNumbered, hloop, hnil, not_true_eq_false, if_false]
    rw [flatten_map_append_sep (utf8 "\n") _ hlines, ← List.append_assoc, trimSuffix_append]
  · intro body last hnil hjson hlast
    simp only [formatNumbered, hloop, hnil, Bool.false_eq_true, not_false_eq_true, if_true,
      hjson]
    have hassoc : output ++ ((numberedLines entries).map (fun line => line ++ utf8 "\n")).flatten
          ++ utf8 "\nMetrics:\n" ++ (body ++ [last])
        = (output ++ ((numberedLines entries).map (fun line => line ++ utf8 "\n")).flatten
          ++ utf8 "\nMetrics:\n" ++ body) ++ [last] := by
      simp only [List.append_assoc]
    rw [hassoc, trimSuffix_of_last _ last hlast]

/-- C23: for every tag-name list with `N >= 1` entries and no metrics payload,
`formatTagsResult` returns exactly `Found N tag names:`, an empty line, and the
lines `i. <entry i>` for `i = 1 .. N` in input order, joined by line ends, with
no newline after the last line; `formatTagValuesResult` does the same under the
heading `Found N values for tag '<tagName>':`.  When a metrics payload is
present and `json.MarshalIndent` yields its indented JSON (a text that does not
end in a line feed), both return the heading, the empty line, the numbered
lines, an empty line, `Metrics:` and the JSON. -/
theorem tag_lists (marshalIndent : JsonValue → Except GoError Bytes) (tags : TempoTagsResult)
    (tagValues : TempoTagValuesResult) (tagName : Bytes)
    (hnames : 1 ≤ tags.TagNames.length) (hvalues : 1 ≤ tagValues.TagValues.length) :
    (tags.Metrics.isNil = true →
      formatTagsResult marshalIndent tags
        = .ok (utf8 "Found " ++ fmtInt tags.TagNames.length ++ utf8 " tag names:\n\n"
            ++ (utf8 "\n").intercalate (numberedLines tags.TagNames)))
    ∧ (∀ (body : Bytes) (last : UInt8), tags.Metrics.isNil = false →
      marshalIndent tags.Metrics = .ok (body ++ [last]) → last ≠ 10 →
      formatTagsResult marshalIndent tags
        = .ok (utf8 "Found " ++ fmtInt tags.TagNames.length ++ utf8 " tag names:\n\n"
            ++ ((numberedLines tags.TagNames).map (fun line => line ++ utf8 "\n")).flatten
            ++ utf8 "\nMetrics:\n" ++ (body ++ [last])))
    ∧ (tagValues.Metrics.isNil = true →
      formatTagValuesResult marshalIndent tagValues tagName
        = .ok (utf8 "Found " ++ fmtInt tagValues.TagValues.length ++ utf8 " values for tag '"
            ++ tagName ++ utf8 "':\n\n"
            ++ (utf8 "\n").intercalate (numberedLines tagValues.TagValues)))
    ∧ (∀ (body : Bytes) (last : UInt8), tagValues.Metrics.isNil = false →
      marshalIndent tagValues.Metrics = .ok (body ++ [last]) → last ≠ 10 →
      formatTagValuesResult marshalIndent tagValues tagName
        = .ok (utf8 "Found " ++ fmtInt tagValues.TagValues.length ++ utf8 " values for tag '"
            ++ tagName ++ utf8 "':\n\n"
            ++ ((numberedLines tagValues.TagValues).map (fun line => line ++ utf8 "\n")).flatten
            ++ utf8 "\nMetrics:\n" ++ (body ++ [last])))
    ∧ (∀ entries : List Bytes,
      numberedLines entries
        = entries.enum.map (fun it => fmtInt (it.1 + 1) ++ utf8 ". " ++ it.2)) := by
  have hn : tags.TagNames ≠ [] := by
    intro h; rw [h] at hnames; simp at hnames
  have hv : tagValues.TagValues ≠ [] := by
    intro h; rw [h] at hvalues; simp at hvalues
  have hn0 : ¬ tags.TagNames.length = 0 := by omega
  have hv0 : ¬ tagValues.TagValues.length = 0 := by omega
  refine ⟨?_, ?_, ?_, ?_, fun _ => rfl⟩
  · intro hnil
    simp only [formatTagsResult, if_neg hn0,
      (formatNumbered_eq marshalIndent _ tags.TagNames tags.Metrics hn).1 hnil]
  · intro body last hnil hjson hlast
    simp only [formatTagsResult, if_neg hn0,
      (formatNumbered_eq marshalIndent _ tags.TagNames tags.Metrics hn).2 body last hnil hjson
        hlast]
  · intro hnil
    simp only [formatTagValuesResult, if_neg hv0,
      (formatNumbered_eq marshalIndent _ tagValues.TagValues tagValues.Metrics hv).1 hnil]
  · intro body last hnil hjson hlast
    simp only [formatTagValuesResult, if_neg hv0,
      (formatNumbered_eq marshalIndent _ tagValues.TagValues tagValues.Metrics hv).2 body last
        hnil hjson hlast]

set_option maxRecDepth 100000 in
/-- Witness of C23: two tag names without metrics, and two values of the tag
`service.name` with a metrics payload. -/
theorem tag_lists_witness :
    formatTagsResult (fun _ => .ok exampleMetricsJSON) exampleTags
        = .ok (utf8 "Found 2 tag names:\n\n1. service.name\n2. http.method")
    ∧ formatTagValuesResult (fun _ => .ok exampleMetricsJSON) exampleTagValues
          (utf8 "service.name")
        = .ok (utf8 "Found 2 values for tag 'service.name':\n\n1. front\n2. cart\n\nMetrics:\n\x7b\n  \"inspectedTraces\": 3\n\x7d") :=
  have h := tag_lists (fun _ => .ok exampleMetricsJSON) exampleTags exampleTagValues
    (utf8 "service.name") (by decide) (by decide)
  ⟨(h.1 rfl).trans rfl,
    (h.2.2.2.1 exampleMetricsJSON.dropLast 125 rfl rfl (by decide)).trans rfl⟩

/-! ## The end of the text of a trace list, and the order of its attributes -/

/-- A text with a line end appended ends in a line feed. -/
theorem last_append_newline (x : Bytes) : (x ++ utf8 "\n").getLast? = some 10 := by
  rw [List.getLast?_append]
  rfl

/-- Lines that each end in a line feed, written one after the other, end in a
line feed. -/
theorem flatten_lines_last {α : Type} (g : α → Bytes) (l : List α) (hne : l ≠ [])
    (h : ∀ x, (g x).getLast? = some 10) : ((l.map g).flatten).getLast? = some 10 := by
  induction l with
  | nil => exact absurd rfl hne
  | cons a rest ih =>
    simp only [List.map_cons, List.flatten_cons, List.getLast?_append]
    by_cases hr : rest = []
    · subst hr
      simp [h a]
    · rw [ih hr]
      rfl

/-- Blocks that each end in a line feed, joined by a separator, end in a line
feed. -/
theorem intercalate_last (sep : Bytes) (l : List Bytes) (hne : l ≠ [])
    (h : ∀ x ∈ l, x.getLast? = some 10) : (sep.intercalate l).getLast? = some 10 := by
  induction l with
  | nil => exact absurd rfl hne
  | cons a rest ih =>
    cases rest with
    | nil => simpa [List.intercalate] using h a (List.mem_cons_self _ _)
    | cons b t =>
      have hrest := ih (by simp) (fun x hx => h x (List.mem_cons_of_mem _ hx))
      have hsplit : sep.intercalate (a :: b :: t) = a ++ sep ++ sep.intercalate (b :: t) := by
        simp [List.intercalate, List.intersperse, List.append_assoc]
      rw [hsplit, List.getLast?_append, hrest]
      rfl

/-- The block of a trace ends in a line feed. -/
theorem traceBlock_last (zoneOffset : Int → Int) (n : Nat) (trace : TempoTrace) :
    (traceBlock zoneOffset n trace).getLast? = some 10 := by
  unfold traceBlock attributesBlock
  cases hA : trace.Attributes with
  | nil =>
    rw [List.append_nil, show utf8 " ms\n" = utf8 " ms" ++ utf8 "\n" from rfl,
      ← List.append_assoc]
    exact last_append_newline _
  | cons kv rest =>
    simp only []
    rw [List.getLast?_append, List.getLast?_append,
      flatten_lines_last _ (kv :: rest) (by simp) (fun x => last_append_newline _)]
    rfl

/-- C26, the behaviour of the code: for every non-empty trace-search result
the text returned by `formatTempoResults` ends in a line feed.  Every trace
block ends with its last line's line end, the loop writes one more line end
behind each block, and `strings.TrimSuffix` removes one line end only. -/
theorem trace_list_ends_in_newline (zoneOffset : Int → Int) (result : TempoResult)
    (h : 1 ≤ result.Traces.length) :
    formatTempoResults zoneOffset result = .ok (traceListText zoneOffset result.Traces)
    ∧ (traceListText zoneOffset result.Traces).getLast? = some 10 := by
  have hne : result.Traces ≠ [] := by
    intro h0; rw [h0] at h; simp at h
  refine ⟨formatTempoResults_eq zoneOffset result hne, ?_⟩
  unfold traceListText
  rw [List.getLast?_append, intercalate_last]
  · rfl
  · simpa [List.enum] using hne
  · intro x hx
    obtain ⟨it, -, rfl⟩ := List.mem_map.1 hx
    exact traceBlock_last zoneOffset _ _

set_option maxRecDepth 100000 in
/-- Witness of C26: the text of the example record of the specification ends
with the line end of its `Duration:` line. -/
theorem trace_list_ends_in_newline_witness :
    formatTempoResults (fun _ => 0) exampleResult
        = .ok (utf8 "Found 1 traces:\n\nTrace 1:\n  TraceID: abc123\n  Service: svc\n  Name: op\n  Start Time: 2023-11-14T22:13:20Z\n  Duration: 42 ms\n")
    ∧ (traceListText (fun _ => 0) exampleResult.Traces).getLast? = some 10 :=
  ⟨((trace_list_ends_in_newline (fun _ => 0) exampleResult (by decide)).1).trans rfl,
    (trace_list_ends_in_newline (fun _ => 0) exampleResult (by decide)).2⟩

/-! ## Two runs on one record -/

/-- Two views of one value are equal, or two arrays, or two maps. -/
theorem sameValue_kind {x y : JsonValue} (h : sameValue x y) :
    x = y ∨ (∃ xs ys, x = .array xs ∧ y = .array ys)
      ∨ (∃ xs ys, x = .object xs ∧ y = .object ys) := by
  induction h with
  | same v => exact Or.inl rfl
  | chain _ _ ih₁ ih₂ =>
    rcases ih₁ with rfl | ⟨xs, ys, rfl, rfl⟩ | ⟨xs, ys, rfl, rfl⟩
    · exact ih₂
    · rcases ih₂ with rfl | ⟨xs', ys', h, rfl⟩ | ⟨xs', ys', h, rfl⟩
      · exact Or.inr (Or.inl ⟨_, _, rfl, rfl⟩)
      · exact Or.inr (Or.inl ⟨_, _, rfl, rfl⟩)
      · cases h
    · rcases ih₂ with rfl | ⟨xs', ys', h, rfl⟩ | ⟨xs', ys', h, rfl⟩
      · exact Or.inr (Or.inr ⟨_, _, rfl, rfl⟩)
      · cases h
      · exact Or.inr (Or.inr ⟨_, _, rfl, rfl⟩)
  | reorder _ _ => exact Or.inr (Or.inr ⟨_, _, rfl, rfl⟩)
  | element _ _ _ _ => exact Or.inr (Or.inl ⟨_, _, rfl, rfl⟩)
  | field _ _ _ _ => exact Or.inr (Or.inr ⟨_, _, rfl, rfl⟩)

/-- Two views of one value are both `nil` or both not. -/
theorem sameValue_isNil {x y : JsonValue} (h : sameValue x y) : x.isNil = y.isNil := by
  rcases sameValue_kind h with rfl | ⟨xs, ys, rfl, rfl⟩ | ⟨xs, ys, rfl, rfl⟩ <;> rfl

/-- The examples' text of a number is the same for two views of a value. -/
theorem numberText_same {x y : JsonValue} (h : sameValue x y) : numberText x = numberText y := by
  rcases sameValue_kind h with rfl | ⟨xs, ys, rfl, rfl⟩ | ⟨xs, ys, rfl, rfl⟩ <;> rfl

/-- Listing the entries of a map with distinct keys in another order does not
change what a key is mapped to. -/
theorem lookup_perm (key : Bytes) {xs ys : List (Bytes × JsonValue)} (h : xs.Perm ys) :
    (xs.map Prod.fst).Nodup → xs.lookup key = ys.lookup key := by
  induction h with
  | nil => intro _; rfl
  | cons x _ ih =>
    intro hnd
    obtain ⟨k, v⟩ := x
    simp only [List.map_cons, List.nodup_cons] at hnd
    simp only [List.lookup_cons, ih hnd.2]
  | swap x y l =>
    intro hnd
    obtain ⟨k, v⟩ := x
    obtain ⟨k', v'⟩ := y
    simp only [List.map_cons, List.nodup_cons, List.mem_cons, not_or] at hnd
    have hne : k' ≠ k := hnd.1.1
    simp only [List.lookup_cons]
    by_cases h1 : key = k
    · subst h1
      have : (key == k') = false := by simpa using fun h => hne h.symm
      simp [this]
    · have : (key == k) = false := by simpa using h1
      simp [this]
  | trans h₁ _ ih₁ ih₂ =>
    intro hnd
    rw [ih₁ hnd, ih₂ ((h₁.map Prod.fst).nodup_iff.1 hnd)]

/-- Two views of one map have the same number of entries, and map every key to
two views of one value. -/
theorem sameValue_lookup {u v : JsonValue} (h : sameValue u v) :
    ∀ xs ys, u = .object xs → v = .object ys →
      xs.length = ys.length ∧ ∀ key, sameValue (mapIndex xs key) (mapIndex ys key) := by
  induction h with
  | same w =>
    intro xs ys hx hy
    cases hx
    cases hy
    exact ⟨rfl, fun _ => sameValue.same _⟩
  | @chain a b c hab hbc ih₁ ih₂ =>
    intro xs ys hx hy
    subst hx
    subst hy
    rcases sameValue_kind hab with h | ⟨_, _, h, _⟩ | ⟨_, ms, _, rfl⟩
    · subst h
      exact ih₂ _ _ rfl rfl
    · cases h
    · have h₁ := ih₁ xs ms rfl rfl
      have h₂ := ih₂ ms ys rfl rfl
      exact ⟨h₁.1.trans h₂.1, fun key => sameValue.chain (h₁.2 key) (h₂.2 key)⟩
  | reorder hp hnd =>
    intro xs ys hx hy
    cases hx
    cases hy
    refine ⟨hp.length_eq, fun key => ?_⟩
    unfold mapIndex
    rw [lookup_perm key hp hnd]
    exact sameValue.same _
  | element _ _ _ _ =>
    intro xs ys hx
    cases hx
  | @field k x y fs gs hxy _ _ ih₂ =>
    intro xs ys hx hy
    cases hx
    cases hy
    have h₂ := ih₂ fs gs rfl rfl
    refine ⟨by simp [h₂.1], fun key => ?_⟩
    have hf := h₂.2 key
    unfold mapIndex at hf ⊢
    simp only [List.lookup_cons]
    by_cases hk : (key == k) = true
    · simpa [hk] using hxy
    · simpa [hk] using hf

/-- The examples' verb `%v` writes the same text for two views of a value, as
`fmt` does, which writes the keys of a map in ascending order. -/
theorem sortedFmtValue_same {x y : JsonValue} (h : sameValue x y) :
    sortedFmtValue x = sortedFmtValue y := by
  rcases sameValue_kind h with rfl | ⟨xs, ys, rfl, rfl⟩ | ⟨xs, ys, rfl, rfl⟩
  · rfl
  · rfl
  · have hl := sameValue_lookup h xs ys rfl rfl
    simp only [sortedFmtValue, hl.1, numberText_same (hl.2 (utf8 "a")),
      numberText_same (hl.2 (utf8 "b"))]

/-- The examples' `json.MarshalIndent` writes the same text for two views of a
value, as `encoding/json` does, which writes the keys of a map in ascending
order. -/
theorem sortedMarshalIndent_same {x y : JsonValue} (h : sameValue x y) :
    sortedMarshalIndent x = sortedMarshalIndent y := by
  rcases sameValue_kind h with rfl | ⟨xs, ys, rfl, rfl⟩ | ⟨xs, ys, rfl, rfl⟩
  · rfl
  · rfl
  · have hl := sameValue_lookup h xs ys rfl rfl
    simp only [sortedMarshalIndent, hl.1, numberText_same (hl.2 (utf8 "inspectedBytes")),
      numberText_same (hl.2 (utf8 "inspectedTraces"))]

/-- Lines written in another order take up the same length. -/
theorem flatten_length_perm {α : Type} (g : α → Bytes) {l₁ l₂ : List α} (h : l₁.Perm l₂) :
    ((l₁.map g).flatten).length = ((l₂.map g).flatten).length := by
  induction h with
  | nil => rfl
  | cons x _ ih => simp [ih]
  | swap x y l => simp; omega
  | trans _ _ ih₁ ih₂ => exact ih₁.trans ih₂

/-- The attributes block of a trace has the same length in every order of the
attributes. -/
theorem attributesBlock_length {l₁ l₂ : List (Bytes × Bytes)} (h : l₁.Perm l₂) :
    (attributesBlock l₁).length = (attributesBlock l₂).length := by
  have hflat := flatten_length_perm
    (fun kv : Bytes × Bytes => utf8 "    " ++ kv.1 ++ utf8 ": " ++ kv.2 ++ utf8 "\n") h
  cases l₁ with
  | nil =>
    rw [List.nil_perm.1 h]
  | cons x xs =>
    cases l₂ with
    | nil => exact absurd h.symm (List.nil_perm.not.2 (by simp))
    | cons y ys =>
      simp only [attributesBlock, List.length_append, hflat]

/-- Blocks of pairwise equal length that give the same text when joined by a
separator are the same blocks. -/
theorem intercalate_inj (sep : Bytes) {l₁ l₂ : List Bytes}
    (h : List.Forall₂ (fun x y : Bytes => x.length = y.length) l₁ l₂)
    (heq : sep.intercalate l₁ = sep.intercalate l₂) : l₁ = l₂ := by
  induction h with
  | nil => rfl
  | @cons x y xs ys hxy hrest ih =>
    cases hrest with
    | nil =>
      simp only [List.intercalate, List.intersperse, List.flatten_cons, List.flatten_nil,
        List.append_nil] at heq
      rw [heq]
    | @cons x' y' xs' ys' hxy' hrest' =>
      have hsplit : ∀ (a b : Bytes) (t : List Bytes),
          sep.intercalate (a :: b :: t) = a ++ (sep ++ sep.intercalate (b :: t)) := by
        intro a b t
        simp [List.intercalate, List.intersperse]
      rw [hsplit, hsplit] at heq
      obtain ⟨h1, h2⟩ := List.append_inj heq hxy
      rw [h1, ih (List.append_cancel_left h2)]

/-- The blocks of two views of one trace have the same length, and are equal
exactly when the attribute blocks are. -/
theorem traceBlock_same (zoneOffset : Int → Int) (n : Nat) {s t : TempoTrace}
    (h : sameTrace s t) :
    (traceBlock zoneOffset n s).length = (traceBlock zoneOffset n t).length
    ∧ (traceBlock zoneOffset n s = traceBlock zoneOffset n t
        ↔ attributesBlock s.Attributes = attributesBlock t.Attributes) := by
  obtain ⟨h1, h2, h3, h4, h5, _, h7⟩ := h
  simp only [traceBlock, h1, h2, h3, h4, h5]
  constructor
  · simp only [List.length_append, attributesBlock_length h7]
  · exact ⟨fun h => List.append_cancel_left h, fun h => by rw [h]⟩

/-- The numbered blocks of two views of one trace list have pairwise the same
length, and are the same blocks exactly when the attribute blocks of the traces
agree pairwise. -/
theorem traceBlocks_same (zoneOffset : Int → Int) {ta tb : List TempoTrace}
    (h : List.Forall₂ sameTrace ta tb) :
    ∀ k : Nat,
      List.Forall₂ (fun x y : Bytes => x.length = y.length)
        ((ta.enumFrom k).map (fun it => traceBlock zoneOffset (it.1 + 1) it.2))
        ((tb.enumFrom k).map (fun it => traceBlock zoneOffset (it.1 + 1) it.2))
      ∧ ((ta.enumFrom k).map (fun it => traceBlock zoneOffset (it.1 + 1) it.2)
            = (tb.enumFrom k).map (fun it => traceBlock zoneOffset (it.1 + 1) it.2)
          ↔ List.Forall₂ (fun s t : TempoTrace =>
              attributesBlock s.Attributes = attributesBlock t.Attributes) ta tb) := by
  induction h with
  | nil =>
    intro k
    exact ⟨List.Forall₂.nil, fun _ => List.Forall₂.nil, fun _ => rfl⟩
  | @cons s t ss ts hst _ ih =>
    intro k
    have hb := traceBlock_same zoneOffset (k + 1) hst
    have hr := ih (k + 1)
    simp only [List.enumFrom_cons, List.map_cons, List.cons.injEq, List.forall₂_cons]
    exact ⟨⟨hb.1, hr.1⟩, fun h => ⟨hb.2.1 h.1, hr.2.1 h.2⟩, fun h => ⟨hb.2.2 h.1, hr.2.2 h.2⟩⟩

/-- The texts of two views of one trace-search record are equal exactly when
the attribute blocks of the traces agree pairwise. -/
theorem formatTempoResults_same (zoneOffset : Int → Int) {a b : TempoResult}
    (h : sameResult a b) :
    formatTempoResults zoneOffset a = formatTempoResults zoneOffset b
      ↔ List.Forall₂ (fun s t : TempoTrace =>
          attributesBlock s.Attributes = attributesBlock t.Attributes) a.Traces b.Traces := by
  have hall := h.1
  by_cases hne : a.Traces = []
  · have hb : b.Traces = [] := List.length_eq_zero.1 (by rw [← hall.length_eq, hne]; rfl)
    simp [formatTempoResults, hne, hb]
  · have hb : b.Traces ≠ [] := fun hb =>
      hne (List.length_eq_zero.1 (by rw [hall.length_eq, hb]; rfl))
    have hblocks := traceBlocks_same zoneOffset hall 0
    rw [formatTempoResults_eq zoneOffset a hne, formatTempoResults_eq zoneOffset b hb,
      Except.ok.injEq, traceListText, traceListText, hall.length_eq]
    constructor
    · intro heq
      exact hblocks.2.1 (intercalate_inj _ hblocks.1 (List.append_cancel_left heq))
    · intro hattr
      have := hblocks.2.2 hattr
      simp only [List.enum] at this ⊢
      rw [this]

/-- Two views of an attribute mapping with at most one entry list the same
entries. -/
theorem perm_of_length_le_one {l₁ l₂ : List (Bytes × Bytes)} (h : l₁.Perm l₂)
    (hfew : l₁.length ≤ 1) : l₁ = l₂ := by
  match l₁, hfew with
  | [], _ => exact (List.nil_perm.1 h).symm
  | [x], _ => exact (List.singleton_perm.1 h)

/-- Two views of one trace list whose traces have at most one attribute each
have pairwise the same attribute blocks. -/
theorem attributesBlocks_of_few {ta tb : List TempoTrace} (h : List.Forall₂ sameTrace ta tb)
    (hfew : ∀ t ∈ ta, t.Attributes.length ≤ 1) :
    List.Forall₂ (fun s t : TempoTrace =>
      attributesBlock s.Attributes = attributesBlock t.Attributes) ta tb := by
  induction h with
  | nil => exact List.Forall₂.nil
  | @cons s t ss ts hst _ ih =>
    refine List.Forall₂.cons ?_ (ih (fun x hx => hfew x (List.mem_cons_of_mem _ hx)))
    rw [perm_of_length_le_one hst.2.2.2.2.2.2 (hfew s (List.mem_cons_self _ _))]

/-- A function that agrees on related entries maps related lists to the same
list. -/
theorem map_same {α β : Type} {R : α → α → Prop} (g : α → β)
    (hg : ∀ x y, R x y → g x = g y) {l₁ l₂ : List α} (h : List.Forall₂ R l₁ l₂) :
    l₁.map g = l₂.map g := by
  induction h with
  | nil => rfl
  | cons hxy _ ih => simp only [List.map_cons, hg _ _ hxy, ih]

/-- A function of index and entry that agrees on related entries maps the
numbered entries of related lists to the same list. -/
theorem enum_map_same {α β : Type} {R : α → α → Prop} (g : Nat × α → β)
    (hg : ∀ i x y, R x y → g (i, x) = g (i, y)) {l₁ l₂ : List α} (h : List.Forall₂ R l₁ l₂) :
    ∀ k : Nat, (l₁.enumFrom k).map g = (l₂.enumFrom k).map g := by
  induction h with
  | nil => intro _; rfl
  | cons hxy _ ih =>
    intro k
    simp only [List.enumFrom_cons, List.map_cons, hg _ _ _ hxy, ih (k + 1)]

/-- Related lists of lists are related when flattened. -/
theorem flatMap_same {α β : Type} {S : α → α → Prop} {R : β → β → Prop} (f : α → List β)
    (hf : ∀ x y, S x y → List.Forall₂ R (f x) (f y)) {l₁ l₂ : List α}
    (h : List.Forall₂ S l₁ l₂) : List.Forall₂ R (l₁.flatMap f) (l₂.flatMap f) := by
  induction h with
  | nil => exact List.Forall₂.nil
  | cons hxy _ ih =>
    simp only [List.flatMap_cons]
    exact List.rel_append (hf _ _ hxy) ih

/-- The line of an attribute is the same for two views of the attribute, when
the verb `%v` writes the same text for two views of a value. -/
theorem attributeLine_same (fmtValue : JsonValue → Bytes)
    (hfmt : ∀ x y, sameValue x y → fmtValue x = fmtValue y) (indent : Bytes)
    (a b : TempoAttribute) (h : sameAttribute a b) :
    attributeLine fmtValue indent a = attributeLine fmtValue indent b := by
  obtain ⟨h1, h2, h3, _⟩ := h
  simp only [attributeLine, h1, h2, sameValue_isNil h3, hfmt _ _ h3]

/-- The block of an event is the same for two views of the event. -/
theorem eventBlock_same (zoneOffset : Int → Int) (fmtValue : JsonValue → Bytes)
    (hfmt : ∀ x y, sameValue x y → fmtValue x = fmtValue y) (a b : TempoEvent)
    (h : sameEvent a b) :
    eventBlock zoneOffset fmtValue a = eventBlock zoneOffset fmtValue b := by
  obtain ⟨h1, h2, h3⟩ := h
  simp only [eventBlock, h1, h2,
    map_same _ (attributeLine_same fmtValue hfmt (utf8 "      ")) h3]

/-- The block of a span is the same for two views of the span. -/
theorem formatStructuredSpan_same (zoneOffset : Int → Int) (fmtValue : JsonValue → Bytes)
    (hfmt : ∀ x y, sameValue x y → fmtValue x = fmtValue y) (index : Int) (a b : TempoSpan)
    (h : sameSpan a b) :
    formatStructuredSpan zoneOffset fmtValue [] a index
      = formatStructuredSpan zoneOffset fmtValue [] b index := by
  obtain ⟨_, h2, h3, h4, h5, h6, h7, h8, h9, _⟩ := h
  rw [formatStructuredSpan_eq, formatStructuredSpan_eq]
  simp only [spanHead, spanAttributes, spanEvents, h2, h3, h4, h5, h6, h7, h8.length_eq,
    h9.length_eq, map_same _ (attributeLine_same fmtValue hfmt (utf8 "    ")) h8,
    map_same _ (eventBlock_same zoneOffset fmtValue hfmt) h9]

/-- The first non-empty trace id is the same for two views of a list of
spans. -/
theorem firstTraceID_same {l₁ l₂ : List TempoSpan} (h : List.Forall₂ sameSpan l₁ l₂) :
    firstTraceID l₁ = firstTraceID l₂ := by
  induction h with
  | nil => rfl
  | @cons s t ss ts hst _ ih =>
    have hid : s.TraceID = t.TraceID := hst.1
    unfold firstTraceID at ih ⊢
    simp only [List.find?_cons]
    by_cases he : t.TraceID = []
    · simpa [hid, he] using ih
    · simp [hid, he]

/-- The service name is the same for two views of a batch. -/
theorem serviceNameOf_same (a b : TempoBatch) (h : sameBatch a b) :
    serviceNameOf a = serviceNameOf b := by
  have hrev := List.forall₂_reverse_iff.2 h.1
  unfold serviceNameOf
  generalize a.Resource.Attributes.reverse = l₁ at hrev
  generalize b.Resource.Attributes.reverse = l₂ at hrev
  induction hrev with
  | nil => rfl
  | @cons s t ss ts hst _ ih =>
    obtain ⟨h1, h2, _, _⟩ := hst
    simp only [List.find?_cons]
    by_cases he : t.Key = utf8 "service.name" ∧ t.Value.StringValue ≠ []
    · simp [h1, h2, he]
    · simpa [h1, h2, he] using ih

/-- The spans of a batch are pairwise two views of one span for two views of
the batch. -/
theorem batchSpans_same (a b : TempoBatch) (h : sameBatch a b) :
    List.Forall₂ sameSpan (batchSpans a) (batchSpans b) :=
  flatMap_same (fun scopeSpan : TempoScopeSpan => scopeSpan.Spans) (fun _ _ hxy => hxy.2) h.2

/-- The header lines are the same for two views of a trace. -/
theorem traceHeader_same (a b : TempoTraceResponse) (h : sameTraceDetail a b) :
    traceHeader a = traceHeader b := by
  obtain ⟨ba⟩ := a
  obtain ⟨bb⟩ := b
  have hlen := h.length_eq
  unfold sameTraceDetail at h
  simp only at h hlen
  cases h with
  | nil => rfl
  | @cons x y xs ys hxy hrest =>
    simp only [traceHeader, serviceNameOf_same x y hxy,
      firstTraceID_same (batchSpans_same x y hxy), hlen]

/-- The text of a trace is the same for two views of the trace, when the verb
`%v` writes the same text for two views of a value. -/
theorem formatTraceResult_same (zoneOffset : Int → Int) (fmtValue : JsonValue → Bytes)
    (marshalTrace : TempoTraceResponse → Except GoError Bytes)
    (hfmt : ∀ x y, sameValue x y → fmtValue x = fmtValue y) (a b : TempoTraceResponse)
    (h : sameTraceDetail a b) :
    formatTraceResult zoneOffset fmtValue marshalTrace a
      = formatTraceResult zoneOffset fmtValue marshalTrace b := by
  have hspans : List.Forall₂ sameSpan (flattenedSpans a) (flattenedSpans b) :=
    flatMap_same batchSpans batchSpans_same h
  have hblocks := enum_map_same
    (fun it : Nat × TempoSpan => formatStructuredSpan zoneOffset fmtValue [] it.2 (it.1 + 1))
    (fun i x y hxy => formatStructuredSpan_same zoneOffset fmtValue hfmt _ x y hxy) hspans 0
  have htrace : ∀ output : Bytes, formatStructuredTrace zoneOffset fmtValue output a
      = formatStructuredTrace zoneOffset fmtValue output b := by
    intro output
    rw [formatStructuredTrace_eq, formatStructuredTrace_eq, traceHeader_same a b h,
      hspans.length_eq]
    simp only [List.enum] at hblocks ⊢
    rw [hblocks]
  simp only [formatTraceResult, formatStructuredTraceError, h.length_eq, htrace]

/-- The numbered list with its metrics block is the same for two views of the
metrics, when `json.MarshalIndent` writes the same text for two views of a
value. -/
theorem formatNumbered_same (marshalIndent : JsonValue → Except GoError Bytes)
    (hmarshal : ∀ x y, sameValue x y → marshalIndent x = marshalIndent y) (output : Bytes)
    (entries : List Bytes) (m₁ m₂ : JsonValue) (h : sameValue m₁ m₂) :
    formatNumbered marshalIndent output entries m₁
      = formatNumbered marshalIndent output entries m₂ := by
  simp only [formatNumbered, sameValue_isNil h, hmarshal _ _ h]

/-- The two views of the metrics payload of the examples are views of one
value. -/
theorem metricsRuns_same : sameValue metricsFirstRun metricsSecondRun :=
  sameValue.reorder (List.Perm.swap _ _ _) (by decide)

/-- Two views of the value of `counts` give two views of the example trace. -/
theorem countsTrace_same {x y : JsonValue} (h : sameValue x y) :
    sameTraceDetail (countsTrace x) (countsTrace y) :=
  List.Forall₂.cons
    ⟨List.Forall₂.cons ⟨rfl, rfl, sameValue.same _, rfl⟩ List.Forall₂.nil,
      List.Forall₂.cons
        ⟨rfl, List.Forall₂.cons
          ⟨rfl, rfl, rfl, rfl, rfl, rfl, rfl,
            List.Forall₂.cons ⟨rfl, rfl, h, rfl⟩ List.Forall₂.nil, List.Forall₂.nil, rfl⟩
          List.Forall₂.nil⟩
        List.Forall₂.nil⟩
    List.Forall₂.nil

/-- C25 (as amended): the Result Formatter is deterministic except for the
order of the attribute lines of a trace list.  Two runs on the same record see
two views of it, which agree except for the order in which the entries of its
Go maps are listed.  `formatTraceResult`, `formatTagsResult` and
`formatTagValuesResult` return identical text on two views of one record (they
range over slices only and hand maps to `fmt` and `encoding/json`, which write
the keys of a map in ascending order).  `formatTempoResults` returns identical
text on two views exactly when the attribute blocks of the traces agree
pairwise, which they do when every trace has at most one attribute; for a trace
with two or more attributes the lines follow the iteration order of the run. -/
theorem rendering_deterministic (zoneOffset : Int → Int) (fmtValue : JsonValue → Bytes)
    (marshalIndent : JsonValue → Except GoError Bytes)
    (marshalTrace : TempoTraceResponse → Except GoError Bytes)
    (hfmt : ∀ x y, sameValue x y → fmtValue x = fmtValue y)
    (hmarshal : ∀ x y, sameValue x y → marshalIndent x = marshalIndent y) :
    (∀ a b : TempoTraceResponse, sameTraceDetail a b →
      formatTraceResult zoneOffset fmtValue marshalTrace a
        = formatTraceResult zoneOffset fmtValue marshalTrace b)
    ∧ (∀ a b : TempoTagsResult, sameTags a b →
      formatTagsResult marshalIndent a = formatTagsResult marshalIndent b)
    ∧ (∀ (a b : TempoTagValuesResult) (tagName : Bytes), sameTagValues a b →
      formatTagValuesResult marshalIndent a tagName
        = formatTagValuesResult marshalIndent b tagName)
    ∧ (∀ a b : TempoResult, sameResult a b →
      (formatTempoResults zoneOffset a = formatTempoResults zoneOffset b
        ↔ List.Forall₂ (fun s t : TempoTrace =>
            attributesBlock s.Attributes = attributesBlock t.Attributes) a.Traces b.Traces)
      ∧ ((∀ t ∈ a.Traces, t.Attributes.length ≤ 1) →
        formatTempoResults zoneOffset a = formatTempoResults zoneOffset b)) := by
  refine ⟨?_, ?_, ?_, ?_⟩
  · exact formatTraceResult_same zoneOffset fmtValue marshalTrace hfmt
  · intro a b h
    simp only [formatTagsResult, h.1,
      formatNumbered_same marshalIndent hmarshal _ _ a.Metrics b.Metrics h.2.1]
  · intro a b tagName h
    simp only [formatTagValuesResult, h.1,
      formatNumbered_same marshalIndent hmarshal _ _ a.Metrics b.Metrics h.2.1]
  · intro a b h
    exact ⟨formatTempoResults_same zoneOffset h,
      fun hfew => (formatTempoResults_same zoneOffset h).2 (attributesBlocks_of_few h.1 hfew)⟩

set_option maxRecDepth 100000 in
/-- Witness of C25, with the library functions of the examples, which write
the keys of a map in ascending order.  A trace whose attribute `counts` holds a
map, a list of tag names and a list of tag values with a metrics map, and a
trace list with one attribute and a metrics map are each rendered to the same
text in two runs that meet the keys of the maps in different orders.  For the
trace list whose trace has the attributes `a` and `b`, the attribute blocks of
the two runs differ, and so do the texts. -/
theorem rendering_deterministic_witness :
    (sameTraceDetail (countsTrace countsFirstRun) (countsTrace countsSecondRun)
      ∧ formatTraceResult (fun _ => 0) sortedFmtValue (fun _ => .error [])
          (countsTrace countsFirstRun)
        = formatTraceResult (fun _ => 0) sortedFmtValue (fun _ => .error [])
          (countsTrace countsSecondRun)
      ∧ formatTraceResult (fun _ => 0) sortedFmtValue (fun _ => .error [])
          (countsTrace countsSecondRun)
        = .ok (utf8 "Trace Details:\n\nService: shop\nTrace ID: t1\nTotal Batches: 1\n\nSpans (1 total):\n\nSpan 1:\n  Span ID: s1\n  Attributes:\n    counts: map[a:1 b:2]\n"))
    ∧ (sameTags tagsFirstRun tagsSecondRun
      ∧ formatTagsResult sortedMarshalIndent tagsFirstRun
        = formatTagsResult sortedMarshalIndent tagsSecondRun
      ∧ formatTagsResult sortedMarshalIndent tagsSecondRun
        = .ok (utf8 "Found 2 tag names:\n\n1. service.name\n2. http.method\n\nMetrics:\n\x7b\n  \"inspectedBytes\": 4096,\n  \"inspectedTraces\": 3\n\x7d"))
    ∧ (sameTagValues tagValuesFirstRun tagValuesSecondRun
      ∧ formatTagValuesResult sortedMarshalIndent tagValuesFirstRun (utf8 "service.name")
        = formatTagValuesResult sortedMarshalIndent tagValuesSecondRun (utf8 "service.name")
      ∧ formatTagValuesResult sortedMarshalIndent tagValuesSecondRun (utf8 "service.name")
        = .ok (utf8 "Found 2 values for tag 'service.name':\n\n1. front\n2. cart\n\nMetrics:\n\x7b\n  \"inspectedBytes\": 4096,\n  \"inspectedTraces\": 3\n\x7d"))
    ∧ (sameResult oneKeyFirstRun oneKeySecondRun
      ∧ (∀ t ∈ oneKeyFirstRun.Traces, t.Attributes.length ≤ 1)
      ∧ formatTempoResults (fun _ => 0) oneKeyFirstRun
        = formatTempoResults (fun _ => 0) oneKeySecondRun
      ∧ formatTempoResults (fun _ => 0) oneKeySecondRun
        = .ok (utf8 "Found 1 traces:\n\nTrace 1:\n  TraceID: t1\n  Service: \n  Name: \n  Duration: 0 ms\n  Attributes:\n    a: 1\n"))
    ∧ (sameResult twoKeysFirstRun twoKeysSecondRun
      ∧ ¬ List.Forall₂ (fun s t : TempoTrace =>
            attributesBlock s.Attributes = attributesBlock t.Attributes)
          twoKeysFirstRun.Traces twoKeysSecondRun.Traces
      ∧ formatTempoResults (fun _ => 0) twoKeysFirstRun
        ≠ formatTempoResults (fun _ => 0) twoKeysSecondRun) :=
  have h := rendering_deterministic (fun _ => 0) sortedFmtValue sortedMarshalIndent
    (fun _ => .error []) (fun _ _ hxy => sortedFmtValue_same hxy)
    (fun _ _ hxy => sortedMarshalIndent_same hxy)
  have hcounts : sameValue countsFirstRun countsSecondRun :=
    sameValue.reorder (List.Perm.swap _ _ _) (by decide)
  have hone : sameResult oneKeyFirstRun oneKeySecondRun :=
    ⟨List.Forall₂.cons ⟨rfl, rfl, rfl, rfl, rfl, sameValue.same _, List.Perm.refl _⟩
      List.Forall₂.nil, metricsRuns_same, rfl⟩
  have hfew : ∀ t ∈ oneKeyFirstRun.Traces, t.Attributes.length ≤ 1 := by
    intro t ht
    have : t = { TraceID := utf8 "t1", Attributes := [(utf8 "a", utf8 "1")] } := by
      simpa [oneKeyFirstRun] using ht
    rw [this]
    decide
  have htwo : sameResult twoKeysFirstRun twoKeysSecondRun :=
    ⟨List.Forall₂.cons ⟨rfl, rfl, rfl, rfl, rfl, sameValue.same _, List.Perm.swap _ _ _⟩
      List.Forall₂.nil, sameValue.same _, rfl⟩
  have hdiff : ¬ List.Forall₂ (fun s t : TempoTrace =>
      attributesBlock s.Attributes = attributesBlock t.Attributes)
      twoKeysFirstRun.Traces twoKeysSecondRun.Traces := by
    intro hall
    have hhead : attributesBlock [(utf8 "a", utf8 "1"), (utf8 "b", utf8 "2")]
        = attributesBlock [(utf8 "b", utf8 "2"), (utf8 "a", utf8 "1")] := by
      simpa [twoKeysFirstRun, twoKeysSecondRun] using hall
    revert hhead
    decide
  ⟨⟨countsTrace_same hcounts, h.1 _ _ (countsTrace_same hcounts), rfl⟩,
    ⟨⟨rfl, metricsRuns_same, rfl⟩, h.2.1 _ _ ⟨rfl, metricsRuns_same, rfl⟩, rfl⟩,
    ⟨⟨rfl, metricsRuns_same, rfl⟩, h.2.2.1 _ _ _ ⟨rfl, metricsRuns_same, rfl⟩, rfl⟩,
    ⟨hone, hfew, (h.2.2.2 _ _ hone).2 hfew, rfl⟩,
    ⟨htwo, hdiff, fun heq => hdiff ((h.2.2.2 _ _ htwo).1.1 heq)⟩⟩

set_option maxRecDepth 100000 in
/-- Counterexample to C25 as stated: a record with one trace whose attribute
mapping has the two keys `a` and `b`.  A run that meets `a` first and a run
that meets `b` first see the same record, and `formatTempoResults` returns two
different texts. -/
theorem attribute_order_varies :
    sameResult twoKeysFirstRun twoKeysSecondRun
    ∧ formatTempoResults (fun _ => 0) twoKeysFirstRun
        = .ok (utf8 "Found 1 traces:\n\nTrace 1:\n  TraceID: t1\n  Service: \n  Name: \n  Duration: 0 ms\n  Attributes:\n    a: 1\n    b: 2\n")
    ∧ formatTempoResults (fun _ => 0) twoKeysSecondRun
        = .ok (utf8 "Found 1 traces:\n\nTrace 1:\n  TraceID: t1\n  Service: \n  Name: \n  Duration: 0 ms\n  Attributes:\n    b: 2\n    a: 1\n")
    ∧ utf8 "Found 1 traces:\n\nTrace 1:\n  TraceID: t1\n  Service: \n  Name: \n  Duration: 0 ms\n  Attributes:\n    a: 1\n    b: 2\n"
        ≠ utf8 "Found 1 traces:\n\nTrace 1:\n  TraceID: t1\n  Service: \n  Name: \n  Duration: 0 ms\n  Attributes:\n    b: 2\n    a: 1\n" :=
  ⟨⟨List.Forall₂.cons ⟨rfl, rfl, rfl, rfl, rfl, sameValue.same _, List.Perm.swap _ _ _⟩
      List.Forall₂.nil, sameValue.same _, rfl⟩,
    rfl, rfl, by decide⟩

end Tempo


